import Mathlib

/-!
# STM32F303 bare-metal I2C1 master driver: shallow embedding

Source: `projects/i2c_mpu6050/Src/i2c.c`, `projects/i2c_mpu6050/Inc/i2c.h`.

The driver talks to a memory-mapped controller through volatile register
accesses.  The controller is a parameter of the embedding (`Dev`): every
volatile read asks the device for a value and every volatile write is handed to
the device.  All accesses are recorded, in program order, in a trace.

* 32-bit register values are `Nat`s; values read are reduced modulo `2 ^ 32`.
* `char` is unsigned on the ARM EABI, so `(uint32_t)saddr` is `saddr % 256`.
* `int n` is an `Int`; `(uint32_t)` conversions are `% 2 ^ 32`.
* An `int` addition that leaves the range of `int` is undefined in ISO C: the
  embedding gives it no result (`numBytesTotal`, line 228 of `i2c.c`).
* Busy-wait loops take a fuel bound: `none` means that some spin loop was still
  spinning after `fuel` evaluations of its condition.
-/

namespace I2C

/-! ## Register interface -/

/-- Registers that the driver touches: those of the I2C1 controller and, for
`I2C1_Init`, the clock-enable registers of RCC and the pin registers of GPIOB
(`AFRH` is `AFR[1]`). -/
inductive Reg
  | CR1 | CR2 | TIMINGR | ISR | ICR | RXDR | TXDR
  | RCC_AHBENR | RCC_APB1ENR | GPIOB_MODER | GPIOB_OTYPER | GPIOB_PUPDR | GPIOB_AFRH
  deriving DecidableEq, Repr

/-- Externally visible accesses: volatile register reads and writes, and loads
and stores on the caller's buffer `data`. -/
inductive Ev
  | rd (r : Reg) (v : Nat)
  | wr (r : Reg) (v : Nat)
  | ld (i : Nat)
  | st (i : Nat) (v : Nat)
  deriving DecidableEq, Repr

/-- A memory-mapped device: how it answers a volatile read and how it reacts to
a volatile write. -/
structure Dev (σ : Type) where
  rd : Reg → σ → Nat × σ
  wr : Reg → Nat → σ → σ

/-- Program state seen by the driver: the hardware, the access trace so far and
the caller's `uint8_t` buffer. -/
structure St (σ : Type) where
  hw : σ
  log : List Ev
  buf : List Nat

/-- Initial state of a call: empty trace. -/
def St.init {σ : Type} (hw : σ) (buf : List Nat) : St σ := ⟨hw, [], buf⟩

/-! ## Bit masks of `i2c.h` -/

def ISR_BUSY : Nat := 1 <<< 15
def ISR_ADDR : Nat := 1 <<< 3
def ISR_TXIS : Nat := 1 <<< 1
def ISR_TC : Nat := 1 <<< 6
def ISR_TCR : Nat := 1 <<< 7
def ISR_RXNE : Nat := 1 <<< 2
def ISR_NACKF : Nat := 1 <<< 4
def ISR_STOPF : Nat := 1 <<< 5

def CR2_START : Nat := 1 <<< 13
def CR2_STOP : Nat := 1 <<< 14
def CR2_RD_WRN : Nat := 1 <<< 10
def CR2_NBYTES_POS : Nat := 16
def CR2_RELOAD : Nat := 1 <<< 24
def CR2_AUTOEND : Nat := 1 <<< 25

def ICR_STOPCF : Nat := 1 <<< 5
def ICR_NACKCF : Nat := 1 <<< 4

def GPIOB_EN : Nat := 1 <<< 18
def I2C1_EN : Nat := 1 <<< 21
def CR1_PE : Nat := 1 <<< 0

def I2C1_SCLL : Nat := 0x13 <<< 0
def I2C1_SCLH : Nat := 0xF <<< 8
def I2C1_SDADEL : Nat := 0x2 <<< 16
def I2C1_SCLDEL : Nat := 0x4 <<< 20
def I2C1_PRESC : Nat := 0x1 <<< 28

/-! ## Constants of `mpu6050.h` -/

def MPU6050_DEVICE_ADDR : Nat := 0x68
def MPU6050_ACCEL_XOUT_H_REG : Nat := 0x3B
def MPU6050_PWR_MGMT_1_REG : Nat := 0x6B
def MPU6050_WHO_AM_I_REG : Nat := 0x75
def MPU6050_ACCEL_CONFIG : Nat := 0x1C
def MPU6050_PWR_MGMT_1_RESET : Nat := 0x80
def MPU6050_PWR_MGMT_1_WAKE_CLKSEL : Nat := 0x00 ||| 0x01
def MPU6050_ACCEL_FS_4G : Nat := 0x01 <<< 3

/-! ## Volatile access primitives -/

/-- Reduction to `uint32_t`. -/
def u32 (v : Nat) : Nat := v % 4294967296

/-- Bitwise complement on `uint32_t`: `~m`. -/
def not32 (m : Nat) : Nat := 4294967295 ^^^ u32 m

section Driver

variable {σ : Type}

/-- Volatile read `I2C1->r`. -/
def rdReg (d : Dev σ) (r : Reg) (s : St σ) : Nat × St σ :=
  (u32 (d.rd r s.hw).1,
    { s with hw := (d.rd r s.hw).2, log := s.log ++ [Ev.rd r (u32 (d.rd r s.hw).1)] })

/-- Volatile write `I2C1->r = v`. -/
def wrReg (d : Dev σ) (r : Reg) (v : Nat) (s : St σ) : St σ :=
  { s with hw := d.wr r v s.hw, log := s.log ++ [Ev.wr r v] }

/-- Read-modify-write `I2C1->r |= m`. -/
def setBits (d : Dev σ) (r : Reg) (m : Nat) (s : St σ) : St σ :=
  wrReg d r ((rdReg d r s).1 ||| m) (rdReg d r s).2

/-- Read-modify-write `I2C1->r &= ~m`. -/
def clrBits (d : Dev σ) (r : Reg) (m : Nat) (s : St σ) : St σ :=
  wrReg d r ((rdReg d r s).1 &&& not32 m) (rdReg d r s).2

/-- Load `data[i]` from the caller's buffer. -/
def loadBuf (i : Nat) (s : St σ) : Nat × St σ :=
  (s.buf.getD i 0, { s with log := s.log ++ [Ev.ld i] })

/-- Store `data[i] = (uint8_t)v` into the caller's buffer. -/
def storeBuf (i : Nat) (v : Nat) (s : St σ) : St σ :=
  { s with buf := s.buf.set i (v % 256), log := s.log ++ [Ev.st i (v % 256)] }

/-! ## Spin loops -/

/-- The loop `while (I2C1->ISR & flag) {}`. -/
def spinWhile (d : Dev σ) (flag : Nat) : Nat → St σ → Option (St σ)
  | 0, _ => none
  | fuel + 1, s =>
    if (rdReg d Reg.ISR s).1 &&& flag ≠ 0 then spinWhile d flag fuel (rdReg d Reg.ISR s).2
    else some (rdReg d Reg.ISR s).2

/-- The loop `while (!(I2C1->ISR & flag)) {}`. -/
def spinUntil (d : Dev σ) (flag : Nat) : Nat → St σ → Option (St σ)
  | 0, _ => none
  | fuel + 1, s =>
    if (rdReg d Reg.ISR s).1 &&& flag ≠ 0 then some (rdReg d Reg.ISR s).2
    else spinUntil d flag fuel (rdReg d Reg.ISR s).2

/-- How a flag wait with an embedded NACK check was left. -/
inductive Wait
  | ready
  | nack
  deriving DecidableEq, Repr

/-- The loop `while (!(I2C1->ISR & flag)) { if (I2C1->ISR & ISR_NACKF) { ...; return; } }`
up to the point where it is left: `ready` when the loop condition failed, `nack`
when the inner test succeeded (the handler that follows is the caller's).  The
two tests are two distinct volatile reads of ISR. -/
def waitOrNack (d : Dev σ) (flag : Nat) : Nat → St σ → Option (Wait × St σ)
  | 0, _ => none
  | fuel + 1, s =>
    if (rdReg d Reg.ISR s).1 &&& flag ≠ 0 then some (Wait.ready, (rdReg d Reg.ISR s).2)
    else if (rdReg d Reg.ISR (rdReg d Reg.ISR s).2).1 &&& ISR_NACKF ≠ 0 then
      some (Wait.nack, (rdReg d Reg.ISR (rdReg d Reg.ISR s).2).2)
    else waitOrNack d flag fuel (rdReg d Reg.ISR (rdReg d Reg.ISR s).2).2

/-- The final loop of the burst operations,
`while (!(I2C1->ISR & ISR_STOPF)) { if (I2C1->ISR & ISR_NACKF) { I2C1->ICR |= ICR_NACKCF; } }`. -/
def waitStopClearNack (d : Dev σ) : Nat → St σ → Option (St σ)
  | 0, _ => none
  | fuel + 1, s =>
    if (rdReg d Reg.ISR s).1 &&& ISR_STOPF ≠ 0 then some (rdReg d Reg.ISR s).2
    else if (rdReg d Reg.ISR (rdReg d Reg.ISR s).2).1 &&& ISR_NACKF ≠ 0 then
      waitStopClearNack d fuel
        (setBits d Reg.ICR ICR_NACKCF (rdReg d Reg.ISR (rdReg d Reg.ISR s).2).2)
    else waitStopClearNack d fuel (rdReg d Reg.ISR (rdReg d Reg.ISR s).2).2

/-- The NACK handler with an explicit STOP (i2c.c lines 73-77, 102-107, 144-148,
158-162): `ICR |= NACKCF; CR2 |= STOP; while (!(ISR & STOPF)) {}; ICR |= STOPCF; return;`. -/
def abortStop (d : Dev σ) (fuel : Nat) (s : St σ) : Option (St σ) :=
  (spinUntil d ISR_STOPF fuel
    (setBits d Reg.CR2 CR2_STOP (setBits d Reg.ICR ICR_NACKCF s))).map
    (setBits d Reg.ICR ICR_STOPCF)

/-- The oversize rejection (i2c.c lines 174-177, 232-235):
`CR2 |= STOP; while (!(ISR & STOPF)) {}; ICR |= STOPCF; return;`. -/
def rejectStop (d : Dev σ) (fuel : Nat) (s : St σ) : Option (St σ) :=
  (spinUntil d ISR_STOPF fuel (setBits d Reg.CR2 CR2_STOP s)).map
    (setBits d Reg.ICR ICR_STOPCF)

/-! ## Control-register programming -/

/-- Phase-1 programming shared by `I2C1_ByteRead` (lines 60-67) and
`I2C1_BurstRead` (lines 132-139): slave address, WRITE, NBYTES = 1, software end,
then `CR2 |= CR2_START`. -/
def startAddrPhase (d : Dev σ) (saddr : Nat) (s : St σ) : St σ :=
  setBits d Reg.CR2 CR2_START
    (clrBits d Reg.CR2 CR2_AUTOEND
      (setBits d Reg.CR2 (1 <<< CR2_NBYTES_POS)
        (clrBits d Reg.CR2 CR2_RD_WRN
          (setBits d Reg.CR2 ((saddr % 256) <<< 1)
            (wrReg d Reg.CR2 0 s)))))

/-- Phase-2 programming of `I2C1_ByteRead` (lines 90-97).  The last statement is
the plain assignment `I2C1->CR2 = CR2_START;` of line 97. -/
def startByteReadPhase (d : Dev σ) (saddr : Nat) (s : St σ) : St σ :=
  wrReg d Reg.CR2 CR2_START
    (setBits d Reg.CR2 CR2_AUTOEND
      (setBits d Reg.CR2 (1 <<< CR2_NBYTES_POS)
        (setBits d Reg.CR2 CR2_RD_WRN
          (setBits d Reg.CR2 ((saddr % 256) <<< 1)
            (wrReg d Reg.CR2 0 s)))))

/-- Phase-2 programming of `I2C1_BurstRead` (lines 180-189); `nb` is
`(uint32_t)n`. -/
def startBurstReadPhase (d : Dev σ) (saddr : Nat) (nb : Nat) (s : St σ) : St σ :=
  setBits d Reg.CR2 CR2_START
    (setBits d Reg.CR2 CR2_AUTOEND
      (setBits d Reg.CR2 (u32 (nb <<< CR2_NBYTES_POS))
        (setBits d Reg.CR2 CR2_RD_WRN
          (setBits d Reg.CR2 ((saddr % 256) <<< 1)
            (wrReg d Reg.CR2 0 s)))))

/-- Programming of `I2C1_BurstWrite` (lines 238-246). -/
def startBurstWrite (d : Dev σ) (saddr : Nat) (num_bytes_total : Nat) (s : St σ) : St σ :=
  setBits d Reg.CR2 CR2_START
    (setBits d Reg.CR2 CR2_AUTOEND
      (setBits d Reg.CR2 (u32 (num_bytes_total <<< CR2_NBYTES_POS))
        (clrBits d Reg.CR2 CR2_RD_WRN
          (setBits d Reg.CR2 ((saddr % 256) <<< 1)
            (wrReg d Reg.CR2 0 s)))))

/-! ## Public operations -/

/-- Embedding of `void I2C1_ByteRead(char saddr, char maddr, uint8_t* data)`
(i2c.c lines 53-119); `*data` is cell 0 of the buffer. -/
def I2C1_ByteRead (d : Dev σ) (saddr maddr : Nat) (fuel : Nat) (s : St σ) : Option (St σ) :=
  match spinWhile d ISR_BUSY fuel s with
  | none => none
  | some s1 =>
    match waitOrNack d ISR_TXIS fuel (startAddrPhase d saddr s1) with
    | none => none
    | some (Wait.nack, s2) => abortStop d fuel s2
    | some (Wait.ready, s2) =>
      match spinUntil d ISR_TC fuel (wrReg d Reg.TXDR (maddr % 256) s2) with
      | none => none
      | some s3 =>
        match waitOrNack d ISR_RXNE fuel (startByteReadPhase d saddr s3) with
        | none => none
        | some (Wait.nack, s4) => abortStop d fuel s4
        | some (Wait.ready, s4) =>
          match spinUntil d ISR_STOPF fuel
              (storeBuf 0 (rdReg d Reg.RXDR s4).1 (rdReg d Reg.RXDR s4).2) with
          | none => none
          | some s5 => some (wrReg d Reg.ICR ICR_STOPCF s5)

/-- The receive loop of `I2C1_BurstRead` (lines 191-201), `cnt` iterations left,
next index `i`.  `nack` means the function returned from inside the loop (after
`ICR |= NACKCF`, line 195-197). -/
def readLoop (d : Dev σ) (fuel : Nat) : Nat → Nat → St σ → Option (Wait × St σ)
  | 0, _, s => some (Wait.ready, s)
  | cnt + 1, i, s =>
    match waitOrNack d ISR_RXNE fuel s with
    | none => none
    | some (Wait.nack, s1) => some (Wait.nack, setBits d Reg.ICR ICR_NACKCF s1)
    | some (Wait.ready, s1) =>
      readLoop d fuel cnt (i + 1) (storeBuf i (rdReg d Reg.RXDR s1).1 (rdReg d Reg.RXDR s1).2)

/-- Embedding of `void I2C1_BurstRead(char saddr, char maddr, int n, uint8_t *data)`
(i2c.c lines 122-212). -/
def I2C1_BurstRead (d : Dev σ) (saddr maddr : Nat) (n : Int) (fuel : Nat) (s : St σ) :
    Option (St σ) :=
  if n ≤ 0 then some s
  else
    match spinWhile d ISR_BUSY fuel s with
    | none => none
    | some s1 =>
      match waitOrNack d ISR_TXIS fuel (startAddrPhase d saddr s1) with
      | none => none
      | some (Wait.nack, s2) => abortStop d fuel s2
      | some (Wait.ready, s2) =>
        match waitOrNack d ISR_TC fuel (wrReg d Reg.TXDR (maddr % 256) s2) with
        | none => none
        | some (Wait.nack, s3) => abortStop d fuel s3
        | some (Wait.ready, s3) =>
          if n > 255 then rejectStop d fuel s3
          else
            match readLoop d fuel n.toNat 0
                (startBurstReadPhase d saddr (n % 4294967296).toNat s3) with
            | none => none
            | some (Wait.nack, s4) => some s4
            | some (Wait.ready, s4) =>
              (waitStopClearNack d fuel s4).map (setBits d Reg.ICR ICR_STOPCF)

/-- The transmit loop of `I2C1_BurstWrite` (lines 263-275), `cnt` iterations left,
next index `i`.  `nack` means the function returned from inside the loop (after
`ICR |= NACKCF`, lines 267-271). -/
def writeLoop (d : Dev σ) (fuel : Nat) : Nat → Nat → St σ → Option (Wait × St σ)
  | 0, _, s => some (Wait.ready, s)
  | cnt + 1, i, s =>
    match waitOrNack d ISR_TXIS fuel s with
    | none => none
    | some (Wait.nack, s1) => some (Wait.nack, setBits d Reg.ICR ICR_NACKCF s1)
    | some (Wait.ready, s1) =>
      writeLoop d fuel cnt (i + 1) (wrReg d Reg.TXDR (loadBuf i s1).1 (loadBuf i s1).2)

/-- The initialiser of `uint32_t num_bytes_total = 1 + n;` (i2c.c line 228).  Both
operands are `int`, so the sum is formed in `int` and only then converted to
`uint32_t`.  For the `n > 0` that reach the statement the sum leaves the range of
`int` exactly at `n = 2147483647`, where ISO C gives the addition no meaning:
with `wrap = false` there is no result (`none`).  With `wrap = true` the addition
is read as wrapping two's complement arithmetic, the sum modulo `2 ^ 32`. -/
def numBytesTotal (wrap : Bool) (n : Int) : Option Nat :=
  if 1 + n ≤ 2147483647 ∨ wrap = true then some ((1 + n) % 4294967296).toNat else none

/-- Body of `void I2C1_BurstWrite(char saddr, char maddr, int n, uint8_t* data)`
(i2c.c lines 215-287), for either reading `wrap` of the `int` addition `1 + n`
(`numBytesTotal`). -/
def I2C1_BurstWriteWith (wrap : Bool) (d : Dev σ) (saddr maddr : Nat) (n : Int)
    (fuel : Nat) (s : St σ) : Option (St σ) :=
  if n ≤ 0 then some s
  else
    match spinWhile d ISR_BUSY fuel s with
    | none => none
    | some s1 =>
      match numBytesTotal wrap n with
      | none => none
      | some total =>
        if total > 255 then rejectStop d fuel s1
        else
          match waitOrNack d ISR_TXIS fuel (startBurstWrite d saddr total s1) with
          | none => none
          | some (Wait.nack, s2) => some (setBits d Reg.ICR ICR_NACKCF s2)
          | some (Wait.ready, s2) =>
            match writeLoop d fuel n.toNat 0 (wrReg d Reg.TXDR (maddr % 256) s2) with
            | none => none
            | some (Wait.nack, s3) => some s3
            | some (Wait.ready, s3) =>
              (waitStopClearNack d fuel s3).map (setBits d Reg.ICR ICR_STOPCF)

/-- Embedding of `void I2C1_BurstWrite(char saddr, char maddr, int n, uint8_t* data)`
(i2c.c lines 215-287) under ISO C: the call has no result (`none`) when the `int`
addition `1 + n` of line 228 overflows. -/
def I2C1_BurstWrite (d : Dev σ) (saddr maddr : Nat) (n : Int) (fuel : Nat) (s : St σ) :
    Option (St σ) :=
  I2C1_BurstWriteWith false d saddr maddr n fuel s

/-- The clock and pin part of `I2C1_Init` (i2c.c lines 16-38): eight
read-modify-write statements on RCC and GPIOB registers. -/
def initPins (d : Dev σ) (s : St σ) : St σ :=
  setBits d Reg.RCC_APB1ENR I2C1_EN
    (setBits d Reg.GPIOB_AFRH ((4 <<< 0) ||| (4 <<< 4))
      (clrBits d Reg.GPIOB_PUPDR ((1 <<< 17) ||| (1 <<< 19))
        (setBits d Reg.GPIOB_PUPDR ((1 <<< 16) ||| (1 <<< 18))
          (setBits d Reg.GPIOB_OTYPER ((1 <<< 8) ||| (1 <<< 9))
            (setBits d Reg.GPIOB_MODER ((1 <<< 17) ||| (1 <<< 19))
              (clrBits d Reg.GPIOB_MODER ((1 <<< 16) ||| (1 <<< 18))
                (setBits d Reg.RCC_AHBENR GPIOB_EN s)))))))

/-- Embedding of `void I2C1_Init(void)` (i2c.c lines 14-50): the clock and pin
part, then `CR1 &= ~CR1_PE`, the write of TIMINGR and `CR1 |= CR1_PE`. -/
def I2C1_Init (d : Dev σ) (s : St σ) : St σ :=
  setBits d Reg.CR1 CR1_PE
    (wrReg d Reg.TIMINGR (I2C1_SCLL ||| I2C1_SCLH ||| I2C1_SDADEL ||| I2C1_SCLDEL ||| I2C1_PRESC)
      (clrBits d Reg.CR1 CR1_PE (initPins d s)))

/-! ## The MPU6050 consumer (mpu6050.c) -/

/-- Embedding of `void mpu6050_ReadByte(uint8_t reg, uint8_t *data)` (mpu6050.c
lines 17-21); the buffer of the state is the cell `*data`. -/
def mpu6050_ReadByte (d : Dev σ) (reg : Nat) (fuel : Nat) (s : St σ) : Option (St σ) :=
  I2C1_ByteRead d MPU6050_DEVICE_ADDR (reg % 256) fuel s

/-- Embedding of `void mpu6050_WriteByte(uint8_t reg, uint8_t value)` (mpu6050.c
lines 23-31): the burst write runs on the local one-byte buffer `data_to_write`;
the caller's buffer is back in place on return. -/
def mpu6050_WriteByte (d : Dev σ) (reg value : Nat) (fuel : Nat) (s : St σ) : Option (St σ) :=
  (I2C1_BurstWrite d MPU6050_DEVICE_ADDR (reg % 256) 1 fuel { s with buf := [value % 256] }).map
    fun r => { r with buf := s.buf }

/-- The conversion `(int16_t)x` of a non-negative `int` (reduction modulo `2 ^ 16`
into the range of `int16_t`, as GCC defines it). -/
def toInt16 (x : Nat) : Int :=
  if x % 65536 < 32768 then ((x % 65536 : Nat) : Int) else ((x % 65536 : Nat) : Int) - 65536

/-- The expression `(int16_t)((hi << 8) | lo)` of mpu6050.c lines 38-40. -/
def accelWord (hi lo : Nat) : Int := toInt16 ((hi <<< 8) ||| lo)

/-- Specification side of the accelerometer words: the 16-bit pattern `z` read as
a two's-complement number. -/
def int16Value (z : Nat) : Int := if z < 32768 then (z : Int) else (z : Int) - 65536

/-- Embedding of `void mpu6050_ReadAccelValues(int16_t *accel_x, int16_t *accel_y,
int16_t *accel_z)` (mpu6050.c lines 32-41).  The buffer of the state is the
static array `accel_raw_data[6]`; the result carries the three outputs. -/
def mpu6050_ReadAccelValues (d : Dev σ) (fuel : Nat) (s : St σ) :
    Option (St σ × Int × Int × Int) :=
  (I2C1_BurstRead d MPU6050_DEVICE_ADDR MPU6050_ACCEL_XOUT_H_REG 6 fuel s).map fun r =>
    (r, accelWord (r.buf.getD 0 0) (r.buf.getD 1 0), accelWord (r.buf.getD 2 0) (r.buf.getD 3 0),
      accelWord (r.buf.getD 4 0) (r.buf.getD 5 0))

/-- Embedding of `void mpu6050_Init(void)` (mpu6050.c lines 43-62).  `who` is the
initial content of the uninitialised local `who_am_i_val`, which is the buffer of
the state from the read on.  The delay loop between the two first writes touches
no register and is left out. -/
def mpu6050_Init (d : Dev σ) (fuel : Nat) (who : Nat) (s : St σ) : Option (St σ) :=
  match mpu6050_ReadByte d MPU6050_WHO_AM_I_REG fuel { I2C1_Init d s with buf := [who] } with
  | none => none
  | some s1 =>
    match mpu6050_WriteByte d MPU6050_PWR_MGMT_1_REG MPU6050_PWR_MGMT_1_RESET fuel s1 with
    | none => none
    | some s2 =>
      match mpu6050_WriteByte d MPU6050_PWR_MGMT_1_REG MPU6050_PWR_MGMT_1_WAKE_CLKSEL fuel s2 with
      | none => none
      | some s3 => mpu6050_WriteByte d MPU6050_ACCEL_CONFIG MPU6050_ACCEL_FS_4G fuel s3

/-! ## Callers and hardware assumptions -/

/-- A call of one of the three public operations, with the buffer it is given. -/
inductive Call
  | byteRead (saddr maddr : Nat) (data : List Nat)
  | burstRead (saddr maddr : Nat) (n : Int) (data : List Nat)
  | burstWrite (saddr maddr : Nat) (n : Int) (data : List Nat)

/-- An arbitrary caller: the calls are made one after the other on the same
hardware, each on its own buffer. -/
def runCalls (d : Dev σ) (fuel : Nat) : List Call → St σ → Option (St σ)
  | [], s => some s
  | Call.byteRead saddr maddr data :: cs, s =>
    match I2C1_ByteRead d saddr maddr fuel { s with buf := data } with
    | none => none
    | some s1 => runCalls d fuel cs s1
  | Call.burstRead saddr maddr n data :: cs, s =>
    match I2C1_BurstRead d saddr maddr n fuel { s with buf := data } with
    | none => none
    | some s1 => runCalls d fuel cs s1
  | Call.burstWrite saddr maddr n data :: cs, s =>
    match I2C1_BurstWrite d saddr maddr n fuel { s with buf := data } with
    | none => none
    | some s1 => runCalls d fuel cs s1

/-- Hardware assumption on CR2: the register holds what was last written to it,
except that the trigger bits START and STOP read back as zero (the hardware
clears them once the condition has been sent); other accesses leave it alone.
`view` is the content of CR2 in a hardware state. -/
structure Cr2Model (d : Dev σ) (view : σ → Nat) : Prop where
  rd_cr2 : ∀ h, (d.rd Reg.CR2 h).1 = view h
  rd_keep : ∀ r h, view (d.rd r h).2 = view h
  wr_keep : ∀ r v h, r ≠ Reg.CR2 → view (d.wr r v h) = view h
  wr_cr2 : ∀ v h, v < 4294967296 →
    view (d.wr Reg.CR2 v h) = v &&& not32 (CR2_START ||| CR2_STOP)

end Driver

/-! ## A simulated controller with one slave

The slave is a register file of 256 eight-bit registers with an auto-incrementing
register pointer: the first byte of a write transfer sets the pointer, every
further written byte is stored at the pointer, and every byte read is taken from
the pointer.  The controller answers at once: a flag is raised as soon as the
event it reports has happened. -/

/-- Modelled from the spec: the simulated register interface and slave of the
testable properties (section 8), with the flags of section 4.1.  The repository
holds no simulator; the controller behaviour follows the comments of `i2c.c`
(AUTOEND generates STOP after NBYTES, TC is raised when NBYTES is reached with
AUTOEND = 0, START/STOP are self-clearing trigger bits). -/
structure Sim where
  slaveAddr : Nat
  regs : Nat → Nat
  ptr : Nat
  expectPtr : Bool
  cr2 : Nat
  busy : Bool
  txis : Bool
  rxne : Bool
  tc : Bool
  nackf : Bool
  stopf : Bool
  rxdr : Nat
  remaining : Nat
  reading : Bool
  autoend : Bool

namespace Sim

/-- An idle controller in front of a slave at `addr` with register contents `regs`. -/
def idle (addr : Nat) (regs : Nat → Nat) : Sim :=
  { slaveAddr := addr, regs := regs, ptr := 0, expectPtr := false, cr2 := 0,
    busy := false, txis := false, rxne := false, tc := false, nackf := false,
    stopf := false, rxdr := 0, remaining := 0, reading := false, autoend := false }

/-- No status flag is raised. -/
def quiet (h : Sim) : Prop :=
  h.busy = false ∧ h.txis = false ∧ h.rxne = false ∧ h.tc = false ∧ h.nackf = false ∧
    h.stopf = false

/-- Value of the status register. -/
def isr (h : Sim) : Nat :=
  (if h.busy then ISR_BUSY else 0) ||| (if h.txis then ISR_TXIS else 0) |||
  (if h.rxne then ISR_RXNE else 0) ||| (if h.tc then ISR_TC else 0) |||
  (if h.nackf then ISR_NACKF else 0) ||| (if h.stopf then ISR_STOPF else 0)

/-- The programmed byte count is reached: STOP under AUTOEND, TC otherwise. -/
def finish (h : Sim) : Sim :=
  if h.autoend then { h with busy := false, stopf := true, txis := false }
  else { h with tc := true, txis := false }

/-- The slave sends the register at its pointer; the controller latches it. -/
def recvByte (h : Sim) : Sim :=
  if h.remaining - 1 = 0 then
    finish { h with rxdr := h.regs (h.ptr % 256), ptr := (h.ptr + 1) % 256, rxne := true,
                    remaining := 0 }
  else
    { h with rxdr := h.regs (h.ptr % 256), ptr := (h.ptr + 1) % 256, rxne := true,
             remaining := h.remaining - 1 }

/-- A START (or RESTART) with control word `v`. -/
def start (h : Sim) (v : Nat) : Sim :=
  if (v >>> 1) &&& 127 ≠ h.slaveAddr then
    { h with busy := false, tc := false, txis := false, rxne := false, nackf := true,
             stopf := true, remaining := 0 }
  else if (v >>> 16) &&& 255 = 0 then
    finish { h with busy := true, tc := false, txis := false, rxne := false,
                    reading := decide (v &&& CR2_RD_WRN ≠ 0),
                    autoend := decide (v &&& CR2_AUTOEND ≠ 0), remaining := 0 }
  else if v &&& CR2_RD_WRN ≠ 0 then
    recvByte { h with busy := true, tc := false, txis := false, rxne := false,
                      reading := true, autoend := decide (v &&& CR2_AUTOEND ≠ 0),
                      remaining := (v >>> 16) &&& 255 }
  else
    { h with busy := true, tc := false, txis := true, rxne := false, reading := false,
             autoend := decide (v &&& CR2_AUTOEND ≠ 0), remaining := (v >>> 16) &&& 255,
             expectPtr := true }

/-- A byte written to TXDR goes to the slave. -/
def xmit (h : Sim) (v : Nat) : Sim :=
  if h.txis then
    if h.expectPtr then
      if h.remaining - 1 = 0 then
        finish { h with ptr := v % 256, expectPtr := false, remaining := 0 }
      else { h with ptr := v % 256, expectPtr := false, remaining := h.remaining - 1 }
    else
      if h.remaining - 1 = 0 then
        finish { h with regs := fun a => if a = h.ptr % 256 then v % 256 else h.regs a,
                        ptr := (h.ptr + 1) % 256, remaining := 0 }
      else
        { h with regs := fun a => if a = h.ptr % 256 then v % 256 else h.regs a,
                 ptr := (h.ptr + 1) % 256, remaining := h.remaining - 1 }
  else h

/-- A volatile read. -/
def read (r : Reg) (h : Sim) : Nat × Sim :=
  match r with
  | Reg.ISR => (h.isr, h)
  | Reg.CR2 => (h.cr2, h)
  | Reg.RXDR =>
    (h.rxdr,
      if h.rxne then
        if h.reading && h.busy && decide (0 < h.remaining) then
          recvByte { h with rxne := false }
        else { h with rxne := false }
      else h)
  | _ => (0, h)

/-- A volatile write. -/
def write (r : Reg) (v : Nat) (h : Sim) : Sim :=
  match r with
  | Reg.CR2 =>
    if v &&& CR2_START ≠ 0 then start { h with cr2 := v &&& not32 (CR2_START ||| CR2_STOP) } v
    else if v &&& CR2_STOP ≠ 0 then
      { h with cr2 := v &&& not32 (CR2_START ||| CR2_STOP), busy := false, stopf := true,
               tc := false, txis := false, remaining := 0 }
    else { h with cr2 := v }
  | Reg.ICR =>
    { h with nackf := h.nackf && decide (v &&& ICR_NACKCF = 0),
             stopf := h.stopf && decide (v &&& ICR_STOPCF = 0) }
  | Reg.TXDR => xmit h v
  | _ => h

end Sim

/-- The simulated controller as a device. -/
def simDev : Dev Sim := ⟨Sim.read, Sim.write⟩

/-! ## A simulated controller that answers late

The controller of `Sim` raises a flag as soon as the event has happened, so a
driver that never waits for a flag sees the same readings as one that does.
Here every bus action keeps the controller occupied for a number of status
reads, during which the status register shows BUSY alone and further bus
actions are lost: a driver gets its data, and finds the bus idle, only by
waiting for the flags. -/

/-- Modelled from the spec: the simulated register interface of the testable
properties (section 8), answering with a latency.  `sim` is the controller and
slave, `lag` the number of status reads for which a bus action keeps the
controller occupied, `wait` the number of such reads still to come. -/
structure Lag where
  sim : Sim
  lag : Nat
  wait : Nat

/-- A write that acts on the bus: a byte for TXDR, or a control word with START
or STOP. -/
def Lag.acts (r : Reg) (v : Nat) : Bool :=
  match r with
  | Reg.TXDR => true
  | Reg.CR2 => decide (v &&& CR2_START ≠ 0) || decide (v &&& CR2_STOP ≠ 0)
  | _ => false

/-- The late controller as a device.  While it is occupied (`wait > 0`) a status
read shows BUSY alone and uses up one unit of the wait, and a bus action made in
that time is lost: a START or STOP request or a byte for TXDR is ignored, a read
of RXDR yields 0.  A bus action made while the controller is free takes effect on
`sim` and occupies the controller for `lag` status reads.  Every other access
reaches `sim` at once. -/
def lagDev : Dev Lag where
  rd r h :=
    match r with
    | Reg.ISR =>
      if h.wait = 0 then (h.sim.isr, h) else (ISR_BUSY, { h with wait := h.wait - 1 })
    | Reg.RXDR =>
      if h.wait = 0 then
        ((Sim.read Reg.RXDR h.sim).1, { h with sim := (Sim.read Reg.RXDR h.sim).2, wait := h.lag })
      else (0, h)
    | r => ((Sim.read r h.sim).1, { h with sim := (Sim.read r h.sim).2 })
  wr r v h :=
    if Lag.acts r v then
      if h.wait = 0 then { h with sim := Sim.write r v h.sim, wait := h.lag } else h
    else { h with sim := Sim.write r v h.sim }

/-! ## A scripted device

The status readings and received bytes are given in advance; CR2 is a plain
latch. -/

/-- A device that replays given ISR and RXDR readings. -/
structure Script where
  isr : List Nat
  rxdr : List Nat
  cr2 : Nat

/-- The scripted device: each ISR (RXDR) read consumes the next scripted value
(0 when the script is exhausted). -/
def scriptDev : Dev Script where
  rd r h :=
    match r with
    | Reg.ISR => (h.isr.headD 0, { h with isr := h.isr.tail })
    | Reg.RXDR => (h.rxdr.headD 0, { h with rxdr := h.rxdr.tail })
    | Reg.CR2 => (h.cr2, h)
    | _ => (0, h)
  wr r v h :=
    match r with
    | Reg.CR2 => { h with cr2 := v }
    | _ => h

/-! ## Observations on traces -/

/-- The value of a TXDR write. -/
@[simp] def Ev.txVal : Ev → Option Nat
  | Ev.rd _ _ => none
  | Ev.wr r v => if r = Reg.TXDR then some v else none
  | Ev.ld _ => none
  | Ev.st _ _ => none

/-- The value of a CR2 write. -/
@[simp] def Ev.cr2Val : Ev → Option Nat
  | Ev.rd _ _ => none
  | Ev.wr r v => if r = Reg.CR2 then some v else none
  | Ev.ld _ => none
  | Ev.st _ _ => none

/-- The value of an RXDR read. -/
@[simp] def Ev.rxVal : Ev → Option Nat
  | Ev.rd r v => if r = Reg.RXDR then some v else none
  | Ev.wr _ _ => none
  | Ev.ld _ => none
  | Ev.st _ _ => none

/-- The register and value of a register write. -/
@[simp] def Ev.wrVal : Ev → Option (Reg × Nat)
  | Ev.rd _ _ => none
  | Ev.wr r v => some (r, v)
  | Ev.ld _ => none
  | Ev.st _ _ => none

/-- The index and value of a buffer store. -/
@[simp] def Ev.stVal : Ev → Option (Nat × Nat)
  | Ev.rd _ _ => none
  | Ev.wr _ _ => none
  | Ev.ld _ => none
  | Ev.st i v => some (i, v)

/-- Values written to TXDR, in order. -/
def txWrites (l : List Ev) : List Nat := l.filterMap Ev.txVal

/-- Values written to CR2, in order. -/
def cr2Writes (l : List Ev) : List Nat := l.filterMap Ev.cr2Val

/-- Values read from RXDR, in order. -/
def rxReads (l : List Ev) : List Nat := l.filterMap Ev.rxVal

/-- All register writes, in order. -/
def regWrites (l : List Ev) : List (Reg × Nat) := l.filterMap Ev.wrVal

/-- All buffer stores, in order. -/
def bufStores (l : List Ev) : List (Nat × Nat) := l.filterMap Ev.stVal

/-- The CR2 values written with the START bit set, in order. -/
def startWrites (l : List Ev) : List Nat :=
  (cr2Writes l).filter fun v => v &&& CR2_START ≠ 0

/-- The CR2 values written with the STOP bit set, in order. -/
def stopWrites (l : List Ev) : List Nat :=
  (cr2Writes l).filter fun v => v &&& CR2_STOP ≠ 0

/-- The trace of a run of ISR polls with readings `vs`. -/
def polls (vs : List Nat) : List Ev := vs.map (Ev.rd Reg.ISR)

/-- The writes to CR1 and TIMINGR, in order. -/
def cfgWrites (l : List Ev) : List (Reg × Nat) :=
  (regWrites l).filter fun p => decide (p.1 = Reg.CR1 ∨ p.1 = Reg.TIMINGR)

/-- Bus guard on a trace: the trace starts with status polls that all show BUSY,
followed by one status reading with BUSY clear; only then comes the first
register write, and it is a write to CR2. -/
def BusGuarded (l : List Ev) : Prop :=
  ∃ vs v rest w ws, l = polls vs ++ [Ev.rd Reg.ISR v] ++ rest ∧
    (∀ x, x ∈ vs → x &&& ISR_BUSY ≠ 0) ∧ v &&& ISR_BUSY = 0 ∧
    regWrites rest = (Reg.CR2, w) :: ws

/-- Shape of a trace whose phase 1 ran under software end.  The START word `w1`
(STOP and AUTOEND clear) is the first trigger written; from there up to a status
reading with TC set, CR2 is not written at all; only after that reading is CR2
reprogrammed, starting with `CR2 = 0`, and the next START word `w2` written. -/
def SoftwareEnd (l : List Ev) (w1 w2 : Nat) : Prop :=
  ∃ pre mid v q post,
    l = pre ++ [Ev.wr Reg.CR2 w1] ++ mid ++ [Ev.rd Reg.ISR v] ++ q ++ [Ev.wr Reg.CR2 w2] ++ post ∧
    startWrites pre = [] ∧ stopWrites pre = [] ∧
    w1 &&& CR2_START ≠ 0 ∧ w1 &&& CR2_STOP = 0 ∧ w1 &&& CR2_AUTOEND = 0 ∧
    cr2Writes mid = [] ∧ v &&& ISR_TC ≠ 0 ∧
    startWrites q = [] ∧ stopWrites q = [] ∧ (∃ ws, regWrites q = (Reg.CR2, 0) :: ws) ∧
    w2 &&& CR2_START ≠ 0

/-- The index of a buffer load. -/
@[simp] def Ev.ldVal : Ev → Option Nat
  | Ev.rd _ _ => none
  | Ev.wr _ _ => none
  | Ev.ld i => some i
  | Ev.st _ _ => none

/-- The indices of the buffer loads, in order. -/
def bufLoads (l : List Ev) : List Nat := l.filterMap Ev.ldVal

/-- The kind of an access: an event without its value. -/
inductive Access
  | rd (r : Reg)
  | wr (r : Reg)
  | ld
  | st
  deriving DecidableEq, Repr

/-- The kind of an event. -/
def Ev.access : Ev → Access
  | Ev.rd r _ => Access.rd r
  | Ev.wr r _ => Access.wr r
  | Ev.ld _ => Access.ld
  | Ev.st _ _ => Access.st

/-- The trace of `r` extends the trace of `s` by accesses of the kinds `K` only. -/
def Grows {σ : Type} (K : List Access) (s r : St σ) : Prop :=
  ∃ t, r.log = s.log ++ t ∧ ∀ e, e ∈ t → e.access ∈ K

/-- The kinds of access made by the status waits and flag clearings. -/
def flagK : List Access := [Access.rd Reg.ISR, Access.rd Reg.ICR, Access.wr Reg.ICR]

/-- The kinds of access made by the transmit side after START: status waits, flag
clearings, buffer loads and TXDR writes. -/
def sendK : List Access :=
  [Access.rd Reg.ISR, Access.rd Reg.ICR, Access.wr Reg.ICR, Access.ld, Access.wr Reg.TXDR]

/-- The kinds of access made by the receive side after START: status waits, flag
clearings, RXDR reads and buffer stores. -/
def recvK : List Access :=
  [Access.rd Reg.ISR, Access.rd Reg.ICR, Access.wr Reg.ICR, Access.rd Reg.RXDR, Access.st]

/-- The kinds of access made by the abort and rejection handlers: status waits,
flag clearings and the read-modify-write of CR2. -/
def abortK : List Access :=
  [Access.rd Reg.ISR, Access.rd Reg.ICR, Access.wr Reg.ICR, Access.rd Reg.CR2, Access.wr Reg.CR2]

/-- All kinds of access made by the three transfer operations. -/
def busK : List Access :=
  [Access.rd Reg.ISR, Access.rd Reg.ICR, Access.wr Reg.ICR, Access.rd Reg.CR2, Access.wr Reg.CR2,
   Access.ld, Access.wr Reg.TXDR, Access.rd Reg.RXDR, Access.st]

/-- The kinds of access that touch neither the buffer nor RXDR: status waits, flag
clearings, CR2 programming and TXDR writes. -/
def ctlK : List Access :=
  [Access.rd Reg.ISR, Access.rd Reg.ICR, Access.wr Reg.ICR, Access.rd Reg.CR2, Access.wr Reg.CR2,
   Access.wr Reg.TXDR]

/-- The step from `s` to `r` made accesses of the kinds `K` only and left the
buffer as it was. -/
def Quiet {σ : Type} (K : List Access) (s r : St σ) : Prop :=
  Grows K s r ∧ r.buf = s.buf

end I2C

/-! ## The UART LED control loop (uart/Src/main.c) -/

namespace UartLed

def LED_PIN : Nat := 1 <<< 5

/-- One pass of the `while (1)` loop of `main` (uart/Src/main.c lines 39-54) for
the received character `key`: `odr` is the content of `GPIOA->ODR`; the result is
its new content and the text handed to `uart3_puts`, which transmits it character
by character. -/
def loopBody (odr : Nat) (key : Char) : Nat × String :=
  if key = '1' ∧ ¬ (odr &&& LED_PIN ≠ 0) then (odr ||| LED_PIN, "LED ON\r\n")
  else if key = '0' ∧ odr &&& LED_PIN ≠ 0 then (odr &&& I2C.not32 LED_PIN, "LED OFF\r\n")
  else (odr, "Invalid input. Send '1' or '0'.\r\n")

/-- The LED is lit: bit 5 of ODR. -/
def ledOn (odr : Nat) : Bool := decide (odr &&& LED_PIN ≠ 0)

end UartLed

/-! ## USART3 helpers (timer/Src/uart.c) -/

namespace Uart

/-- Embedding of `static uint16_t compute_uart_bd(uint32_t PeriphClk, uint32_t BaudRate)`
(timer/Src/uart.c lines 220-225): `(PeriphClk + (BaudRate / 2U)) / BaudRate` in
`uint32_t` arithmetic, converted to `uint16_t`.  The arguments are `uint32_t`
values; the division by zero has no result. -/
def compute_uart_bd (PeriphClk BaudRate : Nat) : Option Nat :=
  if BaudRate = 0 then none
  else some (I2C.u32 (PeriphClk + BaudRate / 2) / BaudRate % 65536)

/-- Reduction of an integer to the range of a 32-bit `int` (two's complement). -/
def toInt32 (x : Int) : Int := (x + 2147483648) % 4294967296 - 2147483648

/-- The loop `while (num > 0) { buffer[i++] = (num % 10) + '0'; num /= 10; }` of
`uart3_put_int` (lines 75-84).  Inside the loop `num` is positive, where the
division and remainder of C and of Lean agree. -/
def digitLoop : Nat → Int → List Nat → Nat → Option (List Nat × Nat)
  | 0, _, _, _ => none
  | fuel + 1, num, buffer, i =>
    if num > 0 then
      digitLoop fuel (num / 10) (buffer.set i ((num % 10 + 48).toNat % 256)) (i + 1)
    else some (buffer, i)

/-- The loop `while (start < end) { swap buffer[start], buffer[end]; start++; end--; }`
of `uart3_put_int` (lines 95-104); `e` is the variable `end`. -/
def reverseLoop : Nat → Int → Int → List Nat → Option (List Nat)
  | 0, _, _, _ => none
  | fuel + 1, start, e, buffer =>
    if start < e then
      reverseLoop fuel (start + 1) (e - 1)
        ((buffer.set start.toNat (buffer.getD e.toNat 0)).set e.toNat (buffer.getD start.toNat 0))
    else some buffer

/-- Lines 58-107 of `uart3_put_int` for `num ≠ 0`: the content of `buffer` after
the terminator has been stored, and the final index `i`.  The negation `-num` is
taken in 32-bit two's complement. -/
def formatInt (fuel : Nat) (num : Int) (buffer : List Nat) : Option (List Nat × Nat) :=
  match digitLoop fuel (if num < 0 then toInt32 (-num) else num) buffer 0 with
  | none => none
  | some (b1, i1) =>
    match reverseLoop fuel 0 (((if num < 0 then i1 + 1 else i1 : Nat) : Int) - 1)
        (if num < 0 then b1.set i1 45 else b1) with
    | none => none
    | some b3 => some (b3.set (if num < 0 then i1 + 1 else i1) 0, if num < 0 then i1 + 1 else i1)

/-- Embedding of `void uart3_puts(const char *str)` (lines 45-54): the bytes
handed to `uart3_write`, which sends `ch & 0xFF`, up to the first `0` of `str`. -/
def uart3_puts (str : List Nat) : List Nat := (str.takeWhile (· ≠ 0)).map (· % 256)

/-- Embedding of `void uart3_put_int(int num)` (lines 56-111): the bytes
transmitted.  `buffer` is the initial content of the local array `buffer[12]`. -/
def uart3_put_int (fuel : Nat) (num : Int) (buffer : List Nat) : Option (List Nat) :=
  if num = 0 then some [48]
  else (formatInt fuel num buffer).map fun p => uart3_puts p.1

/-- Specification side: the decimal representation of an integer in ASCII, `0`
for zero, otherwise a `-` for negatives followed by the digits, most significant
first, without leading zeros. -/
def decimal (num : Int) : List Nat :=
  if num = 0 then [48]
  else (if num < 0 then [45] else []) ++ ((Nat.digits 10 num.natAbs).reverse.map (· + 48))

end Uart

namespace I2C

/-! ## Lemmas on the primitives and the spin loops -/

section Lemmas

variable {σ : Type}

/-- Within the range of `int` the byte total is the sum, converted to `uint32_t`. -/
theorem numBytesTotal_ok (wrap : Bool) (n : Int) (h : 1 + n ≤ 2147483647) :
    numBytesTotal wrap n = some ((1 + n) % 4294967296).toNat := by
  simp [numBytesTotal, h]

/-- In the wrapping reading the byte total always exists. -/
theorem numBytesTotal_wrap (n : Int) :
    numBytesTotal true n = some ((1 + n) % 4294967296).toNat := by
  simp [numBytesTotal]

/-- The byte total for a natural number of data bytes below `INT_MAX`. -/
theorem numBytesTotal_nat (wrap : Bool) (n : Nat) (h : n < 2147483647) :
    numBytesTotal wrap (n : Int) = some (1 + n) := by
  rw [numBytesTotal_ok wrap n (by omega)]
  congr 1
  omega

/-- Whenever the byte total exists it is the sum modulo `2 ^ 32`. -/
theorem numBytesTotal_some {wrap : Bool} {n : Int} {t : Nat}
    (h : numBytesTotal wrap n = some t) : t = ((1 + n) % 4294967296).toNat := by
  unfold numBytesTotal at h
  split at h
  · exact (Option.some.inj h).symm
  · exact absurd h (by simp)

/-- Under ISO C the byte total exists only while `1 + n` is an `int`. -/
theorem numBytesTotal_in_range {n : Int} {t : Nat} (h : numBytesTotal false n = some t) :
    1 + n ≤ 2147483647 := by
  unfold numBytesTotal at h
  split at h
  · rename_i hc
    simpa using hc
  · exact absurd h (by simp)

/-- At `n = INT_MAX` the `int` addition `1 + n` overflows: no byte total. -/
theorem numBytesTotal_int_max : numBytesTotal false 2147483647 = none := by
  decide

@[simp] theorem txWrites_append (a b : List Ev) : txWrites (a ++ b) = txWrites a ++ txWrites b := by
  simp [txWrites]

@[simp] theorem cr2Writes_append (a b : List Ev) :
    cr2Writes (a ++ b) = cr2Writes a ++ cr2Writes b := by
  simp [cr2Writes]

@[simp] theorem rxReads_append (a b : List Ev) : rxReads (a ++ b) = rxReads a ++ rxReads b := by
  simp [rxReads]

@[simp] theorem regWrites_append (a b : List Ev) :
    regWrites (a ++ b) = regWrites a ++ regWrites b := by
  simp [regWrites]

@[simp] theorem bufStores_append (a b : List Ev) :
    bufStores (a ++ b) = bufStores a ++ bufStores b := by
  simp [bufStores]

@[simp] theorem startWrites_append (a b : List Ev) :
    startWrites (a ++ b) = startWrites a ++ startWrites b := by
  simp [startWrites]

@[simp] theorem stopWrites_append (a b : List Ev) :
    stopWrites (a ++ b) = stopWrites a ++ stopWrites b := by
  simp [stopWrites]

@[simp] theorem txWrites_nil : txWrites [] = [] := rfl

@[simp] theorem cr2Writes_nil : cr2Writes [] = [] := rfl

@[simp] theorem rxReads_nil : rxReads [] = [] := rfl

@[simp] theorem regWrites_nil : regWrites [] = [] := rfl

@[simp] theorem bufStores_nil : bufStores [] = [] := rfl

@[simp] theorem startWrites_nil : startWrites [] = [] := rfl

@[simp] theorem stopWrites_nil : stopWrites [] = [] := rfl

@[simp] theorem txWrites_cons (e : Ev) (l : List Ev) :
    txWrites (e :: l) = e.txVal.toList ++ txWrites l := by
  show List.filterMap Ev.txVal (e :: l) = _
  rw [List.filterMap_cons]
  generalize e.txVal = o
  cases o <;> rfl

@[simp] theorem cr2Writes_cons (e : Ev) (l : List Ev) :
    cr2Writes (e :: l) = e.cr2Val.toList ++ cr2Writes l := by
  show List.filterMap Ev.cr2Val (e :: l) = _
  rw [List.filterMap_cons]
  generalize e.cr2Val = o
  cases o <;> rfl

@[simp] theorem rxReads_cons (e : Ev) (l : List Ev) :
    rxReads (e :: l) = e.rxVal.toList ++ rxReads l := by
  show List.filterMap Ev.rxVal (e :: l) = _
  rw [List.filterMap_cons]
  generalize e.rxVal = o
  cases o <;> rfl

@[simp] theorem regWrites_cons (e : Ev) (l : List Ev) :
    regWrites (e :: l) = e.wrVal.toList ++ regWrites l := by
  show List.filterMap Ev.wrVal (e :: l) = _
  rw [List.filterMap_cons]
  generalize e.wrVal = o
  cases o <;> rfl

@[simp] theorem bufStores_cons (e : Ev) (l : List Ev) :
    bufStores (e :: l) = e.stVal.toList ++ bufStores l := by
  show List.filterMap Ev.stVal (e :: l) = _
  rw [List.filterMap_cons]
  generalize e.stVal = o
  cases o <;> rfl

theorem startWrites_cons (e : Ev) (l : List Ev) :
    startWrites (e :: l) = startWrites [e] ++ startWrites l := by
  rw [← startWrites_append]; rfl

theorem stopWrites_cons (e : Ev) (l : List Ev) :
    stopWrites (e :: l) = stopWrites [e] ++ stopWrites l := by
  rw [← stopWrites_append]; rfl

@[simp] theorem startWrites_rd (r : Reg) (v : Nat) (l : List Ev) :
    startWrites (Ev.rd r v :: l) = startWrites l := by
  simp [startWrites]

@[simp] theorem stopWrites_rd (r : Reg) (v : Nat) (l : List Ev) :
    stopWrites (Ev.rd r v :: l) = stopWrites l := by
  simp [stopWrites]

@[simp] theorem startWrites_ld (i : Nat) (l : List Ev) :
    startWrites (Ev.ld i :: l) = startWrites l := by
  simp [startWrites]

@[simp] theorem stopWrites_ld (i : Nat) (l : List Ev) :
    stopWrites (Ev.ld i :: l) = stopWrites l := by
  simp [stopWrites]

@[simp] theorem startWrites_st (i v : Nat) (l : List Ev) :
    startWrites (Ev.st i v :: l) = startWrites l := by
  simp [startWrites]

@[simp] theorem stopWrites_st (i v : Nat) (l : List Ev) :
    stopWrites (Ev.st i v :: l) = stopWrites l := by
  simp [stopWrites]

@[simp] theorem startWrites_wr (r : Reg) (v : Nat) (l : List Ev) :
    startWrites (Ev.wr r v :: l) =
      (if r = Reg.CR2 ∧ v &&& CR2_START ≠ 0 then [v] else []) ++ startWrites l := by
  by_cases hr : r = Reg.CR2 <;> by_cases hv : v &&& CR2_START = 0 <;>
    simp [startWrites, hr, hv, List.filter_cons]

@[simp] theorem stopWrites_wr (r : Reg) (v : Nat) (l : List Ev) :
    stopWrites (Ev.wr r v :: l) =
      (if r = Reg.CR2 ∧ v &&& CR2_STOP ≠ 0 then [v] else []) ++ stopWrites l := by
  by_cases hr : r = Reg.CR2 <;> by_cases hv : v &&& CR2_STOP = 0 <;>
    simp [stopWrites, hr, hv, List.filter_cons]

@[simp] theorem txWrites_polls (vs : List Nat) : txWrites (polls vs) = [] := by
  induction vs with
  | nil => rfl
  | cons v vs ih => simpa [polls] using ih

@[simp] theorem cr2Writes_polls (vs : List Nat) : cr2Writes (polls vs) = [] := by
  induction vs with
  | nil => rfl
  | cons v vs ih => simpa [polls] using ih

@[simp] theorem rxReads_polls (vs : List Nat) : rxReads (polls vs) = [] := by
  induction vs with
  | nil => rfl
  | cons v vs ih => simpa [polls] using ih

@[simp] theorem regWrites_polls (vs : List Nat) : regWrites (polls vs) = [] := by
  induction vs with
  | nil => rfl
  | cons v vs ih => simpa [polls] using ih

@[simp] theorem bufStores_polls (vs : List Nat) : bufStores (polls vs) = [] := by
  induction vs with
  | nil => rfl
  | cons v vs ih => simpa [polls] using ih

@[simp] theorem startWrites_polls (vs : List Nat) : startWrites (polls vs) = [] := by
  simp [startWrites]

@[simp] theorem stopWrites_polls (vs : List Nat) : stopWrites (polls vs) = [] := by
  simp [stopWrites]

theorem polls_append (a b : List Nat) : polls (a ++ b) = polls a ++ polls b := by
  simp [polls]

theorem polls_snoc (a : List Nat) (v : Nat) : polls a ++ [Ev.rd Reg.ISR v] = polls (a ++ [v]) := by
  simp [polls]

theorem or_and_self_mask (y m : Nat) : (y ||| m) &&& m = m := by
  apply Nat.eq_of_testBit_eq
  intro i
  simp only [Nat.testBit_and, Nat.testBit_or]
  cases y.testBit i <;> cases m.testBit i <;> rfl

theorem or_and_mask (a b c : Nat) : (a ||| b) &&& c = (a &&& c) ||| (b &&& c) := by
  rw [Nat.and_comm, Nat.and_or_distrib_left, Nat.and_comm c a, Nat.and_comm c b]

@[simp] theorem rdReg_buf (d : Dev σ) (r : Reg) (s : St σ) : (rdReg d r s).2.buf = s.buf := rfl

@[simp] theorem rdReg_log (d : Dev σ) (r : Reg) (s : St σ) :
    (rdReg d r s).2.log = s.log ++ [Ev.rd r (rdReg d r s).1] := rfl

@[simp] theorem wrReg_buf (d : Dev σ) (r : Reg) (v : Nat) (s : St σ) :
    (wrReg d r v s).buf = s.buf := rfl

@[simp] theorem wrReg_log (d : Dev σ) (r : Reg) (v : Nat) (s : St σ) :
    (wrReg d r v s).log = s.log ++ [Ev.wr r v] := rfl

@[simp] theorem setBits_buf (d : Dev σ) (r : Reg) (m : Nat) (s : St σ) :
    (setBits d r m s).buf = s.buf := rfl

@[simp] theorem setBits_log (d : Dev σ) (r : Reg) (m : Nat) (s : St σ) :
    (setBits d r m s).log =
      s.log ++ [Ev.rd r (rdReg d r s).1, Ev.wr r ((rdReg d r s).1 ||| m)] := by
  simp [setBits]

@[simp] theorem clrBits_buf (d : Dev σ) (r : Reg) (m : Nat) (s : St σ) :
    (clrBits d r m s).buf = s.buf := rfl

@[simp] theorem clrBits_log (d : Dev σ) (r : Reg) (m : Nat) (s : St σ) :
    (clrBits d r m s).log =
      s.log ++ [Ev.rd r (rdReg d r s).1, Ev.wr r ((rdReg d r s).1 &&& not32 m)] := by
  simp [clrBits]

/-- A terminated `while (ISR & flag) {}` only polled ISR, and its last reading
had the flag clear. -/
theorem spinWhile_spec (d : Dev σ) (flag : Nat) :
    ∀ (fuel : Nat) (s s1 : St σ), spinWhile d flag fuel s = some s1 →
      s1.buf = s.buf ∧ ∃ vs v, s1.log = s.log ++ polls vs ++ [Ev.rd Reg.ISR v] ∧ v &&& flag = 0 := by
  intro fuel
  induction fuel with
  | zero => intro s s1 h; simp [spinWhile] at h
  | succ f ih =>
    intro s s1 h
    rw [spinWhile] at h
    split at h
    · obtain ⟨hb, vs, v, hl, hv⟩ := ih _ _ h
      refine ⟨by simpa using hb, (rdReg d Reg.ISR s).1 :: vs, v, ?_, hv⟩
      simp [hl, polls]
    · rename_i hc
      injection h with h
      subst h
      exact ⟨rfl, [], (rdReg d Reg.ISR s).1, by simp [polls], by simpa using hc⟩

/-- A terminated `while (!(ISR & flag)) {}` only polled ISR, and its last reading
had the flag set. -/
theorem spinUntil_spec (d : Dev σ) (flag : Nat) :
    ∀ (fuel : Nat) (s s1 : St σ), spinUntil d flag fuel s = some s1 →
      s1.buf = s.buf ∧ ∃ vs v, s1.log = s.log ++ polls vs ++ [Ev.rd Reg.ISR v] ∧ v &&& flag ≠ 0 := by
  intro fuel
  induction fuel with
  | zero => intro s s1 h; simp [spinUntil] at h
  | succ f ih =>
    intro s s1 h
    rw [spinUntil] at h
    split at h
    · rename_i hc
      injection h with h
      subst h
      exact ⟨rfl, [], (rdReg d Reg.ISR s).1, by simp [polls], hc⟩
    · obtain ⟨hb, vs, v, hl, hv⟩ := ih _ _ h
      refine ⟨by simpa using hb, (rdReg d Reg.ISR s).1 :: vs, v, ?_, hv⟩
      simp [hl, polls]

/-- A flag wait with NACK check that was left only polled ISR; its last reading
had the awaited flag set (`ready`) or NACKF set (`nack`). -/
theorem waitOrNack_spec (d : Dev σ) (flag : Nat) :
    ∀ (fuel : Nat) (s s1 : St σ) (w : Wait), waitOrNack d flag fuel s = some (w, s1) →
      s1.buf = s.buf ∧ ∃ vs v, s1.log = s.log ++ polls vs ++ [Ev.rd Reg.ISR v] ∧
        v &&& (if w = Wait.ready then flag else ISR_NACKF) ≠ 0 := by
  intro fuel
  induction fuel with
  | zero => intro s s1 w h; simp [waitOrNack] at h
  | succ f ih =>
    intro s s1 w h
    rw [waitOrNack] at h
    split at h
    · rename_i hc
      injection h with h
      injection h with hw hs
      subst hw hs
      exact ⟨rfl, [], (rdReg d Reg.ISR s).1, by simp [polls], by simpa using hc⟩
    · split at h
      · rename_i hc
        injection h with h
        injection h with hw hs
        subst hw hs
        exact ⟨rfl, [(rdReg d Reg.ISR s).1], (rdReg d Reg.ISR (rdReg d Reg.ISR s).2).1,
          by simp [polls], by simpa using hc⟩
      · obtain ⟨hb, vs, v, hl, hv⟩ := ih _ _ _ h
        refine ⟨by simpa using hb,
          (rdReg d Reg.ISR s).1 :: (rdReg d Reg.ISR (rdReg d Reg.ISR s).2).1 :: vs, v, ?_, hv⟩
        simp [hl, polls]

end Lemmas

/-! ## Claims -/

section Claims

variable {σ : Type}

/-- C9: for every `n <= 0`, `I2C1_BurstRead` and `I2C1_BurstWrite` return at once
with zero bus activity, whatever the fuel (even 0): the hardware is not accessed
(no register is read or written, the busy flag is not polled), the trace stays
empty and the data buffer is unchanged. -/
theorem burst_nonpositive_noop (d : Dev σ) (saddr maddr fuel : Nat) (n : Int) (hw : σ)
    (buf : List Nat) (hn : n ≤ 0) :
    I2C1_BurstRead d saddr maddr n fuel (St.init hw buf) = some ⟨hw, [], buf⟩ ∧
    I2C1_BurstWrite d saddr maddr n fuel (St.init hw buf) = some ⟨hw, [], buf⟩ := by
  simp [I2C1_BurstRead, I2C1_BurstWrite, I2C1_BurstWriteWith, hn, St.init]

/-- Witness for C9 at `n = 0` on the scripted device with no fuel at all. -/
theorem burst_nonpositive_noop_witness :
    (0 : Int) ≤ 0 ∧
    (I2C1_BurstRead scriptDev 104 59 0 0 (St.init ⟨[], [], 0⟩ [7, 8]) = some ⟨⟨[], [], 0⟩, [], [7, 8]⟩ ∧
     I2C1_BurstWrite scriptDev 104 59 0 0 (St.init ⟨[], [], 0⟩ [7, 8]) =
       some ⟨⟨[], [], 0⟩, [], [7, 8]⟩) :=
  ⟨le_refl 0, burst_nonpositive_noop scriptDev 104 59 0 0 ⟨[], [], 0⟩ [7, 8] (le_refl 0)⟩

/-- The rejection path of `I2C1_BurstWrite` (i2c.c lines 229-235), in either
reading of the `int` addition: for every `n >= 255` whose byte total exists
(`n < INT_MAX`, or any `int` in the wrapping reading), once the bus is free and
provided the hardware raises STOPF, the call returns having rejected the request:
TXDR is never written, the buffer is unchanged, and the only register writes are
`CR2 |= STOP` followed, after a status reading with STOPF set, by `ICR |= STOPCF`;
no START is written (the START bit read back from CR2 being clear). -/
theorem burstWriteWith_reject_run (wrap : Bool) (d : Dev σ) (saddr maddr fuel : Nat) (n : Int)
    (hw : σ) (buf : List Nat) (s1 s2 : St σ) (hn : 255 ≤ n) (hmax : n ≤ 2147483647)
    (hov : n < 2147483647 ∨ wrap = true)
    (hbusy : spinWhile d ISR_BUSY fuel (St.init hw buf) = some s1)
    (hcr2 : (rdReg d Reg.CR2 s1).1 &&& CR2_START = 0)
    (hstop : spinUntil d ISR_STOPF fuel (setBits d Reg.CR2 CR2_STOP s1) = some s2) :
    ∃ r, I2C1_BurstWriteWith wrap d saddr maddr n fuel (St.init hw buf) = some r ∧
      r.buf = buf ∧ txWrites r.log = [] ∧ startWrites r.log = [] ∧
      ∃ y z pre v, regWrites r.log = [(Reg.CR2, y ||| CR2_STOP), (Reg.ICR, z ||| ICR_STOPCF)] ∧
        r.log = pre ++ [Ev.rd Reg.ISR v, Ev.rd Reg.ICR z, Ev.wr Reg.ICR (z ||| ICR_STOPCF)] ∧
        v &&& ISR_STOPF ≠ 0 := by
  have hn0 : ¬ n ≤ 0 := by omega
  have htot : ((1 + n) % 4294967296).toNat > 255 := by omega
  have hnb : numBytesTotal wrap n = some ((1 + n) % 4294967296).toNat := by
    rcases hov with h | h
    · exact numBytesTotal_ok wrap n (by omega)
    · rw [h]; exact numBytesTotal_wrap n
  obtain ⟨hb1, vs1, v1, hl1, -⟩ := spinWhile_spec d ISR_BUSY fuel _ _ hbusy
  obtain ⟨hb2, vs2, v2, hl2, hv2⟩ := spinUntil_spec d ISR_STOPF fuel _ _ hstop
  have hst : ((rdReg d Reg.CR2 s1).1 ||| CR2_STOP) &&& CR2_START = 0 := by
    rw [or_and_mask, hcr2]; decide
  refine ⟨setBits d Reg.ICR ICR_STOPCF s2, ?_, ?_, ?_, ?_,
    (rdReg d Reg.CR2 s1).1, (rdReg d Reg.ICR s2).1,
    (setBits d Reg.CR2 CR2_STOP s1).log ++ polls vs2, v2, ?_, ?_, hv2⟩
  · simp [I2C1_BurstWriteWith, hn0, hbusy, hnb, htot, rejectStop, hstop]
  · simp [hb2, hb1, St.init]
  · simp [hl2, hl1, St.init, polls_snoc]
  · simp [hl2, hl1, St.init, polls_snoc, hst]
  · simp [hl2, hl1, St.init, polls_snoc]
  · simp [hl2]

/-- C7 (evaluation of the code): the byte total `1 + n` of line 228 is added in
`int`.  At `n = 2147483647` (`INT_MAX`) the addition overflows, which ISO C leaves
undefined: the call has no defined result there, on any device and from any
state, so the request is not known to be rejected.  For every other `n >= 255`,
once the bus is free and provided the hardware raises STOPF, `I2C1_BurstWrite`
returns having rejected the request: TXDR is never written, the buffer is
unchanged, and the only register writes are `CR2 |= STOP` followed, after a
status reading with STOPF set, by `ICR |= STOPCF`; no START is written (the START
bit read back from CR2 being clear).  Only in the reading in which `int`
arithmetic wraps is the request rejected in the same way for every `int`
`n >= 255`, `INT_MAX` included. -/
theorem burstWrite_total_overflow :
    numBytesTotal false 2147483647 = none ∧
    (∀ (τ : Type) (d : Dev τ) (saddr maddr fuel : Nat) (s : St τ),
      I2C1_BurstWrite d saddr maddr 2147483647 fuel s = none) ∧
    (∀ (τ : Type) (d : Dev τ) (saddr maddr fuel : Nat) (n : Int) (hw : τ) (buf : List Nat)
      (s1 s2 : St τ), 255 ≤ n → n < 2147483647 →
      spinWhile d ISR_BUSY fuel (St.init hw buf) = some s1 →
      (rdReg d Reg.CR2 s1).1 &&& CR2_START = 0 →
      spinUntil d ISR_STOPF fuel (setBits d Reg.CR2 CR2_STOP s1) = some s2 →
      ∃ r, I2C1_BurstWrite d saddr maddr n fuel (St.init hw buf) = some r ∧
        r.buf = buf ∧ txWrites r.log = [] ∧ startWrites r.log = [] ∧
        ∃ y z pre v,
          regWrites r.log = [(Reg.CR2, y ||| CR2_STOP), (Reg.ICR, z ||| ICR_STOPCF)] ∧
          r.log = pre ++ [Ev.rd Reg.ISR v, Ev.rd Reg.ICR z, Ev.wr Reg.ICR (z ||| ICR_STOPCF)] ∧
          v &&& ISR_STOPF ≠ 0) ∧
    (∀ (τ : Type) (d : Dev τ) (saddr maddr fuel : Nat) (n : Int) (hw : τ) (buf : List Nat)
      (s1 s2 : St τ), 255 ≤ n → n ≤ 2147483647 →
      spinWhile d ISR_BUSY fuel (St.init hw buf) = some s1 →
      (rdReg d Reg.CR2 s1).1 &&& CR2_START = 0 →
      spinUntil d ISR_STOPF fuel (setBits d Reg.CR2 CR2_STOP s1) = some s2 →
      ∃ r, I2C1_BurstWriteWith true d saddr maddr n fuel (St.init hw buf) = some r ∧
        r.buf = buf ∧ txWrites r.log = [] ∧ startWrites r.log = [] ∧
        ∃ y z pre v,
          regWrites r.log = [(Reg.CR2, y ||| CR2_STOP), (Reg.ICR, z ||| ICR_STOPCF)] ∧
          r.log = pre ++ [Ev.rd Reg.ISR v, Ev.rd Reg.ICR z, Ev.wr Reg.ICR (z ||| ICR_STOPCF)] ∧
          v &&& ISR_STOPF ≠ 0) := by
  refine ⟨numBytesTotal_int_max, ?_, ?_, ?_⟩
  · intro τ d saddr maddr fuel s
    unfold I2C1_BurstWrite I2C1_BurstWriteWith
    rw [if_neg (by decide), numBytesTotal_int_max]
    cases spinWhile d ISR_BUSY fuel s <;> rfl
  · intro τ d saddr maddr fuel n hw buf s1 s2 hn hmax hbusy hcr2 hstop
    exact burstWriteWith_reject_run false d saddr maddr fuel n hw buf s1 s2 hn (by omega)
      (Or.inl hmax) hbusy hcr2 hstop
  · intro τ d saddr maddr fuel n hw buf s1 s2 hn hmax hbusy hcr2 hstop
    exact burstWriteWith_reject_run true d saddr maddr fuel n hw buf s1 s2 hn hmax
      (Or.inr rfl) hbusy hcr2 hstop

/-- Witness for C7 at `n = 255` (total 256) on the simulated controller: the
request is rejected. -/
theorem burstWrite_total_overflow_witness :
    ∃ r, I2C1_BurstWrite simDev 104 16 255 1 (St.init (Sim.idle 104 fun _ => 0) [1, 2, 3]) = some r ∧
      r.buf = [1, 2, 3] ∧ txWrites r.log = [] ∧ startWrites r.log = [] ∧
      ∃ y z pre v, regWrites r.log = [(Reg.CR2, y ||| CR2_STOP), (Reg.ICR, z ||| ICR_STOPCF)] ∧
        r.log = pre ++ [Ev.rd Reg.ISR v, Ev.rd Reg.ICR z, Ev.wr Reg.ICR (z ||| ICR_STOPCF)] ∧
        v &&& ISR_STOPF ≠ 0 :=
  burstWrite_total_overflow.2.2.1 Sim simDev 104 16 1 255 (Sim.idle 104 fun _ => 0) [1, 2, 3] _ _
    (by decide) (by decide) rfl (by decide) rfl

/-- The phase-1 programming leaves the buffer alone. -/
theorem startAddrPhase_buf (d : Dev σ) (saddr : Nat) (s : St σ) :
    (startAddrPhase d saddr s).buf = s.buf := rfl

/-- The phase-1 programming: `CR2 = 0` and five read-modify-writes of CR2, the
last one setting START. -/
theorem startAddrPhase_log (d : Dev σ) (saddr : Nat) (s : St σ) :
    ∃ a b c e f, (startAddrPhase d saddr s).log = s.log ++
      [Ev.wr Reg.CR2 0,
       Ev.rd Reg.CR2 a, Ev.wr Reg.CR2 (a ||| (saddr % 256) <<< 1),
       Ev.rd Reg.CR2 b, Ev.wr Reg.CR2 (b &&& not32 CR2_RD_WRN),
       Ev.rd Reg.CR2 c, Ev.wr Reg.CR2 (c ||| 1 <<< CR2_NBYTES_POS),
       Ev.rd Reg.CR2 e, Ev.wr Reg.CR2 (e &&& not32 CR2_AUTOEND),
       Ev.rd Reg.CR2 f, Ev.wr Reg.CR2 (f ||| CR2_START)] := by
  exact ⟨_, _, _, _, _, by
    simp only [startAddrPhase, setBits_log, clrBits_log, wrReg_log, List.append_assoc,
      List.cons_append, List.nil_append]
    exact rfl⟩

/-- C4: if NACKF is seen while `I2C1_ByteRead` waits for transmit-ready in the
address phase (the bus having become free, and the hardware raising STOPF after
the STOP request), the call returns having aborted: after the six CR2 writes of
the phase-1 programming its only register writes are `ICR |= NACKCF`,
`CR2 |= STOP` and, after a status reading with STOPF set, `ICR |= STOPCF`; TXDR
is never written, RXDR is never read, and `*data` is neither stored to nor
changed. -/
theorem byteRead_addr_nack (d : Dev σ) (saddr maddr fuel : Nat) (hw : σ) (buf : List Nat)
    (s1 s2 s3 : St σ)
    (hbusy : spinWhile d ISR_BUSY fuel (St.init hw buf) = some s1)
    (hnack : waitOrNack d ISR_TXIS fuel (startAddrPhase d saddr s1) = some (Wait.nack, s2))
    (hstop : spinUntil d ISR_STOPF fuel
      (setBits d Reg.CR2 CR2_STOP (setBits d Reg.ICR ICR_NACKCF s2)) = some s3) :
    ∃ r, I2C1_ByteRead d saddr maddr fuel (St.init hw buf) = some r ∧
      r.buf = buf ∧ txWrites r.log = [] ∧ rxReads r.log = [] ∧ bufStores r.log = [] ∧
      ∃ cfg x y z pre v,
        regWrites r.log = cfg ++ [(Reg.ICR, x ||| ICR_NACKCF), (Reg.CR2, y ||| CR2_STOP),
          (Reg.ICR, z ||| ICR_STOPCF)] ∧
        cfg.map Prod.fst = [Reg.CR2, Reg.CR2, Reg.CR2, Reg.CR2, Reg.CR2, Reg.CR2] ∧
        r.log = pre ++ [Ev.rd Reg.ISR v, Ev.rd Reg.ICR z, Ev.wr Reg.ICR (z ||| ICR_STOPCF)] ∧
        v &&& ISR_STOPF ≠ 0 := by
  obtain ⟨hb1, vs1, v1, hl1, -⟩ := spinWhile_spec d ISR_BUSY fuel _ _ hbusy
  obtain ⟨a, b, c, e, f, hle⟩ := startAddrPhase_log d saddr s1
  obtain ⟨hb2, vs2, v2, hl2, -⟩ := waitOrNack_spec d ISR_TXIS fuel _ _ _ hnack
  obtain ⟨hb3, vs3, v3, hl3, hv3⟩ := spinUntil_spec d ISR_STOPF fuel _ _ hstop
  refine ⟨setBits d Reg.ICR ICR_STOPCF s3, ?_, ?_, ?_, ?_, ?_,
    [(Reg.CR2, 0), (Reg.CR2, a ||| (saddr % 256) <<< 1), (Reg.CR2, b &&& not32 CR2_RD_WRN),
      (Reg.CR2, c ||| 1 <<< CR2_NBYTES_POS), (Reg.CR2, e &&& not32 CR2_AUTOEND),
      (Reg.CR2, f ||| CR2_START)],
    (rdReg d Reg.ICR s2).1, (rdReg d Reg.CR2 (setBits d Reg.ICR ICR_NACKCF s2)).1,
    (rdReg d Reg.ICR s3).1,
    (setBits d Reg.CR2 CR2_STOP (setBits d Reg.ICR ICR_NACKCF s2)).log ++ polls vs3, v3,
    ?_, rfl, ?_, hv3⟩
  · simp [I2C1_ByteRead, hbusy, hnack, abortStop, hstop]
  · simp [hb3, hb2, hb1, startAddrPhase_buf, St.init]
  · simp [hl3, hl2, hle, hl1, St.init, polls_snoc]
  · simp [hl3, hl2, hle, hl1, St.init, polls_snoc]
  · simp [hl3, hl2, hle, hl1, St.init, polls_snoc]
  · simp [hl3, hl2, hle, hl1, St.init, polls_snoc]
  · simp [hl3]

/-- Witness for C4: the simulated slave sits at address 104 and the call
addresses 105, so the address is NACKed. -/
theorem byteRead_addr_nack_witness :
    ∃ r, I2C1_ByteRead simDev 105 117 1 (St.init (Sim.idle 104 fun _ => 0) [7]) = some r ∧
      r.buf = [7] ∧ txWrites r.log = [] ∧ rxReads r.log = [] ∧ bufStores r.log = [] ∧
      ∃ cfg x y z pre v,
        regWrites r.log = cfg ++ [(Reg.ICR, x ||| ICR_NACKCF), (Reg.CR2, y ||| CR2_STOP),
          (Reg.ICR, z ||| ICR_STOPCF)] ∧
        cfg.map Prod.fst = [Reg.CR2, Reg.CR2, Reg.CR2, Reg.CR2, Reg.CR2, Reg.CR2] ∧
        r.log = pre ++ [Ev.rd Reg.ISR v, Ev.rd Reg.ICR z, Ev.wr Reg.ICR (z ||| ICR_STOPCF)] ∧
        v &&& ISR_STOPF ≠ 0 :=
  byteRead_addr_nack simDev 105 117 1 (Sim.idle 104 fun _ => 0) [7] _ _ _ rfl rfl rfl

/-- C3 (evaluation of the code): whatever the device and the slave address, the
last access of the phase-2 programming of `I2C1_ByteRead` is the plain
assignment `CR2 = CR2_START`, so the control word in force when the phase-2
START is triggered is 8192: SADD = 0, RD_WRN clear, NBYTES = 0, AUTOEND clear.
On the simulated controller with the slave at 104, `I2C1_ByteRead(104, 117, ..)`
issues its two STARTs with the words 73936 and 8192, the second address is
NACKed, and `*data` keeps its old value 7 although register 117 holds 104. -/
theorem byteRead_phase2_start_word :
    (∀ (τ : Type) (d : Dev τ) (saddr : Nat) (s : St τ),
      ∃ pre, (startByteReadPhase d saddr s).log = pre ++ [Ev.wr Reg.CR2 8192]) ∧
    ((8192 >>> 1) &&& 127 = 0 ∧ 8192 &&& CR2_RD_WRN = 0 ∧ (8192 >>> 16) &&& 255 = 0 ∧
      8192 &&& CR2_AUTOEND = 0) ∧
    (I2C1_ByteRead simDev 104 117 1 (St.init (Sim.idle 104 fun a => if a = 117 then 104 else 0) [7])).map
      (fun r => (startWrites r.log, rxReads r.log, r.buf)) = some ([73936, 8192], [], [7]) := by
  refine ⟨fun τ d saddr s => ⟨_, rfl⟩, by decide, by decide⟩

/-- C8 (counterexample): with `n = 256` on the simulated controller,
`I2C1_BurstRead` has issued a START (control word 73936: slave 104, WRITE,
NBYTES = 1) and written the address-pointer byte 59 to TXDR before it issues
STOP and returns. -/
theorem burstRead_oversize_transfers_first :
    (I2C1_BurstRead simDev 104 59 256 1 (St.init (Sim.idle 104 fun _ => 0) [])).map
      (fun r => (startWrites r.log, txWrites r.log, stopWrites r.log)) =
      some ([73936], [59], [82128]) := by
  decide

/-- C8 (amended): for every `n > 255`, when the address phase is ACKed (bus free,
TXIS then TC seen without NACK) and the hardware raises STOPF, `I2C1_BurstRead`
returns having performed exactly the address phase and then the rejection: its
register writes are the six CR2 writes of the phase-1 programming (the last one
setting START), `TXDR = maddr`, `CR2 |= STOP` and, after a status reading with
STOPF set, `ICR |= STOPCF`.  The read phase is never programmed: RXDR is never
read and the buffer is neither stored to nor changed. -/
theorem burstRead_oversize_after_addr_phase (d : Dev σ) (saddr maddr fuel : Nat) (n : Int)
    (hw : σ) (buf : List Nat) (s1 s2 s3 s4 : St σ) (hn : 255 < n)
    (hbusy : spinWhile d ISR_BUSY fuel (St.init hw buf) = some s1)
    (htxis : waitOrNack d ISR_TXIS fuel (startAddrPhase d saddr s1) = some (Wait.ready, s2))
    (htc : waitOrNack d ISR_TC fuel (wrReg d Reg.TXDR (maddr % 256) s2) = some (Wait.ready, s3))
    (hstop : spinUntil d ISR_STOPF fuel (setBits d Reg.CR2 CR2_STOP s3) = some s4) :
    ∃ r, I2C1_BurstRead d saddr maddr n fuel (St.init hw buf) = some r ∧
      r.buf = buf ∧ txWrites r.log = [maddr % 256] ∧ rxReads r.log = [] ∧ bufStores r.log = [] ∧
      ∃ a b c e f y z pre v,
        regWrites r.log =
          [(Reg.CR2, 0), (Reg.CR2, a ||| (saddr % 256) <<< 1), (Reg.CR2, b &&& not32 CR2_RD_WRN),
           (Reg.CR2, c ||| 1 <<< CR2_NBYTES_POS), (Reg.CR2, e &&& not32 CR2_AUTOEND),
           (Reg.CR2, f ||| CR2_START), (Reg.TXDR, maddr % 256), (Reg.CR2, y ||| CR2_STOP),
           (Reg.ICR, z ||| ICR_STOPCF)] ∧
        r.log = pre ++ [Ev.rd Reg.ISR v, Ev.rd Reg.ICR z, Ev.wr Reg.ICR (z ||| ICR_STOPCF)] ∧
        v &&& ISR_STOPF ≠ 0 := by
  have hn0 : ¬ n ≤ 0 := by omega
  obtain ⟨hb1, vs1, v1, hl1, -⟩ := spinWhile_spec d ISR_BUSY fuel _ _ hbusy
  obtain ⟨a, b, c, e, f, hle⟩ := startAddrPhase_log d saddr s1
  obtain ⟨hb2, vs2, v2, hl2, -⟩ := waitOrNack_spec d ISR_TXIS fuel _ _ _ htxis
  obtain ⟨hb3, vs3, v3, hl3, -⟩ := waitOrNack_spec d ISR_TC fuel _ _ _ htc
  obtain ⟨hb4, vs4, v4, hl4, hv4⟩ := spinUntil_spec d ISR_STOPF fuel _ _ hstop
  refine ⟨setBits d Reg.ICR ICR_STOPCF s4, ?_, ?_, ?_, ?_, ?_, a, b, c, e, f,
    (rdReg d Reg.CR2 s3).1, (rdReg d Reg.ICR s4).1,
    (setBits d Reg.CR2 CR2_STOP s3).log ++ polls vs4, v4, ?_, ?_, hv4⟩
  · simp [I2C1_BurstRead, hn0, hbusy, htxis, htc, hn, rejectStop, hstop]
  · simp [hb4, hb3, hb2, hb1, startAddrPhase_buf, St.init]
  · simp [hl4, hl3, hl2, hle, hl1, St.init, polls_snoc]
  · simp [hl4, hl3, hl2, hle, hl1, St.init, polls_snoc]
  · simp [hl4, hl3, hl2, hle, hl1, St.init, polls_snoc]
  · simp [hl4, hl3, hl2, hle, hl1, St.init, polls_snoc]
  · simp [hl4]

/-- Witness for the amended C8 at `n = 256` on the simulated controller. -/
theorem burstRead_oversize_after_addr_phase_witness :
    ∃ r, I2C1_BurstRead simDev 104 59 256 1 (St.init (Sim.idle 104 fun _ => 0) [5]) = some r ∧
      r.buf = [5] ∧ txWrites r.log = [59 % 256] ∧ rxReads r.log = [] ∧ bufStores r.log = [] ∧
      ∃ a b c e f y z pre v,
        regWrites r.log =
          [(Reg.CR2, 0), (Reg.CR2, a ||| (104 % 256) <<< 1), (Reg.CR2, b &&& not32 CR2_RD_WRN),
           (Reg.CR2, c ||| 1 <<< CR2_NBYTES_POS), (Reg.CR2, e &&& not32 CR2_AUTOEND),
           (Reg.CR2, f ||| CR2_START), (Reg.TXDR, 59 % 256), (Reg.CR2, y ||| CR2_STOP),
           (Reg.ICR, z ||| ICR_STOPCF)] ∧
        r.log = pre ++ [Ev.rd Reg.ISR v, Ev.rd Reg.ICR z, Ev.wr Reg.ICR (z ||| ICR_STOPCF)] ∧
        v &&& ISR_STOPF ≠ 0 :=
  burstRead_oversize_after_addr_phase simDev 104 59 1 256 (Sim.idle 104 fun _ => 0) [5] _ _ _ _
    (by decide) rfl rfl rfl rfl

/-- The programming of `I2C1_BurstWrite` leaves the buffer alone. -/
theorem startBurstWrite_buf (d : Dev σ) (saddr nb : Nat) (s : St σ) :
    (startBurstWrite d saddr nb s).buf = s.buf := rfl

/-- The programming of `I2C1_BurstWrite`: `CR2 = 0` and five read-modify-writes
of CR2, the last one setting START. -/
theorem startBurstWrite_log (d : Dev σ) (saddr nb : Nat) (s : St σ) :
    ∃ a b c e f, (startBurstWrite d saddr nb s).log = s.log ++
      [Ev.wr Reg.CR2 0,
       Ev.rd Reg.CR2 a, Ev.wr Reg.CR2 (a ||| (saddr % 256) <<< 1),
       Ev.rd Reg.CR2 b, Ev.wr Reg.CR2 (b &&& not32 CR2_RD_WRN),
       Ev.rd Reg.CR2 c, Ev.wr Reg.CR2 (c ||| u32 (nb <<< CR2_NBYTES_POS)),
       Ev.rd Reg.CR2 e, Ev.wr Reg.CR2 (e ||| CR2_AUTOEND),
       Ev.rd Reg.CR2 f, Ev.wr Reg.CR2 (f ||| CR2_START)] := by
  exact ⟨_, _, _, _, _, by
    simp only [startBurstWrite, setBits_log, clrBits_log, wrReg_log, List.append_assoc,
      List.cons_append, List.nil_append]
    exact rfl⟩

/-- Running the transmit loop for `a + b` bytes is running it for `a` bytes and,
unless it returned on a NACK, for `b` more. -/
theorem writeLoop_add (d : Dev σ) (fuel : Nat) :
    ∀ (a b i : Nat) (s : St σ), writeLoop d fuel (a + b) i s =
      match writeLoop d fuel a i s with
      | none => none
      | some (Wait.nack, s1) => some (Wait.nack, s1)
      | some (Wait.ready, s1) => writeLoop d fuel b (i + a) s1 := by
  intro a
  induction a with
  | zero => intro b i s; simp [writeLoop]
  | succ a ih =>
    intro b i s
    rw [Nat.succ_add, writeLoop, writeLoop]
    cases h : waitOrNack d ISR_TXIS fuel s with
    | none => rfl
    | some p =>
      obtain ⟨w, s1⟩ := p
      cases w with
      | nack => rfl
      | ready =>
        simp only [ih]
        rw [show i + 1 + a = i + (a + 1) by omega]

/-- A transmit loop that ran to its end wrote to TXDR the `cnt` bytes of the
buffer from index `i` on, in order, and made no other register write and no
buffer store. -/
theorem writeLoop_ready (d : Dev σ) (fuel : Nat) :
    ∀ (cnt i : Nat) (s s1 : St σ), writeLoop d fuel cnt i s = some (Wait.ready, s1) →
      i + cnt ≤ s.buf.length →
      s1.buf = s.buf ∧ ∃ evs, s1.log = s.log ++ evs ∧
        regWrites evs = ((s.buf.drop i).take cnt).map (fun v => (Reg.TXDR, v)) ∧
        txWrites evs = (s.buf.drop i).take cnt ∧ rxReads evs = [] ∧ bufStores evs = [] := by
  intro cnt
  induction cnt with
  | zero =>
    intro i s s1 h _
    simp only [writeLoop, Option.some.injEq, Prod.mk.injEq, true_and] at h
    subst h
    exact ⟨rfl, [], by simp⟩
  | succ c ih =>
    intro i s s1 h hlen
    rw [writeLoop] at h
    cases hw : waitOrNack d ISR_TXIS fuel s with
    | none => simp [hw] at h
    | some p =>
      obtain ⟨w, s2⟩ := p
      cases w with
      | nack => simp [hw] at h
      | ready =>
        simp only [hw] at h
        obtain ⟨hb2, vs2, v2, hl2, -⟩ := waitOrNack_spec d ISR_TXIS fuel _ _ _ hw
        obtain ⟨hb, evs, hl, h1, h2, h3, h4⟩ := ih _ _ _ h (by simp [loadBuf, hb2]; omega)
        have hi : i < s.buf.length := by omega
        have hd : s.buf.drop i = s.buf.getD i 0 :: s.buf.drop (i + 1) := by
          rw [List.drop_eq_getElem_cons hi]
          simp [List.getD_eq_getElem?_getD, List.getElem?_eq_getElem hi]
        refine ⟨by simpa [loadBuf, hb2] using hb,
          polls (vs2 ++ [v2]) ++ [Ev.ld i, Ev.wr Reg.TXDR (s.buf.getD i 0)] ++ evs, ?_, ?_, ?_, ?_, ?_⟩
        · simp [hl, loadBuf, hl2, hb2, polls_snoc]
        · simp [h1, loadBuf, hb2, hd]
        · simp [h2, loadBuf, hb2, hd]
        · simp [h3]
        · simp [h4]

/-- C5 (counterexample): two data bytes, the slave NACKs before the second one
(scripted readings: bus free, TXIS, TXIS, no TXIS, NACKF).  `I2C1_BurstWrite`
returns having written 16 and 1 to TXDR, and no CR2 value with the STOP bit set
was ever written. -/
theorem burstWrite_data_nack_no_stop :
    (I2C1_BurstWrite scriptDev 104 16 2 3 (St.init ⟨[0, 2, 2, 0, 16], [], 0⟩ [1, 2])).map
      (fun r => (txWrites r.log, stopWrites r.log, cr2Writes r.log)) =
      some ([16, 1], [], [0, 208, 208, 196816, 33751248, 33759440]) := by
  decide

/-- C5 (amended): let `1 <= n <= 254` and `k < n`.  If the bus becomes free, the
address byte and the data bytes `0 .. k-1` are accepted, and NACKF is seen while
`I2C1_BurstWrite` waits for transmit-ready before data byte `k`, then the call
returns having written to TXDR exactly `maddr` followed by `data[0..k-1]`.  Its
register writes are the CR2 programming (ending with START), those TXDR writes
and finally `ICR |= NACKCF`, which directly follows the status reading that
showed NACKF: CR2 is not written again (no `CR2 |= STOP`; STOP is left to the
AUTOEND hardware) and STOPF is not waited for. -/
theorem burstWrite_data_nack (d : Dev σ) (saddr maddr fuel n k : Nat) (hw : σ) (buf : List Nat)
    (s1 s2 s3 s4 : St σ) (hn : n ≤ 254) (hk : k < n) (hlen : buf.length = n)
    (hbusy : spinWhile d ISR_BUSY fuel (St.init hw buf) = some s1)
    (haddr : waitOrNack d ISR_TXIS fuel (startBurstWrite d saddr (1 + n) s1) =
      some (Wait.ready, s2))
    (hdata : writeLoop d fuel k 0 (wrReg d Reg.TXDR (maddr % 256) s2) = some (Wait.ready, s3))
    (hnack : waitOrNack d ISR_TXIS fuel s3 = some (Wait.nack, s4)) :
    ∃ r, I2C1_BurstWrite d saddr maddr (n : Int) fuel (St.init hw buf) = some r ∧
      r.buf = buf ∧ txWrites r.log = (maddr % 256) :: buf.take k ∧
      rxReads r.log = [] ∧ bufStores r.log = [] ∧
      ∃ a b c e f x pre v,
        regWrites r.log =
          [(Reg.CR2, 0), (Reg.CR2, a ||| (saddr % 256) <<< 1), (Reg.CR2, b &&& not32 CR2_RD_WRN),
           (Reg.CR2, c ||| u32 ((1 + n) <<< CR2_NBYTES_POS)), (Reg.CR2, e ||| CR2_AUTOEND),
           (Reg.CR2, f ||| CR2_START), (Reg.TXDR, maddr % 256)] ++
          (buf.take k).map (fun b => (Reg.TXDR, b)) ++ [(Reg.ICR, x ||| ICR_NACKCF)] ∧
        r.log = pre ++ [Ev.rd Reg.ISR v, Ev.rd Reg.ICR x, Ev.wr Reg.ICR (x ||| ICR_NACKCF)] ∧
        v &&& ISR_NACKF ≠ 0 := by
  have hn0 : ¬ (n : Int) ≤ 0 := by omega
  have htot : ((1 + (n : Int)) % 4294967296).toNat = 1 + n := by omega
  have htot2 : ¬ (1 + n > 255) := by omega
  obtain ⟨hb1, vs1, v1, hl1, -⟩ := spinWhile_spec d ISR_BUSY fuel _ _ hbusy
  obtain ⟨a, b, c, e, f, hle⟩ := startBurstWrite_log d saddr (1 + n) s1
  obtain ⟨hb2, vs2, v2, hl2, -⟩ := waitOrNack_spec d ISR_TXIS fuel _ _ _ haddr
  have hbuf2 : s2.buf = buf := by simp [hb2, startBurstWrite_buf, hb1, St.init]
  obtain ⟨hb3, evs, hl3, hw3, ht3, hr3, hs3⟩ :=
    writeLoop_ready d fuel k 0 _ _ hdata (by simp [hbuf2]; omega)
  obtain ⟨hb4, vs4, v4, hl4, hv4⟩ := waitOrNack_spec d ISR_TXIS fuel _ _ _ hnack
  have hloop : writeLoop d fuel n 0 (wrReg d Reg.TXDR (maddr % 256) s2) =
      some (Wait.nack, setBits d Reg.ICR ICR_NACKCF s4) := by
    rw [show n = k + ((n - k - 1) + 1) by omega, writeLoop_add, hdata]
    simp only [writeLoop, hnack]
  refine ⟨setBits d Reg.ICR ICR_NACKCF s4, ?_, ?_, ?_, ?_, ?_, a, b, c, e, f,
    (rdReg d Reg.ICR s4).1, s3.log ++ polls vs4, v4, ?_, ?_, by simpa using hv4⟩
  · simp [I2C1_BurstWrite, I2C1_BurstWriteWith, numBytesTotal_nat false n (by omega), hn0, hbusy,
      htot2, haddr, hloop]
  · simp [hb4, hb3, hbuf2]
  · simp [hl4, hl3, ht3, hl2, hle, hl1, St.init, polls_snoc, hbuf2]
  · simp [hl4, hl3, hr3, hl2, hle, hl1, St.init, polls_snoc]
  · simp [hl4, hl3, hs3, hl2, hle, hl1, St.init, polls_snoc]
  · simp [hl4, hl3, hw3, hl2, hle, hl1, St.init, polls_snoc, hbuf2]
  · simp [hl4]

/-- Witness for the amended C5 on the scripted device: `n = 2`, NACK before data
byte `k = 1`. -/
theorem burstWrite_data_nack_witness :
    ∃ r, I2C1_BurstWrite scriptDev 104 16 ((2 : Nat) : Int) 3
        (St.init ⟨[0, 2, 2, 0, 16], [], 0⟩ [1, 2]) = some r ∧
      r.buf = [1, 2] ∧ txWrites r.log = (16 % 256) :: [1, 2].take 1 ∧
      rxReads r.log = [] ∧ bufStores r.log = [] ∧
      ∃ a b c e f x pre v,
        regWrites r.log =
          [(Reg.CR2, 0), (Reg.CR2, a ||| (104 % 256) <<< 1), (Reg.CR2, b &&& not32 CR2_RD_WRN),
           (Reg.CR2, c ||| u32 ((1 + 2) <<< CR2_NBYTES_POS)), (Reg.CR2, e ||| CR2_AUTOEND),
           (Reg.CR2, f ||| CR2_START), (Reg.TXDR, 16 % 256)] ++
          ([1, 2].take 1).map (fun b => (Reg.TXDR, b)) ++ [(Reg.ICR, x ||| ICR_NACKCF)] ∧
        r.log = pre ++ [Ev.rd Reg.ISR v, Ev.rd Reg.ICR x, Ev.wr Reg.ICR (x ||| ICR_NACKCF)] ∧
        v &&& ISR_NACKF ≠ 0 :=
  burstWrite_data_nack scriptDev 104 16 3 2 1 ⟨[0, 2, 2, 0, 16], [], 0⟩ [1, 2] _ _ _ _
    (by decide) (by decide) rfl rfl rfl rfl rfl

/-- The phase-2 programming of `I2C1_BurstRead` leaves the buffer alone. -/
theorem startBurstReadPhase_buf (d : Dev σ) (saddr nb : Nat) (s : St σ) :
    (startBurstReadPhase d saddr nb s).buf = s.buf := rfl

/-- The phase-2 programming of `I2C1_BurstRead`: `CR2 = 0` and five
read-modify-writes of CR2, the last one setting START. -/
theorem startBurstReadPhase_log (d : Dev σ) (saddr nb : Nat) (s : St σ) :
    ∃ a b c e f, (startBurstReadPhase d saddr nb s).log = s.log ++
      [Ev.wr Reg.CR2 0,
       Ev.rd Reg.CR2 a, Ev.wr Reg.CR2 (a ||| (saddr % 256) <<< 1),
       Ev.rd Reg.CR2 b, Ev.wr Reg.CR2 (b ||| CR2_RD_WRN),
       Ev.rd Reg.CR2 c, Ev.wr Reg.CR2 (c ||| u32 (nb <<< CR2_NBYTES_POS)),
       Ev.rd Reg.CR2 e, Ev.wr Reg.CR2 (e ||| CR2_AUTOEND),
       Ev.rd Reg.CR2 f, Ev.wr Reg.CR2 (f ||| CR2_START)] := by
  exact ⟨_, _, _, _, _, by
    simp only [startBurstReadPhase, setBits_log, clrBits_log, wrReg_log, List.append_assoc,
      List.cons_append, List.nil_append]
    exact rfl⟩

/-- Storing `v` at index `i` and then filling the following cells. -/
theorem set_take_snoc (B : List Nat) (i c v : Nat) (vs : List Nat)
    (hi : i + (c + 1) ≤ B.length) :
    (B.set i v).take (i + 1) ++ vs ++ (B.set i v).drop (i + 1 + c) =
      B.take i ++ (v :: vs) ++ B.drop (i + (c + 1)) := by
  have h1 : i < B.length := by omega
  have h2 : (B.set i v).take (i + 1) = B.take i ++ [v] := by
    rw [List.take_succ, List.getElem?_set_self h1]
    · rw [List.set_take, List.set_eq_of_length_le (by simp)]
      simp
  rw [h2, List.drop_set_of_lt _ _ (by omega)]
  simp [Nat.add_assoc, Nat.add_comm 1 c]

/-- Running the receive loop for `a + b` bytes is running it for `a` bytes and,
unless it returned on a NACK, for `b` more. -/
theorem readLoop_add (d : Dev σ) (fuel : Nat) :
    ∀ (a b i : Nat) (s : St σ), readLoop d fuel (a + b) i s =
      match readLoop d fuel a i s with
      | none => none
      | some (Wait.nack, s1) => some (Wait.nack, s1)
      | some (Wait.ready, s1) => readLoop d fuel b (i + a) s1 := by
  intro a
  induction a with
  | zero => intro b i s; simp [readLoop]
  | succ a ih =>
    intro b i s
    rw [Nat.succ_add, readLoop, readLoop]
    cases h : waitOrNack d ISR_RXNE fuel s with
    | none => rfl
    | some p =>
      obtain ⟨w, s1⟩ := p
      cases w with
      | nack => rfl
      | ready =>
        simp only [ih]
        rw [show i + 1 + a = i + (a + 1) by omega]

/-- A receive loop that ran to its end read RXDR `cnt` times and stored the bytes
read, reduced to `uint8_t`, in the cells `i, i+1, ..` of the buffer, in order;
it wrote no register and left the other cells alone. -/
theorem readLoop_ready (d : Dev σ) (fuel : Nat) :
    ∀ (cnt i : Nat) (s s1 : St σ), readLoop d fuel cnt i s = some (Wait.ready, s1) →
      i + cnt ≤ s.buf.length →
      ∃ evs, s1.log = s.log ++ evs ∧ regWrites evs = [] ∧ txWrites evs = [] ∧
        (rxReads evs).length = cnt ∧
        bufStores evs = List.zip (List.range' i cnt) ((rxReads evs).map (· % 256)) ∧
        s1.buf = s.buf.take i ++ (rxReads evs).map (· % 256) ++ s.buf.drop (i + cnt) := by
  intro cnt
  induction cnt with
  | zero =>
    intro i s s1 h _
    simp only [readLoop, Option.some.injEq, Prod.mk.injEq, true_and] at h
    subst h
    exact ⟨[], by simp⟩
  | succ c ih =>
    intro i s s1 h hlen
    rw [readLoop] at h
    cases hw : waitOrNack d ISR_RXNE fuel s with
    | none => simp [hw] at h
    | some p =>
      obtain ⟨w, s2⟩ := p
      cases w with
      | nack => simp [hw] at h
      | ready =>
        simp only [hw] at h
        obtain ⟨hb2, vs2, v2, hl2, -⟩ := waitOrNack_spec d ISR_RXNE fuel _ _ _ hw
        obtain ⟨evs, hl, h1, h2, h3, h4, h5⟩ := ih _ _ _ h (by simp [storeBuf, hb2]; omega)
        refine ⟨polls (vs2 ++ [v2]) ++
          [Ev.rd Reg.RXDR (rdReg d Reg.RXDR s2).1, Ev.st i ((rdReg d Reg.RXDR s2).1 % 256)] ++ evs,
          ?_, ?_, ?_, ?_, ?_, ?_⟩
        · simp [hl, storeBuf, hl2, polls_snoc]
        · simp [h1]
        · simp [h2]
        · simp [h3]
        · simp [h4, List.range'_succ]
        · rw [h5]
          simp only [storeBuf, rdReg_buf, hb2]
          rw [set_take_snoc _ _ _ _ _ hlen]
          simp

/-- C6 (counterexample): a two-byte read whose second byte is NACKed (scripted
readings: bus free, TXIS, TC, RXNE, no RXNE, NACKF).  `I2C1_BurstRead` returns
right after `ICR |= NACKCF`: no CR2 value with the STOP bit set was ever written
and the last status reading (16: NACKF alone) does not show STOPF. -/
theorem burstRead_data_nack_no_stop :
    (I2C1_BurstRead scriptDev 104 59 2 3 (St.init ⟨[0, 2, 64, 4, 0, 16], [170], 0⟩ [8, 9])).map
      (fun r => (stopWrites r.log, r.log.drop (r.log.length - 3), r.buf)) =
      some ([], [Ev.rd Reg.ISR 16, Ev.rd Reg.ICR 0, Ev.wr Reg.ICR 16], [170, 9]) := by
  decide

/-- C6 (amended): let `1 <= n <= 255` and `k < n`.  If the address phase is ACKed,
the bytes `0 .. k-1` are received, and NACKF is seen while `I2C1_BurstRead` waits
for receive-ready for byte `k`, then the call returns right after `ICR |= NACKCF`,
which directly follows the status reading that showed NACKF: after the phase-2
START no register is written but ICR (no `CR2 |= STOP`; STOP is left to the
AUTOEND hardware), STOPF is neither waited for nor cleared.  RXDR has been read
`k` times, `data[0..k-1]` hold the bytes read and `data[k..]` are unchanged. -/
theorem burstRead_data_nack (d : Dev σ) (saddr maddr fuel n k : Nat) (hw : σ) (buf : List Nat)
    (s1 s2 s3 s4 s5 : St σ) (hn : n ≤ 255) (hk : k < n) (hlen : buf.length = n)
    (hbusy : spinWhile d ISR_BUSY fuel (St.init hw buf) = some s1)
    (htxis : waitOrNack d ISR_TXIS fuel (startAddrPhase d saddr s1) = some (Wait.ready, s2))
    (htc : waitOrNack d ISR_TC fuel (wrReg d Reg.TXDR (maddr % 256) s2) = some (Wait.ready, s3))
    (hdata : readLoop d fuel k 0 (startBurstReadPhase d saddr n s3) = some (Wait.ready, s4))
    (hnack : waitOrNack d ISR_RXNE fuel s4 = some (Wait.nack, s5)) :
    ∃ r, I2C1_BurstRead d saddr maddr (n : Int) fuel (St.init hw buf) = some r ∧
      (rxReads r.log).length = k ∧
      r.buf = (rxReads r.log).map (· % 256) ++ buf.drop k ∧
      txWrites r.log = [maddr % 256] ∧
      ∃ a b c e f a2 b2 c2 e2 f2 x pre v,
        regWrites r.log =
          [(Reg.CR2, 0), (Reg.CR2, a ||| (saddr % 256) <<< 1), (Reg.CR2, b &&& not32 CR2_RD_WRN),
           (Reg.CR2, c ||| 1 <<< CR2_NBYTES_POS), (Reg.CR2, e &&& not32 CR2_AUTOEND),
           (Reg.CR2, f ||| CR2_START), (Reg.TXDR, maddr % 256),
           (Reg.CR2, 0), (Reg.CR2, a2 ||| (saddr % 256) <<< 1), (Reg.CR2, b2 ||| CR2_RD_WRN),
           (Reg.CR2, c2 ||| u32 (n <<< CR2_NBYTES_POS)), (Reg.CR2, e2 ||| CR2_AUTOEND),
           (Reg.CR2, f2 ||| CR2_START), (Reg.ICR, x ||| ICR_NACKCF)] ∧
        r.log = pre ++ [Ev.rd Reg.ISR v, Ev.rd Reg.ICR x, Ev.wr Reg.ICR (x ||| ICR_NACKCF)] ∧
        v &&& ISR_NACKF ≠ 0 := by
  have hn0 : ¬ (n : Int) ≤ 0 := by omega
  have hnb : ((n : Int) % 4294967296).toNat = n := by omega
  have hn255 : ¬ ((n : Int) > 255) := by omega
  obtain ⟨hb1, vs1, v1, hl1, -⟩ := spinWhile_spec d ISR_BUSY fuel _ _ hbusy
  obtain ⟨a, b, c, e, f, hle⟩ := startAddrPhase_log d saddr s1
  obtain ⟨hb2, vs2, v2, hl2, -⟩ := waitOrNack_spec d ISR_TXIS fuel _ _ _ htxis
  obtain ⟨hb3, vs3, v3, hl3, -⟩ := waitOrNack_spec d ISR_TC fuel _ _ _ htc
  obtain ⟨a2, b2, c2, e2, f2, hle2⟩ := startBurstReadPhase_log d saddr n s3
  have hbuf3 : (startBurstReadPhase d saddr n s3).buf = buf := by
    simp [startBurstReadPhase_buf, hb3, hb2, startAddrPhase_buf, hb1, St.init]
  obtain ⟨evs, hl4, hw4, ht4, hr4, -, hb4⟩ :=
    readLoop_ready d fuel k 0 _ _ hdata (by rw [hbuf3]; omega)
  obtain ⟨hb5, vs5, v5, hl5, hv5⟩ := waitOrNack_spec d ISR_RXNE fuel _ _ _ hnack
  have hloop : readLoop d fuel n 0 (startBurstReadPhase d saddr n s3) =
      some (Wait.nack, setBits d Reg.ICR ICR_NACKCF s5) := by
    rw [show n = k + ((n - k - 1) + 1) by omega, readLoop_add]
    rw [show k + (n - k - 1 + 1) = n by omega, hdata]
    simp only [readLoop, hnack]
  refine ⟨setBits d Reg.ICR ICR_NACKCF s5, ?_, ?_, ?_, ?_, a, b, c, e, f, a2, b2, c2, e2, f2,
    (rdReg d Reg.ICR s5).1, s4.log ++ polls vs5, v5, ?_, ?_, by simpa using hv5⟩
  · simp [I2C1_BurstRead, hn0, hbusy, htxis, htc, hn255, hnb, hloop]
  · simp [hl5, hl4, hr4, hle2, hl3, hl2, hle, hl1, St.init, polls_snoc]
  · simp [hb5, hb4, hbuf3, hl5, hl4, hle2, hl3, hl2, hle, hl1, St.init, polls_snoc]
  · simp [hl5, hl4, ht4, hle2, hl3, hl2, hle, hl1, St.init, polls_snoc]
  · simp [hl5, hl4, hw4, hle2, hl3, hl2, hle, hl1, St.init, polls_snoc]
  · simp [hl5]

/-- Witness for the amended C6 on the scripted device: `n = 2`, NACK while
waiting for byte `k = 1`. -/
theorem burstRead_data_nack_witness :
    ∃ r, I2C1_BurstRead scriptDev 104 59 ((2 : Nat) : Int) 3
        (St.init ⟨[0, 2, 64, 4, 0, 16], [170], 0⟩ [8, 9]) = some r ∧
      (rxReads r.log).length = 1 ∧
      r.buf = (rxReads r.log).map (· % 256) ++ [8, 9].drop 1 ∧
      txWrites r.log = [59 % 256] ∧
      ∃ a b c e f a2 b2 c2 e2 f2 x pre v,
        regWrites r.log =
          [(Reg.CR2, 0), (Reg.CR2, a ||| (104 % 256) <<< 1), (Reg.CR2, b &&& not32 CR2_RD_WRN),
           (Reg.CR2, c ||| 1 <<< CR2_NBYTES_POS), (Reg.CR2, e &&& not32 CR2_AUTOEND),
           (Reg.CR2, f ||| CR2_START), (Reg.TXDR, 59 % 256),
           (Reg.CR2, 0), (Reg.CR2, a2 ||| (104 % 256) <<< 1), (Reg.CR2, b2 ||| CR2_RD_WRN),
           (Reg.CR2, c2 ||| u32 (2 <<< CR2_NBYTES_POS)), (Reg.CR2, e2 ||| CR2_AUTOEND),
           (Reg.CR2, f2 ||| CR2_START), (Reg.ICR, x ||| ICR_NACKCF)] ∧
        r.log = pre ++ [Ev.rd Reg.ISR v, Ev.rd Reg.ICR x, Ev.wr Reg.ICR (x ||| ICR_NACKCF)] ∧
        v &&& ISR_NACKF ≠ 0 :=
  burstRead_data_nack scriptDev 104 59 3 2 1 ⟨[0, 2, 64, 4, 0, 16], [170], 0⟩ [8, 9] _ _ _ _ _
    (by decide) (by decide) rfl rfl rfl rfl rfl rfl

/-- The phase-2 programming of `I2C1_ByteRead` leaves the buffer alone. -/
theorem startByteReadPhase_buf (d : Dev σ) (saddr : Nat) (s : St σ) :
    (startByteReadPhase d saddr s).buf = s.buf := rfl

/-- The phase-2 programming of `I2C1_ByteRead`: `CR2 = 0`, four
read-modify-writes of CR2 and the plain write `CR2 = CR2_START`. -/
theorem startByteReadPhase_log (d : Dev σ) (saddr : Nat) (s : St σ) :
    ∃ a b c e, (startByteReadPhase d saddr s).log = s.log ++
      [Ev.wr Reg.CR2 0,
       Ev.rd Reg.CR2 a, Ev.wr Reg.CR2 (a ||| (saddr % 256) <<< 1),
       Ev.rd Reg.CR2 b, Ev.wr Reg.CR2 (b ||| CR2_RD_WRN),
       Ev.rd Reg.CR2 c, Ev.wr Reg.CR2 (c ||| 1 <<< CR2_NBYTES_POS),
       Ev.rd Reg.CR2 e, Ev.wr Reg.CR2 (e ||| CR2_AUTOEND),
       Ev.wr Reg.CR2 CR2_START] := by
  exact ⟨_, _, _, _, by
    simp only [startByteReadPhase, setBits_log, clrBits_log, wrReg_log, List.append_assoc,
      List.cons_append, List.nil_append]
    exact rfl⟩

/-- The NACK handler with explicit STOP reads no data and stores nothing; it
clears NACKF. -/
theorem abortStop_spec (d : Dev σ) (fuel : Nat) (s r : St σ) (h : abortStop d fuel s = some r) :
    r.buf = s.buf ∧ ∃ evs x, r.log = s.log ++ evs ∧ rxReads evs = [] ∧ bufStores evs = [] ∧
      txWrites evs = [] ∧ Ev.wr Reg.ICR (x ||| ICR_NACKCF) ∈ evs := by
  unfold abortStop at h
  cases hs : spinUntil d ISR_STOPF fuel
      (setBits d Reg.CR2 CR2_STOP (setBits d Reg.ICR ICR_NACKCF s)) with
  | none => simp [hs] at h
  | some s1 =>
    simp only [hs, Option.map_some', Option.some.injEq] at h
    subst h
    obtain ⟨hb, vs, v, hl, -⟩ := spinUntil_spec d ISR_STOPF fuel _ _ hs
    refine ⟨by simp [hb],
      [Ev.rd Reg.ICR (rdReg d Reg.ICR s).1, Ev.wr Reg.ICR ((rdReg d Reg.ICR s).1 ||| ICR_NACKCF),
        Ev.rd Reg.CR2 (rdReg d Reg.CR2 (setBits d Reg.ICR ICR_NACKCF s)).1,
        Ev.wr Reg.CR2 ((rdReg d Reg.CR2 (setBits d Reg.ICR ICR_NACKCF s)).1 ||| CR2_STOP)] ++
        polls (vs ++ [v]) ++
        [Ev.rd Reg.ICR (rdReg d Reg.ICR s1).1,
          Ev.wr Reg.ICR ((rdReg d Reg.ICR s1).1 ||| ICR_STOPCF)],
      (rdReg d Reg.ICR s).1, ?_, ?_⟩
    · simp [hl, polls_snoc]
    · simp

/-- C10 (counterexample): two runs of `I2C1_ByteRead` on `*data = 66`.  In the
first the address is NACKed (readings: bus free, no TXIS, NACKF, STOPF); in the
second every phase is ACKed and the byte 66 is received (readings: bus free,
TXIS, TC, RXNE, STOPF).  Both return, and both leave the caller with the same
and only observable result, `*data = 66`. -/
theorem byteRead_nack_like_success :
    (I2C1_ByteRead scriptDev 104 117 2 (St.init ⟨[0, 0, 16, 32], [], 0⟩ [66])).map
      (fun r => (r.buf, rxReads r.log, stopWrites r.log)) = some ([66], [], [90320]) ∧
    (I2C1_ByteRead scriptDev 104 117 2 (St.init ⟨[0, 2, 64, 4, 32], [66], 0⟩ [66])).map
      (fun r => (r.buf, rxReads r.log, stopWrites r.log)) = some ([66], [66], []) := by
  decide

/-- C10 (amended): `I2C1_ByteRead` gives the caller nothing but `*data`.  Every
run that returns is of one of two kinds: an aborted run, which cleared NACKF,
never read RXDR and left `*data` unchanged and unstored; or a successful run,
which read RXDR exactly once and stored that byte, reduced to `uint8_t`, in
`*data`. -/
theorem byteRead_result (d : Dev σ) (saddr maddr fuel : Nat) (hw : σ) (buf : List Nat)
    (r : St σ) (h : I2C1_ByteRead d saddr maddr fuel (St.init hw buf) = some r) :
    (rxReads r.log = [] ∧ bufStores r.log = [] ∧ r.buf = buf ∧
      ∃ x, Ev.wr Reg.ICR (x ||| ICR_NACKCF) ∈ r.log) ∨
    (∃ v, rxReads r.log = [v] ∧ bufStores r.log = [(0, v % 256)] ∧
      r.buf = buf.set 0 (v % 256)) := by
  unfold I2C1_ByteRead at h
  cases h1 : spinWhile d ISR_BUSY fuel (St.init hw buf) with
  | none => simp [h1] at h
  | some s1 =>
    simp only [h1] at h
    obtain ⟨hb1, vs1, v1, hl1, -⟩ := spinWhile_spec d ISR_BUSY fuel _ _ h1
    obtain ⟨a, b, c, e, f, hle⟩ := startAddrPhase_log d saddr s1
    cases h2 : waitOrNack d ISR_TXIS fuel (startAddrPhase d saddr s1) with
    | none => simp [h2] at h
    | some p2 =>
      obtain ⟨w2, s2⟩ := p2
      obtain ⟨hb2, vs2, v2, hl2, -⟩ := waitOrNack_spec d ISR_TXIS fuel _ _ _ h2
      cases w2 with
      | nack =>
        simp only [h2] at h
        obtain ⟨hb, evs, x, hl, hr, hs, -, hx⟩ := abortStop_spec d fuel _ _ h
        left
        refine ⟨?_, ?_, ?_, x, ?_⟩
        · simp [hl, hr, hl2, hle, hl1, St.init, polls_snoc]
        · simp [hl, hs, hl2, hle, hl1, St.init, polls_snoc]
        · simp [hb, hb2, startAddrPhase_buf, hb1, St.init]
        · rw [hl]; exact List.mem_append_right _ hx
      | ready =>
        simp only [h2] at h
        cases h3 : spinUntil d ISR_TC fuel (wrReg d Reg.TXDR (maddr % 256) s2) with
        | none => simp [h3] at h
        | some s3 =>
          simp only [h3] at h
          obtain ⟨hb3, vs3, v3, hl3, -⟩ := spinUntil_spec d ISR_TC fuel _ _ h3
          obtain ⟨a2, b2, c2, e2, hle2⟩ := startByteReadPhase_log d saddr s3
          cases h4 : waitOrNack d ISR_RXNE fuel (startByteReadPhase d saddr s3) with
          | none => simp [h4] at h
          | some p4 =>
            obtain ⟨w4, s4⟩ := p4
            obtain ⟨hb4, vs4, v4, hl4, -⟩ := waitOrNack_spec d ISR_RXNE fuel _ _ _ h4
            cases w4 with
            | nack =>
              simp only [h4] at h
              obtain ⟨hb, evs, x, hl, hr, hs, -, hx⟩ := abortStop_spec d fuel _ _ h
              left
              refine ⟨?_, ?_, ?_, x, ?_⟩
              · simp [hl, hr, hl4, hle2, hl3, hl2, hle, hl1, St.init, polls_snoc]
              · simp [hl, hs, hl4, hle2, hl3, hl2, hle, hl1, St.init, polls_snoc]
              · simp [hb, hb4, startByteReadPhase_buf, hb3, hb2, startAddrPhase_buf, hb1, St.init]
              · rw [hl]; exact List.mem_append_right _ hx
            | ready =>
              simp only [h4] at h
              cases h5 : spinUntil d ISR_STOPF fuel
                  (storeBuf 0 (rdReg d Reg.RXDR s4).1 (rdReg d Reg.RXDR s4).2) with
              | none => simp [h5] at h
              | some s5 =>
                simp only [h5, Option.some.injEq] at h
                subst h
                obtain ⟨hb5, vs5, v5, hl5, -⟩ := spinUntil_spec d ISR_STOPF fuel _ _ h5
                right
                refine ⟨(rdReg d Reg.RXDR s4).1, ?_, ?_, ?_⟩
                · simp [hl5, storeBuf, hl4, hle2, hl3, hl2, hle, hl1, St.init, polls_snoc]
                · simp [hl5, storeBuf, hl4, hle2, hl3, hl2, hle, hl1, St.init, polls_snoc]
                · simp [hb5, storeBuf, hb4, startByteReadPhase_buf, hb3, hb2,
                    startAddrPhase_buf, hb1, St.init]

/-- Witness for the amended C10: the ACKed scripted run that receives 66 into
`*data = 5`. -/
theorem byteRead_result_witness :
    ∃ r, I2C1_ByteRead scriptDev 104 117 2 (St.init ⟨[0, 2, 64, 4, 32], [66], 0⟩ [5]) = some r ∧
      ((rxReads r.log = [] ∧ bufStores r.log = [] ∧ r.buf = [5] ∧
          ∃ x, Ev.wr Reg.ICR (x ||| ICR_NACKCF) ∈ r.log) ∨
        (∃ v, rxReads r.log = [v] ∧ bufStores r.log = [(0, v % 256)] ∧
          r.buf = [5].set 0 (v % 256))) :=
  ⟨_, rfl, byteRead_result scriptDev 104 117 2 ⟨[0, 2, 64, 4, 32], [66], 0⟩ [5] _ rfl⟩

/-! ### The simulated controller -/

theorem isr_bits (b t r c k p : Bool) :
    ((if b then ISR_BUSY else 0) ||| (if t then ISR_TXIS else 0) |||
      (if r then ISR_RXNE else 0) ||| (if c then ISR_TC else 0) |||
      (if k then ISR_NACKF else 0) ||| (if p then ISR_STOPF else 0)) < 4294967296 := by
  revert b t r c k p; decide

theorem Sim.u32_isr (h : Sim) : u32 h.isr = h.isr := by
  unfold u32 Sim.isr
  exact Nat.mod_eq_of_lt (isr_bits _ _ _ _ _ _)

theorem isr_flags (b t r c k p : Bool) :
    let v := ((if b then ISR_BUSY else 0) ||| (if t then ISR_TXIS else 0) |||
      (if r then ISR_RXNE else 0) ||| (if c then ISR_TC else 0) |||
      (if k then ISR_NACKF else 0) ||| (if p then ISR_STOPF else 0))
    (v &&& ISR_BUSY = 0 ↔ b = false) ∧ (v &&& ISR_TXIS = 0 ↔ t = false) ∧
    (v &&& ISR_RXNE = 0 ↔ r = false) ∧ (v &&& ISR_TC = 0 ↔ c = false) ∧
    (v &&& ISR_NACKF = 0 ↔ k = false) ∧ (v &&& ISR_STOPF = 0 ↔ p = false) := by
  revert b t r c k p; decide

@[simp] theorem Sim.isr_busy (h : Sim) : (h.isr &&& ISR_BUSY = 0) ↔ h.busy = false :=
  (isr_flags h.busy h.txis h.rxne h.tc h.nackf h.stopf).1
@[simp] theorem Sim.isr_txis (h : Sim) : (h.isr &&& ISR_TXIS = 0) ↔ h.txis = false :=
  (isr_flags h.busy h.txis h.rxne h.tc h.nackf h.stopf).2.1
@[simp] theorem Sim.isr_rxne (h : Sim) : (h.isr &&& ISR_RXNE = 0) ↔ h.rxne = false :=
  (isr_flags h.busy h.txis h.rxne h.tc h.nackf h.stopf).2.2.1
@[simp] theorem Sim.isr_tc (h : Sim) : (h.isr &&& ISR_TC = 0) ↔ h.tc = false :=
  (isr_flags h.busy h.txis h.rxne h.tc h.nackf h.stopf).2.2.2.1
@[simp] theorem Sim.isr_nackf (h : Sim) : (h.isr &&& ISR_NACKF = 0) ↔ h.nackf = false :=
  (isr_flags h.busy h.txis h.rxne h.tc h.nackf h.stopf).2.2.2.2.1
@[simp] theorem Sim.isr_stopf (h : Sim) : (h.isr &&& ISR_STOPF = 0) ↔ h.stopf = false :=
  (isr_flags h.busy h.txis h.rxne h.tc h.nackf h.stopf).2.2.2.2.2

@[simp] theorem sim_rdISR_val (s : St Sim) : (rdReg simDev Reg.ISR s).1 = s.hw.isr := by
  simp [rdReg, simDev, Sim.read, Sim.u32_isr]

@[simp] theorem sim_rdISR_hw (s : St Sim) : (rdReg simDev Reg.ISR s).2.hw = s.hw := rfl


theorem shiftRight_or (a b k : Nat) : (a ||| b) >>> k = a >>> k ||| b >>> k := by
  apply Nat.eq_of_testBit_eq
  intro i
  simp [Nat.testBit_shiftRight]

/-- Bits of the SADD field of a 7-bit address. -/
theorem sadd_part : ∀ sa, sa < 128 →
    ((sa % 256) <<< 1) &&& CR2_START = 0 ∧ ((sa % 256) <<< 1) &&& CR2_STOP = 0 ∧
    ((sa % 256) <<< 1) &&& CR2_RD_WRN = 0 ∧ ((sa % 256) <<< 1) &&& CR2_AUTOEND = 0 ∧
    ((sa % 256) <<< 1) >>> 16 &&& 255 = 0 ∧ ((sa % 256) <<< 1) >>> 1 &&& 127 = sa ∧
    ((sa % 256) <<< 1) &&& not32 CR2_RD_WRN = (sa % 256) <<< 1 := by
  decide

set_option maxRecDepth 100000 in
/-- Bits of the NBYTES field of a byte count below 256. -/
theorem nbytes_part : ∀ nb, nb < 256 →
    u32 (nb <<< CR2_NBYTES_POS) &&& CR2_START = 0 ∧ u32 (nb <<< CR2_NBYTES_POS) &&& CR2_STOP = 0 ∧
    u32 (nb <<< CR2_NBYTES_POS) &&& CR2_RD_WRN = 0 ∧
    u32 (nb <<< CR2_NBYTES_POS) &&& CR2_AUTOEND = 0 ∧
    u32 (nb <<< CR2_NBYTES_POS) >>> 16 &&& 255 = nb ∧
    u32 (nb <<< CR2_NBYTES_POS) >>> 1 &&& 127 = 0 := by
  decide

/-- Bits of the single-bit fields. -/
theorem const_part :
    CR2_RD_WRN >>> 16 &&& 255 = 0 ∧ CR2_AUTOEND >>> 16 &&& 255 = 0 ∧ CR2_START >>> 16 &&& 255 = 0 ∧
    CR2_RD_WRN >>> 1 &&& 127 = 0 ∧ CR2_AUTOEND >>> 1 &&& 127 = 0 ∧ CR2_START >>> 1 &&& 127 = 0 ∧
    CR2_RD_WRN &&& CR2_START = 0 ∧ CR2_AUTOEND &&& CR2_START = 0 ∧
    CR2_START &&& CR2_START = CR2_START ∧
    CR2_RD_WRN &&& CR2_STOP = 0 ∧ CR2_AUTOEND &&& CR2_STOP = 0 ∧
    CR2_RD_WRN &&& CR2_AUTOEND = 0 ∧ CR2_AUTOEND &&& CR2_AUTOEND = CR2_AUTOEND ∧
    CR2_START &&& CR2_AUTOEND = 0 ∧
    (CR2_RD_WRN &&& CR2_RD_WRN = CR2_RD_WRN ∧ CR2_AUTOEND &&& CR2_RD_WRN = 0 ∧
      CR2_START &&& CR2_RD_WRN = 0 ∧ CR2_START ≠ 0 ∧ CR2_AUTOEND ≠ 0 ∧ CR2_RD_WRN ≠ 0) := by
  decide

theorem u32_u32 (x : Nat) : u32 (u32 x) = u32 x := by
  simp [u32]

theorem u32_or (a b : Nat) (ha : u32 a = a) (hb : u32 b = b) : u32 (a ||| b) = a ||| b := by
  unfold u32 at *
  have h1 : a < 2 ^ 32 := by omega
  have h2 : b < 2 ^ 32 := by omega
  have := Nat.or_lt_two_pow h1 h2
  omega

/-- Control words of the read-phase programming of `I2C1_BurstRead` for a 7-bit
address and a byte count below 256. -/
theorem cr2_read_facts (sa nb : Nat) (hsa : sa < 128) (hnb : nb < 256) :
    (((sa % 256) <<< 1 ||| CR2_RD_WRN ||| u32 (nb <<< CR2_NBYTES_POS) ||| CR2_AUTOEND ||| CR2_START) >>> 16 &&& 255 = nb) ∧
    (((sa % 256) <<< 1 ||| CR2_RD_WRN ||| u32 (nb <<< CR2_NBYTES_POS) ||| CR2_AUTOEND ||| CR2_START) >>> 1 &&& 127 = sa) ∧
    (((sa % 256) <<< 1 ||| CR2_RD_WRN ||| u32 (nb <<< CR2_NBYTES_POS) ||| CR2_AUTOEND ||| CR2_START) &&& CR2_START ≠ 0) ∧
    (((sa % 256) <<< 1 ||| CR2_RD_WRN ||| u32 (nb <<< CR2_NBYTES_POS) ||| CR2_AUTOEND ||| CR2_START) &&& CR2_AUTOEND ≠ 0) ∧
    (((sa % 256) <<< 1 ||| CR2_RD_WRN ||| u32 (nb <<< CR2_NBYTES_POS) ||| CR2_AUTOEND ||| CR2_START) &&& CR2_RD_WRN ≠ 0) ∧
    (((sa % 256) <<< 1 ||| CR2_RD_WRN ||| u32 (nb <<< CR2_NBYTES_POS) ||| CR2_AUTOEND) &&& CR2_START = 0) ∧
    (((sa % 256) <<< 1 ||| CR2_RD_WRN ||| u32 (nb <<< CR2_NBYTES_POS) ||| CR2_AUTOEND) &&& CR2_STOP = 0) ∧
    (((sa % 256) <<< 1 ||| CR2_RD_WRN ||| u32 (nb <<< CR2_NBYTES_POS)) &&& CR2_START = 0) ∧
    (((sa % 256) <<< 1 ||| CR2_RD_WRN ||| u32 (nb <<< CR2_NBYTES_POS)) &&& CR2_STOP = 0) ∧
    (((sa % 256) <<< 1 ||| CR2_RD_WRN) &&& CR2_START = 0) ∧
    (((sa % 256) <<< 1 ||| CR2_RD_WRN) &&& CR2_STOP = 0) := by
  obtain ⟨s1, s2, s3, s4, s5, s6, -⟩ := sadd_part sa hsa
  obtain ⟨n1, n2, n3, n4, n5, n6⟩ := nbytes_part nb hnb
  obtain ⟨c1, c2, c3, c4, c5, c6, c7, c8, c9, c10, c11, c12, c13, c14, c15⟩ := const_part
  simp only [or_and_mask, shiftRight_or, s1, s2, s3, s4, s5, s6, n1, n2, n3, n4, n5, n6,
    c1, c2, c3, c4, c5, c6, c7, c8, c9, c10, c11, c12, c13, c14, c15]
  simp
  decide

/-- Control words of the programming of `I2C1_BurstWrite` for a 7-bit address
and a byte count below 256. -/
theorem cr2_write_facts (sa nb : Nat) (hsa : sa < 128) (hnb : nb < 256) :
    (((sa % 256) <<< 1 ||| u32 (nb <<< CR2_NBYTES_POS) ||| CR2_AUTOEND ||| CR2_START) >>> 16 &&& 255 = nb) ∧
    (((sa % 256) <<< 1 ||| u32 (nb <<< CR2_NBYTES_POS) ||| CR2_AUTOEND ||| CR2_START) >>> 1 &&& 127 = sa) ∧
    (((sa % 256) <<< 1 ||| u32 (nb <<< CR2_NBYTES_POS) ||| CR2_AUTOEND ||| CR2_START) &&& CR2_START ≠ 0) ∧
    (((sa % 256) <<< 1 ||| u32 (nb <<< CR2_NBYTES_POS) ||| CR2_AUTOEND ||| CR2_START) &&& CR2_AUTOEND ≠ 0) ∧
    (((sa % 256) <<< 1 ||| u32 (nb <<< CR2_NBYTES_POS) ||| CR2_AUTOEND ||| CR2_START) &&& CR2_RD_WRN = 0) ∧
    (((sa % 256) <<< 1 ||| u32 (nb <<< CR2_NBYTES_POS) ||| CR2_AUTOEND) &&& CR2_START = 0) ∧
    (((sa % 256) <<< 1 ||| u32 (nb <<< CR2_NBYTES_POS) ||| CR2_AUTOEND) &&& CR2_STOP = 0) ∧
    (((sa % 256) <<< 1 ||| u32 (nb <<< CR2_NBYTES_POS)) &&& CR2_START = 0) ∧
    (((sa % 256) <<< 1 ||| u32 (nb <<< CR2_NBYTES_POS)) &&& CR2_STOP = 0) := by
  obtain ⟨s1, s2, s3, s4, s5, s6, -⟩ := sadd_part sa hsa
  obtain ⟨n1, n2, n3, n4, n5, n6⟩ := nbytes_part nb hnb
  obtain ⟨c1, c2, c3, c4, c5, c6, c7, c8, c9, c10, c11, c12, c13, c14, c15⟩ := const_part
  simp only [or_and_mask, shiftRight_or, s1, s2, s3, s4, s5, s6, n1, n2, n3, n4, n5, n6,
    c1, c2, c3, c4, c5, c6, c7, c8, c9, c10, c11, c12, c13, c14, c15]
  simp
  decide

/-- The control words stay within 32 bits. -/
theorem u32_words (sa nb : Nat) (hsa : sa < 128) :
    u32 0 ||| (sa % 256) <<< 1 = (sa % 256) <<< 1 ∧
    u32 ((sa % 256) <<< 1) = (sa % 256) <<< 1 ∧
    u32 ((sa % 256) <<< 1 ||| CR2_RD_WRN) = (sa % 256) <<< 1 ||| CR2_RD_WRN ∧
    u32 ((sa % 256) <<< 1 ||| CR2_RD_WRN ||| u32 (nb <<< CR2_NBYTES_POS)) =
      (sa % 256) <<< 1 ||| CR2_RD_WRN ||| u32 (nb <<< CR2_NBYTES_POS) ∧
    u32 ((sa % 256) <<< 1 ||| CR2_RD_WRN ||| u32 (nb <<< CR2_NBYTES_POS) ||| CR2_AUTOEND) =
      (sa % 256) <<< 1 ||| CR2_RD_WRN ||| u32 (nb <<< CR2_NBYTES_POS) ||| CR2_AUTOEND ∧
    u32 ((sa % 256) <<< 1 ||| u32 (nb <<< CR2_NBYTES_POS)) =
      (sa % 256) <<< 1 ||| u32 (nb <<< CR2_NBYTES_POS) ∧
    u32 ((sa % 256) <<< 1 ||| u32 (nb <<< CR2_NBYTES_POS) ||| CR2_AUTOEND) =
      (sa % 256) <<< 1 ||| u32 (nb <<< CR2_NBYTES_POS) ||| CR2_AUTOEND := by
  have hS : u32 ((sa % 256) <<< 1) = (sa % 256) <<< 1 := by
    have : ∀ sa, sa < 128 → u32 ((sa % 256) <<< 1) = (sa % 256) <<< 1 := by decide
    exact this sa hsa
  have hR : u32 CR2_RD_WRN = CR2_RD_WRN := by decide
  have hA : u32 CR2_AUTOEND = CR2_AUTOEND := by decide
  have hN := u32_u32 (nb <<< CR2_NBYTES_POS)
  have h0 : u32 0 = 0 := by decide
  refine ⟨by rw [h0, Nat.zero_or], hS, ?_, ?_, ?_, ?_, ?_⟩
  · exact u32_or _ _ hS hR
  · exact u32_or _ _ (u32_or _ _ hS hR) hN
  · exact u32_or _ _ (u32_or _ _ (u32_or _ _ hS hR) hN) hA
  · exact u32_or _ _ hS hN
  · exact u32_or _ _ (u32_or _ _ hS hN) hA

@[simp] theorem wrReg_hw {σ : Type} (d : Dev σ) (r : Reg) (v : Nat) (s : St σ) :
    (wrReg d r v s).hw = d.wr r v s.hw := rfl

@[simp] theorem setBits_hw {σ : Type} (d : Dev σ) (r : Reg) (m : Nat) (s : St σ) :
    (setBits d r m s).hw = d.wr r (u32 (d.rd r s.hw).1 ||| m) (d.rd r s.hw).2 := rfl

@[simp] theorem clrBits_hw {σ : Type} (d : Dev σ) (r : Reg) (m : Nat) (s : St σ) :
    (clrBits d r m s).hw = d.wr r (u32 (d.rd r s.hw).1 &&& not32 m) (d.rd r s.hw).2 := rfl

theorem Sim.write_cr2_plain (h : Sim) (v : Nat) (h1 : v &&& CR2_START = 0)
    (h2 : v &&& CR2_STOP = 0) : Sim.write Reg.CR2 v h = { h with cr2 := v } := by
  simp [Sim.write, h1, h2]

theorem Sim.write_cr2_start (h : Sim) (v : Nat) (h1 : v &&& CR2_START ≠ 0) :
    Sim.write Reg.CR2 v h =
      Sim.start { h with cr2 := v &&& not32 (CR2_START ||| CR2_STOP) } v := by
  simp [Sim.write, h1]

/-- Control words of the phase-1 programming for a 7-bit address. -/
theorem addr_words : ∀ sa, sa < 128 →
    (u32 0 ||| (sa % 256) <<< 1 = sa <<< 1) ∧
    ((sa <<< 1) &&& CR2_START = 0 ∧ (sa <<< 1) &&& CR2_STOP = 0) ∧
    (u32 (sa <<< 1) &&& not32 CR2_RD_WRN = sa <<< 1) ∧
    (u32 (sa <<< 1) ||| 1 <<< CR2_NBYTES_POS = sa <<< 1 ||| 65536) ∧
    ((sa <<< 1 ||| 65536) &&& CR2_START = 0 ∧ (sa <<< 1 ||| 65536) &&& CR2_STOP = 0) ∧
    (u32 (sa <<< 1 ||| 65536) &&& not32 CR2_AUTOEND = sa <<< 1 ||| 65536) ∧
    (u32 (sa <<< 1 ||| 65536) ||| CR2_START = sa <<< 1 ||| 73728) ∧
    ((sa <<< 1 ||| 73728) &&& CR2_START ≠ 0) ∧
    ((sa <<< 1 ||| 73728) >>> 1 &&& 127 = sa) ∧
    ((sa <<< 1 ||| 73728) >>> 16 &&& 255 = 1) ∧
    ((sa <<< 1 ||| 73728) &&& CR2_RD_WRN = 0) ∧
    ((sa <<< 1 ||| 73728) &&& CR2_AUTOEND = 0) ∧
    ((sa <<< 1 ||| 73728) &&& not32 (CR2_START ||| CR2_STOP) = sa <<< 1 ||| 65536) := by
  decide

/-- The phase-1 programming on the simulated controller, the slave answering at
`sa`: the controller is busy, TXIS is raised and one byte, the register pointer,
is awaited. -/
theorem sim_startAddrPhase (sa : Nat) (s : St Sim) (hsa : sa < 128) (hsl : s.hw.slaveAddr = sa) :
    (startAddrPhase simDev sa s).hw =
      { s.hw with cr2 := sa <<< 1 ||| 65536, busy := true, tc := false, txis := true,
                  rxne := false, reading := false, autoend := false, remaining := 1,
                  expectPtr := true } := by
  obtain ⟨w1, ⟨w2, w3⟩, w4, w5, ⟨w6, w7⟩, w8, w9, w10, w11, w12, w13, w14, w15⟩ := addr_words sa hsa
  have e0 : (wrReg simDev Reg.CR2 0 s).hw = { s.hw with cr2 := 0 } := by
    simp [simDev, Sim.write]
  have e1 : (setBits simDev Reg.CR2 ((sa % 256) <<< 1) (wrReg simDev Reg.CR2 0 s)).hw =
      { s.hw with cr2 := sa <<< 1 } := by
    rw [setBits_hw, e0]
    simp only [simDev, Sim.read, w1]
    rw [Sim.write_cr2_plain _ _ w2 w3]
  have e2 : (clrBits simDev Reg.CR2 CR2_RD_WRN
      (setBits simDev Reg.CR2 ((sa % 256) <<< 1) (wrReg simDev Reg.CR2 0 s))).hw =
      { s.hw with cr2 := sa <<< 1 } := by
    rw [clrBits_hw, e1]
    simp only [simDev, Sim.read, w4]
    rw [Sim.write_cr2_plain _ _ w2 w3]
  have e3 : (setBits simDev Reg.CR2 (1 <<< CR2_NBYTES_POS) (clrBits simDev Reg.CR2 CR2_RD_WRN
      (setBits simDev Reg.CR2 ((sa % 256) <<< 1) (wrReg simDev Reg.CR2 0 s)))).hw =
      { s.hw with cr2 := sa <<< 1 ||| 65536 } := by
    rw [setBits_hw, e2]
    simp only [simDev, Sim.read, w5]
    rw [Sim.write_cr2_plain _ _ w6 w7]
  have e4 : (clrBits simDev Reg.CR2 CR2_AUTOEND (setBits simDev Reg.CR2 (1 <<< CR2_NBYTES_POS)
      (clrBits simDev Reg.CR2 CR2_RD_WRN
      (setBits simDev Reg.CR2 ((sa % 256) <<< 1) (wrReg simDev Reg.CR2 0 s))))).hw =
      { s.hw with cr2 := sa <<< 1 ||| 65536 } := by
    rw [clrBits_hw, e3]
    simp only [simDev, Sim.read, w8]
    rw [Sim.write_cr2_plain _ _ w6 w7]
  unfold startAddrPhase
  rw [setBits_hw, e4]
  simp only [simDev, Sim.read, w9]
  rw [Sim.write_cr2_start _ _ w10]
  simp [Sim.start, w11, w12, w13, w14, w15, hsl]

/-- The read-phase programming of `I2C1_BurstRead` on the simulated controller,
the slave answering at `sa`: a read transfer of `nb` bytes under AUTOEND is
started and the slave sends its first byte. -/
theorem sim_startBurstReadPhase (sa nb : Nat) (s : St Sim) (hsa : sa < 128) (hnb : nb < 256)
    (hnb0 : nb ≠ 0) (hsl : s.hw.slaveAddr = sa) :
    ∃ c, (startBurstReadPhase simDev sa nb s).hw =
      Sim.recvByte { s.hw with cr2 := c, busy := true, tc := false, txis := false,
                               rxne := false, reading := true, autoend := true,
                               remaining := nb } := by
  obtain ⟨f1, f2, f3, f4, f5, f6, f7, f8, f9, f10, f11⟩ := cr2_read_facts sa nb hsa hnb
  obtain ⟨s1, s2, -, -, -, -, -⟩ := sadd_part sa hsa
  obtain ⟨u1, u2, u3, u4, u5, -, -⟩ := u32_words sa nb hsa
  have e0 : (wrReg simDev Reg.CR2 0 s).hw = { s.hw with cr2 := 0 } := by
    simp [simDev, Sim.write]
  have e1 : (setBits simDev Reg.CR2 ((sa % 256) <<< 1) (wrReg simDev Reg.CR2 0 s)).hw =
      { s.hw with cr2 := (sa % 256) <<< 1 } := by
    rw [setBits_hw, e0]
    simp only [simDev, Sim.read, u1]
    rw [Sim.write_cr2_plain _ _ s1 s2]
  have e2 : (setBits simDev Reg.CR2 CR2_RD_WRN
      (setBits simDev Reg.CR2 ((sa % 256) <<< 1) (wrReg simDev Reg.CR2 0 s))).hw =
      { s.hw with cr2 := (sa % 256) <<< 1 ||| CR2_RD_WRN } := by
    rw [setBits_hw, e1]
    simp only [simDev, Sim.read, u2]
    rw [Sim.write_cr2_plain _ _ f10 f11]
  have e3 : (setBits simDev Reg.CR2 (u32 (nb <<< CR2_NBYTES_POS)) (setBits simDev Reg.CR2 CR2_RD_WRN
      (setBits simDev Reg.CR2 ((sa % 256) <<< 1) (wrReg simDev Reg.CR2 0 s)))).hw =
      { s.hw with cr2 := (sa % 256) <<< 1 ||| CR2_RD_WRN ||| u32 (nb <<< CR2_NBYTES_POS) } := by
    rw [setBits_hw, e2]
    simp only [simDev, Sim.read, u3]
    rw [Sim.write_cr2_plain _ _ f8 f9]
  have e4 : (setBits simDev Reg.CR2 CR2_AUTOEND
      (setBits simDev Reg.CR2 (u32 (nb <<< CR2_NBYTES_POS)) (setBits simDev Reg.CR2 CR2_RD_WRN
      (setBits simDev Reg.CR2 ((sa % 256) <<< 1) (wrReg simDev Reg.CR2 0 s))))).hw =
      { s.hw with cr2 := (sa % 256) <<< 1 ||| CR2_RD_WRN ||| u32 (nb <<< CR2_NBYTES_POS) |||
          CR2_AUTOEND } := by
    rw [setBits_hw, e3]
    simp only [simDev, Sim.read, u4]
    rw [Sim.write_cr2_plain _ _ f6 f7]
  refine ⟨((sa % 256) <<< 1 ||| CR2_RD_WRN ||| u32 (nb <<< CR2_NBYTES_POS) ||| CR2_AUTOEND |||
    CR2_START) &&& not32 (CR2_START ||| CR2_STOP), ?_⟩
  unfold startBurstReadPhase
  rw [setBits_hw, e4]
  simp only [simDev, Sim.read, u5]
  rw [Sim.write_cr2_start _ _ f3]
  simp only [Sim.start, f1, f2, hsl]
  simp [hnb0, f5, f4]

@[simp] theorem St.init_log {σ : Type} (hw : σ) (buf : List Nat) : (St.init hw buf).log = [] := rfl

@[simp] theorem St.init_buf {σ : Type} (hw : σ) (buf : List Nat) : (St.init hw buf).buf = buf := rfl

@[simp] theorem St.init_hw {σ : Type} (hw : σ) (buf : List Nat) : (St.init hw buf).hw = hw := rfl

theorem spinWhile_now {σ : Type} (d : Dev σ) (flag f : Nat) (s : St σ)
    (h : (rdReg d Reg.ISR s).1 &&& flag = 0) :
    spinWhile d flag (f + 1) s = some (rdReg d Reg.ISR s).2 := by
  simp [spinWhile, h]

theorem waitOrNack_now {σ : Type} (d : Dev σ) (flag f : Nat) (s : St σ)
    (h : (rdReg d Reg.ISR s).1 &&& flag ≠ 0) :
    waitOrNack d flag (f + 1) s = some (Wait.ready, (rdReg d Reg.ISR s).2) := by
  simp [waitOrNack, h]

theorem waitStopClearNack_now {σ : Type} (d : Dev σ) (f : Nat) (s : St σ)
    (h : (rdReg d Reg.ISR s).1 &&& ISR_STOPF ≠ 0) :
    waitStopClearNack d (f + 1) s = some (rdReg d Reg.ISR s).2 := by
  simp [waitStopClearNack, h]

theorem u32_mod_256 (x : Nat) : u32 x % 256 = x % 256 := by
  unfold u32; omega

theorem range_succ_map (n : Nat) (g : Nat → Nat) :
    (List.range (n + 1)).map g = g 0 :: (List.range n).map (fun j => g (j + 1)) := by
  rw [List.range_succ_eq_map]
  simp [List.map_map, Function.comp_def]

/-- The receive loop on the simulated controller: with a byte latched, `rem`
more to come and the slave pointer one past register `p`, the loop stores the
registers `p, p+1, ..` and leaves the controller with STOPF raised and the bus
released. -/
theorem sim_readLoop (fuel : Nat) : ∀ (rem i p : Nat) (s : St Sim),
    s.hw.rxne = true → s.hw.reading = true → s.hw.autoend = true → s.hw.nackf = false →
    s.hw.txis = false → s.hw.tc = false →
    s.hw.remaining = rem → s.hw.rxdr = s.hw.regs (p % 256) → s.hw.ptr = (p + 1) % 256 →
    (rem = 0 → s.hw.busy = false ∧ s.hw.stopf = true) →
    (0 < rem → s.hw.busy = true ∧ s.hw.stopf = false) →
    i + (rem + 1) ≤ s.buf.length →
    ∃ s1, readLoop simDev (fuel + 1) (rem + 1) i s = some (Wait.ready, s1) ∧
      s1.hw.regs = s.hw.regs ∧ s1.hw.slaveAddr = s.hw.slaveAddr ∧
      s1.hw.busy = false ∧ s1.hw.stopf = true ∧ s1.hw.rxne = false ∧ s1.hw.txis = false ∧
      s1.hw.tc = false ∧ s1.hw.nackf = false ∧
      s1.buf = s.buf.take i ++
        (List.range (rem + 1)).map (fun j => s.hw.regs ((p + j) % 256) % 256) ++
        s.buf.drop (i + (rem + 1)) := by
  intro rem
  induction rem with
  | zero =>
    intro i p s hrx hrd hae hnk htx htc hrem hdr hptr h0 _ hlen
    obtain ⟨hbusy, hstop⟩ := h0 rfl
    have hw1 : waitOrNack simDev ISR_RXNE (fuel + 1) s =
        some (Wait.ready, (rdReg simDev Reg.ISR s).2) :=
      waitOrNack_now _ _ _ _ (by simp [hrx])
    rw [readLoop, hw1]
    simp only [readLoop]
    refine ⟨_, rfl, ?_⟩
    simp [storeBuf, rdReg, simDev, Sim.read, hrx, hbusy, hstop, htx, htc, hnk, hdr, u32_mod_256]
    have := set_take_snoc s.buf i 0 (s.hw.regs (p % 256) % 256) [] (by omega)
    simpa using this
  | succ k ih =>
    intro i p s hrx hrd hae hnk htx htc hrem hdr hptr _ h1 hlen
    obtain ⟨hbusy, hstop⟩ := h1 (by omega)
    have hw1 : waitOrNack simDev ISR_RXNE (fuel + 1) s =
        some (Wait.ready, (rdReg simDev Reg.ISR s).2) :=
      waitOrNack_now _ _ _ _ (by simp [hrx])
    rw [readLoop, hw1]
    simp only []
    have hS : (storeBuf i (rdReg simDev Reg.RXDR (rdReg simDev Reg.ISR s).2).1
        (rdReg simDev Reg.RXDR (rdReg simDev Reg.ISR s).2).2).hw =
        Sim.recvByte { s.hw with rxne := false } := by
      simp [storeBuf, rdReg, simDev, Sim.read, hrx, hrd, hbusy, hrem]
    have hB : (storeBuf i (rdReg simDev Reg.RXDR (rdReg simDev Reg.ISR s).2).1
        (rdReg simDev Reg.RXDR (rdReg simDev Reg.ISR s).2).2).buf =
        s.buf.set i (s.hw.regs (p % 256) % 256) := by
      simp [storeBuf, rdReg, simDev, Sim.read, hdr, u32_mod_256]
    have hp1 : (p + 1) % 256 % 256 = (p + 1) % 256 := Nat.mod_mod _ _
    have hp2 : ((p + 1) % 256 + 1) % 256 = (p + 1 + 1) % 256 := by omega
    obtain ⟨s1, hrun, e1, e2, e3, e4, e5, e6, e7, e8, e9⟩ := ih (i + 1) (p + 1) _
      (by rw [hS]; by_cases hk : k = 0 <;> simp [Sim.recvByte, Sim.finish, hrem, hk, hae])
      (by rw [hS]; by_cases hk : k = 0 <;> simp [Sim.recvByte, Sim.finish, hrem, hk, hae, hrd])
      (by rw [hS]; by_cases hk : k = 0 <;> simp [Sim.recvByte, Sim.finish, hrem, hk, hae])
      (by rw [hS]; by_cases hk : k = 0 <;> simp [Sim.recvByte, Sim.finish, hrem, hk, hae, hnk])
      (by rw [hS]; by_cases hk : k = 0 <;> simp [Sim.recvByte, Sim.finish, hrem, hk, hae, htx])
      (by rw [hS]; by_cases hk : k = 0 <;> simp [Sim.recvByte, Sim.finish, hrem, hk, hae, htc])
      (by rw [hS]; by_cases hk : k = 0 <;> simp [Sim.recvByte, Sim.finish, hrem, hk, hae])
      (by rw [hS]; by_cases hk : k = 0 <;> simp [Sim.recvByte, Sim.finish, hrem, hk, hae, hptr, hp1])
      (by rw [hS]; by_cases hk : k = 0 <;> simp [Sim.recvByte, Sim.finish, hrem, hk, hae, hptr, hp2])
      (by intro hk; rw [hS]; simp [Sim.recvByte, Sim.finish, hrem, hk, hae])
      (by intro hk; rw [hS]; have hk0 : k ≠ 0 := by omega
          simp [Sim.recvByte, Sim.finish, hrem, hk0, hae, hbusy, hstop])
      (by rw [hB]; simp; omega)
    refine ⟨s1, hrun, ?_, ?_, e3, e4, e5, e6, e7, e8, ?_⟩
    · rw [e1, hS]; by_cases hk : k = 0 <;> simp [Sim.recvByte, Sim.finish, hrem, hk, hae]
    · rw [e2, hS]; by_cases hk : k = 0 <;> simp [Sim.recvByte, Sim.finish, hrem, hk, hae]
    · rw [e9, hB]
      have hregs : (storeBuf i (rdReg simDev Reg.RXDR (rdReg simDev Reg.ISR s).2).1
          (rdReg simDev Reg.RXDR (rdReg simDev Reg.ISR s).2).2).hw.regs = s.hw.regs := by
        rw [hS]; by_cases hk : k = 0 <;> simp [Sim.recvByte, Sim.finish, hrem, hk, hae]
      rw [hregs, range_succ_map (k + 1)]
      have := set_take_snoc s.buf i (k + 1) (s.hw.regs (p % 256) % 256)
        ((List.range (k + 1)).map (fun j => s.hw.regs ((p + 1 + j) % 256) % 256)) (by omega)
      simp only [Nat.add_zero]
      rw [this]
      simp [Nat.add_assoc, Nat.add_comm 1]

/-- The address phase on the simulated controller, from programming to
transfer-complete: the slave pointer is set to `maddr` and TC is raised. -/
theorem sim_addrPhase (sa maddr fuel : Nat) (s : St Sim) (hsa : sa < 128)
    (hsl : s.hw.slaveAddr = sa) :
    ∃ s2 s3, waitOrNack simDev ISR_TXIS (fuel + 1) (startAddrPhase simDev sa s) =
        some (Wait.ready, s2) ∧
      waitOrNack simDev ISR_TC (fuel + 1) (wrReg simDev Reg.TXDR (maddr % 256) s2) =
        some (Wait.ready, s3) ∧
      s3.buf = s.buf ∧
      s3.hw = { s.hw with cr2 := sa <<< 1 ||| 65536, busy := true, tc := true, txis := false,
                          rxne := false, reading := false, autoend := false, remaining := 0,
                          expectPtr := false, ptr := maddr % 256 } := by
  have hA := sim_startAddrPhase sa s hsa hsl
  have h2 : waitOrNack simDev ISR_TXIS (fuel + 1) (startAddrPhase simDev sa s) =
      some (Wait.ready, (rdReg simDev Reg.ISR (startAddrPhase simDev sa s)).2) :=
    waitOrNack_now _ _ _ _ (by simp [hA])
  have hT : (wrReg simDev Reg.TXDR (maddr % 256)
      (rdReg simDev Reg.ISR (startAddrPhase simDev sa s)).2).hw =
      { s.hw with cr2 := sa <<< 1 ||| 65536, busy := true, tc := true, txis := false,
                  rxne := false, reading := false, autoend := false, remaining := 0,
                  expectPtr := false, ptr := maddr % 256 } := by
    rw [wrReg_hw, sim_rdISR_hw, hA]
    simp [simDev, Sim.write, Sim.xmit, Sim.finish]
  have h3 : waitOrNack simDev ISR_TC (fuel + 1) (wrReg simDev Reg.TXDR (maddr % 256)
      (rdReg simDev Reg.ISR (startAddrPhase simDev sa s)).2) =
      some (Wait.ready, (rdReg simDev Reg.ISR (wrReg simDev Reg.TXDR (maddr % 256)
        (rdReg simDev Reg.ISR (startAddrPhase simDev sa s)).2)).2) :=
    waitOrNack_now _ _ _ _ (by simp only [sim_rdISR_val, hT]; simp)
  refine ⟨_, _, h2, h3, ?_, ?_⟩
  · simp [startAddrPhase_buf]
  · rw [sim_rdISR_hw, hT]

/-- Clearing STOPF on the simulated controller. -/
theorem sim_clear_stop (s : St Sim) :
    (setBits simDev Reg.ICR ICR_STOPCF s).hw = { s.hw with stopf := false } := by
  have h1 : (u32 0 ||| ICR_STOPCF) &&& ICR_NACKCF = 0 := by decide
  have h2 : (u32 0 ||| ICR_STOPCF) &&& ICR_STOPCF ≠ 0 := by decide
  rw [setBits_hw]
  simp only [simDev, Sim.read, Sim.write, h1, h2]
  simp

/-- Core of C1 and C2: a burst read of `n` bytes on the simulated controller. -/
theorem sim_burstRead (sa maddr n fuel : Nat) (h : Sim) (buf : List Nat)
    (hsa : sa < 128) (hn1 : 1 ≤ n) (hn : n ≤ 255) (hq : h.quiet) (hsl : h.slaveAddr = sa)
    (hlen : buf.length = n) :
    ∃ r, I2C1_BurstRead simDev sa maddr (n : Int) (fuel + 1) (St.init h buf) = some r ∧
      r.buf = (List.range n).map (fun i => h.regs ((maddr + i) % 256) % 256) ∧
      r.hw.quiet ∧ r.hw.regs = h.regs ∧ r.hw.slaveAddr = h.slaveAddr ∧
      (rxReads r.log).length = n ∧ (bufStores r.log).map Prod.fst = List.range' 0 n := by
  obtain ⟨q1, q2, q3, q4, q5, q6⟩ := hq
  have hn0 : ¬ (n : Int) ≤ 0 := by omega
  have hnb : ((n : Int) % 4294967296).toNat = n := by omega
  have hn255 : ¬ ((n : Int) > 255) := by omega
  have h1 : spinWhile simDev ISR_BUSY (fuel + 1) (St.init h buf) =
      some (rdReg simDev Reg.ISR (St.init h buf)).2 :=
    spinWhile_now _ _ _ _ (by simp [St.init, q1])
  obtain ⟨s2, s3, h2, h3, hb3, hw3⟩ := sim_addrPhase sa maddr fuel
    (rdReg simDev Reg.ISR (St.init h buf)).2 hsa (by simpa [St.init] using hsl)
  obtain ⟨c, hR⟩ := sim_startBurstReadPhase sa n s3 hsa (by omega) (by omega)
    (by rw [hw3]; simpa [St.init] using hsl)
  have hRb : (startBurstReadPhase simDev sa n s3).buf = buf := by
    simp [startBurstReadPhase_buf, hb3, St.init]
  rw [hw3] at hR
  simp only [sim_rdISR_hw, St.init] at hR
  obtain ⟨s4, h4, e1, e2, e3, e4, e5, e6, e7, e8, e9⟩ :=
    sim_readLoop fuel (n - 1) 0 (maddr % 256) (startBurstReadPhase simDev sa n s3)
      (by rw [hR]; by_cases hk : n - 1 = 0 <;> simp [Sim.recvByte, Sim.finish, hk])
      (by rw [hR]; by_cases hk : n - 1 = 0 <;> simp [Sim.recvByte, Sim.finish, hk])
      (by rw [hR]; by_cases hk : n - 1 = 0 <;> simp [Sim.recvByte, Sim.finish, hk])
      (by rw [hR]; by_cases hk : n - 1 = 0 <;> simp [Sim.recvByte, Sim.finish, hk, q5])
      (by rw [hR]; by_cases hk : n - 1 = 0 <;> simp [Sim.recvByte, Sim.finish, hk])
      (by rw [hR]; by_cases hk : n - 1 = 0 <;> simp [Sim.recvByte, Sim.finish, hk])
      (by rw [hR]; by_cases hk : n - 1 = 0 <;> simp [Sim.recvByte, Sim.finish, hk])
      (by rw [hR]; by_cases hk : n - 1 = 0 <;> simp [Sim.recvByte, Sim.finish, hk])
      (by rw [hR]; by_cases hk : n - 1 = 0 <;> simp [Sim.recvByte, Sim.finish, hk])
      (by intro hk; rw [hR]; simp [Sim.recvByte, Sim.finish, hk])
      (by intro hk; rw [hR]; have hk0 : n - 1 ≠ 0 := by omega
          simp [Sim.recvByte, Sim.finish, hk0, q6])
      (by rw [hRb]; omega)
  have hn' : n - 1 + 1 = n := by omega
  rw [hn'] at h4 e9
  have h5 : waitStopClearNack simDev (fuel + 1) s4 = some (rdReg simDev Reg.ISR s4).2 :=
    waitStopClearNack_now _ _ _ (by simp [e4])
  obtain ⟨a1, b1, c1, d1, f1, hlA⟩ :=
    startAddrPhase_log simDev sa (rdReg simDev Reg.ISR (St.init h buf)).2
  obtain ⟨-, vs2, v2, hl2, -⟩ := waitOrNack_spec simDev ISR_TXIS _ _ _ _ h2
  obtain ⟨-, vs3, v3, hl3, -⟩ := waitOrNack_spec simDev ISR_TC _ _ _ _ h3
  obtain ⟨a2, b2, c2, d2, f2, hlR⟩ := startBurstReadPhase_log simDev sa n s3
  obtain ⟨evs, hl4, -, -, hr4, hs4, -⟩ :=
    readLoop_ready simDev _ n 0 _ _ h4 (by rw [hRb]; omega)
  refine ⟨setBits simDev Reg.ICR ICR_STOPCF (rdReg simDev Reg.ISR s4).2, ?_, ?_, ?_, ?_, ?_,
    ?_, ?_⟩
  rotate_left 5
  · simp [hl4, hlR, hl3, hl2, hlA, polls_snoc, hr4]
  · simp only [setBits_log, rdReg_log, wrReg_log, hl4, hlR, hl3, hl2, hlA, St.init_log,
      polls_snoc]
    simp [hs4, List.map_fst_zip, hr4]
  · simp [I2C1_BurstRead, hn0, h1, h2, h3, hn255, hnb, h4, h5]
  · simp only [setBits_buf, rdReg_buf, e9, hRb]
    have hregs : (startBurstReadPhase simDev sa n s3).hw.regs = h.regs := by
      rw [hR]; by_cases hk : n - 1 = 0 <;> simp [Sim.recvByte, Sim.finish, hk]
    rw [hregs, ← hlen]
    simp
  · rw [sim_clear_stop, sim_rdISR_hw]
    simp [Sim.quiet, e3, e5, e6, e7, e8]
  · rw [sim_clear_stop, sim_rdISR_hw]
    simp only [e1]
    rw [hR]; by_cases hk : n - 1 = 0 <;> simp [Sim.recvByte, Sim.finish, hk]
  · rw [sim_clear_stop, sim_rdISR_hw]
    simp only [e2]
    rw [hR]; by_cases hk : n - 1 = 0 <;> simp [Sim.recvByte, Sim.finish, hk]

/-- The programming of `I2C1_BurstWrite` on the simulated controller, the slave
answering at `sa`: a write transfer of `nb` bytes under AUTOEND is started and
TXIS is raised. -/
theorem sim_startBurstWrite (sa nb : Nat) (s : St Sim) (hsa : sa < 128) (hnb : nb < 256)
    (hnb0 : nb ≠ 0) (hsl : s.hw.slaveAddr = sa) :
    ∃ c, (startBurstWrite simDev sa nb s).hw =
      { s.hw with cr2 := c, busy := true, tc := false, txis := true, rxne := false,
                  reading := false, autoend := true, remaining := nb, expectPtr := true } := by
  obtain ⟨f1, f2, f3, f4, f5, f6, f7, f8, f9⟩ := cr2_write_facts sa nb hsa hnb
  obtain ⟨s1, s2, -, -, -, -, s7⟩ := sadd_part sa hsa
  obtain ⟨u1, u2, -, -, -, u6, u7⟩ := u32_words sa nb hsa
  have e0 : (wrReg simDev Reg.CR2 0 s).hw = { s.hw with cr2 := 0 } := by
    simp [simDev, Sim.write]
  have e1 : (setBits simDev Reg.CR2 ((sa % 256) <<< 1) (wrReg simDev Reg.CR2 0 s)).hw =
      { s.hw with cr2 := (sa % 256) <<< 1 } := by
    rw [setBits_hw, e0]
    simp only [simDev, Sim.read, u1]
    rw [Sim.write_cr2_plain _ _ s1 s2]
  have e2 : (clrBits simDev Reg.CR2 CR2_RD_WRN
      (setBits simDev Reg.CR2 ((sa % 256) <<< 1) (wrReg simDev Reg.CR2 0 s))).hw =
      { s.hw with cr2 := (sa % 256) <<< 1 } := by
    rw [clrBits_hw, e1]
    simp only [simDev, Sim.read, u2, s7]
    rw [Sim.write_cr2_plain _ _ s1 s2]
  have e3 : (setBits simDev Reg.CR2 (u32 (nb <<< CR2_NBYTES_POS)) (clrBits simDev Reg.CR2 CR2_RD_WRN
      (setBits simDev Reg.CR2 ((sa % 256) <<< 1) (wrReg simDev Reg.CR2 0 s)))).hw =
      { s.hw with cr2 := (sa % 256) <<< 1 ||| u32 (nb <<< CR2_NBYTES_POS) } := by
    rw [setBits_hw, e2]
    simp only [simDev, Sim.read, u2]
    rw [Sim.write_cr2_plain _ _ f8 f9]
  have e4 : (setBits simDev Reg.CR2 CR2_AUTOEND
      (setBits simDev Reg.CR2 (u32 (nb <<< CR2_NBYTES_POS)) (clrBits simDev Reg.CR2 CR2_RD_WRN
      (setBits simDev Reg.CR2 ((sa % 256) <<< 1) (wrReg simDev Reg.CR2 0 s))))).hw =
      { s.hw with cr2 := (sa % 256) <<< 1 ||| u32 (nb <<< CR2_NBYTES_POS) ||| CR2_AUTOEND } := by
    rw [setBits_hw, e3]
    simp only [simDev, Sim.read, u6]
    rw [Sim.write_cr2_plain _ _ f6 f7]
  refine ⟨((sa % 256) <<< 1 ||| u32 (nb <<< CR2_NBYTES_POS) ||| CR2_AUTOEND |||
    CR2_START) &&& not32 (CR2_START ||| CR2_STOP), ?_⟩
  unfold startBurstWrite
  rw [setBits_hw, e4]
  simp only [simDev, Sim.read, u7]
  rw [Sim.write_cr2_start _ _ f3]
  simp only [Sim.start, f1, f2, hsl]
  simp [hnb0, f5, f4]

/-- The transmit loop on the simulated controller: with `rem + 1` data bytes
awaited, the loop sends the buffer cells `i, i+1, ..`, the slave stores them at
its pointer and the following registers, and the controller ends with STOPF
raised and the bus released. -/
theorem sim_writeLoop (fuel : Nat) : ∀ (rem i : Nat) (s : St Sim),
    s.hw.txis = true → s.hw.expectPtr = false → s.hw.autoend = true → s.hw.busy = true →
    s.hw.nackf = false → s.hw.rxne = false → s.hw.tc = false → s.hw.stopf = false →
    s.hw.remaining = rem + 1 → rem + 1 ≤ 256 → i + (rem + 1) ≤ s.buf.length →
    ∃ s1, writeLoop simDev (fuel + 1) (rem + 1) i s = some (Wait.ready, s1) ∧
      s1.buf = s.buf ∧ s1.hw.slaveAddr = s.hw.slaveAddr ∧
      s1.hw.busy = false ∧ s1.hw.stopf = true ∧ s1.hw.rxne = false ∧ s1.hw.txis = false ∧
      s1.hw.tc = false ∧ s1.hw.nackf = false ∧
      (∀ j, j < rem + 1 → s1.hw.regs ((s.hw.ptr + j) % 256) = s.buf.getD (i + j) 0 % 256) ∧
      (∀ a, (∀ j, j < rem + 1 → a ≠ (s.hw.ptr + j) % 256) → s1.hw.regs a = s.hw.regs a) := by
  intro rem
  induction rem with
  | zero =>
    intro i s htx hep hae hbusy hnk hrx htc hstop hrem _ hlen
    have hw1 : waitOrNack simDev ISR_TXIS (fuel + 1) s =
        some (Wait.ready, (rdReg simDev Reg.ISR s).2) :=
      waitOrNack_now _ _ _ _ (by simp [htx])
    rw [writeLoop, hw1]
    simp only [writeLoop]
    have hS : (wrReg simDev Reg.TXDR (loadBuf i (rdReg simDev Reg.ISR s).2).1
        (loadBuf i (rdReg simDev Reg.ISR s).2).2).hw =
        { s.hw with regs := fun a => if a = s.hw.ptr % 256 then s.buf.getD i 0 % 256
                                     else s.hw.regs a,
                    ptr := (s.hw.ptr + 1) % 256, remaining := 0, busy := false,
                    stopf := true, txis := false } := by
      show Sim.write Reg.TXDR (s.buf.getD i 0) s.hw = _
      simp [Sim.write, Sim.xmit, Sim.finish, htx, hep, hae, hrem]
    refine ⟨_, rfl, rfl, ?_, ?_, ?_, ?_, ?_, ?_, ?_, ?_, ?_⟩
    · rw [hS]
    · rw [hS]
    · rw [hS]
    · rw [hS]; exact hrx
    · rw [hS]
    · rw [hS]; exact htc
    · rw [hS]; exact hnk
    · intro j hj
      have hj0 : j = 0 := by omega
      subst hj0
      rw [hS]
      simp
    · intro a ha
      have := ha 0 (by omega)
      simp only [Nat.add_zero] at this
      rw [hS]
      simp [this]
  | succ k ih =>
    intro i s htx hep hae hbusy hnk hrx htc hstop hrem hmax hlen
    have hw1 : waitOrNack simDev ISR_TXIS (fuel + 1) s =
        some (Wait.ready, (rdReg simDev Reg.ISR s).2) :=
      waitOrNack_now _ _ _ _ (by simp [htx])
    rw [writeLoop, hw1]
    simp only []
    have hS : (wrReg simDev Reg.TXDR (loadBuf i (rdReg simDev Reg.ISR s).2).1
        (loadBuf i (rdReg simDev Reg.ISR s).2).2).hw =
        { s.hw with regs := fun a => if a = s.hw.ptr % 256 then s.buf.getD i 0 % 256
                                     else s.hw.regs a,
                    ptr := (s.hw.ptr + 1) % 256, remaining := k + 1 } := by
      show Sim.write Reg.TXDR (s.buf.getD i 0) s.hw = _
      simp [Sim.write, Sim.xmit, htx, hep, hrem]
    have hB : (wrReg simDev Reg.TXDR (loadBuf i (rdReg simDev Reg.ISR s).2).1
        (loadBuf i (rdReg simDev Reg.ISR s).2).2).buf = s.buf := rfl
    obtain ⟨s1, hrun, e1, e2, e3, e4, e5, e6, e7, e8, e9, e10⟩ := ih (i + 1) _
      (by rw [hS]; exact htx) (by rw [hS]; exact hep) (by rw [hS]; exact hae)
      (by rw [hS]; exact hbusy) (by rw [hS]; exact hnk) (by rw [hS]; exact hrx)
      (by rw [hS]; exact htc) (by rw [hS]; exact hstop) (by rw [hS])
      (by omega) (by rw [hB]; omega)
    rw [hS] at e2 e9 e10
    rw [hB] at e1 e9
    simp only at e2 e9 e10
    refine ⟨s1, hrun, e1, e2, e3, e4, e5, e6, e7, e8, ?_, ?_⟩
    · intro j hj
      rcases Nat.eq_zero_or_pos j with h0 | hpos
      · subst h0
        rw [e10 _ (by intro j' hj'; simp only [Nat.add_zero]; omega)]
        simp
      · have := e9 (j - 1) (by omega)
        rw [show ((s.hw.ptr + 1) % 256 + (j - 1)) % 256 = (s.hw.ptr + j) % 256 by omega,
          show i + 1 + (j - 1) = i + j by omega] at this
        exact this
    · intro a ha
      rw [e10 a (by
        intro j hj
        have := ha (j + 1) (by omega)
        omega)]
      have := ha 0 (by omega)
      simp only [Nat.add_zero] at this
      simp [this]

/-- Core of C2: a burst write of `n` bytes on the simulated controller stores
the buffer in the slave registers `maddr, maddr+1, ..` and leaves the controller
idle. -/
theorem sim_burstWrite (sa maddr n fuel : Nat) (h : Sim) (dat : List Nat)
    (hsa : sa < 128) (hn1 : 1 ≤ n) (hn : n ≤ 254) (hq : h.quiet) (hsl : h.slaveAddr = sa)
    (hlen : dat.length = n) :
    ∃ r, I2C1_BurstWrite simDev sa maddr (n : Int) (fuel + 1) (St.init h dat) = some r ∧
      r.buf = dat ∧ r.hw.quiet ∧ r.hw.slaveAddr = h.slaveAddr ∧
      ∀ j, j < n → r.hw.regs ((maddr + j) % 256) = dat.getD j 0 % 256 := by
  obtain ⟨q1, q2, q3, q4, q5, q6⟩ := hq
  have hn0 : ¬ (n : Int) ≤ 0 := by omega
  have htot : ((1 + (n : Int)) % 4294967296).toNat = 1 + n := by omega
  have htot2 : ¬ (1 + n > 255) := by omega
  have h1 : spinWhile simDev ISR_BUSY (fuel + 1) (St.init h dat) =
      some (rdReg simDev Reg.ISR (St.init h dat)).2 :=
    spinWhile_now _ _ _ _ (by simp [St.init, q1])
  obtain ⟨c, hW⟩ := sim_startBurstWrite sa (1 + n) (rdReg simDev Reg.ISR (St.init h dat)).2 hsa
    (by omega) (by omega) (by simpa [St.init] using hsl)
  simp only [sim_rdISR_hw, St.init] at hW
  have h2 : waitOrNack simDev ISR_TXIS (fuel + 1)
      (startBurstWrite simDev sa (1 + n) (rdReg simDev Reg.ISR (St.init h dat)).2) =
      some (Wait.ready, (rdReg simDev Reg.ISR
        (startBurstWrite simDev sa (1 + n) (rdReg simDev Reg.ISR (St.init h dat)).2)).2) :=
    waitOrNack_now _ _ _ _ (by simp only [sim_rdISR_val, St.init, hW]; simp)
  have hT : (wrReg simDev Reg.TXDR (maddr % 256) (rdReg simDev Reg.ISR
      (startBurstWrite simDev sa (1 + n) (rdReg simDev Reg.ISR (St.init h dat)).2)).2).hw =
      { h with cr2 := c, busy := true, tc := false, txis := true, rxne := false,
               reading := false, autoend := true, remaining := n, expectPtr := false,
               ptr := maddr % 256 } := by
    rw [wrReg_hw, sim_rdISR_hw]
    simp only [St.init, hW]
    have hne : n ≠ 0 := by omega
    simp [simDev, Sim.write, Sim.xmit, hne]
  have hTb : (wrReg simDev Reg.TXDR (maddr % 256) (rdReg simDev Reg.ISR
      (startBurstWrite simDev sa (1 + n) (rdReg simDev Reg.ISR (St.init h dat)).2)).2).buf =
      dat := rfl
  obtain ⟨s3, h3, e1, e2, e3, e4, e5, e6, e7, e8, e9, -⟩ :=
    sim_writeLoop fuel (n - 1) 0 _
      (by rw [hT]) (by rw [hT]) (by rw [hT]) (by rw [hT]) (by rw [hT]; exact q5)
      (by rw [hT]) (by rw [hT]) (by rw [hT]; exact q6) (by rw [hT]; simp only; omega)
      (by omega) (by rw [hTb]; omega)
  have hn' : n - 1 + 1 = n := by omega
  rw [hn'] at h3 e9
  rw [hT] at e2 e9
  rw [hTb] at e1 e9
  simp only at e2 e9
  have h4 : waitStopClearNack simDev (fuel + 1) s3 = some (rdReg simDev Reg.ISR s3).2 :=
    waitStopClearNack_now _ _ _ (by simp [e4])
  refine ⟨setBits simDev Reg.ICR ICR_STOPCF (rdReg simDev Reg.ISR s3).2, ?_, ?_, ?_, ?_, ?_⟩
  · simp [I2C1_BurstWrite, I2C1_BurstWriteWith, numBytesTotal_nat false n (by omega), hn0, h1,
      htot2, h2, h3, h4]
  · simp [e1]
  · rw [sim_clear_stop, sim_rdISR_hw]
    simp [Sim.quiet, e3, e5, e6, e7, e8]
  · rw [sim_clear_stop, sim_rdISR_hw]
    exact e2
  · intro j hj
    rw [sim_clear_stop, sim_rdISR_hw]
    have := e9 j hj
    simp only [Nat.zero_add] at this
    rw [← this]
    simp

/-- Big-endian combination of two bytes. -/
theorem shl8_or (hi lo : Nat) (hlo : lo < 256) : (hi <<< 8) ||| lo = 256 * hi + lo := by
  have h := Nat.mul_add_lt_is_or (i := 8) (b := lo) (by simpa using hlo) hi
  rw [Nat.shiftLeft_eq, Nat.mul_comm]
  simpa using h.symm

/-- The accelerometer word is the two's-complement value of the big-endian
pattern and lies in the range of `int16_t`. -/
theorem accelWord_eq (hi lo : Nat) (hhi : hi < 256) (hlo : lo < 256) :
    accelWord hi lo = int16Value (256 * hi + lo) ∧
      -32768 ≤ accelWord hi lo ∧ accelWord hi lo ≤ 32767 := by
  unfold accelWord toInt16 int16Value
  rw [shl8_or hi lo hlo]
  have h : (256 * hi + lo) % 65536 = 256 * hi + lo := Nat.mod_eq_of_lt (by omega)
  rw [h]
  split <;> omega

/-- C16: whenever the 6-byte burst read from register 0x3B of slave 0x68 returns
with the bytes `r0 .. r5` in `accel_raw_data`, `mpu6050_ReadAccelValues` returns
`accel_x = int16(256*r0 + r1)`, `accel_y = int16(256*r2 + r3)` and
`accel_z = int16(256*r4 + r5)`, the big-endian two's-complement values, each in
`[-32768, 32767]`. -/
theorem readAccelValues_words (d : Dev σ) (fuel : Nat) (s r : St σ) (r0 r1 r2 r3 r4 r5 : Nat)
    (h0 : r0 < 256) (h1 : r1 < 256) (h2 : r2 < 256) (h3 : r3 < 256) (h4 : r4 < 256)
    (h5 : r5 < 256)
    (hread : I2C1_BurstRead d 104 59 6 fuel s = some r)
    (hbuf : r.buf = [r0, r1, r2, r3, r4, r5]) :
    ∃ x y z, mpu6050_ReadAccelValues d fuel s = some (r, x, y, z) ∧
      x = int16Value (256 * r0 + r1) ∧ y = int16Value (256 * r2 + r3) ∧
      z = int16Value (256 * r4 + r5) ∧
      (-32768 ≤ x ∧ x ≤ 32767) ∧ (-32768 ≤ y ∧ y ≤ 32767) ∧ (-32768 ≤ z ∧ z ≤ 32767) := by
  obtain ⟨ex, bx⟩ := accelWord_eq r0 r1 h0 h1
  obtain ⟨ey, by'⟩ := accelWord_eq r2 r3 h2 h3
  obtain ⟨ez, bz⟩ := accelWord_eq r4 r5 h4 h5
  refine ⟨accelWord r0 r1, accelWord r2 r3, accelWord r4 r5, ?_, ex, ey, ez, bx, by', bz⟩
  have hr : I2C1_BurstRead d MPU6050_DEVICE_ADDR MPU6050_ACCEL_XOUT_H_REG 6 fuel s = some r := hread
  simp [mpu6050_ReadAccelValues, hr, hbuf]

/-- Witness for C16 on the simulated controller: the slave holds 255, 60, .., 64
in the registers 59 .. 64. -/
theorem readAccelValues_words_witness :
    ∃ r x y z, mpu6050_ReadAccelValues simDev 1
        (St.init (Sim.idle 104 fun a => if a = 59 then 255 else a) [0, 0, 0, 0, 0, 0]) =
          some (r, x, y, z) ∧
      x = int16Value (256 * 255 + 60) ∧ y = int16Value (256 * 61 + 62) ∧
      z = int16Value (256 * 63 + 64) ∧
      (-32768 ≤ x ∧ x ≤ 32767) ∧ (-32768 ≤ y ∧ y ≤ 32767) ∧ (-32768 ≤ z ∧ z ≤ 32767) :=
  ⟨_, readAccelValues_words simDev 1 _ _ 255 60 61 62 63 64 (by decide) (by decide) (by decide)
    (by decide) (by decide) (by decide) rfl rfl⟩

/-- Clearing the LED bit clears it. -/
theorem led_clear (odr : Nat) : (odr &&& not32 UartLed.LED_PIN) &&& UartLed.LED_PIN = 0 := by
  rw [Nat.and_assoc]
  have h : not32 UartLed.LED_PIN &&& UartLed.LED_PIN = 0 := by decide
  rw [h, Nat.and_zero]

/-- C17 (evaluation of the code): with the LED lit (ODR = 32) the key `1` leaves
the LED state as it was, and the text "Invalid input. Send 1 or 0." is
transmitted all the same.  In general every pass of the loop transmits a
non-empty text, and whenever the LED state after the pass equals the state before
it, the text transmitted is that error message. -/
theorem uartLed_unchanged_state_transmits :
    UartLed.loopBody 32 '1' = (32, "Invalid input. Send '1' or '0'.\r\n") ∧
    UartLed.ledOn 32 = true ∧
    (∀ (odr : Nat) (key : Char), (UartLed.loopBody odr key).2 ≠ "") ∧
    (∀ (odr : Nat) (key : Char),
      UartLed.ledOn (UartLed.loopBody odr key).1 = UartLed.ledOn odr →
        (UartLed.loopBody odr key).2 = "Invalid input. Send '1' or '0'.\r\n") := by
  refine ⟨by decide, by decide, ?_, ?_⟩
  · intro odr key
    unfold UartLed.loopBody
    split
    · show ("LED ON\r\n" : String) ≠ ""
      decide
    · split
      · show ("LED OFF\r\n" : String) ≠ ""
        decide
      · show ("Invalid input. Send '1' or '0'.\r\n" : String) ≠ ""
        decide
  · intro odr key
    unfold UartLed.loopBody UartLed.ledOn
    split
    · rename_i h
      have h1 : (odr ||| UartLed.LED_PIN) &&& UartLed.LED_PIN ≠ 0 := by
        rw [or_and_self_mask]; decide
      simp [h.2, h1]
    · split
      · rename_i h
        simp [h.2, led_clear]
      · intro _; rfl

set_option maxRecDepth 100000 in
/-- C15 (evaluation of the code): two runs of `mpu6050_Init` on the scripted
device, every phase ACKed.  In the first the WHO_AM_I read delivers 0x68, the
MPU6050's ID; in the second it delivers 0x00.  The value read ends up in
`who_am_i_val` and nowhere else: both runs go on to the same reset, wake-up and
full-scale writes (TXDR sequence 0x6B 0x80, 0x6B 0x01, 0x1C 0x08). -/
theorem mpu6050_Init_ignores_who_am_i :
    (mpu6050_Init scriptDev 3 7 (St.init
        ⟨[0, 2, 64, 4, 32, 0, 2, 2, 32, 0, 2, 2, 32, 0, 2, 2, 32], [104], 0⟩ [])).map
      (fun r => (r.buf, txWrites r.log)) = some ([104], [117, 107, 128, 107, 1, 28, 8]) ∧
    (mpu6050_Init scriptDev 3 7 (St.init
        ⟨[0, 2, 64, 4, 32, 0, 2, 2, 32, 0, 2, 2, 32, 0, 2, 2, 32], [0], 0⟩ [])).map
      (fun r => (r.buf, txWrites r.log)) = some ([0], [117, 107, 128, 107, 1, 28, 8]) := by
  decide

/-- C11 (evaluation of the code): a run of `I2C1_ByteRead` on the scripted device
in which every phase is ACKed (readings: bus free, TXIS, TC, RXNE, STOPF).  The
call returns with the byte read; it never wrote the CR2 STOP bit, and its last
START was written with the control word 8192, in which AUTOEND is clear: on this
terminating path STOP is generated neither by the driver nor by AUTOEND. -/
theorem byteRead_success_no_stop :
    (I2C1_ByteRead scriptDev 104 117 2 (St.init ⟨[0, 2, 64, 4, 32], [66], 0⟩ [5])).map
      (fun r => (r.buf, stopWrites r.log, startWrites r.log)) =
      some ([66], [], [73936, 8192]) ∧
    8192 &&& CR2_AUTOEND = 0 ∧ 8192 &&& CR2_STOP = 0 := by
  decide

theorem cfgWrites_append (a b : List Ev) : cfgWrites (a ++ b) = cfgWrites a ++ cfgWrites b := by
  simp [cfgWrites]

theorem cfgWrites_nil : cfgWrites [] = [] := rfl

theorem cfgWrites_rd (r : Reg) (v : Nat) (l : List Ev) :
    cfgWrites (Ev.rd r v :: l) = cfgWrites l := by
  simp [cfgWrites]

theorem cfgWrites_ld (i : Nat) (l : List Ev) : cfgWrites (Ev.ld i :: l) = cfgWrites l := by
  simp [cfgWrites]

theorem cfgWrites_st (i v : Nat) (l : List Ev) : cfgWrites (Ev.st i v :: l) = cfgWrites l := by
  simp [cfgWrites]

theorem cfgWrites_wr (r : Reg) (v : Nat) (l : List Ev) :
    cfgWrites (Ev.wr r v :: l) =
      (if r = Reg.CR1 ∨ r = Reg.TIMINGR then [(r, v)] else []) ++ cfgWrites l := by
  by_cases h : r = Reg.CR1 ∨ r = Reg.TIMINGR <;> simp [cfgWrites, List.filter_cons, h]

theorem cfgWrites_polls (vs : List Nat) : cfgWrites (polls vs) = [] := by
  simp [cfgWrites]

/-- The trace of the clock and pin part of `I2C1_Init`. -/
theorem initPins_log (d : Dev σ) (s : St σ) :
    ∃ a b c e f g h i, (initPins d s).log = s.log ++
      [Ev.rd Reg.RCC_AHBENR a, Ev.wr Reg.RCC_AHBENR (a ||| GPIOB_EN),
       Ev.rd Reg.GPIOB_MODER b, Ev.wr Reg.GPIOB_MODER (b &&& not32 (1 <<< 16 ||| 1 <<< 18)),
       Ev.rd Reg.GPIOB_MODER c, Ev.wr Reg.GPIOB_MODER (c ||| (1 <<< 17 ||| 1 <<< 19)),
       Ev.rd Reg.GPIOB_OTYPER e, Ev.wr Reg.GPIOB_OTYPER (e ||| (1 <<< 8 ||| 1 <<< 9)),
       Ev.rd Reg.GPIOB_PUPDR f, Ev.wr Reg.GPIOB_PUPDR (f ||| (1 <<< 16 ||| 1 <<< 18)),
       Ev.rd Reg.GPIOB_PUPDR g, Ev.wr Reg.GPIOB_PUPDR (g &&& not32 (1 <<< 17 ||| 1 <<< 19)),
       Ev.rd Reg.GPIOB_AFRH h, Ev.wr Reg.GPIOB_AFRH (h ||| (4 <<< 0 ||| 4 <<< 4)),
       Ev.rd Reg.RCC_APB1ENR i, Ev.wr Reg.RCC_APB1ENR (i ||| I2C1_EN)] := by
  exact ⟨_, _, _, _, _, _, _, _, by
    simp only [initPins, setBits_log, clrBits_log, wrReg_log, List.append_assoc,
      List.cons_append, List.nil_append]
    exact rfl⟩

/-- The trace of `I2C1_Init`: after the clock and pin part, which writes neither
CR1 nor TIMINGR, come `CR1 &= ~PE`, the write of TIMINGR and `CR1 |= PE`. -/
theorem I2C1_Init_log (d : Dev σ) (s : St σ) :
    ∃ pre x y, (I2C1_Init d s).log = s.log ++ pre ++
        [Ev.rd Reg.CR1 x, Ev.wr Reg.CR1 (x &&& not32 CR1_PE), Ev.wr Reg.TIMINGR 272764691,
         Ev.rd Reg.CR1 y, Ev.wr Reg.CR1 (y ||| CR1_PE)] ∧
      cfgWrites pre = [] := by
  obtain ⟨a, b, c, e, f, g, h, i, hp⟩ := initPins_log d s
  refine ⟨[Ev.rd Reg.RCC_AHBENR a, Ev.wr Reg.RCC_AHBENR (a ||| GPIOB_EN),
       Ev.rd Reg.GPIOB_MODER b, Ev.wr Reg.GPIOB_MODER (b &&& not32 (1 <<< 16 ||| 1 <<< 18)),
       Ev.rd Reg.GPIOB_MODER c, Ev.wr Reg.GPIOB_MODER (c ||| (1 <<< 17 ||| 1 <<< 19)),
       Ev.rd Reg.GPIOB_OTYPER e, Ev.wr Reg.GPIOB_OTYPER (e ||| (1 <<< 8 ||| 1 <<< 9)),
       Ev.rd Reg.GPIOB_PUPDR f, Ev.wr Reg.GPIOB_PUPDR (f ||| (1 <<< 16 ||| 1 <<< 18)),
       Ev.rd Reg.GPIOB_PUPDR g, Ev.wr Reg.GPIOB_PUPDR (g &&& not32 (1 <<< 17 ||| 1 <<< 19)),
       Ev.rd Reg.GPIOB_AFRH h, Ev.wr Reg.GPIOB_AFRH (h ||| (4 <<< 0 ||| 4 <<< 4)),
       Ev.rd Reg.RCC_APB1ENR i, Ev.wr Reg.RCC_APB1ENR (i ||| I2C1_EN)],
     (rdReg d Reg.CR1 (initPins d s)).1,
     (rdReg d Reg.CR1 (wrReg d Reg.TIMINGR
        (I2C1_SCLL ||| I2C1_SCLH ||| I2C1_SDADEL ||| I2C1_SCLDEL ||| I2C1_PRESC)
        (clrBits d Reg.CR1 CR1_PE (initPins d s)))).1, ?_, ?_⟩
  · simp only [I2C1_Init, setBits_log, clrBits_log, wrReg_log, hp, List.append_assoc,
      List.cons_append, List.nil_append]
    rfl
  · simp [cfgWrites_rd, cfgWrites_wr, cfgWrites_nil]

theorem Grows.refl (K : List Access) (s : St σ) : Grows K s s :=
  ⟨[], by simp, by simp⟩

theorem Grows.trans {K : List Access} {s r u : St σ} (h1 : Grows K s r) (h2 : Grows K r u) :
    Grows K s u := by
  obtain ⟨t1, hl1, hq1⟩ := h1
  obtain ⟨t2, hl2, hq2⟩ := h2
  refine ⟨t1 ++ t2, by rw [hl2, hl1, List.append_assoc], ?_⟩
  intro e he
  rcases List.mem_append.1 he with h | h
  · exact hq1 e h
  · exact hq2 e h

theorem Grows.mono {K K' : List Access} {s r : St σ} (h : Grows K s r)
    (hK : ∀ a, a ∈ K → a ∈ K') : Grows K' s r := by
  obtain ⟨t, hl, hq⟩ := h
  exact ⟨t, hl, fun e he => hK _ (hq e he)⟩

theorem Grows.setBuf {K : List Access} {s r : St σ} (h : Grows K s r) (b : List Nat) :
    Grows K { s with buf := b } r := h

theorem grows_rdReg (K : List Access) (d : Dev σ) (r : Reg) (s : St σ)
    (h : Access.rd r ∈ K) : Grows K s (rdReg d r s).2 :=
  ⟨[Ev.rd r (rdReg d r s).1], rfl, by simpa [Ev.access] using h⟩

theorem grows_wrReg (K : List Access) (d : Dev σ) (r : Reg) (v : Nat) (s : St σ)
    (h : Access.wr r ∈ K) : Grows K s (wrReg d r v s) :=
  ⟨[Ev.wr r v], rfl, by simpa [Ev.access] using h⟩

theorem grows_setBits (K : List Access) (d : Dev σ) (r : Reg) (m : Nat) (s : St σ)
    (h1 : Access.rd r ∈ K) (h2 : Access.wr r ∈ K) : Grows K s (setBits d r m s) :=
  (grows_rdReg K d r s h1).trans (grows_wrReg K d r _ _ h2)

theorem grows_clrBits (K : List Access) (d : Dev σ) (r : Reg) (m : Nat) (s : St σ)
    (h1 : Access.rd r ∈ K) (h2 : Access.wr r ∈ K) : Grows K s (clrBits d r m s) :=
  (grows_rdReg K d r s h1).trans (grows_wrReg K d r _ _ h2)

theorem grows_storeBuf (K : List Access) (i v : Nat) (s : St σ) (h : Access.st ∈ K) :
    Grows K s (storeBuf i v s) :=
  ⟨[Ev.st i (v % 256)], rfl, by simpa [Ev.access] using h⟩

theorem grows_loadBuf (K : List Access) (i : Nat) (s : St σ) (h : Access.ld ∈ K) :
    Grows K s (loadBuf i s).2 :=
  ⟨[Ev.ld i], rfl, by simpa [Ev.access] using h⟩

theorem grows_polls (K : List Access) (s r : St σ) (vs : List Nat) (v : Nat)
    (hl : r.log = s.log ++ polls vs ++ [Ev.rd Reg.ISR v]) (h : Access.rd Reg.ISR ∈ K) :
    Grows K s r := by
  refine ⟨polls vs ++ [Ev.rd Reg.ISR v], by rw [hl, List.append_assoc], ?_⟩
  intro e he
  simp only [polls, List.mem_append, List.mem_map, List.mem_singleton] at he
  rcases he with ⟨x, -, rfl⟩ | rfl <;> exact h

theorem grows_spinWhile (K : List Access) (d : Dev σ) (flag fuel : Nat) (s r : St σ)
    (hr : spinWhile d flag fuel s = some r) (h : Access.rd Reg.ISR ∈ K) : Grows K s r := by
  obtain ⟨-, vs, v, hl, -⟩ := spinWhile_spec d flag fuel s r hr
  exact grows_polls K s r vs v hl h

theorem grows_spinUntil (K : List Access) (d : Dev σ) (flag fuel : Nat) (s r : St σ)
    (hr : spinUntil d flag fuel s = some r) (h : Access.rd Reg.ISR ∈ K) : Grows K s r := by
  obtain ⟨-, vs, v, hl, -⟩ := spinUntil_spec d flag fuel s r hr
  exact grows_polls K s r vs v hl h

theorem grows_waitOrNack (K : List Access) (d : Dev σ) (flag fuel : Nat) (s r : St σ) (w : Wait)
    (hr : waitOrNack d flag fuel s = some (w, r)) (h : Access.rd Reg.ISR ∈ K) : Grows K s r := by
  obtain ⟨-, vs, v, hl, -⟩ := waitOrNack_spec d flag fuel s r w hr
  exact grows_polls K s r vs v hl h

theorem grows_waitStopClearNack (K : List Access) (d : Dev σ)
    (hK : ∀ a, a ∈ flagK → a ∈ K) :
    ∀ (fuel : Nat) (s r : St σ), waitStopClearNack d fuel s = some r → Grows K s r := by
  have h1 : Access.rd Reg.ISR ∈ K := hK _ (by decide)
  have h2 : Access.rd Reg.ICR ∈ K := hK _ (by decide)
  have h3 : Access.wr Reg.ICR ∈ K := hK _ (by decide)
  intro fuel
  induction fuel with
  | zero => intro s r h; simp [waitStopClearNack] at h
  | succ f ih =>
    intro s r h
    rw [waitStopClearNack] at h
    split at h
    · injection h with h
      subst h
      exact grows_rdReg K d _ s h1
    · split at h
      · exact ((grows_rdReg K d _ s h1).trans (grows_rdReg K d _ _ h1)).trans
          ((grows_setBits K d _ _ _ h2 h3).trans (ih _ _ h))
      · exact ((grows_rdReg K d _ s h1).trans (grows_rdReg K d _ _ h1)).trans (ih _ _ h)

theorem grows_abortStop (K : List Access) (d : Dev σ) (fuel : Nat) (s r : St σ)
    (hK : ∀ a, a ∈ abortK → a ∈ K) (h : abortStop d fuel s = some r) : Grows K s r := by
  have h1 : Access.rd Reg.ISR ∈ K := hK _ (by decide)
  have h2 : Access.rd Reg.ICR ∈ K := hK _ (by decide)
  have h3 : Access.wr Reg.ICR ∈ K := hK _ (by decide)
  have h4 : Access.rd Reg.CR2 ∈ K := hK _ (by decide)
  have h5 : Access.wr Reg.CR2 ∈ K := hK _ (by decide)
  unfold abortStop at h
  cases hs : spinUntil d ISR_STOPF fuel
      (setBits d Reg.CR2 CR2_STOP (setBits d Reg.ICR ICR_NACKCF s)) with
  | none => rw [hs] at h; simp at h
  | some s1 =>
    rw [hs] at h
    simp only [Option.map_some', Option.some.injEq] at h
    subst h
    exact ((grows_setBits K d _ _ s h2 h3).trans (grows_setBits K d _ _ _ h4 h5)).trans
      ((grows_spinUntil K d _ _ _ _ hs h1).trans (grows_setBits K d _ _ _ h2 h3))

theorem grows_rejectStop (K : List Access) (d : Dev σ) (fuel : Nat) (s r : St σ)
    (hK : ∀ a, a ∈ abortK → a ∈ K) (h : rejectStop d fuel s = some r) : Grows K s r := by
  have h1 : Access.rd Reg.ISR ∈ K := hK _ (by decide)
  have h2 : Access.rd Reg.ICR ∈ K := hK _ (by decide)
  have h3 : Access.wr Reg.ICR ∈ K := hK _ (by decide)
  have h4 : Access.rd Reg.CR2 ∈ K := hK _ (by decide)
  have h5 : Access.wr Reg.CR2 ∈ K := hK _ (by decide)
  unfold rejectStop at h
  cases hs : spinUntil d ISR_STOPF fuel (setBits d Reg.CR2 CR2_STOP s) with
  | none => rw [hs] at h; simp at h
  | some s1 =>
    rw [hs] at h
    simp only [Option.map_some', Option.some.injEq] at h
    subst h
    exact (grows_setBits K d _ _ _ h4 h5).trans
      ((grows_spinUntil K d _ _ _ _ hs h1).trans (grows_setBits K d _ _ _ h2 h3))

theorem grows_startAddrPhase (K : List Access) (d : Dev σ) (sa : Nat) (s : St σ)
    (h4 : Access.rd Reg.CR2 ∈ K) (h5 : Access.wr Reg.CR2 ∈ K) :
    Grows K s (startAddrPhase d sa s) :=
  (grows_wrReg K d _ _ s h5).trans ((grows_setBits K d _ _ _ h4 h5).trans
    ((grows_clrBits K d _ _ _ h4 h5).trans ((grows_setBits K d _ _ _ h4 h5).trans
      ((grows_clrBits K d _ _ _ h4 h5).trans (grows_setBits K d _ _ _ h4 h5)))))

theorem grows_startByteReadPhase (K : List Access) (d : Dev σ) (sa : Nat) (s : St σ)
    (h4 : Access.rd Reg.CR2 ∈ K) (h5 : Access.wr Reg.CR2 ∈ K) :
    Grows K s (startByteReadPhase d sa s) :=
  (grows_wrReg K d _ _ s h5).trans ((grows_setBits K d _ _ _ h4 h5).trans
    ((grows_setBits K d _ _ _ h4 h5).trans ((grows_setBits K d _ _ _ h4 h5).trans
      ((grows_setBits K d _ _ _ h4 h5).trans (grows_wrReg K d _ _ _ h5)))))

theorem grows_startBurstReadPhase (K : List Access) (d : Dev σ) (sa nb : Nat) (s : St σ)
    (h4 : Access.rd Reg.CR2 ∈ K) (h5 : Access.wr Reg.CR2 ∈ K) :
    Grows K s (startBurstReadPhase d sa nb s) :=
  (grows_wrReg K d _ _ s h5).trans ((grows_setBits K d _ _ _ h4 h5).trans
    ((grows_setBits K d _ _ _ h4 h5).trans ((grows_setBits K d _ _ _ h4 h5).trans
      ((grows_setBits K d _ _ _ h4 h5).trans (grows_setBits K d _ _ _ h4 h5)))))

theorem grows_startBurstWrite (K : List Access) (d : Dev σ) (sa nb : Nat) (s : St σ)
    (h4 : Access.rd Reg.CR2 ∈ K) (h5 : Access.wr Reg.CR2 ∈ K) :
    Grows K s (startBurstWrite d sa nb s) :=
  (grows_wrReg K d _ _ s h5).trans ((grows_setBits K d _ _ _ h4 h5).trans
    ((grows_clrBits K d _ _ _ h4 h5).trans ((grows_setBits K d _ _ _ h4 h5).trans
      ((grows_setBits K d _ _ _ h4 h5).trans (grows_setBits K d _ _ _ h4 h5)))))

theorem grows_readLoop (K : List Access) (d : Dev σ) (fuel : Nat)
    (hK : ∀ a, a ∈ recvK → a ∈ K) :
    ∀ (cnt i : Nat) (s r : St σ) (w : Wait), readLoop d fuel cnt i s = some (w, r) →
      Grows K s r := by
  have h1 : Access.rd Reg.ISR ∈ K := hK _ (by decide)
  have h2 : Access.rd Reg.ICR ∈ K := hK _ (by decide)
  have h3 : Access.wr Reg.ICR ∈ K := hK _ (by decide)
  have h4 : Access.rd Reg.RXDR ∈ K := hK _ (by decide)
  have h5 : Access.st ∈ K := hK _ (by decide)
  intro cnt
  induction cnt with
  | zero =>
    intro i s r w h
    simp only [readLoop, Option.some.injEq, Prod.mk.injEq] at h
    rw [← h.2]
    exact Grows.refl K s
  | succ c ih =>
    intro i s r w h
    rw [readLoop] at h
    split at h
    · simp at h
    · rename_i s1 hw
      simp only [Option.some.injEq, Prod.mk.injEq] at h
      rw [← h.2]
      exact (grows_waitOrNack K d _ _ _ _ _ hw h1).trans (grows_setBits K d _ _ _ h2 h3)
    · rename_i s1 hw
      exact (grows_waitOrNack K d _ _ _ _ _ hw h1).trans
        ((grows_rdReg K d _ _ h4).trans ((grows_storeBuf K _ _ _ h5).trans (ih _ _ _ _ h)))

theorem grows_writeLoop (K : List Access) (d : Dev σ) (fuel : Nat)
    (hK : ∀ a, a ∈ sendK → a ∈ K) :
    ∀ (cnt i : Nat) (s r : St σ) (w : Wait), writeLoop d fuel cnt i s = some (w, r) →
      Grows K s r := by
  have h1 : Access.rd Reg.ISR ∈ K := hK _ (by decide)
  have h2 : Access.rd Reg.ICR ∈ K := hK _ (by decide)
  have h3 : Access.wr Reg.ICR ∈ K := hK _ (by decide)
  have h4 : Access.ld ∈ K := hK _ (by decide)
  have h5 : Access.wr Reg.TXDR ∈ K := hK _ (by decide)
  intro cnt
  induction cnt with
  | zero =>
    intro i s r w h
    simp only [writeLoop, Option.some.injEq, Prod.mk.injEq] at h
    rw [← h.2]
    exact Grows.refl K s
  | succ c ih =>
    intro i s r w h
    rw [writeLoop] at h
    split at h
    · simp at h
    · rename_i s1 hw
      simp only [Option.some.injEq, Prod.mk.injEq] at h
      rw [← h.2]
      exact (grows_waitOrNack K d _ _ _ _ _ hw h1).trans (grows_setBits K d _ _ _ h2 h3)
    · rename_i s1 hw
      exact (grows_waitOrNack K d _ _ _ _ _ hw h1).trans
        ((grows_loadBuf K _ _ h4).trans ((grows_wrReg K d _ _ _ h5).trans (ih _ _ _ _ h)))

theorem and_not32_of_disjoint (x m : Nat) (hx : u32 x = x) (h : x &&& m = 0) :
    x &&& not32 m = x := by
  have hx' : x < 2 ^ 32 := by unfold u32 at hx; omega
  apply Nat.eq_of_testBit_eq
  intro i
  have hb : (x &&& m).testBit i = false := by rw [h]; simp
  rw [Nat.testBit_and] at hb
  simp only [not32, u32, Nat.testBit_and, Nat.testBit_xor,
    show (4294967295 : Nat) = 2 ^ 32 - 1 by norm_num, show (4294967296 : Nat) = 2 ^ 32 by norm_num,
    Nat.testBit_two_pow_sub_one, Nat.testBit_mod_two_pow]
  by_cases hi : i < 32
  · simp only [hi, decide_True, Bool.true_and]
    cases hxb : x.testBit i <;> cases hmb : m.testBit i <;> simp_all
  · have : x.testBit i = false :=
      Nat.testBit_eq_false_of_lt (lt_of_lt_of_le hx' (Nat.pow_le_pow_right (by norm_num) (by omega)))
    simp [this]

theorem trigger_masks (x : Nat) (h1 : x &&& CR2_START = 0) (h2 : x &&& CR2_STOP = 0) :
    x &&& (CR2_START ||| CR2_STOP) = 0 := by
  rw [Nat.and_or_distrib_left, h1, h2]; rfl

theorem u32_lt (x : Nat) (hx : u32 x = x) : x < 4294967296 := by
  unfold u32 at hx; omega

theorem Cr2Model.rdReg_val {d : Dev σ} {view : σ → Nat} (hm : Cr2Model d view) (s : St σ) :
    (rdReg d Reg.CR2 s).1 = u32 (view s.hw) := by
  simp [rdReg, hm.rd_cr2]

theorem Cr2Model.rdReg_view {d : Dev σ} {view : σ → Nat} (hm : Cr2Model d view) (r : Reg)
    (s : St σ) : view (rdReg d r s).2.hw = view s.hw := by
  simp [rdReg, hm.rd_keep]

theorem Cr2Model.wrReg_view {d : Dev σ} {view : σ → Nat} (hm : Cr2Model d view) (r : Reg)
    (v : Nat) (s : St σ) (hr : r ≠ Reg.CR2) : view (wrReg d r v s).hw = view s.hw := by
  simp [wrReg, hm.wr_keep r v _ hr]

theorem Cr2Model.setBits_view {d : Dev σ} {view : σ → Nat} (hm : Cr2Model d view) (r : Reg)
    (m : Nat) (s : St σ) (hr : r ≠ Reg.CR2) : view (setBits d r m s).hw = view s.hw := by
  unfold setBits
  rw [hm.wrReg_view r _ _ hr, hm.rdReg_view]

/-- The assignment `CR2 = 0` leaves CR2 zero. -/
theorem Cr2Model.zero {d : Dev σ} {view : σ → Nat} (hm : Cr2Model d view) (s : St σ) :
    view (wrReg d Reg.CR2 0 s).hw = 0 := by
  show view (d.wr Reg.CR2 0 s.hw) = 0
  rw [hm.wr_cr2 0 _ (by norm_num)]
  simp

/-- The statement `CR2 |= m` on a CR2 holding `x`, when neither holds a trigger bit:
`x` is read, `x | m` is written and held. -/
theorem Cr2Model.set {d : Dev σ} {view : σ → Nat} (hm : Cr2Model d view) (s : St σ)
    (x m : Nat) (hv : view s.hw = x) (hx : u32 x = x) (hm32 : u32 m = m)
    (h1 : (x ||| m) &&& CR2_START = 0) (h2 : (x ||| m) &&& CR2_STOP = 0) :
    (setBits d Reg.CR2 m s).log = s.log ++ [Ev.rd Reg.CR2 x, Ev.wr Reg.CR2 (x ||| m)] ∧
      view (setBits d Reg.CR2 m s).hw = x ||| m := by
  have hr : (rdReg d Reg.CR2 s).1 = x := by rw [hm.rdReg_val, hv, hx]
  have hu : u32 (x ||| m) = x ||| m := u32_or _ _ hx hm32
  refine ⟨by rw [setBits_log, hr], ?_⟩
  show view (d.wr Reg.CR2 ((rdReg d Reg.CR2 s).1 ||| m) (rdReg d Reg.CR2 s).2.hw) = _
  rw [hr, hm.wr_cr2 _ _ (u32_lt _ hu)]
  exact and_not32_of_disjoint _ _ hu (trigger_masks _ h1 h2)

/-- The statement `CR2 &= ~m` on a CR2 holding `x` with the bits of `m` clear:
`x` is read, written back and held. -/
theorem Cr2Model.clr {d : Dev σ} {view : σ → Nat} (hm : Cr2Model d view) (s : St σ)
    (x m : Nat) (hv : view s.hw = x) (hx : u32 x = x) (h0 : x &&& m = 0)
    (h1 : x &&& CR2_START = 0) (h2 : x &&& CR2_STOP = 0) :
    (clrBits d Reg.CR2 m s).log = s.log ++ [Ev.rd Reg.CR2 x, Ev.wr Reg.CR2 x] ∧
      view (clrBits d Reg.CR2 m s).hw = x := by
  have hr : (rdReg d Reg.CR2 s).1 = x := by rw [hm.rdReg_val, hv, hx]
  have hc : x &&& not32 m = x := and_not32_of_disjoint _ _ hx h0
  refine ⟨by rw [clrBits_log, hr, hc], ?_⟩
  show view (d.wr Reg.CR2 ((rdReg d Reg.CR2 s).1 &&& not32 m) (rdReg d Reg.CR2 s).2.hw) = _
  rw [hr, hc, hm.wr_cr2 _ _ (u32_lt _ hx)]
  exact and_not32_of_disjoint _ _ hx (trigger_masks _ h1 h2)

/-- The statement `CR2 |= t` for a trigger bit `t` (START or STOP) on a CR2 holding
`x`: `x` is read, `x | t` is written, and CR2 holds `x` again. -/
theorem Cr2Model.trigger {d : Dev σ} {view : σ → Nat} (hm : Cr2Model d view) (s : St σ)
    (x t : Nat) (hv : view s.hw = x) (hx : u32 x = x) (ht : t = CR2_START ∨ t = CR2_STOP)
    (h1 : x &&& CR2_START = 0) (h2 : x &&& CR2_STOP = 0) :
    (setBits d Reg.CR2 t s).log = s.log ++ [Ev.rd Reg.CR2 x, Ev.wr Reg.CR2 (x ||| t)] ∧
      view (setBits d Reg.CR2 t s).hw = x := by
  have hr : (rdReg d Reg.CR2 s).1 = x := by rw [hm.rdReg_val, hv, hx]
  have ht32 : u32 t = t := by rcases ht with rfl | rfl <;> decide
  have ht0 : t &&& not32 (CR2_START ||| CR2_STOP) = 0 := by rcases ht with rfl | rfl <;> decide
  have hu : u32 (x ||| t) = x ||| t := u32_or _ _ hx ht32
  refine ⟨by rw [setBits_log, hr], ?_⟩
  show view (d.wr Reg.CR2 ((rdReg d Reg.CR2 s).1 ||| t) (rdReg d Reg.CR2 s).2.hw) = _
  rw [hr, hm.wr_cr2 _ _ (u32_lt _ hu), or_and_mask, ht0,
    and_not32_of_disjoint _ _ hx (trigger_masks _ h1 h2)]
  simp

/-- Bits of the words built from a 7-bit address and a byte count below 256. -/
theorem word_bits (sa nb : Nat) (hsa : sa < 128) (hnb : nb < 256) :
    (u32 (sa <<< 1) = sa <<< 1 ∧ (sa <<< 1) &&& CR2_START = 0 ∧ (sa <<< 1) &&& CR2_STOP = 0 ∧
      (sa <<< 1) &&& CR2_RD_WRN = 0 ∧ (sa <<< 1) &&& CR2_AUTOEND = 0) ∧
    (u32 (nb <<< CR2_NBYTES_POS) = nb <<< 16 ∧ (nb <<< 16) &&& CR2_START = 0 ∧
      (nb <<< 16) &&& CR2_STOP = 0 ∧ (nb <<< 16) &&& CR2_RD_WRN = 0 ∧
      (nb <<< 16) &&& CR2_AUTOEND = 0 ∧ u32 (nb <<< 16) = nb <<< 16) := by
  have h1 : ∀ sa, sa < 128 → u32 (sa <<< 1) = sa <<< 1 ∧ (sa <<< 1) &&& CR2_START = 0 ∧
      (sa <<< 1) &&& CR2_STOP = 0 ∧ (sa <<< 1) &&& CR2_RD_WRN = 0 ∧
      (sa <<< 1) &&& CR2_AUTOEND = 0 := by decide
  have h2 : ∀ nb, nb < 256 → u32 (nb <<< CR2_NBYTES_POS) = nb <<< 16 ∧
      (nb <<< 16) &&& CR2_START = 0 ∧ (nb <<< 16) &&& CR2_STOP = 0 ∧
      (nb <<< 16) &&& CR2_RD_WRN = 0 ∧ (nb <<< 16) &&& CR2_AUTOEND = 0 ∧
      u32 (nb <<< 16) = nb <<< 16 := by
    set_option maxRecDepth 100000 in decide
  exact ⟨h1 sa hsa, h2 nb hnb⟩

/-- The phase-1 programming under the CR2 model, for a 7-bit address: the words
read and written, and the content of CR2 afterwards. -/
theorem startAddrPhase_model {d : Dev σ} {view : σ → Nat} (hm : Cr2Model d view) (sa : Nat)
    (hsa : sa < 128) (s : St σ) :
    (startAddrPhase d sa s).log = s.log ++
      [Ev.wr Reg.CR2 0, Ev.rd Reg.CR2 0, Ev.wr Reg.CR2 (sa <<< 1),
       Ev.rd Reg.CR2 (sa <<< 1), Ev.wr Reg.CR2 (sa <<< 1),
       Ev.rd Reg.CR2 (sa <<< 1), Ev.wr Reg.CR2 (sa <<< 1 ||| 1 <<< 16),
       Ev.rd Reg.CR2 (sa <<< 1 ||| 1 <<< 16), Ev.wr Reg.CR2 (sa <<< 1 ||| 1 <<< 16),
       Ev.rd Reg.CR2 (sa <<< 1 ||| 1 <<< 16),
       Ev.wr Reg.CR2 (sa <<< 1 ||| 1 <<< 16 ||| CR2_START)] ∧
      view (startAddrPhase d sa s).hw = sa <<< 1 ||| 1 <<< 16 := by
  obtain ⟨⟨a0, a1, a2, a3, a4⟩, ⟨n0, n1, n2, n3, n4, n5⟩⟩ := word_bits sa 1 hsa (by norm_num)
  have hsa' : sa % 256 = sa := Nat.mod_eq_of_lt (by omega)
  have b0 : u32 (sa <<< 1 ||| 1 <<< 16) = sa <<< 1 ||| 1 <<< 16 := u32_or _ _ a0 n5
  have b1 : (sa <<< 1 ||| 1 <<< 16) &&& CR2_START = 0 := by rw [or_and_mask, a1, n1]; rfl
  have b2 : (sa <<< 1 ||| 1 <<< 16) &&& CR2_STOP = 0 := by rw [or_and_mask, a2, n2]; rfl
  have b4 : (sa <<< 1 ||| 1 <<< 16) &&& CR2_AUTOEND = 0 := by rw [or_and_mask, a4, n4]; rfl
  unfold startAddrPhase
  rw [hsa']
  have e0 := hm.zero s
  obtain ⟨l1, v1⟩ := hm.set (wrReg d Reg.CR2 0 s) 0 (sa <<< 1) e0 (by decide) a0
    (by rw [Nat.zero_or]; exact a1) (by rw [Nat.zero_or]; exact a2)
  rw [Nat.zero_or] at l1 v1
  obtain ⟨l2, v2⟩ := hm.clr _ (sa <<< 1) CR2_RD_WRN v1 a0 a3 a1 a2
  obtain ⟨l3, v3⟩ := hm.set _ (sa <<< 1) (1 <<< CR2_NBYTES_POS) v2 a0 n5 b1 b2
  obtain ⟨l4, v4⟩ := hm.clr _ (sa <<< 1 ||| 1 <<< 16) CR2_AUTOEND v3 b0 b4 b1 b2
  obtain ⟨l5, v5⟩ := hm.trigger _ (sa <<< 1 ||| 1 <<< 16) CR2_START v4 b0 (Or.inl rfl) b1 b2
  refine ⟨?_, v5⟩
  rw [l5, l4, l3, l2, l1, wrReg_log]
  simp [CR2_NBYTES_POS]

/-- The programming of `I2C1_BurstWrite` under the CR2 model, for a 7-bit address
and a byte count below 256. -/
theorem startBurstWrite_model {d : Dev σ} {view : σ → Nat} (hm : Cr2Model d view) (sa nb : Nat)
    (hsa : sa < 128) (hnb : nb < 256) (s : St σ) :
    (startBurstWrite d sa nb s).log = s.log ++
      [Ev.wr Reg.CR2 0, Ev.rd Reg.CR2 0, Ev.wr Reg.CR2 (sa <<< 1),
       Ev.rd Reg.CR2 (sa <<< 1), Ev.wr Reg.CR2 (sa <<< 1),
       Ev.rd Reg.CR2 (sa <<< 1), Ev.wr Reg.CR2 (sa <<< 1 ||| nb <<< 16),
       Ev.rd Reg.CR2 (sa <<< 1 ||| nb <<< 16),
       Ev.wr Reg.CR2 (sa <<< 1 ||| nb <<< 16 ||| CR2_AUTOEND),
       Ev.rd Reg.CR2 (sa <<< 1 ||| nb <<< 16 ||| CR2_AUTOEND),
       Ev.wr Reg.CR2 (sa <<< 1 ||| nb <<< 16 ||| CR2_AUTOEND ||| CR2_START)] ∧
      view (startBurstWrite d sa nb s).hw = sa <<< 1 ||| nb <<< 16 ||| CR2_AUTOEND := by
  obtain ⟨⟨a0, a1, a2, a3, a4⟩, ⟨n0, n1, n2, n3, n4, n5⟩⟩ := word_bits sa nb hsa hnb
  have hsa' : sa % 256 = sa := Nat.mod_eq_of_lt (by omega)
  have hA : u32 CR2_AUTOEND = CR2_AUTOEND := by decide
  have b0 : u32 (sa <<< 1 ||| nb <<< 16) = sa <<< 1 ||| nb <<< 16 := u32_or _ _ a0 n5
  have b1 : (sa <<< 1 ||| nb <<< 16) &&& CR2_START = 0 := by rw [or_and_mask, a1, n1]; rfl
  have b2 : (sa <<< 1 ||| nb <<< 16) &&& CR2_STOP = 0 := by rw [or_and_mask, a2, n2]; rfl
  have c0 : u32 (sa <<< 1 ||| nb <<< 16 ||| CR2_AUTOEND) = sa <<< 1 ||| nb <<< 16 ||| CR2_AUTOEND :=
    u32_or _ _ b0 hA
  have c1 : (sa <<< 1 ||| nb <<< 16 ||| CR2_AUTOEND) &&& CR2_START = 0 := by
    rw [or_and_mask, b1]; rfl
  have c2 : (sa <<< 1 ||| nb <<< 16 ||| CR2_AUTOEND) &&& CR2_STOP = 0 := by
    rw [or_and_mask, b2]; rfl
  unfold startBurstWrite
  rw [hsa', n0]
  have e0 := hm.zero s
  obtain ⟨l1, v1⟩ := hm.set (wrReg d Reg.CR2 0 s) 0 (sa <<< 1) e0 (by decide) a0
    (by rw [Nat.zero_or]; exact a1) (by rw [Nat.zero_or]; exact a2)
  rw [Nat.zero_or] at l1 v1
  obtain ⟨l2, v2⟩ := hm.clr _ (sa <<< 1) CR2_RD_WRN v1 a0 a3 a1 a2
  obtain ⟨l3, v3⟩ := hm.set _ (sa <<< 1) (nb <<< 16) v2 a0 n5 b1 b2
  obtain ⟨l4, v4⟩ := hm.set _ (sa <<< 1 ||| nb <<< 16) CR2_AUTOEND v3 b0 hA c1 c2
  obtain ⟨l5, v5⟩ := hm.trigger _ _ CR2_START v4 c0 (Or.inl rfl) c1 c2
  refine ⟨?_, v5⟩
  rw [l5, l4, l3, l2, l1, wrReg_log]
  simp

/-- The phase-2 programming of `I2C1_BurstRead` under the CR2 model, for a 7-bit
address and a byte count below 256. -/
theorem startBurstReadPhase_model {d : Dev σ} {view : σ → Nat} (hm : Cr2Model d view)
    (sa nb : Nat) (hsa : sa < 128) (hnb : nb < 256) (s : St σ) :
    (startBurstReadPhase d sa nb s).log = s.log ++
      [Ev.wr Reg.CR2 0, Ev.rd Reg.CR2 0, Ev.wr Reg.CR2 (sa <<< 1),
       Ev.rd Reg.CR2 (sa <<< 1), Ev.wr Reg.CR2 (sa <<< 1 ||| CR2_RD_WRN),
       Ev.rd Reg.CR2 (sa <<< 1 ||| CR2_RD_WRN),
       Ev.wr Reg.CR2 (sa <<< 1 ||| CR2_RD_WRN ||| nb <<< 16),
       Ev.rd Reg.CR2 (sa <<< 1 ||| CR2_RD_WRN ||| nb <<< 16),
       Ev.wr Reg.CR2 (sa <<< 1 ||| CR2_RD_WRN ||| nb <<< 16 ||| CR2_AUTOEND),
       Ev.rd Reg.CR2 (sa <<< 1 ||| CR2_RD_WRN ||| nb <<< 16 ||| CR2_AUTOEND),
       Ev.wr Reg.CR2 (sa <<< 1 ||| CR2_RD_WRN ||| nb <<< 16 ||| CR2_AUTOEND ||| CR2_START)] ∧
      view (startBurstReadPhase d sa nb s).hw =
        sa <<< 1 ||| CR2_RD_WRN ||| nb <<< 16 ||| CR2_AUTOEND := by
  obtain ⟨⟨a0, a1, a2, a3, a4⟩, ⟨n0, n1, n2, n3, n4, n5⟩⟩ := word_bits sa nb hsa hnb
  have hsa' : sa % 256 = sa := Nat.mod_eq_of_lt (by omega)
  have hA : u32 CR2_AUTOEND = CR2_AUTOEND := by decide
  have hR : u32 CR2_RD_WRN = CR2_RD_WRN := by decide
  have r0 : u32 (sa <<< 1 ||| CR2_RD_WRN) = sa <<< 1 ||| CR2_RD_WRN := u32_or _ _ a0 hR
  have r1 : (sa <<< 1 ||| CR2_RD_WRN) &&& CR2_START = 0 := by rw [or_and_mask, a1]; rfl
  have r2 : (sa <<< 1 ||| CR2_RD_WRN) &&& CR2_STOP = 0 := by rw [or_and_mask, a2]; rfl
  have b0 : u32 (sa <<< 1 ||| CR2_RD_WRN ||| nb <<< 16) = sa <<< 1 ||| CR2_RD_WRN ||| nb <<< 16 :=
    u32_or _ _ r0 n5
  have b1 : (sa <<< 1 ||| CR2_RD_WRN ||| nb <<< 16) &&& CR2_START = 0 := by
    rw [or_and_mask, r1, n1]; rfl
  have b2 : (sa <<< 1 ||| CR2_RD_WRN ||| nb <<< 16) &&& CR2_STOP = 0 := by
    rw [or_and_mask, r2, n2]; rfl
  have c0 : u32 (sa <<< 1 ||| CR2_RD_WRN ||| nb <<< 16 ||| CR2_AUTOEND) =
      sa <<< 1 ||| CR2_RD_WRN ||| nb <<< 16 ||| CR2_AUTOEND := u32_or _ _ b0 hA
  have c1 : (sa <<< 1 ||| CR2_RD_WRN ||| nb <<< 16 ||| CR2_AUTOEND) &&& CR2_START = 0 := by
    rw [or_and_mask, b1]; rfl
  have c2 : (sa <<< 1 ||| CR2_RD_WRN ||| nb <<< 16 ||| CR2_AUTOEND) &&& CR2_STOP = 0 := by
    rw [or_and_mask, b2]; rfl
  unfold startBurstReadPhase
  rw [hsa', n0]
  have e0 := hm.zero s
  obtain ⟨l1, v1⟩ := hm.set (wrReg d Reg.CR2 0 s) 0 (sa <<< 1) e0 (by decide) a0
    (by rw [Nat.zero_or]; exact a1) (by rw [Nat.zero_or]; exact a2)
  rw [Nat.zero_or] at l1 v1
  obtain ⟨l2, v2⟩ := hm.set _ (sa <<< 1) CR2_RD_WRN v1 a0 hR r1 r2
  obtain ⟨l3, v3⟩ := hm.set _ (sa <<< 1 ||| CR2_RD_WRN) (nb <<< 16) v2 r0 n5 b1 b2
  obtain ⟨l4, v4⟩ := hm.set _ _ CR2_AUTOEND v3 b0 hA c1 c2
  obtain ⟨l5, v5⟩ := hm.trigger _ _ CR2_START v4 c0 (Or.inl rfl) c1 c2
  refine ⟨?_, v5⟩
  rw [l5, l4, l3, l2, l1, wrReg_log]
  simp

theorem cr2Writes_of_access (t : List Ev) (h : ∀ e, e ∈ t → e.access ≠ Access.wr Reg.CR2) :
    cr2Writes t = [] := by
  induction t with
  | nil => rfl
  | cons e t ih =>
    have he := h e (List.mem_cons_self _ _)
    rw [cr2Writes_cons, ih (fun x hx => h x (List.mem_cons_of_mem _ hx))]
    cases e with
    | wr r v =>
      have : r ≠ Reg.CR2 := fun hr => he (by rw [hr]; rfl)
      simp [this]
    | _ => rfl

theorem txWrites_of_access (t : List Ev) (h : ∀ e, e ∈ t → e.access ≠ Access.wr Reg.TXDR) :
    txWrites t = [] := by
  induction t with
  | nil => rfl
  | cons e t ih =>
    have he := h e (List.mem_cons_self _ _)
    rw [txWrites_cons, ih (fun x hx => h x (List.mem_cons_of_mem _ hx))]
    cases e with
    | wr r v =>
      have : r ≠ Reg.TXDR := fun hr => he (by rw [hr]; rfl)
      simp [this]
    | _ => rfl

theorem rxReads_of_access (t : List Ev) (h : ∀ e, e ∈ t → e.access ≠ Access.rd Reg.RXDR) :
    rxReads t = [] := by
  induction t with
  | nil => rfl
  | cons e t ih =>
    have he := h e (List.mem_cons_self _ _)
    rw [rxReads_cons, ih (fun x hx => h x (List.mem_cons_of_mem _ hx))]
    cases e with
    | rd r v =>
      have : r ≠ Reg.RXDR := fun hr => he (by rw [hr]; rfl)
      simp [this]
    | _ => rfl

theorem bufStores_of_access (t : List Ev) (h : ∀ e, e ∈ t → e.access ≠ Access.st) :
    bufStores t = [] := by
  induction t with
  | nil => rfl
  | cons e t ih =>
    have he := h e (List.mem_cons_self _ _)
    rw [bufStores_cons, ih (fun x hx => h x (List.mem_cons_of_mem _ hx))]
    cases e with
    | st i v => exact absurd rfl he
    | _ => rfl

theorem cfgWrites_of_access (t : List Ev)
    (h : ∀ e, e ∈ t → e.access ≠ Access.wr Reg.CR1 ∧ e.access ≠ Access.wr Reg.TIMINGR) :
    cfgWrites t = [] := by
  induction t with
  | nil => rfl
  | cons e t ih =>
    have he := h e (List.mem_cons_self _ _)
    have ih' := ih (fun x hx => h x (List.mem_cons_of_mem _ hx))
    cases e with
    | wr r v =>
      have h1 : r ≠ Reg.CR1 := fun hr => he.1 (by rw [hr]; rfl)
      have h2 : r ≠ Reg.TIMINGR := fun hr => he.2 (by rw [hr]; rfl)
      rw [cfgWrites_wr, ih']
      simp [h1, h2]
    | rd r v => rw [cfgWrites_rd, ih']
    | ld i => rw [cfgWrites_ld, ih']
    | st i v => rw [cfgWrites_st, ih']

theorem startWrites_of_cr2Writes (t : List Ev) (h : cr2Writes t = []) : startWrites t = [] := by
  simp [startWrites, h]

theorem stopWrites_of_cr2Writes (t : List Ev) (h : cr2Writes t = []) : stopWrites t = [] := by
  simp [stopWrites, h]

/-- What a growth by accesses of the kinds `K` cannot contain. -/
theorem Grows.tail {K : List Access} {s r : St σ} (h : Grows K s r) :
    ∃ t, r.log = s.log ++ t ∧
      (Access.wr Reg.CR2 ∉ K → cr2Writes t = []) ∧
      (Access.wr Reg.TXDR ∉ K → txWrites t = []) ∧
      (Access.rd Reg.RXDR ∉ K → rxReads t = []) ∧
      (Access.st ∉ K → bufStores t = []) ∧
      (Access.wr Reg.CR1 ∉ K → Access.wr Reg.TIMINGR ∉ K → cfgWrites t = []) := by
  obtain ⟨t, hl, hq⟩ := h
  refine ⟨t, hl, ?_, ?_, ?_, ?_, ?_⟩
  · intro hK
    exact cr2Writes_of_access t fun e he hc => hK (hc ▸ hq e he)
  · intro hK
    exact txWrites_of_access t fun e he hc => hK (hc ▸ hq e he)
  · intro hK
    exact rxReads_of_access t fun e he hc => hK (hc ▸ hq e he)
  · intro hK
    exact bufStores_of_access t fun e he hc => hK (hc ▸ hq e he)
  · intro hK1 hK2
    exact cfgWrites_of_access t fun e he =>
      ⟨fun hc => hK1 (hc ▸ hq e he), fun hc => hK2 (hc ▸ hq e he)⟩

theorem flagK_sub_sendK : ∀ a, a ∈ flagK → a ∈ sendK := by decide

theorem flagK_sub_recvK : ∀ a, a ∈ flagK → a ∈ recvK := by decide

theorem sendK_sub_busK : ∀ a, a ∈ sendK → a ∈ busK := by decide

theorem recvK_sub_busK : ∀ a, a ∈ recvK → a ∈ busK := by decide

theorem abortK_sub_busK : ∀ a, a ∈ abortK → a ∈ busK := by decide

/-- Every returning `I2C1_ByteRead` left the busy wait, made the phase-1
programming and went on with bus accesses only. -/
theorem byteRead_inv (d : Dev σ) (sa ma fuel : Nat) (s r : St σ)
    (h : I2C1_ByteRead d sa ma fuel s = some r) :
    ∃ s1, spinWhile d ISR_BUSY fuel s = some s1 ∧ Grows busK (startAddrPhase d sa s1) r := by
  have k1 : Access.rd Reg.ISR ∈ busK := by decide
  have k2 : Access.wr Reg.TXDR ∈ busK := by decide
  have k3 : Access.rd Reg.CR2 ∈ busK := by decide
  have k4 : Access.wr Reg.CR2 ∈ busK := by decide
  have k5 : Access.rd Reg.RXDR ∈ busK := by decide
  have k6 : Access.st ∈ busK := by decide
  have k7 : Access.wr Reg.ICR ∈ busK := by decide
  unfold I2C1_ByteRead at h
  split at h
  · simp at h
  · rename_i s1 hs1
    refine ⟨s1, hs1, ?_⟩
    split at h
    · simp at h
    · rename_i s2 hs2
      exact (grows_waitOrNack busK d _ _ _ _ _ hs2 k1).trans
        (grows_abortStop busK d _ _ _ abortK_sub_busK h)
    · rename_i s2 hs2
      refine (grows_waitOrNack busK d _ _ _ _ _ hs2 k1).trans
        ((grows_wrReg busK d Reg.TXDR (ma % 256) s2 k2).trans ?_)
      split at h
      · simp at h
      · rename_i s3 hs3
        refine (grows_spinUntil busK d _ _ _ _ hs3 k1).trans
          ((grows_startByteReadPhase busK d sa s3 k3 k4).trans ?_)
        split at h
        · simp at h
        · rename_i s4 hs4
          exact (grows_waitOrNack busK d _ _ _ _ _ hs4 k1).trans
            (grows_abortStop busK d _ _ _ abortK_sub_busK h)
        · rename_i s4 hs4
          refine (grows_waitOrNack busK d _ _ _ _ _ hs4 k1).trans
            ((grows_rdReg busK d Reg.RXDR s4 k5).trans
              ((grows_storeBuf busK 0 (rdReg d Reg.RXDR s4).1 (rdReg d Reg.RXDR s4).2 k6).trans ?_))
          split at h
          · simp at h
          · rename_i s5 hs5
            injection h with h
            subst h
            exact (grows_spinUntil busK d _ _ _ _ hs5 k1).trans (grows_wrReg busK d _ _ _ k7)

/-- What follows the phase-2 programming in a returning `I2C1_BurstRead`: receive
accesses only. -/
theorem burstRead_tail (d : Dev σ) (fuel cnt : Nat) (s r : St σ)
    (h : (match readLoop d fuel cnt 0 s with
      | none => none
      | some (Wait.nack, s4) => some s4
      | some (Wait.ready, s4) =>
        (waitStopClearNack d fuel s4).map (setBits d Reg.ICR ICR_STOPCF)) = some r) :
    Grows recvK s r := by
  split at h
  · simp at h
  · rename_i s4 hs4
    injection h with h
    subst h
    exact grows_readLoop recvK d fuel (fun _ ha => ha) _ _ _ _ _ hs4
  · rename_i s4 hs4
    cases hs5 : waitStopClearNack d fuel s4 with
    | none => rw [hs5] at h; simp at h
    | some s5 =>
      rw [hs5] at h
      simp only [Option.map_some', Option.some.injEq] at h
      subst h
      exact (grows_readLoop recvK d fuel (fun _ ha => ha) _ _ _ _ _ hs4).trans
        ((grows_waitStopClearNack recvK d flagK_sub_recvK _ _ _ hs5).trans
          (grows_setBits recvK d _ _ _ (by decide) (by decide)))

/-- Every returning `I2C1_BurstRead` with `n ≥ 1` left the busy wait, made the
phase-1 programming and went on with bus accesses only. -/
theorem burstRead_inv (d : Dev σ) (sa ma fuel : Nat) (n : Int) (hn : 0 < n) (s r : St σ)
    (h : I2C1_BurstRead d sa ma n fuel s = some r) :
    ∃ s1, spinWhile d ISR_BUSY fuel s = some s1 ∧ Grows busK (startAddrPhase d sa s1) r := by
  have k1 : Access.rd Reg.ISR ∈ busK := by decide
  have k2 : Access.wr Reg.TXDR ∈ busK := by decide
  have k3 : Access.rd Reg.CR2 ∈ busK := by decide
  have k4 : Access.wr Reg.CR2 ∈ busK := by decide
  unfold I2C1_BurstRead at h
  rw [if_neg (by omega)] at h
  split at h
  · simp at h
  · rename_i s1 hs1
    refine ⟨s1, hs1, ?_⟩
    split at h
    · simp at h
    · rename_i s2 hs2
      exact (grows_waitOrNack busK d _ _ _ _ _ hs2 k1).trans
        (grows_abortStop busK d _ _ _ abortK_sub_busK h)
    · rename_i s2 hs2
      refine (grows_waitOrNack busK d _ _ _ _ _ hs2 k1).trans
        ((grows_wrReg busK d Reg.TXDR (ma % 256) s2 k2).trans ?_)
      split at h
      · simp at h
      · rename_i s3 hs3
        exact (grows_waitOrNack busK d _ _ _ _ _ hs3 k1).trans
          (grows_abortStop busK d _ _ _ abortK_sub_busK h)
      · rename_i s3 hs3
        refine (grows_waitOrNack busK d _ _ _ _ _ hs3 k1).trans ?_
        split at h
        · exact grows_rejectStop busK d _ _ _ abortK_sub_busK h
        · exact (grows_startBurstReadPhase busK d _ _ _ k3 k4).trans
            ((burstRead_tail d fuel _ _ _ h).mono recvK_sub_busK)

/-- What follows the START of a returning `I2C1_BurstWrite`: transmit accesses
only. -/
theorem burstWrite_tail (d : Dev σ) (ma fuel cnt : Nat) (s r : St σ)
    (h : (match waitOrNack d ISR_TXIS fuel s with
      | none => none
      | some (Wait.nack, s2) => some (setBits d Reg.ICR ICR_NACKCF s2)
      | some (Wait.ready, s2) =>
        match writeLoop d fuel cnt 0 (wrReg d Reg.TXDR (ma % 256) s2) with
        | none => none
        | some (Wait.nack, s3) => some s3
        | some (Wait.ready, s3) =>
          (waitStopClearNack d fuel s3).map (setBits d Reg.ICR ICR_STOPCF)) = some r) :
    Grows sendK s r := by
  have k1 : Access.rd Reg.ISR ∈ sendK := by decide
  split at h
  · simp at h
  · rename_i s2 hs2
    injection h with h
    subst h
    exact (grows_waitOrNack sendK d _ _ _ _ _ hs2 k1).trans
      (grows_setBits sendK d _ _ _ (by decide) (by decide))
  · rename_i s2 hs2
    refine (grows_waitOrNack sendK d _ _ _ _ _ hs2 k1).trans
      ((grows_wrReg sendK d Reg.TXDR (ma % 256) s2 (by decide)).trans ?_)
    split at h
    · simp at h
    · rename_i s3 hs3
      injection h with h
      subst h
      exact grows_writeLoop sendK d fuel (fun _ ha => ha) _ _ _ _ _ hs3
    · rename_i s3 hs3
      cases hs4 : waitStopClearNack d fuel s3 with
      | none => rw [hs4] at h; simp at h
      | some s4 =>
        rw [hs4] at h
        simp only [Option.map_some', Option.some.injEq] at h
        subst h
        exact (grows_writeLoop sendK d fuel (fun _ ha => ha) _ _ _ _ _ hs3).trans
          ((grows_waitStopClearNack sendK d flagK_sub_sendK _ _ _ hs4).trans
            (grows_setBits sendK d _ _ _ (by decide) (by decide)))

/-- Every returning call of the body of `I2C1_BurstWrite` with `n ≥ 1`, in either
reading of the `int` addition, left the busy wait, had a byte total, and then
either rejected the size (starting with `CR2 |= STOP`) or made its programming
and went on with transmit accesses only. -/
theorem burstWriteWith_inv (wrap : Bool) (d : Dev σ) (sa ma fuel : Nat) (n : Int) (hn : 0 < n)
    (s r : St σ) (h : I2C1_BurstWriteWith wrap d sa ma n fuel s = some r) :
    ∃ s1, spinWhile d ISR_BUSY fuel s = some s1 ∧
      numBytesTotal wrap n = some ((1 + n) % 4294967296).toNat ∧
      ((((1 + n) % 4294967296).toNat > 255 ∧ rejectStop d fuel s1 = some r ∧
          Grows abortK (setBits d Reg.CR2 CR2_STOP s1) r) ∨
       (¬ ((1 + n) % 4294967296).toNat > 255 ∧
        Grows sendK (startBurstWrite d sa ((1 + n) % 4294967296).toNat s1) r)) := by
  unfold I2C1_BurstWriteWith at h
  rw [if_neg (by omega)] at h
  split at h
  · simp at h
  · rename_i s1 hs1
    refine ⟨s1, hs1, ?_⟩
    split at h
    · simp at h
    · rename_i total ht
      have ht2 := numBytesTotal_some ht
      subst ht2
      refine ⟨ht, ?_⟩
      split at h
      · rename_i hbig
        refine Or.inl ⟨hbig, h, ?_⟩
        unfold rejectStop at h
        cases hs : spinUntil d ISR_STOPF fuel (setBits d Reg.CR2 CR2_STOP s1) with
        | none => rw [hs] at h; simp at h
        | some s2 =>
          rw [hs] at h
          simp only [Option.map_some', Option.some.injEq] at h
          subst h
          exact (grows_spinUntil abortK d _ _ _ _ hs (by decide)).trans
            (grows_setBits abortK d _ _ _ (by decide) (by decide))
      · rename_i hbig
        exact Or.inr ⟨hbig, burstWrite_tail d ma fuel _ _ _ h⟩

/-- Every returning `I2C1_BurstWrite` with `n ≥ 1` left the busy wait and then
either rejected the size (starting with `CR2 |= STOP`) or made its programming
and went on with transmit accesses only. -/
theorem burstWrite_inv (d : Dev σ) (sa ma fuel : Nat) (n : Int) (hn : 0 < n) (s r : St σ)
    (h : I2C1_BurstWrite d sa ma n fuel s = some r) :
    ∃ s1, spinWhile d ISR_BUSY fuel s = some s1 ∧
      ((((1 + n) % 4294967296).toNat > 255 ∧ Grows abortK (setBits d Reg.CR2 CR2_STOP s1) r) ∨
       (¬ ((1 + n) % 4294967296).toNat > 255 ∧
        Grows sendK (startBurstWrite d sa ((1 + n) % 4294967296).toNat s1) r)) := by
  obtain ⟨s1, h1, -, h2⟩ := burstWriteWith_inv false d sa ma fuel n hn s r h
  refine ⟨s1, h1, ?_⟩
  rcases h2 with ⟨a, -, b⟩ | h2
  · exact Or.inl ⟨a, b⟩
  · exact Or.inr h2

/-- A terminated `while (ISR & flag) {}`: every reading but the last had the flag
set, the last had it clear. -/
theorem spinWhile_guard (d : Dev σ) (flag : Nat) :
    ∀ (fuel : Nat) (s s1 : St σ), spinWhile d flag fuel s = some s1 →
      ∃ vs v, s1.log = s.log ++ polls vs ++ [Ev.rd Reg.ISR v] ∧
        (∀ x, x ∈ vs → x &&& flag ≠ 0) ∧ v &&& flag = 0 := by
  intro fuel
  induction fuel with
  | zero => intro s s1 h; simp [spinWhile] at h
  | succ f ih =>
    intro s s1 h
    rw [spinWhile] at h
    split at h
    · rename_i hc
      obtain ⟨vs, v, hl, hall, hv⟩ := ih _ _ h
      refine ⟨(rdReg d Reg.ISR s).1 :: vs, v, ?_, ?_, hv⟩
      · simp [hl, polls]
      · intro x hx
        rcases List.mem_cons.1 hx with rfl | hx
        · exact hc
        · exact hall x hx
    · rename_i hc
      injection h with h
      subst h
      exact ⟨[], (rdReg d Reg.ISR s).1, by simp [polls], by simp, by simpa using hc⟩

/-- A run that left the busy wait, then made accesses starting with a write to
CR2 as first register write, is bus-guarded. -/
theorem busGuarded_of (d : Dev σ) (fuel : Nat) (hw : σ) (buf : List Nat) (K : List Access)
    (s1 p r : St σ) (pe : List Ev) (w : Nat) (ws : List (Reg × Nat))
    (hs : spinWhile d ISR_BUSY fuel (St.init hw buf) = some s1)
    (hp : p.log = s1.log ++ pe) (hw1 : regWrites pe = (Reg.CR2, w) :: ws)
    (hg : Grows K p r) : BusGuarded r.log := by
  obtain ⟨vs, v, hl, hall, hv⟩ := spinWhile_guard d ISR_BUSY fuel _ _ hs
  obtain ⟨t, ht, -⟩ := hg
  refine ⟨vs, v, pe ++ t, w, ws ++ regWrites t, ?_, hall, hv, ?_⟩
  · rw [ht, hp, hl]
    simp
  · rw [regWrites_append, hw1]
    rfl

/-- C12 (bus guard): in every returning run of `I2C1_ByteRead`, of
`I2C1_BurstRead` with `n ≥ 1` and of `I2C1_BurstWrite` with `n ≥ 1`, whatever
the device answers, the trace starts with status readings that all show BUSY
set, followed by a status reading with BUSY clear; only after that reading comes
the first register write, and it is a write to CR2. -/
theorem bus_guard (d : Dev σ) (sa ma fuel : Nat) (n : Int) (hn : 1 ≤ n) (hw : σ)
    (buf : List Nat) :
    (∀ r, I2C1_ByteRead d sa ma fuel (St.init hw buf) = some r → BusGuarded r.log) ∧
    (∀ r, I2C1_BurstRead d sa ma n fuel (St.init hw buf) = some r → BusGuarded r.log) ∧
    (∀ r, I2C1_BurstWrite d sa ma n fuel (St.init hw buf) = some r → BusGuarded r.log) := by
  refine ⟨?_, ?_, ?_⟩
  · intro r h
    obtain ⟨s1, hs1, hg⟩ := byteRead_inv d sa ma fuel _ r h
    obtain ⟨a, b, c, e, f, hle⟩ := startAddrPhase_log d sa s1
    exact busGuarded_of d fuel hw buf busK s1 _ r _ 0 _ hs1 hle (by simp; rfl) hg
  · intro r h
    obtain ⟨s1, hs1, hg⟩ := burstRead_inv d sa ma fuel n (by omega) _ r h
    obtain ⟨a, b, c, e, f, hle⟩ := startAddrPhase_log d sa s1
    exact busGuarded_of d fuel hw buf busK s1 _ r _ 0 _ hs1 hle (by simp; rfl) hg
  · intro r h
    obtain ⟨s1, hs1, hg⟩ := burstWrite_inv d sa ma fuel n (by omega) _ r h
    rcases hg with ⟨-, hg⟩ | ⟨-, hg⟩
    · exact busGuarded_of d fuel hw buf abortK s1 _ r _ ((rdReg d Reg.CR2 s1).1 ||| CR2_STOP) []
        hs1 (setBits_log d Reg.CR2 CR2_STOP s1) (by simp) hg
    · obtain ⟨a, b, c, e, f, hle⟩ := startBurstWrite_log d sa _ s1
      exact busGuarded_of d fuel hw buf sendK s1 _ r _ 0 _ hs1 hle (by simp; rfl) hg

/-- Witness for C12 on the scripted device: the status register shows BUSY
twice, then the bus is free and a byte read runs to its end. -/
theorem bus_guard_witness :
    ∃ r, I2C1_ByteRead scriptDev 104 117 3
        (St.init ⟨[32768, 32768, 0, 2, 64, 4, 32], [104], 0⟩ [0]) = some r ∧
      BusGuarded r.log :=
  ⟨_, rfl, (bus_guard scriptDev 104 117 3 1 (by decide)
    ⟨[32768, 32768, 0, 2, 64, 4, 32], [104], 0⟩ [0]).1 _ rfl⟩

/-- Every returning `I2C1_ByteRead` made bus accesses only. -/
theorem grows_byteRead (d : Dev σ) (sa ma fuel : Nat) (s r : St σ)
    (h : I2C1_ByteRead d sa ma fuel s = some r) : Grows busK s r := by
  obtain ⟨s1, hs1, hg⟩ := byteRead_inv d sa ma fuel s r h
  exact (grows_spinWhile busK d _ _ _ _ hs1 (by decide)).trans
    ((grows_startAddrPhase busK d sa s1 (by decide) (by decide)).trans hg)

/-- Every returning `I2C1_BurstRead` made bus accesses only. -/
theorem grows_burstRead (d : Dev σ) (sa ma fuel : Nat) (n : Int) (s r : St σ)
    (h : I2C1_BurstRead d sa ma n fuel s = some r) : Grows busK s r := by
  by_cases hn : n ≤ 0
  · simp only [I2C1_BurstRead, hn, if_true, Option.some.injEq] at h
    subst h
    exact Grows.refl busK s
  · obtain ⟨s1, hs1, hg⟩ := burstRead_inv d sa ma fuel n (by omega) s r h
    exact (grows_spinWhile busK d _ _ _ _ hs1 (by decide)).trans
      ((grows_startAddrPhase busK d sa s1 (by decide) (by decide)).trans hg)

/-- Every returning `I2C1_BurstWrite` made bus accesses only. -/
theorem grows_burstWrite (d : Dev σ) (sa ma fuel : Nat) (n : Int) (s r : St σ)
    (h : I2C1_BurstWrite d sa ma n fuel s = some r) : Grows busK s r := by
  by_cases hn : n ≤ 0
  · simp only [I2C1_BurstWrite, I2C1_BurstWriteWith, hn, if_true, Option.some.injEq] at h
    subst h
    exact Grows.refl busK s
  · obtain ⟨s1, hs1, hg⟩ := burstWrite_inv d sa ma fuel n (by omega) s r h
    refine (grows_spinWhile busK d _ _ _ _ hs1 (by decide)).trans ?_
    rcases hg with ⟨-, hg⟩ | ⟨-, hg⟩
    · exact (grows_setBits busK d Reg.CR2 CR2_STOP s1 (by decide) (by decide)).trans
        (hg.mono abortK_sub_busK)
    · exact (grows_startBurstWrite busK d sa _ s1 (by decide) (by decide)).trans
        (hg.mono sendK_sub_busK)

/-- Every returning sequence of calls made bus accesses only. -/
theorem grows_runCalls (d : Dev σ) (fuel : Nat) :
    ∀ (calls : List Call) (s r : St σ), runCalls d fuel calls s = some r → Grows busK s r := by
  intro calls
  induction calls with
  | nil =>
    intro s r h
    simp only [runCalls, Option.some.injEq] at h
    subst h
    exact Grows.refl busK s
  | cons c cs ih =>
    intro s r h
    cases c with
    | byteRead sa ma data =>
      rw [runCalls] at h
      split at h
      · simp at h
      · rename_i s1 hs1
        exact (Grows.setBuf (grows_byteRead d sa ma fuel _ s1 hs1) s.buf).trans (ih _ _ h)
    | burstRead sa ma n data =>
      rw [runCalls] at h
      split at h
      · simp at h
      · rename_i s1 hs1
        exact (Grows.setBuf (grows_burstRead d sa ma fuel n _ s1 hs1) s.buf).trans (ih _ _ h)
    | burstWrite sa ma n data =>
      rw [runCalls] at h
      split at h
      · simp at h
      · rename_i s1 hs1
        exact (Grows.setBuf (grows_burstWrite d sa ma fuel n _ s1 hs1) s.buf).trans (ih _ _ h)

/-- C14 (timing fixed at initialisation): whatever the device answers, after
`I2C1_Init` and any returning sequence of `I2C1_ByteRead`, `I2C1_BurstRead` and
`I2C1_BurstWrite` calls, the writes to CR1 and TIMINGR in the whole trace are
exactly the three of `I2C1_Init`: CR1 with PE cleared, then TIMINGR = 0x10420F13
(PRESC 1, SCLDEL 4, SDADEL 2, SCLH 0xF, SCLL 0x13), then CR1 with PE set.  The
calls add none. -/
theorem timing_fixed_at_init (d : Dev σ) (fuel : Nat) (calls : List Call) (hw : σ)
    (buf : List Nat) (r : St σ)
    (h : runCalls d fuel calls (I2C1_Init d (St.init hw buf)) = some r) :
    ∃ x y t, r.log = (I2C1_Init d (St.init hw buf)).log ++ t ∧ cfgWrites t = [] ∧
      cfgWrites r.log = [(Reg.CR1, x &&& not32 CR1_PE), (Reg.TIMINGR, 0x10420F13),
        (Reg.CR1, y ||| CR1_PE)] ∧
      (x &&& not32 CR1_PE) &&& CR1_PE = 0 ∧ (y ||| CR1_PE) &&& CR1_PE = CR1_PE ∧
      (0x10420F13 : Nat) = (1 <<< 28) ||| (4 <<< 20) ||| (2 <<< 16) ||| (0xF <<< 8) ||| 0x13 := by
  obtain ⟨t, ht, -, -, -, -, hcfg⟩ := (grows_runCalls d fuel calls _ r h).tail
  have hc := hcfg (by decide) (by decide)
  obtain ⟨pre, x, y, hl, hpre⟩ := I2C1_Init_log d (St.init hw buf)
  refine ⟨x, y, t, ht, hc, ?_, ?_, or_and_self_mask _ _, by decide⟩
  · rw [ht, hl]
    simp [cfgWrites_append, hpre, hc, cfgWrites_rd, cfgWrites_wr, cfgWrites_nil]
  · rw [Nat.and_assoc, show not32 CR1_PE &&& CR1_PE = 0 by decide]
    simp

/-- Witness for C14 on the simulated controller: initialisation, then a burst
write, a burst read and a byte read. -/
theorem timing_fixed_at_init_witness :
    ∃ x y t r, runCalls simDev 4 [Call.burstWrite 104 16 2 [1, 2], Call.burstRead 104 16 2 [0, 0],
        Call.byteRead 104 117 [0]] (I2C1_Init simDev (St.init (Sim.idle 104 fun _ => 0) [])) =
          some r ∧
      r.log = (I2C1_Init simDev (St.init (Sim.idle 104 fun _ => 0) [])).log ++ t ∧
      cfgWrites t = [] ∧
      cfgWrites r.log = [(Reg.CR1, x &&& not32 CR1_PE), (Reg.TIMINGR, 0x10420F13),
        (Reg.CR1, y ||| CR1_PE)] ∧
      (x &&& not32 CR1_PE) &&& CR1_PE = 0 ∧ (y ||| CR1_PE) &&& CR1_PE = CR1_PE ∧
      (0x10420F13 : Nat) = (1 <<< 28) ||| (4 <<< 20) ||| (2 <<< 16) ||| (0xF <<< 8) ||| 0x13 := by
  obtain ⟨x, y, t, h⟩ := timing_fixed_at_init simDev 4
    [Call.burstWrite 104 16 2 [1, 2], Call.burstRead 104 16 2 [0, 0], Call.byteRead 104 117 [0]]
    (Sim.idle 104 fun _ => 0) [] _ rfl
  exact ⟨x, y, t, _, rfl, h⟩

theorem Cr2Model.waitOrNack_view {d : Dev σ} {view : σ → Nat} (hm : Cr2Model d view)
    (flag : Nat) :
    ∀ (fuel : Nat) (s s1 : St σ) (w : Wait), waitOrNack d flag fuel s = some (w, s1) →
      view s1.hw = view s.hw := by
  intro fuel
  induction fuel with
  | zero => intro s s1 w h; simp [waitOrNack] at h
  | succ f ih =>
    intro s s1 w h
    rw [waitOrNack] at h
    split at h
    · injection h with h
      injection h with hw hs
      subst hs
      exact hm.rdReg_view _ _
    · split at h
      · injection h with h
        injection h with hw hs
        subst hs
        rw [hm.rdReg_view, hm.rdReg_view]
      · rw [ih _ _ _ h, hm.rdReg_view, hm.rdReg_view]

/-- Bits of the phase-1 control word of a 7-bit address. -/
theorem addr_start_word : ∀ sa, sa < 128 →
    (sa <<< 1 ||| 1 <<< 16 ||| CR2_START) &&& CR2_START ≠ 0 ∧
    (sa <<< 1 ||| 1 <<< 16 ||| CR2_START) &&& CR2_STOP = 0 ∧
    (sa <<< 1 ||| 1 <<< 16 ||| CR2_START) &&& CR2_RD_WRN = 0 ∧
    (sa <<< 1 ||| 1 <<< 16 ||| CR2_START) &&& CR2_AUTOEND = 0 ∧
    (sa <<< 1 ||| 1 <<< 16 ||| CR2_START) >>> 1 &&& 127 = sa ∧
    (sa <<< 1 ||| 1 <<< 16 ||| CR2_START) >>> 16 &&& 255 = 1 ∧
    (sa <<< 1 ||| 1 <<< 16 ||| CR2_STOP) &&& CR2_START = 0 ∧
    (sa <<< 1 ||| 1 <<< 16 ||| CR2_STOP) &&& CR2_STOP ≠ 0 ∧
    (sa <<< 1 ||| 1 <<< 16 ||| CR2_STOP) &&& CR2_RD_WRN = 0 ∧
    (sa <<< 1 ||| 1 <<< 16) &&& CR2_START = 0 ∧
    (sa <<< 1 ||| 1 <<< 16) &&& CR2_STOP = 0 ∧
    (sa <<< 1 ||| 1 <<< 16) &&& CR2_RD_WRN = 0 ∧
    u32 (sa <<< 1 ||| 1 <<< 16) = sa <<< 1 ||| 1 <<< 16 ∧
    (sa <<< 1) &&& CR2_START = 0 ∧ (sa <<< 1) &&& CR2_STOP = 0 ∧
    (sa <<< 1) &&& CR2_RD_WRN = 0 := by
  decide

/-- Observations on the phase-1 programming under the CR2 model: before the write
of the START word nothing is triggered, the direction bit is never set, and no
data register or buffer is touched. -/
theorem startAddrPhase_obs {d : Dev σ} {view : σ → Nat} (hm : Cr2Model d view) (sa : Nat)
    (hsa : sa < 128) (s : St σ) :
    ∃ pe, (startAddrPhase d sa s).log =
        s.log ++ pe ++ [Ev.wr Reg.CR2 (sa <<< 1 ||| 1 <<< 16 ||| CR2_START)] ∧
      startWrites pe = [] ∧ stopWrites pe = [] ∧ txWrites pe = [] ∧ rxReads pe = [] ∧
      bufStores pe = [] ∧ (∀ w, w ∈ cr2Writes pe → w &&& CR2_RD_WRN = 0) ∧
      view (startAddrPhase d sa s).hw = sa <<< 1 ||| 1 <<< 16 := by
  obtain ⟨hl, hv⟩ := startAddrPhase_model hm sa hsa s
  obtain ⟨-, -, -, -, -, -, -, -, -, b1, b2, b3, -, a1, a2, a3⟩ := addr_start_word sa hsa
  refine ⟨[Ev.wr Reg.CR2 0, Ev.rd Reg.CR2 0, Ev.wr Reg.CR2 (sa <<< 1),
       Ev.rd Reg.CR2 (sa <<< 1), Ev.wr Reg.CR2 (sa <<< 1),
       Ev.rd Reg.CR2 (sa <<< 1), Ev.wr Reg.CR2 (sa <<< 1 ||| 1 <<< 16),
       Ev.rd Reg.CR2 (sa <<< 1 ||| 1 <<< 16), Ev.wr Reg.CR2 (sa <<< 1 ||| 1 <<< 16),
       Ev.rd Reg.CR2 (sa <<< 1 ||| 1 <<< 16)], ?_, ?_, ?_, ?_, ?_, ?_, ?_, hv⟩
  · rw [hl]; simp
  · simpa [a1] using b1
  · simpa [a2] using b2
  · simp
  · simp
  · simp
  · intro w hw
    simp at hw
    rcases hw with rfl | rfl | rfl
    · simp
    · exact a3
    · exact b3

/-- C13 (phase-1 abort of `I2C1_BurstRead`): under the CR2 model, for a 7-bit
address and `n ≥ 1`, if NACKF is seen while waiting for transmit-ready or for
transfer-complete in phase 1 (and the hardware raises STOPF after the STOP
request), the call returns without attempting phase 2: the only CR2 write with
START set is the phase-1 word, no CR2 write has the READ direction bit set, RXDR
is never read, and the buffer is neither stored to nor changed.  The one STOP
request is `CR2 |= STOP` on the phase-1 word. -/
theorem burstRead_phase1_abort {view : σ → Nat} (d : Dev σ) (hm : Cr2Model d view)
    (sa ma fuel : Nat) (n : Int) (hsa : sa < 128) (hn : 1 ≤ n) (hw : σ) (buf : List Nat)
    (s1 sN s3 : St σ)
    (hbusy : spinWhile d ISR_BUSY fuel (St.init hw buf) = some s1)
    (hnack : waitOrNack d ISR_TXIS fuel (startAddrPhase d sa s1) = some (Wait.nack, sN) ∨
      ∃ s2, waitOrNack d ISR_TXIS fuel (startAddrPhase d sa s1) = some (Wait.ready, s2) ∧
        waitOrNack d ISR_TC fuel (wrReg d Reg.TXDR (ma % 256) s2) = some (Wait.nack, sN))
    (hstop : spinUntil d ISR_STOPF fuel
      (setBits d Reg.CR2 CR2_STOP (setBits d Reg.ICR ICR_NACKCF sN)) = some s3) :
    ∃ r, I2C1_BurstRead d sa ma n fuel (St.init hw buf) = some r ∧
      startWrites r.log = [sa <<< 1 ||| 1 <<< 16 ||| CR2_START] ∧
      stopWrites r.log = [sa <<< 1 ||| 1 <<< 16 ||| CR2_STOP] ∧
      (∀ w, w ∈ cr2Writes r.log → w &&& CR2_RD_WRN = 0) ∧
      rxReads r.log = [] ∧ bufStores r.log = [] ∧ r.buf = buf := by
  have hn0 : ¬ n ≤ 0 := by omega
  obtain ⟨w1, w2, w3, -, -, -, p1, p2, p3, b1, b2, b3, b0, -, -, -⟩ := addr_start_word sa hsa
  obtain ⟨hb1, vs1, v1, hl1, -⟩ := spinWhile_spec d ISR_BUSY fuel _ _ hbusy
  obtain ⟨pe, hpe, ps, pp, pt, pr, pb, pd, pv⟩ := startAddrPhase_obs hm sa hsa s1
  have hN : I2C1_BurstRead d sa ma n fuel (St.init hw buf) = abortStop d fuel sN ∧
      Grows [Access.rd Reg.ISR, Access.wr Reg.TXDR] (startAddrPhase d sa s1) sN ∧
      view sN.hw = sa <<< 1 ||| 1 <<< 16 ∧ sN.buf = buf := by
    rcases hnack with h1 | ⟨s2, h1, h2⟩
    · refine ⟨by simp [I2C1_BurstRead, hn0, hbusy, h1],
        grows_waitOrNack _ d _ _ _ _ _ h1 (by decide), ?_, ?_⟩
      · rw [hm.waitOrNack_view _ _ _ _ _ h1, pv]
      · rw [(waitOrNack_spec d _ _ _ _ _ h1).1, startAddrPhase_buf, hb1]; rfl
    · refine ⟨by simp [I2C1_BurstRead, hn0, hbusy, h1, h2],
        (grows_waitOrNack _ d _ _ _ _ _ h1 (by decide)).trans
          ((grows_wrReg _ d Reg.TXDR (ma % 256) s2 (by decide)).trans
            (grows_waitOrNack _ d _ _ _ _ _ h2 (by decide))), ?_, ?_⟩
      · rw [hm.waitOrNack_view _ _ _ _ _ h2, hm.wrReg_view _ _ _ (by decide),
          hm.waitOrNack_view _ _ _ _ _ h1, pv]
      · rw [(waitOrNack_spec d _ _ _ _ _ h2).1, wrReg_buf, (waitOrNack_spec d _ _ _ _ _ h1).1,
          startAddrPhase_buf, hb1]; rfl
  obtain ⟨hop, hg, hvN, hbN⟩ := hN
  obtain ⟨tN, htN, hc, -, hr, hs, -⟩ := hg.tail
  have hc := hc (by decide)
  have hr := hr (by decide)
  have hs := hs (by decide)
  have hvA : view (setBits d Reg.ICR ICR_NACKCF sN).hw = sa <<< 1 ||| 1 <<< 16 := by
    rw [hm.setBits_view _ _ _ (by decide), hvN]
  obtain ⟨lS, -⟩ := hm.trigger (setBits d Reg.ICR ICR_NACKCF sN) _ CR2_STOP hvA b0
    (Or.inr rfl) b1 b2
  obtain ⟨hb3, vs3, v3, hl3, -⟩ := spinUntil_spec d ISR_STOPF fuel _ _ hstop
  have hlog : (setBits d Reg.ICR ICR_STOPCF s3).log =
      polls vs1 ++ [Ev.rd Reg.ISR v1] ++ pe ++
        [Ev.wr Reg.CR2 (sa <<< 1 ||| 1 <<< 16 ||| CR2_START)] ++ tN ++
        [Ev.rd Reg.ICR (rdReg d Reg.ICR sN).1,
         Ev.wr Reg.ICR ((rdReg d Reg.ICR sN).1 ||| ICR_NACKCF),
         Ev.rd Reg.CR2 (sa <<< 1 ||| 1 <<< 16),
         Ev.wr Reg.CR2 (sa <<< 1 ||| 1 <<< 16 ||| CR2_STOP)] ++ polls vs3 ++
        [Ev.rd Reg.ISR v3, Ev.rd Reg.ICR (rdReg d Reg.ICR s3).1,
         Ev.wr Reg.ICR ((rdReg d Reg.ICR s3).1 ||| ICR_STOPCF)] := by
    rw [setBits_log, hl3, lS, setBits_log, htN, hpe, hl1]
    simp
  refine ⟨setBits d Reg.ICR ICR_STOPCF s3, ?_, ?_, ?_, ?_, ?_, ?_, ?_⟩
  · rw [hop]
    simp [abortStop, hstop]
  · rw [hlog]
    simp only [startWrites_append, startWrites_polls, startWrites_rd, startWrites_wr, ps,
      startWrites_of_cr2Writes tN hc, startWrites_nil]
    simp [-Nat.reduceShiftLeft, w1, p1]
  · rw [hlog]
    simp only [stopWrites_append, stopWrites_polls, stopWrites_rd, stopWrites_wr, pp,
      stopWrites_of_cr2Writes tN hc, stopWrites_nil]
    simp [-Nat.reduceShiftLeft, w2, p2]
  · intro w hw
    rw [hlog] at hw
    simp only [cr2Writes_append, cr2Writes_polls, hc, List.append_nil, List.nil_append,
      List.mem_append] at hw
    simp at hw
    rcases hw with (h | rfl) | rfl
    · exact pd w h
    · exact w3
    · exact p3
  · rw [hlog]
    simp [pr, hr]
  · rw [hlog]
    simp [pb, hs]
  · simp [hb3, hbN]
theorem Sim.finish_cr2 (h : Sim) : h.finish.cr2 = h.cr2 := by
  unfold Sim.finish
  split <;> rfl

theorem Sim.recvByte_cr2 (h : Sim) : h.recvByte.cr2 = h.cr2 := by
  unfold Sim.recvByte
  split
  · rw [Sim.finish_cr2]
  · rfl

theorem Sim.start_cr2 (h : Sim) (v : Nat) : (h.start v).cr2 = h.cr2 := by
  unfold Sim.start
  split
  · rfl
  · split
    · rw [Sim.finish_cr2]
    · split
      · rw [Sim.recvByte_cr2]
      · rfl

theorem Sim.xmit_cr2 (h : Sim) (v : Nat) : (h.xmit v).cr2 = h.cr2 := by
  unfold Sim.xmit
  split
  · split
    · split
      · rw [Sim.finish_cr2]
      · rfl
    · split
      · rw [Sim.finish_cr2]
      · rfl
  · rfl

/-- The simulated controller satisfies the CR2 model. -/
theorem sim_cr2Model : Cr2Model simDev Sim.cr2 where
  rd_cr2 := fun _ => rfl
  rd_keep := by
    intro r h
    cases r <;> try rfl
    show (Sim.read Reg.RXDR h).2.cr2 = h.cr2
    simp only [Sim.read]
    split
    · split
      · rw [Sim.recvByte_cr2]
      · rfl
    · rfl
  wr_keep := by
    intro r v h hr
    cases r <;> try rfl
    · exact absurd rfl hr
    · exact Sim.xmit_cr2 h v
  wr_cr2 := by
    intro v h hv
    show (Sim.write Reg.CR2 v h).cr2 = _
    simp only [Sim.write]
    split
    · rw [Sim.start_cr2]
    · split
      · rfl
      · rename_i h1 h2
        have h1' : v &&& CR2_START = 0 := by simpa using h1
        have h2' : v &&& CR2_STOP = 0 := by simpa using h2
        exact (and_not32_of_disjoint v _ (Nat.mod_eq_of_lt hv) (trigger_masks v h1' h2')).symm

/-- Witness for C13 on the simulated controller: the slave sits at address 104
and the call addresses 105, so phase 1 is NACKed. -/
theorem burstRead_phase1_abort_witness :
    ∃ r, I2C1_BurstRead simDev 105 16 2 1 (St.init (Sim.idle 104 fun _ => 0) [7, 8]) = some r ∧
      startWrites r.log = [105 <<< 1 ||| 1 <<< 16 ||| CR2_START] ∧
      stopWrites r.log = [105 <<< 1 ||| 1 <<< 16 ||| CR2_STOP] ∧
      (∀ w, w ∈ cr2Writes r.log → w &&& CR2_RD_WRN = 0) ∧
      rxReads r.log = [] ∧ bufStores r.log = [] ∧ r.buf = [7, 8] :=
  burstRead_phase1_abort simDev sim_cr2Model 105 16 1 2 (by decide) (by decide)
    (Sim.idle 104 fun _ => 0) [7, 8] _ _ _ rfl (Or.inl rfl) rfl

/-- A terminated final loop `while (!(ISR & STOPF)) { if (ISR & NACKF) ICR |= NACKCF; }`
made status readings and flag clearings only, and its last access is a status
reading with STOPF set. -/
theorem waitStopClearNack_spec (d : Dev σ) :
    ∀ (fuel : Nat) (s r : St σ), waitStopClearNack d fuel s = some r →
      r.buf = s.buf ∧ ∃ pre v, r.log = s.log ++ pre ++ [Ev.rd Reg.ISR v] ∧
        v &&& ISR_STOPF ≠ 0 ∧ ∀ e, e ∈ pre → e.access ∈ flagK := by
  intro fuel
  induction fuel with
  | zero => intro s r h; simp [waitStopClearNack] at h
  | succ f ih =>
    intro s r h
    rw [waitStopClearNack] at h
    split at h
    · rename_i hc
      injection h with h
      subst h
      exact ⟨rfl, [], (rdReg d Reg.ISR s).1, by simp, hc, by simp⟩
    · split at h
      · obtain ⟨hb, pre, v, hl, hv, hq⟩ := ih _ _ h
        refine ⟨by simpa using hb,
          [Ev.rd Reg.ISR (rdReg d Reg.ISR s).1,
           Ev.rd Reg.ISR (rdReg d Reg.ISR (rdReg d Reg.ISR s).2).1,
           Ev.rd Reg.ICR (rdReg d Reg.ICR (rdReg d Reg.ISR (rdReg d Reg.ISR s).2).2).1,
           Ev.wr Reg.ICR ((rdReg d Reg.ICR (rdReg d Reg.ISR (rdReg d Reg.ISR s).2).2).1 |||
             ICR_NACKCF)] ++ pre, v, ?_, hv, ?_⟩
        · simp [hl]
        · intro e he
          rcases List.mem_append.1 he with h1 | h1
          · simp only [List.mem_cons, List.mem_singleton, List.not_mem_nil, or_false] at h1
            rcases h1 with rfl | rfl | rfl | rfl <;> simp [Ev.access, flagK]
          · exact hq e h1
      · obtain ⟨hb, pre, v, hl, hv, hq⟩ := ih _ _ h
        refine ⟨by simpa using hb,
          [Ev.rd Reg.ISR (rdReg d Reg.ISR s).1,
           Ev.rd Reg.ISR (rdReg d Reg.ISR (rdReg d Reg.ISR s).2).1] ++ pre, v, ?_, hv, ?_⟩
        · simp [hl]
        · intro e he
          rcases List.mem_append.1 he with h1 | h1
          · simp only [List.mem_cons, List.mem_singleton, List.not_mem_nil, or_false] at h1
            rcases h1 with rfl | rfl <;> simp [Ev.access, flagK]
          · exact hq e h1

/-- Bits of the control word of `I2C1_BurstWrite` for a 7-bit address and a byte
count below 256. -/
theorem write_start_word (sa nb : Nat) (hsa : sa < 128) (hnb : nb < 256) :
    (sa <<< 1 ||| nb <<< 16 ||| CR2_AUTOEND ||| CR2_START) &&& CR2_START ≠ 0 ∧
    (sa <<< 1 ||| nb <<< 16 ||| CR2_AUTOEND ||| CR2_START) &&& CR2_STOP = 0 ∧
    (sa <<< 1 ||| nb <<< 16 ||| CR2_AUTOEND ||| CR2_START) &&& CR2_RD_WRN = 0 ∧
    (sa <<< 1 ||| nb <<< 16 ||| CR2_AUTOEND ||| CR2_START) &&& CR2_AUTOEND ≠ 0 ∧
    (sa <<< 1 ||| nb <<< 16 ||| CR2_AUTOEND ||| CR2_START) >>> 1 &&& 127 = sa ∧
    (sa <<< 1 ||| nb <<< 16 ||| CR2_AUTOEND ||| CR2_START) >>> 16 &&& 255 = nb := by
  obtain ⟨f1, f2, f3, f4, f5, f6, f7, f8, f9⟩ := cr2_write_facts sa nb hsa hnb
  obtain ⟨-, ⟨n0, -⟩⟩ := word_bits sa nb hsa hnb
  have hsa' : sa % 256 = sa := Nat.mod_eq_of_lt (by omega)
  rw [hsa', n0] at f1 f2 f3 f4 f5 f6 f7
  refine ⟨f3, ?_, f5, f4, f2, f1⟩
  rw [or_and_mask, f7]
  decide

/-- Observations on the programming of `I2C1_BurstWrite` under the CR2 model:
before the write of the START word nothing is triggered and no data register or
buffer is touched. -/
theorem startBurstWrite_obs {d : Dev σ} {view : σ → Nat} (hm : Cr2Model d view) (sa nb : Nat)
    (hsa : sa < 128) (hnb : nb < 256) (s : St σ) :
    ∃ pe, (startBurstWrite d sa nb s).log =
        s.log ++ pe ++ [Ev.wr Reg.CR2 (sa <<< 1 ||| nb <<< 16 ||| CR2_AUTOEND ||| CR2_START)] ∧
      startWrites pe = [] ∧ stopWrites pe = [] ∧ txWrites pe = [] ∧ rxReads pe = [] ∧
      bufStores pe = [] := by
  obtain ⟨hl, -⟩ := startBurstWrite_model hm sa nb hsa hnb s
  obtain ⟨f1, f2, f3, f4, f5, f6, f7, f8, f9⟩ := cr2_write_facts sa nb hsa hnb
  obtain ⟨⟨-, a1, a2, -, -⟩, ⟨n0, -⟩⟩ := word_bits sa nb hsa hnb
  have hsa' : sa % 256 = sa := Nat.mod_eq_of_lt (by omega)
  rw [hsa', n0] at f6 f7 f8 f9
  refine ⟨[Ev.wr Reg.CR2 0, Ev.rd Reg.CR2 0, Ev.wr Reg.CR2 (sa <<< 1),
       Ev.rd Reg.CR2 (sa <<< 1), Ev.wr Reg.CR2 (sa <<< 1),
       Ev.rd Reg.CR2 (sa <<< 1), Ev.wr Reg.CR2 (sa <<< 1 ||| nb <<< 16),
       Ev.rd Reg.CR2 (sa <<< 1 ||| nb <<< 16),
       Ev.wr Reg.CR2 (sa <<< 1 ||| nb <<< 16 ||| CR2_AUTOEND),
       Ev.rd Reg.CR2 (sa <<< 1 ||| nb <<< 16 ||| CR2_AUTOEND)], ?_, ?_, ?_, ?_, ?_, ?_⟩
  · rw [hl]; simp
  · simp [a1, f6, f8]
  · simp [a2, f7, f9]
  · simp
  · simp
  · simp

/-- C18 (single-phase write): under the CR2 model, for a 7-bit address and
`1 ≤ n ≤ 254`, every returning `I2C1_BurstWrite` wrote CR2 with START set exactly
once, with the word `(saddr << 1) | ((1 + n) << 16) | AUTOEND | START` (SADD =
saddr, direction WRITE, NBYTES = 1 + n, AUTOEND), and never wrote STOP; and when
every wait for transmit-ready succeeds (no NACK) and STOPF is raised, the call
returns having written to TXDR exactly `maddr` followed by `data[0..n-1]`, its
last accesses being a status reading with STOPF set and `ICR |= STOPCF`. -/
theorem burstWrite_single_phase {view : σ → Nat} (d : Dev σ) (hm : Cr2Model d view)
    (sa ma fuel n : Nat) (hsa : sa < 128) (hn1 : 1 ≤ n) (hn : n ≤ 254) (hw : σ)
    (buf : List Nat) (hlen : buf.length = n) :
    (∀ r, I2C1_BurstWrite d sa ma (n : Int) fuel (St.init hw buf) = some r →
      startWrites r.log = [sa <<< 1 ||| (1 + n) <<< 16 ||| CR2_AUTOEND ||| CR2_START] ∧
      stopWrites r.log = []) ∧
    ((sa <<< 1 ||| (1 + n) <<< 16 ||| CR2_AUTOEND ||| CR2_START) >>> 1 &&& 127 = sa ∧
     (sa <<< 1 ||| (1 + n) <<< 16 ||| CR2_AUTOEND ||| CR2_START) >>> 16 &&& 255 = 1 + n ∧
     (sa <<< 1 ||| (1 + n) <<< 16 ||| CR2_AUTOEND ||| CR2_START) &&& CR2_RD_WRN = 0 ∧
     (sa <<< 1 ||| (1 + n) <<< 16 ||| CR2_AUTOEND ||| CR2_START) &&& CR2_AUTOEND ≠ 0) ∧
    (∀ s1 s2 s3 s4, spinWhile d ISR_BUSY fuel (St.init hw buf) = some s1 →
      waitOrNack d ISR_TXIS fuel (startBurstWrite d sa (1 + n) s1) = some (Wait.ready, s2) →
      writeLoop d fuel n 0 (wrReg d Reg.TXDR (ma % 256) s2) = some (Wait.ready, s3) →
      waitStopClearNack d fuel s3 = some s4 →
      ∃ r, I2C1_BurstWrite d sa ma (n : Int) fuel (St.init hw buf) = some r ∧
        txWrites r.log = (ma % 256) :: buf ∧
        ∃ pre v z, r.log = pre ++ [Ev.rd Reg.ISR v, Ev.rd Reg.ICR z,
          Ev.wr Reg.ICR (z ||| ICR_STOPCF)] ∧ v &&& ISR_STOPF ≠ 0) := by
  have hn0 : ¬ (n : Int) ≤ 0 := by omega
  have htot : ((1 + (n : Int)) % 4294967296).toNat = 1 + n := by omega
  have htot2 : ¬ (1 + n > 255) := by omega
  obtain ⟨w1, w2, w3, w4, w5, w6⟩ := write_start_word sa (1 + n) hsa (by omega)
  refine ⟨?_, ⟨w5, w6, w3, w4⟩, ?_⟩
  · intro r h
    obtain ⟨s1, hs1, hg⟩ := burstWrite_inv d sa ma fuel n (by omega) _ r h
    rw [htot] at hg
    rcases hg with ⟨hbig, -⟩ | ⟨-, hg⟩
    · exact absurd hbig htot2
    · obtain ⟨-, vs1, v1, hl1, -⟩ := spinWhile_spec d ISR_BUSY fuel _ _ hs1
      obtain ⟨pe, hpe, ps, pp, -, -, -⟩ := startBurstWrite_obs hm sa (1 + n) hsa (by omega) s1
      obtain ⟨t, ht, hc, -⟩ := hg.tail
      have hc := hc (by decide)
      rw [ht, hpe, hl1]
      constructor
      · simp only [startWrites_append, startWrites_polls, startWrites_rd, startWrites_wr, ps,
          startWrites_of_cr2Writes t hc, startWrites_nil, St.init_log]
        simp [-Nat.reduceShiftLeft, w1]
      · simp only [stopWrites_append, stopWrites_polls, stopWrites_rd, stopWrites_wr, pp,
          stopWrites_of_cr2Writes t hc, stopWrites_nil, St.init_log]
        simp [-Nat.reduceShiftLeft, w2]
  · intro s1 s2 s3 s4 hbusy haddr hdata hstop
    obtain ⟨hb1, vs1, v1, hl1, -⟩ := spinWhile_spec d ISR_BUSY fuel _ _ hbusy
    obtain ⟨pe, hpe, -, -, pt, -, -⟩ := startBurstWrite_obs hm sa (1 + n) hsa (by omega) s1
    obtain ⟨hb2, vs2, v2, hl2, -⟩ := waitOrNack_spec d ISR_TXIS fuel _ _ _ haddr
    have hbuf2 : s2.buf = buf := by simp [hb2, startBurstWrite_buf, hb1]
    obtain ⟨hb3, evs, hl3, -, ht3, -, -⟩ :=
      writeLoop_ready d fuel n 0 _ _ hdata (by simp [hbuf2]; omega)
    obtain ⟨hb4, pre4, v4, hl4, hv4, hq4⟩ := waitStopClearNack_spec d fuel _ _ hstop
    have ht4 : txWrites pre4 = [] :=
      txWrites_of_access pre4 fun e he hc => by
        have := hq4 e he
        rw [hc] at this
        revert this
        decide
    refine ⟨setBits d Reg.ICR ICR_STOPCF s4, ?_, ?_, s3.log ++ pre4, v4, (rdReg d Reg.ICR s4).1, ?_,
      hv4⟩
    · simp [I2C1_BurstWrite, I2C1_BurstWriteWith, numBytesTotal_nat false n (by omega), hn0,
        hbusy, htot2, haddr, hdata, hstop]
    · have htake : List.take n buf = buf := by rw [← hlen]; exact List.take_length buf
      simp [hl4, ht4, hl3, ht3, hl2, hpe, pt, hl1, hbuf2, htake]
    · simp [hl4]

/-- Witness for C18 on the simulated controller: two data bytes written to the
slave at 104, every byte ACKed. -/
theorem burstWrite_single_phase_witness :
    ∃ r, I2C1_BurstWrite simDev 104 16 ((2 : Nat) : Int) 3
        (St.init (Sim.idle 104 fun _ => 0) [1, 2]) = some r ∧
      startWrites r.log = [104 <<< 1 ||| (1 + 2) <<< 16 ||| CR2_AUTOEND ||| CR2_START] ∧
      stopWrites r.log = [] ∧ txWrites r.log = (16 % 256) :: [1, 2] ∧
      ∃ pre v z, r.log = pre ++ [Ev.rd Reg.ISR v, Ev.rd Reg.ICR z,
        Ev.wr Reg.ICR (z ||| ICR_STOPCF)] ∧ v &&& ISR_STOPF ≠ 0 := by
  have h := burstWrite_single_phase simDev sim_cr2Model 104 16 3 2 (by decide) (by decide)
    (by decide) (Sim.idle 104 fun _ => 0) [1, 2] rfl
  obtain ⟨r, hr, htx, hend⟩ := h.2.2 _ _ _ _ rfl rfl rfl rfl
  exact ⟨r, hr, (h.1 r hr).1, (h.1 r hr).2, htx, hend⟩

theorem cr2Writes_of_regWrites (l : List Ev) (h : regWrites l = []) : cr2Writes l = [] := by
  induction l with
  | nil => rfl
  | cons e l ih =>
    cases e with
    | wr r v => simp at h
    | rd r v => simpa using ih (by simpa using h)
    | ld i => simpa using ih (by simpa using h)
    | st i v => simpa using ih (by simpa using h)

/-- Status readings and flag clearings touch neither CR2, nor the data registers,
nor the buffer. -/
theorem flagK_obs (pre : List Ev) (hq : ∀ e, e ∈ pre → e.access ∈ flagK) :
    cr2Writes pre = [] ∧ txWrites pre = [] ∧ rxReads pre = [] ∧ bufStores pre = [] := by
  refine ⟨cr2Writes_of_access pre ?_, txWrites_of_access pre ?_, rxReads_of_access pre ?_,
    bufStores_of_access pre ?_⟩ <;>
  · intro e he hc
    have := hq e he
    rw [hc] at this
    revert this
    decide

/-- Bits of the phase-2 control word of `I2C1_BurstRead` for a 7-bit address and a
byte count below 256. -/
theorem read_start_word (sa nb : Nat) (hsa : sa < 128) (hnb : nb < 256) :
    (sa <<< 1 ||| CR2_RD_WRN ||| nb <<< 16 ||| CR2_AUTOEND ||| CR2_START) &&& CR2_START ≠ 0 ∧
    (sa <<< 1 ||| CR2_RD_WRN ||| nb <<< 16 ||| CR2_AUTOEND ||| CR2_START) &&& CR2_STOP = 0 ∧
    (sa <<< 1 ||| CR2_RD_WRN ||| nb <<< 16 ||| CR2_AUTOEND ||| CR2_START) &&& CR2_RD_WRN ≠ 0 ∧
    (sa <<< 1 ||| CR2_RD_WRN ||| nb <<< 16 ||| CR2_AUTOEND ||| CR2_START) &&& CR2_AUTOEND ≠ 0 ∧
    (sa <<< 1 ||| CR2_RD_WRN ||| nb <<< 16 ||| CR2_AUTOEND ||| CR2_START) >>> 1 &&& 127 = sa ∧
    (sa <<< 1 ||| CR2_RD_WRN ||| nb <<< 16 ||| CR2_AUTOEND ||| CR2_START) >>> 16 &&& 255 = nb := by
  obtain ⟨f1, f2, f3, f4, f5, f6, f7, f8, f9, f10, f11⟩ := cr2_read_facts sa nb hsa hnb
  obtain ⟨-, ⟨n0, -⟩⟩ := word_bits sa nb hsa hnb
  have hsa' : sa % 256 = sa := Nat.mod_eq_of_lt (by omega)
  rw [hsa', n0] at f1 f2 f3 f4 f5 f6 f7
  refine ⟨f3, ?_, f5, f4, f2, f1⟩
  rw [or_and_mask, f7]
  decide

/-- Observations on the phase-2 programming of `I2C1_BurstRead` under the CR2
model: before the write of the START word nothing is triggered and no data
register or buffer is touched. -/
theorem startBurstReadPhase_obs {d : Dev σ} {view : σ → Nat} (hm : Cr2Model d view)
    (sa nb : Nat) (hsa : sa < 128) (hnb : nb < 256) (s : St σ) :
    ∃ pe, (startBurstReadPhase d sa nb s).log = s.log ++ pe ++
        [Ev.wr Reg.CR2 (sa <<< 1 ||| CR2_RD_WRN ||| nb <<< 16 ||| CR2_AUTOEND ||| CR2_START)] ∧
      startWrites pe = [] ∧ stopWrites pe = [] ∧ txWrites pe = [] ∧ rxReads pe = [] ∧
      bufStores pe = [] ∧ ∃ ws, regWrites pe = (Reg.CR2, 0) :: ws := by
  obtain ⟨hl, -⟩ := startBurstReadPhase_model hm sa nb hsa hnb s
  obtain ⟨f1, f2, f3, f4, f5, f6, f7, f8, f9, f10, f11⟩ := cr2_read_facts sa nb hsa hnb
  obtain ⟨⟨-, a1, a2, -, -⟩, ⟨n0, -⟩⟩ := word_bits sa nb hsa hnb
  have hsa' : sa % 256 = sa := Nat.mod_eq_of_lt (by omega)
  rw [hsa', n0] at f6 f7 f8 f9
  rw [hsa'] at f10 f11
  refine ⟨[Ev.wr Reg.CR2 0, Ev.rd Reg.CR2 0, Ev.wr Reg.CR2 (sa <<< 1),
       Ev.rd Reg.CR2 (sa <<< 1), Ev.wr Reg.CR2 (sa <<< 1 ||| CR2_RD_WRN),
       Ev.rd Reg.CR2 (sa <<< 1 ||| CR2_RD_WRN),
       Ev.wr Reg.CR2 (sa <<< 1 ||| CR2_RD_WRN ||| nb <<< 16),
       Ev.rd Reg.CR2 (sa <<< 1 ||| CR2_RD_WRN ||| nb <<< 16),
       Ev.wr Reg.CR2 (sa <<< 1 ||| CR2_RD_WRN ||| nb <<< 16 ||| CR2_AUTOEND),
       Ev.rd Reg.CR2 (sa <<< 1 ||| CR2_RD_WRN ||| nb <<< 16 ||| CR2_AUTOEND)],
    ?_, ?_, ?_, ?_, ?_, ?_, ?_⟩
  · rw [hl]; simp
  · simp [a1, f6, f8, f10]
  · simp [a2, f7, f9, f11]
  · simp
  · simp
  · simp
  · exact ⟨_, by simp; rfl⟩

/-- C19 (two-phase read): under the CR2 model, for a 7-bit address and
`1 ≤ n ≤ 255`, on a run of `I2C1_BurstRead` where every phase is ACKed, the call
returns and its trace holds exactly two CR2 writes with START set.  The first is
the phase-1 word (SADD = saddr, direction WRITE, NBYTES = 1, AUTOEND clear); it
is followed by exactly one TXDR write, of `maddr`, before the second, the phase-2
word (SADD = saddr, direction READ, NBYTES = n, AUTOEND set), which is followed
by exactly `n` reads of RXDR.  STOP is never written. -/
theorem burstRead_two_phases {view : σ → Nat} (d : Dev σ) (hm : Cr2Model d view)
    (sa ma fuel n : Nat) (hsa : sa < 128) (hn1 : 1 ≤ n) (hn : n ≤ 255) (hw : σ)
    (buf : List Nat) (hlen : n ≤ buf.length) (s1 s2 s3 s4 s5 : St σ)
    (hbusy : spinWhile d ISR_BUSY fuel (St.init hw buf) = some s1)
    (haddr : waitOrNack d ISR_TXIS fuel (startAddrPhase d sa s1) = some (Wait.ready, s2))
    (htc : waitOrNack d ISR_TC fuel (wrReg d Reg.TXDR (ma % 256) s2) = some (Wait.ready, s3))
    (hdata : readLoop d fuel n 0 (startBurstReadPhase d sa n s3) = some (Wait.ready, s4))
    (hstop : waitStopClearNack d fuel s4 = some s5) :
    ∃ r, I2C1_BurstRead d sa ma (n : Int) fuel (St.init hw buf) = some r ∧
      ∃ pre mid post,
        r.log = pre ++ [Ev.wr Reg.CR2 (sa <<< 1 ||| 1 <<< 16 ||| CR2_START)] ++ mid ++
          [Ev.wr Reg.CR2 (sa <<< 1 ||| CR2_RD_WRN ||| n <<< 16 ||| CR2_AUTOEND ||| CR2_START)] ++
          post ∧
        startWrites pre = [] ∧ startWrites mid = [] ∧ startWrites post = [] ∧
        txWrites pre = [] ∧ txWrites mid = [ma % 256] ∧ txWrites post = [] ∧
        rxReads pre = [] ∧ rxReads mid = [] ∧ (rxReads post).length = n ∧
        stopWrites r.log = [] ∧
        ((sa <<< 1 ||| 1 <<< 16 ||| CR2_START) >>> 1 &&& 127 = sa ∧
         (sa <<< 1 ||| 1 <<< 16 ||| CR2_START) &&& CR2_RD_WRN = 0 ∧
         (sa <<< 1 ||| 1 <<< 16 ||| CR2_START) >>> 16 &&& 255 = 1 ∧
         (sa <<< 1 ||| 1 <<< 16 ||| CR2_START) &&& CR2_AUTOEND = 0) ∧
        ((sa <<< 1 ||| CR2_RD_WRN ||| n <<< 16 ||| CR2_AUTOEND ||| CR2_START) >>> 1 &&& 127 = sa ∧
         (sa <<< 1 ||| CR2_RD_WRN ||| n <<< 16 ||| CR2_AUTOEND ||| CR2_START) &&& CR2_RD_WRN ≠ 0 ∧
         (sa <<< 1 ||| CR2_RD_WRN ||| n <<< 16 ||| CR2_AUTOEND ||| CR2_START) >>> 16 &&& 255 = n ∧
         (sa <<< 1 ||| CR2_RD_WRN ||| n <<< 16 ||| CR2_AUTOEND ||| CR2_START) &&& CR2_AUTOEND ≠ 0) := by
  have hn0 : ¬ (n : Int) ≤ 0 := by omega
  have hbig : ¬ (n : Int) > 255 := by omega
  have hnb : ((n : Int) % 4294967296).toNat = n := by omega
  have hcnt : (n : Int).toNat = n := by omega
  obtain ⟨w1, w2, w3, w4, w5, w6, -⟩ := addr_start_word sa hsa
  obtain ⟨r1, r2, r3, r4, r5, r6⟩ := read_start_word sa n hsa (by omega)
  obtain ⟨hb1, vs1, v1, hl1, -⟩ := spinWhile_spec d ISR_BUSY fuel _ _ hbusy
  obtain ⟨pe, hpe, ps, pp, pt, pr, pb, -, -⟩ := startAddrPhase_obs hm sa hsa s1
  obtain ⟨hb2, vs2, v2, hl2, -⟩ := waitOrNack_spec d ISR_TXIS fuel _ _ _ haddr
  obtain ⟨hb3, vs3, v3, hl3, -⟩ := waitOrNack_spec d ISR_TC fuel _ _ _ htc
  obtain ⟨qe, hqe, qs, qp, qt, qr, qb, -⟩ := startBurstReadPhase_obs hm sa n hsa (by omega) s3
  have hbuf3 : s3.buf = buf := by simp [hb3, hb2, startAddrPhase_buf, hb1]
  obtain ⟨evs, hl4, hw4, ht4, hr4, -, -⟩ :=
    readLoop_ready d fuel n 0 _ _ hdata (by simp [startBurstReadPhase_buf, hbuf3]; omega)
  have hc4 : cr2Writes evs = [] := cr2Writes_of_regWrites evs hw4
  obtain ⟨hb5, pre5, v5, hl5, hv5, hq5⟩ := waitStopClearNack_spec d fuel _ _ hstop
  obtain ⟨fc, ft, fr, -⟩ := flagK_obs pre5 hq5
  refine ⟨setBits d Reg.ICR ICR_STOPCF s5, ?_, polls vs1 ++ [Ev.rd Reg.ISR v1] ++ pe,
    polls vs2 ++ [Ev.rd Reg.ISR v2, Ev.wr Reg.TXDR (ma % 256)] ++ polls vs3 ++
      [Ev.rd Reg.ISR v3] ++ qe,
    evs ++ pre5 ++ [Ev.rd Reg.ISR v5, Ev.rd Reg.ICR (rdReg d Reg.ICR s5).1,
      Ev.wr Reg.ICR ((rdReg d Reg.ICR s5).1 ||| ICR_STOPCF)],
    ?_, ?_, ?_, ?_, ?_, ?_, ?_, ?_, ?_, ?_, ?_, ⟨w5, w3, w6, w4⟩, ⟨r5, r3, r6, r4⟩⟩
  · simp [I2C1_BurstRead, hn0, hbig, hbusy, haddr, htc, hnb, hcnt, hdata, hstop]
  · rw [setBits_log, hl5, hl4, hqe, hl3, wrReg_log, hl2, hpe, hl1]
    simp
  · simp [ps]
  · simp [qs]
  · simp [startWrites_of_cr2Writes _ hc4, startWrites_of_cr2Writes _ fc]
  · simp [pt]
  · simp [qt]
  · simp [ht4, ft]
  · simp [pr]
  · simp [qr]
  · simp [hr4, fr]
  · rw [setBits_log, hl5, hl4, hqe, hl3, wrReg_log, hl2, hpe, hl1]
    simp only [stopWrites_append, stopWrites_polls, stopWrites_rd, stopWrites_wr, pp, qp,
      stopWrites_of_cr2Writes _ hc4, stopWrites_of_cr2Writes _ fc, stopWrites_nil, St.init_log]
    simp [-Nat.reduceShiftLeft, w2, r2]

/-- Witness for C19 on the simulated controller: a two-byte read from the slave
at 104, every phase ACKed. -/
theorem burstRead_two_phases_witness :
    ∃ r, I2C1_BurstRead simDev 104 16 ((2 : Nat) : Int) 3
        (St.init (Sim.idle 104 fun a => a + 1) [0, 0]) = some r ∧
      ∃ pre mid post,
        r.log = pre ++ [Ev.wr Reg.CR2 (104 <<< 1 ||| 1 <<< 16 ||| CR2_START)] ++ mid ++
          [Ev.wr Reg.CR2 (104 <<< 1 ||| CR2_RD_WRN ||| 2 <<< 16 ||| CR2_AUTOEND ||| CR2_START)] ++
          post ∧
        startWrites pre = [] ∧ startWrites mid = [] ∧ startWrites post = [] ∧
        txWrites pre = [] ∧ txWrites mid = [16 % 256] ∧ txWrites post = [] ∧
        rxReads pre = [] ∧ rxReads mid = [] ∧ (rxReads post).length = 2 ∧
        stopWrites r.log = [] := by
  have h := burstRead_two_phases simDev sim_cr2Model 104 16 3 2 (by decide) (by decide)
    (by decide) (Sim.idle 104 fun a => a + 1) [0, 0] (by decide)
  obtain ⟨r, hr, pre, mid, post, h1, h2, h3, h4, h5, h6, h7, h8, h9, h10, h11, -⟩ :=
    h _ _ _ _ _ rfl rfl rfl rfl rfl
  exact ⟨r, hr, pre, mid, post, h1, h2, h3, h4, h5, h6, h7, h8, h9, h10, h11⟩

/-- Observations on the phase-2 programming of `I2C1_ByteRead` under the CR2
model: CR2 is cleared, the fields are OR-ed in without any trigger bit, and the
last access is the plain assignment `CR2 = CR2_START`. -/
theorem startByteReadPhase_obs {d : Dev σ} {view : σ → Nat} (hm : Cr2Model d view)
    (sa : Nat) (hsa : sa < 128) (s : St σ) :
    ∃ pe, (startByteReadPhase d sa s).log = s.log ++ pe ++ [Ev.wr Reg.CR2 CR2_START] ∧
      startWrites pe = [] ∧ stopWrites pe = [] ∧ txWrites pe = [] ∧ rxReads pe = [] ∧
      bufStores pe = [] ∧ ∃ ws, regWrites pe = (Reg.CR2, 0) :: ws := by
  obtain ⟨f1, f2, f3, f4, f5, f6, f7, f8, f9, f10, f11⟩ := cr2_read_facts sa 1 hsa (by norm_num)
  obtain ⟨⟨a0, a1, a2, a3, a4⟩, ⟨n0, n1, n2, n3, n4, n5⟩⟩ := word_bits sa 1 hsa (by norm_num)
  have hsa' : sa % 256 = sa := Nat.mod_eq_of_lt (by omega)
  have hA : u32 CR2_AUTOEND = CR2_AUTOEND := by decide
  have hR : u32 CR2_RD_WRN = CR2_RD_WRN := by decide
  rw [hsa', n0] at f6 f7 f8 f9
  rw [hsa'] at f10 f11
  have r0 : u32 (sa <<< 1 ||| CR2_RD_WRN) = sa <<< 1 ||| CR2_RD_WRN := u32_or _ _ a0 hR
  have b0 : u32 (sa <<< 1 ||| CR2_RD_WRN ||| 1 <<< 16) = sa <<< 1 ||| CR2_RD_WRN ||| 1 <<< 16 :=
    u32_or _ _ r0 n5
  have e0 := hm.zero s
  obtain ⟨l1, v1⟩ := hm.set (wrReg d Reg.CR2 0 s) 0 (sa <<< 1) e0 (by decide) a0
    (by rw [Nat.zero_or]; exact a1) (by rw [Nat.zero_or]; exact a2)
  rw [Nat.zero_or] at l1 v1
  obtain ⟨l2, v2⟩ := hm.set _ (sa <<< 1) CR2_RD_WRN v1 a0 hR f10 f11
  obtain ⟨l3, v3⟩ := hm.set _ (sa <<< 1 ||| CR2_RD_WRN) (1 <<< CR2_NBYTES_POS) v2 r0 n5 f8 f9
  obtain ⟨l4, v4⟩ := hm.set _ _ CR2_AUTOEND v3 b0 hA f6 f7
  refine ⟨[Ev.wr Reg.CR2 0, Ev.rd Reg.CR2 0, Ev.wr Reg.CR2 (sa <<< 1),
       Ev.rd Reg.CR2 (sa <<< 1), Ev.wr Reg.CR2 (sa <<< 1 ||| CR2_RD_WRN),
       Ev.rd Reg.CR2 (sa <<< 1 ||| CR2_RD_WRN),
       Ev.wr Reg.CR2 (sa <<< 1 ||| CR2_RD_WRN ||| 1 <<< 16),
       Ev.rd Reg.CR2 (sa <<< 1 ||| CR2_RD_WRN ||| 1 <<< 16),
       Ev.wr Reg.CR2 (sa <<< 1 ||| CR2_RD_WRN ||| 1 <<< 16 ||| CR2_AUTOEND)],
    ?_, ?_, ?_, ?_, ?_, ?_, ?_⟩
  · unfold startByteReadPhase
    rw [hsa', wrReg_log, l4, l3, l2, l1, wrReg_log]
    simp [CR2_NBYTES_POS]
  · simp [-Nat.reduceShiftLeft, a1, f6, f8, f10]
  · simp [-Nat.reduceShiftLeft, a2, f7, f9, f11]
  · simp
  · simp
  · simp
  · exact ⟨_, by simp; rfl⟩

/-- What follows the phase-2 programming in a returning `I2C1_ByteRead`: bus
accesses only. -/
theorem byteRead_tail (d : Dev σ) (fuel : Nat) (s r : St σ)
    (h : (match waitOrNack d ISR_RXNE fuel s with
      | none => none
      | some (Wait.nack, s4) => abortStop d fuel s4
      | some (Wait.ready, s4) =>
        match spinUntil d ISR_STOPF fuel
            (storeBuf 0 (rdReg d Reg.RXDR s4).1 (rdReg d Reg.RXDR s4).2) with
        | none => none
        | some s5 => some (wrReg d Reg.ICR ICR_STOPCF s5)) = some r) :
    Grows busK s r := by
  have k1 : Access.rd Reg.ISR ∈ busK := by decide
  split at h
  · simp at h
  · rename_i s4 hs4
    exact (grows_waitOrNack busK d _ _ _ _ _ hs4 k1).trans
      (grows_abortStop busK d _ _ _ abortK_sub_busK h)
  · rename_i s4 hs4
    refine (grows_waitOrNack busK d _ _ _ _ _ hs4 k1).trans
      ((grows_rdReg busK d Reg.RXDR s4 (by decide)).trans
        ((grows_storeBuf busK 0 (rdReg d Reg.RXDR s4).1 (rdReg d Reg.RXDR s4).2
          (by decide)).trans ?_))
    split at h
    · simp at h
    · rename_i s5 hs5
      injection h with h
      subst h
      exact (grows_spinUntil busK d _ _ _ _ hs5 k1).trans (grows_wrReg busK d _ _ _ (by decide))

/-- C20 (software end of phase 1): under the CR2 model, for a 7-bit address, on
every returning run of `I2C1_ByteRead`, and of `I2C1_BurstRead` with
`1 ≤ n ≤ 255`, whose phase 1 met no NACK, the trace has the software-end shape:
the phase-1 START word (STOP and AUTOEND clear) is the first trigger written, no
STOP is written before it, CR2 is not written again until a status reading shows
TC, and only after that reading is CR2 reprogrammed (starting with `CR2 = 0`,
without STOP) and the phase-2 START word written. -/
theorem phase1_software_end {view : σ → Nat} (d : Dev σ) (hm : Cr2Model d view)
    (sa ma fuel : Nat) (hsa : sa < 128) (hw : σ) (buf : List Nat) (s1 s2 : St σ)
    (hbusy : spinWhile d ISR_BUSY fuel (St.init hw buf) = some s1)
    (haddr : waitOrNack d ISR_TXIS fuel (startAddrPhase d sa s1) = some (Wait.ready, s2)) :
    (∀ s3 r, spinUntil d ISR_TC fuel (wrReg d Reg.TXDR (ma % 256) s2) = some s3 →
      I2C1_ByteRead d sa ma fuel (St.init hw buf) = some r →
      SoftwareEnd r.log (sa <<< 1 ||| 1 <<< 16 ||| CR2_START) CR2_START) ∧
    (∀ (n : Nat) s3 r, 1 ≤ n → n ≤ 255 →
      waitOrNack d ISR_TC fuel (wrReg d Reg.TXDR (ma % 256) s2) = some (Wait.ready, s3) →
      I2C1_BurstRead d sa ma (n : Int) fuel (St.init hw buf) = some r →
      SoftwareEnd r.log (sa <<< 1 ||| 1 <<< 16 ||| CR2_START)
        (sa <<< 1 ||| CR2_RD_WRN ||| n <<< 16 ||| CR2_AUTOEND ||| CR2_START)) := by
  obtain ⟨w1, w2, w3, w4, w5, w6, -⟩ := addr_start_word sa hsa
  obtain ⟨hb1, vs1, v1, hl1, -⟩ := spinWhile_spec d ISR_BUSY fuel _ _ hbusy
  obtain ⟨pe, hpe, ps, pp, pt, pr, pb, -, -⟩ := startAddrPhase_obs hm sa hsa s1
  obtain ⟨hb2, vs2, v2, hl2, -⟩ := waitOrNack_spec d ISR_TXIS fuel _ _ _ haddr
  constructor
  · intro s3 r htc hres
    obtain ⟨hb3, vs3, v3, hl3, hv3⟩ := spinUntil_spec d ISR_TC fuel _ _ htc
    obtain ⟨qe, hqe, qs, qp, -, -, -, qw⟩ := startByteReadPhase_obs hm sa hsa s3
    simp only [I2C1_ByteRead, hbusy, haddr, htc] at hres
    obtain ⟨t, ht, -⟩ := (byteRead_tail d fuel _ r hres).tail
    refine ⟨polls vs1 ++ [Ev.rd Reg.ISR v1] ++ pe,
      polls vs2 ++ [Ev.rd Reg.ISR v2, Ev.wr Reg.TXDR (ma % 256)] ++ polls vs3, v3, qe, t,
      ?_, ?_, ?_, w1, w2, w4, ?_, hv3, qs, qp, qw, by decide⟩
    · rw [ht, hqe, hl3, wrReg_log, hl2, hpe, hl1]
      simp
    · simp [ps]
    · simp [pp]
    · simp
  · intro n s3 r hn1 hn htc hres
    have hn0 : ¬ (n : Int) ≤ 0 := by omega
    have hbig : ¬ (n : Int) > 255 := by omega
    have hnb : ((n : Int) % 4294967296).toNat = n := by omega
    have hcnt : (n : Int).toNat = n := by omega
    obtain ⟨r1, -⟩ := read_start_word sa n hsa (by omega)
    obtain ⟨hb3, vs3, v3, hl3, hv3⟩ := waitOrNack_spec d ISR_TC fuel _ _ _ htc
    obtain ⟨qe, hqe, qs, qp, -, -, -, qw⟩ := startBurstReadPhase_obs hm sa n hsa (by omega) s3
    simp only [I2C1_BurstRead, hn0, hbig, hbusy, haddr, htc, hnb, hcnt, if_false] at hres
    obtain ⟨t, ht, -⟩ := (burstRead_tail d fuel _ _ r hres).tail
    refine ⟨polls vs1 ++ [Ev.rd Reg.ISR v1] ++ pe,
      polls vs2 ++ [Ev.rd Reg.ISR v2, Ev.wr Reg.TXDR (ma % 256)] ++ polls vs3, v3, qe, t,
      ?_, ?_, ?_, w1, w2, w4, ?_, by simpa using hv3, qs, qp, qw, r1⟩
    · rw [ht, hqe, hl3, wrReg_log, hl2, hpe, hl1]
      simp
    · simp [ps]
    · simp [pp]
    · simp

/-- Witness for C20 on the simulated controller: a two-byte burst read from the
slave at 104. -/
theorem phase1_software_end_witness :
    ∃ r, I2C1_BurstRead simDev 104 16 ((2 : Nat) : Int) 3
        (St.init (Sim.idle 104 fun a => a + 1) [0, 0]) = some r ∧
      SoftwareEnd r.log (104 <<< 1 ||| 1 <<< 16 ||| CR2_START)
        (104 <<< 1 ||| CR2_RD_WRN ||| 2 <<< 16 ||| CR2_AUTOEND ||| CR2_START) := by
  have h := phase1_software_end simDev sim_cr2Model 104 16 3 (by decide)
    (Sim.idle 104 fun a => a + 1) [0, 0]
  exact ⟨_, rfl, (h _ _ rfl rfl).2 2 _ _ (by decide) (by decide) rfl rfl⟩

/-- C23 (rounding of the baud-rate divisor): for `uint32_t` arguments with
`BaudRate > 0`, no overflow of `PeriphClk + BaudRate / 2` and a quotient below
`2 ^ 16`, `compute_uart_bd` returns a value `r` with
`2 * |r * BaudRate - PeriphClk| ≤ BaudRate`, that is `PeriphClk / BaudRate`
rounded to the nearest integer; for 8 MHz and 115200 baud it returns 69. -/
theorem compute_uart_bd_rounds (PeriphClk BaudRate : Nat) (hB : 0 < BaudRate)
    (hsum : PeriphClk + BaudRate / 2 < 4294967296)
    (hq : (PeriphClk + BaudRate / 2) / BaudRate < 65536) :
    (∃ r, Uart.compute_uart_bd PeriphClk BaudRate = some r ∧
      r = (PeriphClk + BaudRate / 2) / BaudRate ∧
      2 * |(r : Int) * BaudRate - PeriphClk| ≤ BaudRate) ∧
    Uart.compute_uart_bd 8000000 115200 = some 69 := by
  refine ⟨⟨(PeriphClk + BaudRate / 2) / BaudRate, ?_, rfl, ?_⟩, by decide⟩
  · have h0 : BaudRate ≠ 0 := by omega
    simp [Uart.compute_uart_bd, h0, u32, Nat.mod_eq_of_lt hsum, Nat.mod_eq_of_lt hq]
  · have h1 := Nat.div_add_mod (PeriphClk + BaudRate / 2) BaudRate
    have h2 := Nat.mod_lt (PeriphClk + BaudRate / 2) hB
    generalize (PeriphClk + BaudRate / 2) / BaudRate = r at h1
    generalize (PeriphClk + BaudRate / 2) % BaudRate = m at h1 h2
    have h3 : ((r : Int) * BaudRate) = ((BaudRate * r : Nat) : Int) := by push_cast; ring
    rw [h3]
    generalize BaudRate * r = t at h1
    rcases abs_cases ((t : Int) - (PeriphClk : Int)) with ⟨h, _⟩ | ⟨h, _⟩ <;> rw [h] <;> omega

/-- Witness for C23: the configuration of `uart3_tx_rx_init`, 8 MHz and 115200
baud. -/
theorem compute_uart_bd_rounds_witness :
    (∃ r, Uart.compute_uart_bd 8000000 115200 = some r ∧
      r = (8000000 + 115200 / 2) / 115200 ∧
      2 * |(r : Int) * (115200 : Nat) - (8000000 : Nat)| ≤ (115200 : Nat)) ∧
    Uart.compute_uart_bd 8000000 115200 = some 69 :=
  compute_uart_bd_rounds 8000000 115200 (by decide) (by decide) (by decide)

theorem getD_mid (pre : List Nat) (x : Nat) (rest : List Nat) :
    (pre ++ x :: rest).getD pre.length 0 = x := by
  induction pre with
  | nil => rfl
  | cons a pre ih => simpa using ih

theorem set_mid (pre : List Nat) (x v : Nat) (rest : List Nat) :
    (pre ++ x :: rest).set pre.length v = pre ++ v :: rest := by
  induction pre with
  | nil => rfl
  | cons a pre ih => simp [ih]

/-- The digit loop on a non-negative `num = m` stores the decimal digits of `m`,
least significant first, as ASCII codes from index `i` on. -/
theorem digitLoop_spec : ∀ (fuel m : Nat) (buffer : List Nat) (i : Nat),
    (Nat.digits 10 m).length < fuel → i + (Nat.digits 10 m).length ≤ buffer.length →
    Uart.digitLoop fuel (m : Int) buffer i =
      some (buffer.take i ++ (Nat.digits 10 m).map (· + 48) ++
        buffer.drop (i + (Nat.digits 10 m).length), i + (Nat.digits 10 m).length) := by
  intro fuel
  induction fuel with
  | zero => intro m buffer i h; omega
  | succ f ih =>
    intro m buffer i hf hlen
    rw [Uart.digitLoop]
    by_cases hm : m = 0
    · subst hm
      simp
    · have hpos : 0 < m := Nat.pos_of_ne_zero hm
      have hd : Nat.digits 10 m = m % 10 :: Nat.digits 10 (m / 10) :=
        Nat.digits_def' (by norm_num) hpos
      rw [hd] at hf hlen ⊢
      simp only [List.length_cons] at hf hlen
      have hgt : (m : Int) > 0 := by exact_mod_cast hpos
      have hdiv : (m : Int) / 10 = ((m / 10 : Nat) : Int) := by push_cast; rfl
      have hmod : ((m : Int) % 10 + 48).toNat % 256 = m % 10 + 48 := by omega
      rw [if_pos hgt, hdiv, hmod, ih (m / 10) _ (i + 1) (by omega) (by simp; omega)]
      simp only [List.length_cons, List.map_cons]
      rw [set_take_snoc buffer i _ _ _ (by omega)]
      simp [Nat.add_assoc, Nat.add_comm 1]

/-- The reversal loop started on the two ends of a segment `mid` of the buffer
reverses that segment and leaves the rest alone. -/
theorem reverseLoop_spec : ∀ (fuel : Nat) (pre mid post : List Nat),
    mid.length < 2 * fuel →
    Uart.reverseLoop fuel (pre.length : Int) ((pre.length : Int) + (mid.length : Int) - 1)
      (pre ++ mid ++ post) = some (pre ++ mid.reverse ++ post) := by
  intro fuel
  induction fuel with
  | zero => intro pre mid post h; omega
  | succ f ih =>
    intro pre mid post hf
    rw [Uart.reverseLoop]
    cases mid with
    | nil => simp
    | cons x m' =>
      rcases List.eq_nil_or_concat m' with rfl | ⟨m, y, rfl⟩
      · simp
      · simp only [List.concat_eq_append] at hf ⊢
        have hlt : (pre.length : Int) <
            (pre.length : Int) + ((x :: (m ++ [y])).length : Int) - 1 := by
          simp only [List.length_cons, List.length_append, List.length_singleton, List.length_nil]
          push_cast
          omega
        have he : (pre.length : Int) + ((x :: (m ++ [y])).length : Int) - 1 =
            (((pre ++ x :: m).length : Nat) : Int) := by
          simp only [List.length_cons, List.length_append, List.length_singleton, List.length_nil]
          push_cast
          omega
        rw [if_pos hlt, he, Int.toNat_ofNat, Int.toNat_ofNat]
        have hb : pre ++ x :: (m ++ [y]) ++ post = (pre ++ x :: m) ++ y :: post := by simp
        have g1 : (pre ++ x :: (m ++ [y]) ++ post).getD (pre ++ x :: m).length 0 = y := by
          rw [hb, getD_mid]
        have g2 : (pre ++ x :: (m ++ [y]) ++ post).getD pre.length 0 = x := by
          rw [show pre ++ x :: (m ++ [y]) ++ post = pre ++ x :: (m ++ [y] ++ post) by simp,
            getD_mid]
        have s1 : (pre ++ x :: (m ++ [y]) ++ post).set pre.length y =
            (pre ++ y :: m) ++ y :: post := by
          rw [show pre ++ x :: (m ++ [y]) ++ post = pre ++ x :: (m ++ [y] ++ post) by simp,
            set_mid]
          simp
        have hl' : (pre ++ x :: m).length = (pre ++ y :: m).length := by simp
        rw [g1, g2, s1, hl', set_mid]
        have h1 : ((pre.length : Int) + 1) = (((pre ++ [y]).length : Nat) : Int) := by simp
        have h2 : ((((pre ++ y :: m).length : Nat) : Int) - 1) =
            (((pre ++ [y]).length : Nat) : Int) + ((m.length : Nat) : Int) - 1 := by
          simp only [List.length_cons, List.length_append, List.length_singleton, List.length_nil]
          push_cast
          omega
        rw [h1, h2, show (pre ++ y :: m) ++ x :: post = (pre ++ [y]) ++ m ++ (x :: post) by simp,
          ih (pre ++ [y]) m (x :: post) (by simp at hf; omega)]
        simp
theorem digits_len_int32 (m : Nat) (hm : m < 2147483648) : (Nat.digits 10 m).length ≤ 10 := by
  by_cases h0 : m = 0
  · subst h0; simp
  · have h1 := Nat.base_pow_length_digits_le 10 m (by norm_num) h0
    by_contra hc
    have h2 : 10 ^ 11 ≤ 10 ^ (Nat.digits 10 m).length :=
      Nat.pow_le_pow_right (by norm_num) (by omega)
    have h3 : (10 : Nat) ^ 11 = 100000000000 := by norm_num
    omega

/-- Sending a buffer that holds non-zero bytes below 256 followed by the
terminator transmits exactly those bytes. -/
theorem uart3_puts_terminated (content rest : List Nat)
    (hc : ∀ c, c ∈ content → c ≠ 0 ∧ c < 256) :
    Uart.uart3_puts (content ++ 0 :: rest) = content := by
  unfold Uart.uart3_puts
  rw [List.takeWhile_append_of_pos (by simpa using fun a ha => (hc a ha).1)]
  simp only [ne_eq, not_true_eq_false, decide_False, List.takeWhile_cons_of_neg,
    Bool.false_eq_true, not_false_eq_true, List.append_nil]
  conv_rhs => rw [← List.map_id content]
  apply List.map_congr_left
  intro a ha
  exact Nat.mod_eq_of_lt (hc a ha).2

/-- The formatting part of `uart3_put_int` for a non-zero `num` whose negation
does not overflow: the buffer ends up holding the decimal representation followed
by the terminator, and the final index is its length, at most 11. -/
theorem formatInt_spec (fuel : Nat) (num : Int) (buffer : List Nat) (h0 : num ≠ 0)
    (hlo : -2147483648 < num) (hhi : num ≤ 2147483647) (hf : 11 ≤ fuel)
    (hlen : buffer.length = 12) :
    ∃ rest, Uart.formatInt fuel num buffer =
        some (Uart.decimal num ++ 0 :: rest, (Uart.decimal num).length) ∧
      (Uart.decimal num).length ≤ 11 ∧ ∀ c, c ∈ Uart.decimal num → c ≠ 0 ∧ c < 256 := by
  have hm : num.natAbs < 2147483648 := by omega
  have hdl := digits_len_int32 num.natAbs hm
  have hnum1 : (if num < 0 then Uart.toInt32 (-num) else num) = (num.natAbs : Int) := by
    unfold Uart.toInt32
    split <;> omega
  have hdig := digitLoop_spec fuel num.natAbs buffer 0 (by omega) (by omega)
  simp only [List.take_zero, List.nil_append, Nat.zero_add] at hdig
  have hdec : Uart.decimal num =
      ((Nat.digits 10 num.natAbs).map (· + 48) ++ (if num < 0 then [45] else [])).reverse := by
    unfold Uart.decimal
    rw [if_neg h0]
    split <;> simp [List.map_reverse]
  have hchars : ∀ c, c ∈ Uart.decimal num → c ≠ 0 ∧ c < 256 := by
    intro c hc
    rw [hdec] at hc
    simp only [List.mem_reverse, List.mem_append, List.mem_map] at hc
    rcases hc with ⟨a, ha, rfl⟩ | hc
    · have := Nat.digits_lt_base (by norm_num : 1 < 10) ha
      omega
    · split at hc
      · simp at hc; omega
      · simp at hc
  -- the rest of the buffer behind the digits
  obtain ⟨c1, c2, rest, hrest⟩ : ∃ c1 c2 rest,
      buffer.drop (Nat.digits 10 num.natAbs).length = c1 :: c2 :: rest := by
    have hl : 2 ≤ (buffer.drop (Nat.digits 10 num.natAbs).length).length := by
      rw [List.length_drop]; omega
    match hb : buffer.drop (Nat.digits 10 num.natAbs).length, hl with
    | c1 :: c2 :: rest, _ => exact ⟨c1, c2, rest, rfl⟩
  rw [hrest] at hdig
  unfold Uart.formatInt
  rw [hnum1, hdig]
  simp only
  by_cases hneg : num < 0
  · simp only [hneg, if_true] at hdec ⊢
    have hset : ((Nat.digits 10 num.natAbs).map (· + 48) ++ c1 :: c2 :: rest).set
        (Nat.digits 10 num.natAbs).length 45 =
        ((Nat.digits 10 num.natAbs).map (· + 48) ++ [45]) ++ c2 :: rest := by
      have := set_mid ((Nat.digits 10 num.natAbs).map (· + 48)) c1 45 (c2 :: rest)
      rw [List.length_map] at this
      rw [this]; simp
    have hrev := reverseLoop_spec fuel [] ((Nat.digits 10 num.natAbs).map (· + 48) ++ [45])
      (c2 :: rest) (by simp; omega)
    simp only [List.length_nil, Nat.cast_zero, zero_add, List.nil_append, List.length_append,
      List.length_map, List.length_singleton] at hrev
    rw [hset, hrev, ← hdec]
    have hdl' : (Uart.decimal num).length = (Nat.digits 10 num.natAbs).length + 1 := by
      rw [hdec]; simp
    refine ⟨rest, ?_, by omega, hchars⟩
    have := set_mid (Uart.decimal num) c2 0 rest
    rw [hdl'] at this
    simp only [this, hdl']
  · simp only [hneg, if_false, List.append_nil] at hdec ⊢
    have hrev := reverseLoop_spec fuel [] ((Nat.digits 10 num.natAbs).map (· + 48))
      (c1 :: c2 :: rest) (by simp; omega)
    simp only [List.length_nil, Nat.cast_zero, zero_add, List.nil_append,
      List.length_map] at hrev
    rw [hrev, ← hdec]
    have hdl' : (Uart.decimal num).length = (Nat.digits 10 num.natAbs).length := by
      rw [hdec]; simp
    refine ⟨c2 :: rest, ?_, by omega, hchars⟩
    have := set_mid (Uart.decimal num) c1 0 (c2 :: rest)
    rw [hdl'] at this
    simp only [this, hdl']
/-- C26 (evaluation of the code): for `num = INT_MIN` the negation `-num`, taken
in 32-bit two's complement, is `INT_MIN` again, the digit loop `while (num > 0)`
is not entered, and `uart3_put_int` transmits the single character `-` (final
index 1) instead of the decimal representation `-2147483648`.  For every other
32-bit `num` the function transmits exactly the decimal representation of `num`
(`0` for zero, otherwise `-` for negatives and the digits, most significant
first, without leading zeros); for `num ≠ 0` the final index into the 12-byte
buffer is the length of that text, at most 11. -/
theorem put_int_decimal :
    (∀ (fuel : Nat) (buffer : List Nat), 1 ≤ fuel → buffer.length = 12 →
      Uart.uart3_put_int fuel (-2147483648) buffer = some [45] ∧
      ∃ b, Uart.formatInt fuel (-2147483648) buffer = some (b, 1)) ∧
    Uart.decimal (-2147483648) = [45, 50, 49, 52, 55, 52, 56, 51, 54, 52, 56] ∧
    (∀ (fuel : Nat) (num : Int) (buffer : List Nat), -2147483648 < num → num ≤ 2147483647 →
      11 ≤ fuel → buffer.length = 12 →
      Uart.uart3_put_int fuel num buffer = some (Uart.decimal num) ∧
      (num ≠ 0 → ∃ b, Uart.formatInt fuel num buffer = some (b, (Uart.decimal num).length) ∧
        (Uart.decimal num).length ≤ 11)) := by
  refine ⟨?_, ?_, ?_⟩
  · intro fuel buffer hf hlen
    obtain ⟨f, rfl⟩ : ∃ f, fuel = f + 1 := ⟨fuel - 1, by omega⟩
    match buffer, hlen with
    | c1 :: c2 :: rest, _ =>
      have h1 : Uart.toInt32 2147483648 = -2147483648 := by decide
      have hfmt : Uart.formatInt (f + 1) (-2147483648) (c1 :: c2 :: rest) =
          some (45 :: 0 :: rest, 1) := by
        simp [Uart.formatInt, h1, Uart.digitLoop, Uart.reverseLoop]
      refine ⟨?_, _, hfmt⟩
      rw [Uart.uart3_put_int, if_neg (by decide), hfmt]
      simp [Uart.uart3_puts]
  · simp [Uart.decimal]
  · intro fuel num buffer hlo hhi hf hlen
    by_cases h0 : num = 0
    · subst h0
      exact ⟨by simp [Uart.uart3_put_int, Uart.decimal], fun h => absurd rfl h⟩
    · obtain ⟨rest, hfmt, hle, hch⟩ := formatInt_spec fuel num buffer h0 hlo hhi hf hlen
      refine ⟨?_, fun _ => ⟨_, hfmt, hle⟩⟩
      rw [Uart.uart3_put_int, if_neg h0, hfmt]
      simp only [Option.map_some']
      rw [uart3_puts_terminated _ _ hch]

set_option maxRecDepth 100000 in
/-- C22 (evaluation of the code): the same all-ACK readings (bus free, TXIS, TC,
RXNE, STOPF; RXDR delivers 66) given to `I2C1_ByteRead(104, 117, &b)` and to
`I2C1_BurstRead(104, 117, 1, &b)` on the scripted device.  The register writes
agree up to the phase-2 programming and differ in its last word: the burst read
triggers START with `CR2 |= CR2_START` (33629392: SADD = 104, READ, NBYTES = 1,
AUTOEND, START), the byte read with `CR2 = CR2_START` (8192).  On the simulated
controller, whose slave at 104 holds 104 in register 117, the byte read leaves
`b = 7` untouched (its second START addresses slave 0 and is NACKed) while the
burst read with `n = 1` leaves `b = 104`. -/
theorem byteRead_differs_from_burstRead_one :
    (I2C1_ByteRead scriptDev 104 117 2 (St.init ⟨[0, 2, 64, 4, 32], [66], 0⟩ [5])).map
      (fun r => (r.buf, regWrites r.log)) =
      some ([66], [(Reg.CR2, 0), (Reg.CR2, 208), (Reg.CR2, 208), (Reg.CR2, 65744),
        (Reg.CR2, 65744), (Reg.CR2, 73936), (Reg.TXDR, 117), (Reg.CR2, 0), (Reg.CR2, 208),
        (Reg.CR2, 1232), (Reg.CR2, 66768), (Reg.CR2, 33621200), (Reg.CR2, 8192),
        (Reg.ICR, 32)]) ∧
    (I2C1_BurstRead scriptDev 104 117 1 2 (St.init ⟨[0, 2, 64, 4, 32], [66], 0⟩ [5])).map
      (fun r => (r.buf, regWrites r.log)) =
      some ([66], [(Reg.CR2, 0), (Reg.CR2, 208), (Reg.CR2, 208), (Reg.CR2, 65744),
        (Reg.CR2, 65744), (Reg.CR2, 73936), (Reg.TXDR, 117), (Reg.CR2, 0), (Reg.CR2, 208),
        (Reg.CR2, 1232), (Reg.CR2, 66768), (Reg.CR2, 33621200), (Reg.CR2, 33629392),
        (Reg.ICR, 32)]) ∧
    (I2C1_ByteRead simDev 104 117 2 (St.init (Sim.idle 104 fun _ => 104) [7])).map
      (fun r => r.buf) = some [7] ∧
    (I2C1_BurstRead simDev 104 117 1 2 (St.init (Sim.idle 104 fun _ => 104) [7])).map
      (fun r => r.buf) = some [104] := by
  decide

@[simp] theorem bufLoads_append (a b : List Ev) : bufLoads (a ++ b) = bufLoads a ++ bufLoads b := by
  simp [bufLoads]

@[simp] theorem bufLoads_nil : bufLoads [] = [] := rfl

@[simp] theorem bufLoads_cons (e : Ev) (l : List Ev) :
    bufLoads (e :: l) = e.ldVal.toList ++ bufLoads l := by
  show List.filterMap Ev.ldVal (e :: l) = _
  rw [List.filterMap_cons]
  generalize e.ldVal = o
  cases o <;> rfl

@[simp] theorem bufLoads_polls (vs : List Nat) : bufLoads (polls vs) = [] := by
  induction vs with
  | nil => rfl
  | cons v vs ih => simpa [polls] using ih

theorem bufLoads_of_access (t : List Ev) (h : ∀ e, e ∈ t → e.access ≠ Access.ld) :
    bufLoads t = [] := by
  induction t with
  | nil => rfl
  | cons e t ih =>
    have he := h e (List.mem_cons_self _ _)
    rw [bufLoads_cons, ih (fun x hx => h x (List.mem_cons_of_mem _ hx))]
    cases e with
    | ld i => exact absurd rfl he
    | _ => rfl

theorem Quiet.here (K : List Access) (s : St σ) : Quiet K s s := ⟨Grows.refl K s, rfl⟩

theorem Quiet.andThen {K : List Access} {s r u : St σ} (h1 : Quiet K s r) (h2 : Quiet K r u) :
    Quiet K s u := ⟨h1.1.trans h2.1, h2.2.trans h1.2⟩

/-- A quiet step with control accesses only made no buffer store, no buffer load
and no RXDR read, and left the buffer as it was. -/
theorem Quiet.obs {s r : St σ} (h : Quiet ctlK s r) :
    ∃ t, r.log = s.log ++ t ∧ bufStores t = [] ∧ bufLoads t = [] ∧ rxReads t = [] ∧
      r.buf = s.buf := by
  obtain ⟨⟨t, hl, hq⟩, hb⟩ := h
  refine ⟨t, hl, bufStores_of_access t ?_, bufLoads_of_access t ?_, rxReads_of_access t ?_, hb⟩ <;>
  · intro e he hc
    have := hq e he
    rw [hc] at this
    revert this
    decide

theorem quiet_spinWhile (d : Dev σ) (flag fuel : Nat) (s r : St σ)
    (h : spinWhile d flag fuel s = some r) : Quiet ctlK s r :=
  ⟨grows_spinWhile ctlK d _ _ _ _ h (by decide), (spinWhile_spec d flag fuel s r h).1⟩

theorem quiet_spinUntil (d : Dev σ) (flag fuel : Nat) (s r : St σ)
    (h : spinUntil d flag fuel s = some r) : Quiet ctlK s r :=
  ⟨grows_spinUntil ctlK d _ _ _ _ h (by decide), (spinUntil_spec d flag fuel s r h).1⟩

theorem quiet_waitOrNack (d : Dev σ) (flag fuel : Nat) (s r : St σ) (w : Wait)
    (h : waitOrNack d flag fuel s = some (w, r)) : Quiet ctlK s r :=
  ⟨grows_waitOrNack ctlK d _ _ _ _ _ h (by decide), (waitOrNack_spec d flag fuel s r w h).1⟩

theorem quiet_setBits (d : Dev σ) (r : Reg) (m : Nat) (s : St σ)
    (h1 : Access.rd r ∈ ctlK) (h2 : Access.wr r ∈ ctlK) : Quiet ctlK s (setBits d r m s) :=
  ⟨grows_setBits ctlK d r m s h1 h2, rfl⟩

theorem quiet_wrReg (d : Dev σ) (r : Reg) (v : Nat) (s : St σ)
    (h : Access.wr r ∈ ctlK) : Quiet ctlK s (wrReg d r v s) :=
  ⟨grows_wrReg ctlK d r v s h, rfl⟩

theorem quiet_startAddrPhase (d : Dev σ) (sa : Nat) (s : St σ) :
    Quiet ctlK s (startAddrPhase d sa s) :=
  ⟨grows_startAddrPhase ctlK d sa s (by decide) (by decide), rfl⟩

theorem quiet_startBurstReadPhase (d : Dev σ) (sa nb : Nat) (s : St σ) :
    Quiet ctlK s (startBurstReadPhase d sa nb s) :=
  ⟨grows_startBurstReadPhase ctlK d sa nb s (by decide) (by decide), rfl⟩

theorem quiet_startBurstWrite (d : Dev σ) (sa nb : Nat) (s : St σ) :
    Quiet ctlK s (startBurstWrite d sa nb s) :=
  ⟨grows_startBurstWrite ctlK d sa nb s (by decide) (by decide), rfl⟩

theorem quiet_abortStop (d : Dev σ) (fuel : Nat) (s r : St σ)
    (h : abortStop d fuel s = some r) : Quiet ctlK s r :=
  ⟨grows_abortStop ctlK d fuel s r (by decide) h, (abortStop_spec d fuel s r h).1⟩

theorem quiet_rejectStop (d : Dev σ) (fuel : Nat) (s r : St σ)
    (h : rejectStop d fuel s = some r) : Quiet ctlK s r := by
  refine ⟨grows_rejectStop ctlK d fuel s r (by decide) h, ?_⟩
  unfold rejectStop at h
  cases hs : spinUntil d ISR_STOPF fuel (setBits d Reg.CR2 CR2_STOP s) with
  | none => rw [hs] at h; simp at h
  | some s1 =>
    rw [hs] at h
    simp only [Option.map_some', Option.some.injEq] at h
    subst h
    simp [(spinUntil_spec d _ _ _ _ hs).1]

theorem quiet_waitStopClearNack (d : Dev σ) (fuel : Nat) (s r : St σ)
    (h : waitStopClearNack d fuel s = some r) : Quiet ctlK s r :=
  ⟨grows_waitStopClearNack ctlK d (by decide) fuel s r h, (waitStopClearNack_spec d fuel s r h).1⟩

/-- A receive loop that was left, in either way, stored the bytes it read in the
cells `i, i+1, ..` of the buffer, in order, at most `cnt` of them (exactly `cnt`
when it ran to its end); it loaded nothing and left the other cells alone. -/
theorem readLoop_any (d : Dev σ) (fuel : Nat) :
    ∀ (cnt i : Nat) (s s1 : St σ) (w : Wait), readLoop d fuel cnt i s = some (w, s1) →
      i + cnt ≤ s.buf.length →
      ∃ evs vals, s1.log = s.log ++ evs ∧ vals.length ≤ cnt ∧
        (w = Wait.ready → vals.length = cnt) ∧
        bufStores evs = List.zip (List.range' i vals.length) vals ∧ bufLoads evs = [] ∧
        s1.buf = s.buf.take i ++ vals ++ s.buf.drop (i + vals.length) := by
  intro cnt
  induction cnt with
  | zero =>
    intro i s s1 w h _
    simp only [readLoop, Option.some.injEq, Prod.mk.injEq] at h
    obtain ⟨-, rfl⟩ := h
    exact ⟨[], [], by simp⟩
  | succ c ih =>
    intro i s s1 w h hlen
    rw [readLoop] at h
    cases hw : waitOrNack d ISR_RXNE fuel s with
    | none => simp [hw] at h
    | some p =>
      obtain ⟨w2, s2⟩ := p
      obtain ⟨hb2, vs2, v2, hl2, -⟩ := waitOrNack_spec d ISR_RXNE fuel _ _ _ hw
      cases w2 with
      | nack =>
        simp only [hw, Option.some.injEq, Prod.mk.injEq] at h
        obtain ⟨rfl, rfl⟩ := h
        refine ⟨polls (vs2 ++ [v2]) ++ [Ev.rd Reg.ICR (rdReg d Reg.ICR s2).1,
          Ev.wr Reg.ICR ((rdReg d Reg.ICR s2).1 ||| ICR_NACKCF)], [], ?_, by simp, by simp,
          by simp, by simp, ?_⟩
        · simp [hl2, polls_snoc]
        · simp [hb2]
      | ready =>
        simp only [hw] at h
        obtain ⟨evs, vals, hl, hle, hrd, hst, hld, hbuf⟩ :=
          ih _ _ _ _ h (by simp [storeBuf, hb2]; omega)
        refine ⟨polls (vs2 ++ [v2]) ++
          [Ev.rd Reg.RXDR (rdReg d Reg.RXDR s2).1, Ev.st i ((rdReg d Reg.RXDR s2).1 % 256)] ++ evs,
          (rdReg d Reg.RXDR s2).1 % 256 :: vals, ?_, by simp; omega,
          fun hr => by simp [hrd hr], ?_, by simp [hld], ?_⟩
        · simp [hl, storeBuf, hl2, polls_snoc]
        · simp [hst, List.range'_succ]
        · rw [hbuf]
          simp only [storeBuf, rdReg_buf, hb2, List.length_cons]
          rw [set_take_snoc _ _ _ _ _ (by omega)]

/-- A transmit loop that was left, in either way, loaded the cells `i, i+1, ..` of
the buffer, in order, at most `cnt` of them; it stored nothing and left the
buffer as it was. -/
theorem writeLoop_any (d : Dev σ) (fuel : Nat) :
    ∀ (cnt i : Nat) (s s1 : St σ) (w : Wait), writeLoop d fuel cnt i s = some (w, s1) →
      ∃ evs k, s1.log = s.log ++ evs ∧ k ≤ cnt ∧ bufLoads evs = List.range' i k ∧
        bufStores evs = [] ∧ rxReads evs = [] ∧ s1.buf = s.buf := by
  intro cnt
  induction cnt with
  | zero =>
    intro i s s1 w h
    simp only [writeLoop, Option.some.injEq, Prod.mk.injEq] at h
    obtain ⟨-, rfl⟩ := h
    exact ⟨[], 0, by simp⟩
  | succ c ih =>
    intro i s s1 w h
    rw [writeLoop] at h
    cases hw : waitOrNack d ISR_TXIS fuel s with
    | none => simp [hw] at h
    | some p =>
      obtain ⟨w2, s2⟩ := p
      obtain ⟨hb2, vs2, v2, hl2, -⟩ := waitOrNack_spec d ISR_TXIS fuel _ _ _ hw
      cases w2 with
      | nack =>
        simp only [hw, Option.some.injEq, Prod.mk.injEq] at h
        obtain ⟨rfl, rfl⟩ := h
        refine ⟨polls (vs2 ++ [v2]) ++ [Ev.rd Reg.ICR (rdReg d Reg.ICR s2).1,
          Ev.wr Reg.ICR ((rdReg d Reg.ICR s2).1 ||| ICR_NACKCF)], 0, ?_, by simp, by simp,
          by simp, by simp, by simp [hb2]⟩
        simp [hl2, polls_snoc]
      | ready =>
        simp only [hw] at h
        obtain ⟨evs, k, hl, hle, hld, hst, hrx, hbuf⟩ := ih _ _ _ _ h
        refine ⟨polls (vs2 ++ [v2]) ++ [Ev.ld i, Ev.wr Reg.TXDR (s2.buf.getD i 0)] ++ evs, k + 1,
          ?_, by omega, ?_, by simp [hst], by simp [hrx], by simp [hbuf, loadBuf, hb2]⟩
        · simp [hl, loadBuf, hl2, polls_snoc]
        · simp [hld, List.range'_succ]

/-- Buffer accesses of a returning `I2C1_BurstRead`, from any state: the bytes
stored are a list `vals` of at most `n` bytes, stored at the indices
`0, 1, .., vals.length - 1` in this order; nothing is loaded; the cells behind
them are unchanged. -/
theorem burstRead_buffer (d : Dev σ) (sa ma fuel : Nat) (n : Int) (s r : St σ)
    (hlen : n.toNat ≤ s.buf.length) (h : I2C1_BurstRead d sa ma n fuel s = some r) :
    ∃ t vals, r.log = s.log ++ t ∧ vals.length ≤ n.toNat ∧
      bufStores t = List.zip (List.range vals.length) vals ∧ bufLoads t = [] ∧
      r.buf = vals ++ s.buf.drop vals.length := by
  have quiet_case : ∀ r', Quiet ctlK s r' → ∃ t vals, r'.log = s.log ++ t ∧
      vals.length ≤ n.toNat ∧ bufStores t = List.zip (List.range vals.length) vals ∧
      bufLoads t = [] ∧ r'.buf = vals ++ s.buf.drop vals.length := by
    intro r' hq
    obtain ⟨t, hl, hs, hld, -, hb⟩ := hq.obs
    exact ⟨t, [], hl, by simp, by simp [hs], hld, by simp [hb]⟩
  by_cases hn : n ≤ 0
  · simp only [I2C1_BurstRead, hn, if_true, Option.some.injEq] at h
    subst h
    exact quiet_case _ (Quiet.here ctlK s)
  · unfold I2C1_BurstRead at h
    rw [if_neg hn] at h
    split at h
    · simp at h
    · rename_i s1 hs1
      have q1 : Quiet ctlK s (startAddrPhase d sa s1) :=
        (quiet_spinWhile d _ _ _ _ hs1).andThen (quiet_startAddrPhase d sa s1)
      split at h
      · simp at h
      · rename_i s2 hs2
        exact quiet_case _ ((q1.andThen (quiet_waitOrNack d _ _ _ _ _ hs2)).andThen
          (quiet_abortStop d _ _ _ h))
      · rename_i s2 hs2
        have q2 : Quiet ctlK s (wrReg d Reg.TXDR (ma % 256) s2) :=
          (q1.andThen (quiet_waitOrNack d _ _ _ _ _ hs2)).andThen
            (quiet_wrReg d Reg.TXDR (ma % 256) s2 (by decide))
        split at h
        · simp at h
        · rename_i s3 hs3
          exact quiet_case _ ((q2.andThen (quiet_waitOrNack d _ _ _ _ _ hs3)).andThen
            (quiet_abortStop d _ _ _ h))
        · rename_i s3 hs3
          have q3 : Quiet ctlK s s3 := q2.andThen (quiet_waitOrNack d _ _ _ _ _ hs3)
          split at h
          · exact quiet_case _ (q3.andThen (quiet_rejectStop d _ _ _ h))
          · have q4 := q3.andThen
              (quiet_startBurstReadPhase d sa (n % 4294967296).toNat s3)
            obtain ⟨t4, hl4, hs4, hld4, -, hb4⟩ := q4.obs
            have finish : ∀ (w : Wait) (s4 r' : St σ),
                readLoop d fuel n.toNat 0
                  (startBurstReadPhase d sa (n % 4294967296).toNat s3) = some (w, s4) →
                Quiet ctlK s4 r' → ∃ t vals, r'.log = s.log ++ t ∧ vals.length ≤ n.toNat ∧
                  bufStores t = List.zip (List.range vals.length) vals ∧ bufLoads t = [] ∧
                  r'.buf = vals ++ s.buf.drop vals.length := by
              intro w s4 r' hloop hq
              obtain ⟨evs, vals, hl5, hle, -, hst, hld, hbuf⟩ :=
                readLoop_any d fuel _ _ _ _ _ hloop (by rw [hb4]; omega)
              obtain ⟨t6, hl6, hs6, hld6, -, hb6⟩ := hq.obs
              refine ⟨t4 ++ evs ++ t6, vals, ?_, hle, ?_, ?_, ?_⟩
              · rw [hl6, hl5, hl4]; simp
              · simp [hs4, hst, hs6, List.range_eq_range']
              · simp [hld4, hld, hld6]
              · rw [hb6, hbuf, hb4]; simp
            split at h
            · simp at h
            · rename_i s4 hs4'
              injection h with h
              subst h
              exact finish _ _ _ hs4' (Quiet.here ctlK _)
            · rename_i s4 hs4'
              cases hs5 : waitStopClearNack d fuel s4 with
              | none => rw [hs5] at h; simp at h
              | some s5 =>
                rw [hs5] at h
                simp only [Option.map_some', Option.some.injEq] at h
                subst h
                exact finish _ _ _ hs4' ((quiet_waitStopClearNack d _ _ _ hs5).andThen
                  (quiet_setBits d Reg.ICR ICR_STOPCF s5 (by decide) (by decide)))

/-- Buffer accesses of a returning `I2C1_BurstWrite`, from any state: the cells
loaded are `0, 1, .., k - 1` for some `k ≤ n`, in this order; nothing is stored
and the buffer is unchanged. -/
theorem burstWrite_buffer (d : Dev σ) (sa ma fuel : Nat) (n : Int) (s r : St σ)
    (h : I2C1_BurstWrite d sa ma n fuel s = some r) :
    ∃ t k, r.log = s.log ++ t ∧ k ≤ n.toNat ∧ bufLoads t = List.range k ∧
      bufStores t = [] ∧ rxReads t = [] ∧ r.buf = s.buf := by
  have quiet_case : ∀ r', Quiet ctlK s r' → ∃ t k, r'.log = s.log ++ t ∧ k ≤ n.toNat ∧
      bufLoads t = List.range k ∧ bufStores t = [] ∧ rxReads t = [] ∧ r'.buf = s.buf := by
    intro r' hq
    obtain ⟨t, hl, hs, hld, hrx, hb⟩ := hq.obs
    exact ⟨t, 0, hl, by simp, by simp [hld], hs, hrx, hb⟩
  by_cases hn : n ≤ 0
  · simp only [I2C1_BurstWrite, I2C1_BurstWriteWith, hn, if_true, Option.some.injEq] at h
    subst h
    exact quiet_case _ (Quiet.here ctlK s)
  · unfold I2C1_BurstWrite I2C1_BurstWriteWith at h
    rw [if_neg hn] at h
    split at h
    · simp at h
    · rename_i s1 hs1
      have q1 : Quiet ctlK s s1 := quiet_spinWhile d _ _ _ _ hs1
      split at h
      · simp at h
      rename_i total ht
      have ht2 := numBytesTotal_some ht
      subst ht2
      split at h
      · exact quiet_case _ (q1.andThen (quiet_rejectStop d _ _ _ h))
      · have q2 := q1.andThen (quiet_startBurstWrite d sa ((1 + n) % 4294967296).toNat s1)
        split at h
        · simp at h
        · rename_i s2 hs2
          injection h with h
          subst h
          exact quiet_case _ ((q2.andThen (quiet_waitOrNack d _ _ _ _ _ hs2)).andThen
            (quiet_setBits d Reg.ICR ICR_NACKCF s2 (by decide) (by decide)))
        · rename_i s2 hs2
          have q3 : Quiet ctlK s (wrReg d Reg.TXDR (ma % 256) s2) :=
            (q2.andThen (quiet_waitOrNack d _ _ _ _ _ hs2)).andThen
              (quiet_wrReg d Reg.TXDR (ma % 256) s2 (by decide))
          obtain ⟨t3, hl3, hs3, hld3, hrx3, hb3⟩ := q3.obs
          have finish : ∀ (w : Wait) (s3 r' : St σ),
              writeLoop d fuel n.toNat 0 (wrReg d Reg.TXDR (ma % 256) s2) = some (w, s3) →
              Quiet ctlK s3 r' → ∃ t k, r'.log = s.log ++ t ∧ k ≤ n.toNat ∧
                bufLoads t = List.range k ∧ bufStores t = [] ∧ rxReads t = [] ∧
                r'.buf = s.buf := by
            intro w s3 r' hloop hq
            obtain ⟨evs, k, hl4, hle, hld, hst, hrx, hbuf⟩ := writeLoop_any d fuel _ _ _ _ _ hloop
            obtain ⟨t5, hl5, hs5, hld5, hrx5, hb5⟩ := hq.obs
            refine ⟨t3 ++ evs ++ t5, k, ?_, hle, ?_, ?_, ?_, ?_⟩
            · rw [hl5, hl4, hl3]; simp
            · simp [hld3, hld, hld5, List.range_eq_range']
            · simp [hs3, hst, hs5]
            · simp [hrx3, hrx, hrx5]
            · rw [hb5, hbuf, hb3]
          split at h
          · simp at h
          · rename_i s3 hs3'
            injection h with h
            subst h
            exact finish _ _ _ hs3' (Quiet.here ctlK _)
          · rename_i s3 hs3'
            cases hs4 : waitStopClearNack d fuel s3 with
            | none => rw [hs4] at h; simp at h
            | some s4 =>
              rw [hs4] at h
              simp only [Option.map_some', Option.some.injEq] at h
              subst h
              exact finish _ _ _ hs3' ((quiet_waitStopClearNack d _ _ _ hs4).andThen
                (quiet_setBits d Reg.ICR ICR_STOPCF s4 (by decide) (by decide)))

/-- C24 (buffer bounds): for every device, every `n` (in particular every
`n ≥ 1`) and a buffer of exactly `n` bytes, every returning `I2C1_BurstRead`
stored a list `vals` of at most `n` bytes at the indices
`0, 1, .., vals.length - 1`, each once and in ascending order, loaded nothing,
and left the cells from `vals.length` on unchanged; every returning
`I2C1_BurstWrite` loaded the cells `0, 1, .., k - 1` for some `k ≤ n`, in
ascending order, stored nothing and left the buffer unchanged. -/
theorem burst_buffer_bounds (d : Dev σ) (sa ma fuel : Nat) (n : Int) (hw : σ)
    (buf : List Nat) (hlen : buf.length = n.toNat) :
    (∀ r, I2C1_BurstRead d sa ma n fuel (St.init hw buf) = some r →
      ∃ vals, vals.length ≤ buf.length ∧
        bufStores r.log = List.zip (List.range vals.length) vals ∧ bufLoads r.log = [] ∧
        r.buf = vals ++ buf.drop vals.length) ∧
    (∀ r, I2C1_BurstWrite d sa ma n fuel (St.init hw buf) = some r →
      ∃ k, k ≤ buf.length ∧ bufLoads r.log = List.range k ∧ bufStores r.log = [] ∧
        r.buf = buf) := by
  constructor
  · intro r h
    obtain ⟨t, vals, hl, hle, hst, hld, hb⟩ :=
      burstRead_buffer d sa ma fuel n _ r (by simp [hlen]) h
    simp only [St.init_log, List.nil_append, St.init_buf] at hl hb
    exact ⟨vals, by omega, by rw [hl]; exact hst, by rw [hl]; exact hld, hb⟩
  · intro r h
    obtain ⟨t, k, hl, hle, hld, hst, -, hb⟩ := burstWrite_buffer d sa ma fuel n _ r h
    simp only [St.init_log, List.nil_append, St.init_buf] at hl hb
    exact ⟨k, by omega, by rw [hl]; exact hld, by rw [hl]; exact hst, hb⟩

/-- Witness for C24 on the scripted device: a two-byte read whose second byte is
NACKed (readings: bus free, TXIS, TC, RXNE, no RXNE, NACKF). -/
theorem burst_buffer_bounds_witness :
    ∃ r, I2C1_BurstRead scriptDev 104 16 2 3
        (St.init ⟨[0, 2, 64, 4, 0, 16], [77], 0⟩ [5, 6]) = some r ∧
      ∃ vals, vals.length ≤ [5, 6].length ∧
        bufStores r.log = List.zip (List.range vals.length) vals ∧ bufLoads r.log = [] ∧
        r.buf = vals ++ [5, 6].drop vals.length :=
  ⟨_, rfl, (burst_buffer_bounds scriptDev 104 16 3 2
    ⟨[0, 2, 64, 4, 0, 16], [77], 0⟩ [5, 6] rfl).1 _ rfl⟩

theorem Cr2Model.spinWhile_view {d : Dev σ} {view : σ → Nat} (hm : Cr2Model d view)
    (flag : Nat) :
    ∀ (fuel : Nat) (s s1 : St σ), spinWhile d flag fuel s = some s1 →
      view s1.hw = view s.hw := by
  intro fuel
  induction fuel with
  | zero => intro s s1 h; simp [spinWhile] at h
  | succ f ih =>
    intro s s1 h
    rw [spinWhile] at h
    split at h
    · rw [ih _ _ h, hm.rdReg_view]
    · injection h with h
      subst h
      exact hm.rdReg_view _ _

/-- The one CR2 write of the abort handler: the content of CR2 with STOP OR-ed
in. -/
theorem abortStop_cr2 {d : Dev σ} {view : σ → Nat} (hm : Cr2Model d view) (fuel : Nat)
    (s r : St σ) (h : abortStop d fuel s = some r) :
    cr2Writes r.log = cr2Writes s.log ++ [u32 (view s.hw) ||| CR2_STOP] := by
  unfold abortStop at h
  cases hs : spinUntil d ISR_STOPF fuel
      (setBits d Reg.CR2 CR2_STOP (setBits d Reg.ICR ICR_NACKCF s)) with
  | none => rw [hs] at h; simp at h
  | some s1 =>
    rw [hs] at h
    simp only [Option.map_some', Option.some.injEq] at h
    subst h
    obtain ⟨-, vs, v, hl, -⟩ := spinUntil_spec d ISR_STOPF fuel _ _ hs
    have hv : (rdReg d Reg.CR2 (setBits d Reg.ICR ICR_NACKCF s)).1 = u32 (view s.hw) := by
      rw [hm.rdReg_val, hm.setBits_view _ _ _ (by decide)]
    rw [setBits_log, hl, setBits_log, setBits_log, hv]
    simp

/-- The one CR2 write of the size rejection: the content of CR2 with STOP OR-ed
in. -/
theorem rejectStop_cr2 {d : Dev σ} {view : σ → Nat} (hm : Cr2Model d view) (fuel : Nat)
    (s r : St σ) (h : rejectStop d fuel s = some r) :
    cr2Writes r.log = cr2Writes s.log ++ [u32 (view s.hw) ||| CR2_STOP] := by
  unfold rejectStop at h
  cases hs : spinUntil d ISR_STOPF fuel (setBits d Reg.CR2 CR2_STOP s) with
  | none => rw [hs] at h; simp at h
  | some s1 =>
    rw [hs] at h
    simp only [Option.map_some', Option.some.injEq] at h
    subst h
    obtain ⟨-, vs, v, hl, -⟩ := spinUntil_spec d ISR_STOPF fuel _ _ hs
    rw [setBits_log, hl, setBits_log, hm.rdReg_val]
    simp

/-- The CR2 words of the three programmings under the CR2 model. -/
theorem phase_cr2Writes {d : Dev σ} {view : σ → Nat} (hm : Cr2Model d view) (sa nb : Nat)
    (hsa : sa < 128) (hnb : nb < 256) (s : St σ) :
    cr2Writes (startAddrPhase d sa s).log = cr2Writes s.log ++
      [0, sa <<< 1, sa <<< 1, sa <<< 1 ||| 1 <<< 16, sa <<< 1 ||| 1 <<< 16,
       sa <<< 1 ||| 1 <<< 16 ||| CR2_START] ∧
    cr2Writes (startBurstReadPhase d sa nb s).log = cr2Writes s.log ++
      [0, sa <<< 1, sa <<< 1 ||| CR2_RD_WRN, sa <<< 1 ||| CR2_RD_WRN ||| nb <<< 16,
       sa <<< 1 ||| CR2_RD_WRN ||| nb <<< 16 ||| CR2_AUTOEND,
       sa <<< 1 ||| CR2_RD_WRN ||| nb <<< 16 ||| CR2_AUTOEND ||| CR2_START] ∧
    cr2Writes (startBurstWrite d sa nb s).log = cr2Writes s.log ++
      [0, sa <<< 1, sa <<< 1, sa <<< 1 ||| nb <<< 16, sa <<< 1 ||| nb <<< 16 ||| CR2_AUTOEND,
       sa <<< 1 ||| nb <<< 16 ||| CR2_AUTOEND ||| CR2_START] := by
  obtain ⟨h1, -⟩ := startAddrPhase_model hm sa hsa s
  obtain ⟨h2, -⟩ := startBurstReadPhase_model hm sa nb hsa hnb s
  obtain ⟨h3, -⟩ := startBurstWrite_model hm sa nb hsa hnb s
  rw [h1, h2, h3]
  simp [-Nat.reduceShiftLeft]

/-- Bits of the control words with respect to RELOAD, START and the NBYTES
field. -/
theorem reload_bits (sa nb : Nat) (hsa : sa < 128) (hnb : nb < 256) :
    ((sa <<< 1) &&& CR2_RELOAD = 0 ∧ (nb <<< 16) &&& CR2_RELOAD = 0 ∧
      (1 <<< 16) &&& CR2_RELOAD = 0) ∧
    (CR2_RD_WRN &&& CR2_RELOAD = 0 ∧ CR2_AUTOEND &&& CR2_RELOAD = 0 ∧
      CR2_START &&& CR2_RELOAD = 0 ∧ CR2_STOP &&& CR2_RELOAD = 0 ∧ 0 &&& CR2_RELOAD = 0) := by
  have h1 : ∀ sa, sa < 128 → (sa <<< 1) &&& CR2_RELOAD = 0 := by decide
  have h2 : ∀ nb, nb < 256 → (nb <<< 16) &&& CR2_RELOAD = 0 := by
    set_option maxRecDepth 100000 in decide
  exact ⟨⟨h1 sa hsa, h2 nb hnb, by decide⟩, by decide⟩
/-- C21 (byte count and RELOAD): under the CR2 model, for a 7-bit address and
every `n`.  Every returning `I2C1_BurstRead` wrote no CR2 value with RELOAD set,
and its CR2 writes with START set are none (`n ≤ 0`), the phase-1 word alone, or
the phase-1 word followed, for `1 ≤ n ≤ 255` only, by the phase-2 word; the
NBYTES field of the former is 1, of the latter `n`.  Every returning
`I2C1_BurstWrite` with `n` a 32-bit `int`, started with RELOAD and START clear
in CR2, wrote no CR2 value with RELOAD set, and its CR2 writes with START set
are none or, for `1 ≤ n ≤ 254` only, the one word whose NBYTES field is `1 + n`;
this holds in both readings `wrap` of the `int` addition `1 + n`: with the sum
taken modulo `2 ^ 32` (`wrap = true`) and under ISO C (`wrap = false`, which is
`I2C1_BurstWrite`). -/
theorem nbytes_exact_no_reload {view : σ → Nat} (d : Dev σ) (hm : Cr2Model d view)
    (sa ma fuel : Nat) (n : Int) (hsa : sa < 128) (hw : σ) (buf : List Nat) :
    (∀ r, I2C1_BurstRead d sa ma n fuel (St.init hw buf) = some r →
      (∀ w, w ∈ cr2Writes r.log → w &&& CR2_RELOAD = 0) ∧
      (startWrites r.log = [] ∨
       startWrites r.log = [sa <<< 1 ||| 1 <<< 16 ||| CR2_START] ∨
       (1 ≤ n ∧ n ≤ 255 ∧
        startWrites r.log = [sa <<< 1 ||| 1 <<< 16 ||| CR2_START,
          sa <<< 1 ||| CR2_RD_WRN ||| n.toNat <<< 16 ||| CR2_AUTOEND ||| CR2_START] ∧
        (sa <<< 1 ||| CR2_RD_WRN ||| n.toNat <<< 16 ||| CR2_AUTOEND ||| CR2_START) >>> 16 &&& 255 =
          n.toNat))) ∧
    (sa <<< 1 ||| 1 <<< 16 ||| CR2_START) >>> 16 &&& 255 = 1 ∧
    (-2147483648 ≤ n → n ≤ 2147483647 → view hw < 4294967296 →
      view hw &&& CR2_RELOAD = 0 → view hw &&& CR2_START = 0 →
      ∀ wrap r, I2C1_BurstWriteWith wrap d sa ma n fuel (St.init hw buf) = some r →
        (∀ w, w ∈ cr2Writes r.log → w &&& CR2_RELOAD = 0) ∧
        (startWrites r.log = [] ∨
         (1 ≤ n ∧ n ≤ 254 ∧
          startWrites r.log =
            [sa <<< 1 ||| (1 + n).toNat <<< 16 ||| CR2_AUTOEND ||| CR2_START] ∧
          (sa <<< 1 ||| (1 + n).toNat <<< 16 ||| CR2_AUTOEND ||| CR2_START) >>> 16 &&& 255 =
            (1 + n).toNat))) := by
  obtain ⟨w1, w2, w3, w4, w5, w6, p1, p2, p3, b1, b2, b3, b0, a1, a2, a3⟩ :=
    addr_start_word sa hsa
  refine ⟨?_, w6, ?_⟩
  · intro r h
    by_cases hn : n ≤ 0
    · simp only [I2C1_BurstRead, hn, if_true, Option.some.injEq] at h
      subst h
      exact ⟨by simp, Or.inl (by simp)⟩
    · obtain ⟨⟨ra, -, r1'⟩, rR, rA, rS, rP, -⟩ := reload_bits sa 1 hsa (by norm_num)
      have hpre : ∀ (s1 : St σ), spinWhile d ISR_BUSY fuel (St.init hw buf) = some s1 →
          cr2Writes (startAddrPhase d sa s1).log =
            [0, sa <<< 1, sa <<< 1, sa <<< 1 ||| 1 <<< 16, sa <<< 1 ||| 1 <<< 16,
              sa <<< 1 ||| 1 <<< 16 ||| CR2_START] := by
        intro s1 hs1
        obtain ⟨-, vs, v, hl, -⟩ := spinWhile_spec d ISR_BUSY fuel _ _ hs1
        rw [(phase_cr2Writes hm sa 1 hsa (by norm_num) s1).1, hl]
        simp
      -- a stop request after phase 1
      have stop_case : ∀ (c : List Nat), c = [0, sa <<< 1, sa <<< 1, sa <<< 1 ||| 1 <<< 16,
          sa <<< 1 ||| 1 <<< 16, sa <<< 1 ||| 1 <<< 16 ||| CR2_START,
          sa <<< 1 ||| 1 <<< 16 ||| CR2_STOP] →
          (∀ w, w ∈ c → w &&& CR2_RELOAD = 0) ∧
          (c.filter fun v => v &&& CR2_START ≠ 0) = [sa <<< 1 ||| 1 <<< 16 ||| CR2_START] := by
        intro c hc
        subst hc
        constructor
        · intro w hw
          simp only [List.mem_cons, List.mem_singleton, List.not_mem_nil, or_false] at hw
          rcases hw with rfl | rfl | rfl | rfl | rfl | rfl | rfl <;>
            simp only [or_and_mask, ra, r1', rS, rP, Nat.zero_and, Nat.or_self]
        · simp [-Nat.reduceShiftLeft, List.filter_cons, a1, b1, w1, p1]
      unfold I2C1_BurstRead at h
      rw [if_neg hn] at h
      split at h
      · simp at h
      · rename_i s1 hs1
        have hc1 := hpre s1 hs1
        have hv1 := (startAddrPhase_obs hm sa hsa s1).choose_spec.2.2.2.2.2.2.2
        have after : ∀ (sX : St σ), Grows [Access.rd Reg.ISR, Access.wr Reg.TXDR]
            (startAddrPhase d sa s1) sX → view sX.hw = sa <<< 1 ||| 1 <<< 16 →
            ∀ r' : St σ, cr2Writes r'.log = cr2Writes sX.log ++ [u32 (view sX.hw) ||| CR2_STOP] →
            (∀ w, w ∈ cr2Writes r'.log → w &&& CR2_RELOAD = 0) ∧
            startWrites r'.log = [sa <<< 1 ||| 1 <<< 16 ||| CR2_START] := by
          intro sX hg hvX r' hr'
          obtain ⟨t, ht, hct, -⟩ := hg.tail
          have hct := hct (by decide)
          have hcr : cr2Writes r'.log = [0, sa <<< 1, sa <<< 1, sa <<< 1 ||| 1 <<< 16,
              sa <<< 1 ||| 1 <<< 16, sa <<< 1 ||| 1 <<< 16 ||| CR2_START,
              sa <<< 1 ||| 1 <<< 16 ||| CR2_STOP] := by
            rw [hr', ht, cr2Writes_append, hct, hc1, hvX, b0]
            simp
          obtain ⟨q1, q2⟩ := stop_case _ hcr
          exact ⟨q1, by unfold startWrites; exact q2⟩
        split at h
        · simp at h
        · rename_i s2 hs2
          obtain ⟨q1, q2⟩ := after s2 (grows_waitOrNack _ d _ _ _ _ _ hs2 (by decide))
            (by rw [hm.waitOrNack_view _ _ _ _ _ hs2, hv1]) r (abortStop_cr2 hm fuel s2 r h)
          exact ⟨q1, Or.inr (Or.inl q2)⟩
        · rename_i s2 hs2
          have g2 : Grows [Access.rd Reg.ISR, Access.wr Reg.TXDR] (startAddrPhase d sa s1)
              (wrReg d Reg.TXDR (ma % 256) s2) :=
            (grows_waitOrNack _ d _ _ _ _ _ hs2 (by decide)).trans
              (grows_wrReg _ d Reg.TXDR (ma % 256) s2 (by decide))
          have v2 : view (wrReg d Reg.TXDR (ma % 256) s2).hw = sa <<< 1 ||| 1 <<< 16 := by
            rw [hm.wrReg_view _ _ _ (by decide), hm.waitOrNack_view _ _ _ _ _ hs2, hv1]
          split at h
          · simp at h
          · rename_i s3 hs3
            obtain ⟨q1, q2⟩ := after s3
              (g2.trans (grows_waitOrNack _ d _ _ _ _ _ hs3 (by decide)))
              (by rw [hm.waitOrNack_view _ _ _ _ _ hs3, v2]) r (abortStop_cr2 hm fuel s3 r h)
            exact ⟨q1, Or.inr (Or.inl q2)⟩
          · rename_i s3 hs3
            have g3 := g2.trans (grows_waitOrNack _ d _ _ _ _ _ hs3 (by decide))
            have v3 : view s3.hw = sa <<< 1 ||| 1 <<< 16 := by
              rw [hm.waitOrNack_view _ _ _ _ _ hs3, v2]
            split at h
            · obtain ⟨q1, q2⟩ := after s3 g3 v3 r (rejectStop_cr2 hm fuel s3 r h)
              exact ⟨q1, Or.inr (Or.inl q2)⟩
            · rename_i hbig
              have hn1 : 1 ≤ n := by omega
              have hn255 : n ≤ 255 := by omega
              have hnb : (n % 4294967296).toNat = n.toNat := by omega
              have hlt : n.toNat < 256 := by omega
              rw [hnb] at h
              obtain ⟨⟨-, rn, -⟩, -⟩ := reload_bits sa n.toNat hsa hlt
              obtain ⟨r1, r2, r3, r4, r5, r6⟩ := read_start_word sa n.toNat hsa hlt
              obtain ⟨f1, f2, f3, f4, f5, f6, f7, f8, f9, f10, f11⟩ :=
                cr2_read_facts sa n.toNat hsa hlt
              obtain ⟨-, ⟨n0, -⟩⟩ := word_bits sa n.toNat hsa hlt
              have hsa' : sa % 256 = sa := Nat.mod_eq_of_lt (by omega)
              rw [hsa', n0] at f6 f8
              rw [hsa'] at f10
              obtain ⟨t3, ht3, hct3, -⟩ := g3.tail
              have hct3 := hct3 (by decide)
              obtain ⟨t, ht, hct, -⟩ := (burstRead_tail d fuel _ _ r h).tail
              have hct := hct (by decide)
              have hcr : cr2Writes r.log = [0, sa <<< 1, sa <<< 1, sa <<< 1 ||| 1 <<< 16,
                  sa <<< 1 ||| 1 <<< 16, sa <<< 1 ||| 1 <<< 16 ||| CR2_START,
                  0, sa <<< 1, sa <<< 1 ||| CR2_RD_WRN,
                  sa <<< 1 ||| CR2_RD_WRN ||| n.toNat <<< 16,
                  sa <<< 1 ||| CR2_RD_WRN ||| n.toNat <<< 16 ||| CR2_AUTOEND,
                  sa <<< 1 ||| CR2_RD_WRN ||| n.toNat <<< 16 ||| CR2_AUTOEND ||| CR2_START] := by
                rw [ht, cr2Writes_append, hct, (phase_cr2Writes hm sa n.toNat hsa hlt s3).2.1,
                  ht3, cr2Writes_append, hct3, hc1]
                simp
              refine ⟨?_, Or.inr (Or.inr ⟨hn1, hn255, ?_, r6⟩)⟩
              · intro w hw
                rw [hcr] at hw
                simp only [List.mem_cons, List.mem_singleton, List.not_mem_nil, or_false] at hw
                rcases hw with rfl | rfl | rfl | rfl | rfl | rfl | rfl | rfl | rfl | rfl | rfl |
                    rfl <;>
                  simp only [or_and_mask, ra, r1', rS, rP, rn, rR, rA, Nat.zero_and, Nat.or_self]
              · unfold startWrites
                rw [hcr]
                simp [-Nat.reduceShiftLeft, List.filter_cons, a1, b1, w1, f6, f8, f10, r1]
  · intro hlo hhi hc32 hcR hcS wrap r h
    by_cases hn : n ≤ 0
    · simp only [I2C1_BurstWriteWith, hn, if_true, Option.some.injEq] at h
      subst h
      exact ⟨by simp, Or.inl (by simp)⟩
    · have htot : ((1 + n) % 4294967296).toNat = (1 + n).toNat := by omega
      unfold I2C1_BurstWriteWith at h
      rw [if_neg hn] at h
      split at h
      · simp at h
      · rename_i s1 hs1
        obtain ⟨-, vs, v, hl, -⟩ := spinWhile_spec d ISR_BUSY fuel _ _ hs1
        have hc1 : cr2Writes s1.log = [] := by rw [hl]; simp
        split at h
        · simp at h
        rename_i total ht
        have ht2 := numBytesTotal_some ht
        rw [htot] at ht2
        subst ht2
        split at h
        · have hcr := rejectStop_cr2 hm fuel s1 r h
          rw [hc1, hm.spinWhile_view _ _ _ _ hs1, St.init_hw, u32, Nat.mod_eq_of_lt hc32,
            List.nil_append] at hcr
          have hP : CR2_STOP &&& CR2_RELOAD = 0 := by decide
          have hS : CR2_STOP &&& CR2_START = 0 := by decide
          constructor
          · intro w hw
            rw [hcr, List.mem_singleton] at hw
            subst hw
            rw [or_and_mask, hcR, hP]
            rfl
          · left
            unfold startWrites
            rw [hcr]
            simp [List.filter_cons, or_and_mask, hcS, hS]
        · rename_i hbig
          have hn254 : n ≤ 254 := by omega
          have hlt : (1 + n).toNat < 256 := by omega
          obtain ⟨⟨ra, rn, -⟩, rR, rA, rS, rP, -⟩ := reload_bits sa (1 + n).toNat hsa hlt
          obtain ⟨x1, x2, x3, x4, x5, x6⟩ := write_start_word sa (1 + n).toNat hsa hlt
          obtain ⟨f1, f2, f3, f4, f5, f6, f7, f8, f9⟩ := cr2_write_facts sa (1 + n).toNat hsa hlt
          obtain ⟨⟨-, a1', -⟩, ⟨n0, -⟩⟩ := word_bits sa (1 + n).toNat hsa hlt
          have hsa' : sa % 256 = sa := Nat.mod_eq_of_lt (by omega)
          rw [hsa', n0] at f6 f8
          obtain ⟨t, ht, hct, -⟩ := (burstWrite_tail d ma fuel _ _ r h).tail
          have hct := hct (by decide)
          have hcr : cr2Writes r.log = [0, sa <<< 1, sa <<< 1, sa <<< 1 ||| (1 + n).toNat <<< 16,
              sa <<< 1 ||| (1 + n).toNat <<< 16 ||| CR2_AUTOEND,
              sa <<< 1 ||| (1 + n).toNat <<< 16 ||| CR2_AUTOEND ||| CR2_START] := by
            rw [ht, cr2Writes_append, hct, (phase_cr2Writes hm sa (1 + n).toNat hsa hlt s1).2.2,
              hc1]
            simp
          refine ⟨?_, Or.inr ⟨by omega, hn254, ?_, x6⟩⟩
          · intro w hw
            rw [hcr] at hw
            simp only [List.mem_cons, List.mem_singleton, List.not_mem_nil, or_false] at hw
            rcases hw with rfl | rfl | rfl | rfl | rfl | rfl <;>
              simp only [or_and_mask, ra, rS, rP, rn, rR, rA, Nat.zero_and, Nat.or_self]
          · unfold startWrites
            rw [hcr]
            simp [-Nat.reduceShiftLeft, List.filter_cons, a1', f6, f8, x1]

/-- Witness for C21 on the simulated controller: a two-byte burst read from the
slave at 104. -/
theorem nbytes_exact_no_reload_witness :
    ∃ r, I2C1_BurstRead simDev 104 16 2 3 (St.init (Sim.idle 104 fun a => a + 1) [0, 0]) =
        some r ∧
      (∀ w, w ∈ cr2Writes r.log → w &&& CR2_RELOAD = 0) ∧
      (startWrites r.log = [] ∨
       startWrites r.log = [104 <<< 1 ||| 1 <<< 16 ||| CR2_START] ∨
       ((1 : Int) ≤ 2 ∧ (2 : Int) ≤ 255 ∧
        startWrites r.log = [104 <<< 1 ||| 1 <<< 16 ||| CR2_START,
          104 <<< 1 ||| CR2_RD_WRN ||| (2 : Int).toNat <<< 16 ||| CR2_AUTOEND ||| CR2_START] ∧
        (104 <<< 1 ||| CR2_RD_WRN ||| (2 : Int).toNat <<< 16 ||| CR2_AUTOEND ||| CR2_START) >>>
          16 &&& 255 = (2 : Int).toNat)) := by
  have h := nbytes_exact_no_reload simDev sim_cr2Model 104 16 3 2 (by decide)
    (Sim.idle 104 fun a => a + 1) [0, 0]
  obtain ⟨r, hr⟩ : ∃ r, I2C1_BurstRead simDev 104 16 2 3
      (St.init (Sim.idle 104 fun a => a + 1) [0, 0]) = some r := ⟨_, rfl⟩
  exact ⟨r, hr, h.1 r hr⟩

/-! ### The late controller -/

/-- A status read of the late controller while it is free shows the status of
the controller behind it. -/
theorem lag_rdISR_free (s : St Lag) (h : s.hw.wait = 0) :
    (rdReg lagDev Reg.ISR s).1 = s.hw.sim.isr ∧ (rdReg lagDev Reg.ISR s).2.hw = s.hw ∧
      (rdReg lagDev Reg.ISR s).2.buf = s.buf := by
  simp [rdReg, lagDev, h, Sim.u32_isr]

/-- A status read of the late controller while it is occupied shows BUSY alone
and uses up one unit of the wait. -/
theorem lag_rdISR_busy (s : St Lag) (w : Nat) (h : s.hw.wait = w + 1) :
    (rdReg lagDev Reg.ISR s).1 = ISR_BUSY ∧ (rdReg lagDev Reg.ISR s).2.hw.sim = s.hw.sim ∧
      (rdReg lagDev Reg.ISR s).2.hw.lag = s.hw.lag ∧ (rdReg lagDev Reg.ISR s).2.hw.wait = w ∧
      (rdReg lagDev Reg.ISR s).2.buf = s.buf := by
  have hb : u32 ISR_BUSY = ISR_BUSY := by decide
  simp [rdReg, lagDev, h, hb]

/-- The busy wait on the late controller, the bus being free: it ends once the
controller is no longer occupied. -/
theorem lag_spinWhile : ∀ (fuel : Nat) (s : St Lag), s.hw.wait < fuel → s.hw.sim.busy = false →
    ∃ s1, spinWhile lagDev ISR_BUSY fuel s = some s1 ∧ s1.hw.sim = s.hw.sim ∧
      s1.hw.lag = s.hw.lag ∧ s1.hw.wait = 0 ∧ s1.buf = s.buf := by
  intro fuel
  induction fuel with
  | zero => intro s h; omega
  | succ f ih =>
    intro s hf hb
    rcases Nat.eq_zero_or_pos s.hw.wait with hw | hw
    · obtain ⟨e1, e2, e3⟩ := lag_rdISR_free s hw
      refine ⟨(rdReg lagDev Reg.ISR s).2, ?_, by rw [e2], by rw [e2], by rw [e2, hw], e3⟩
      rw [spinWhile, e1]
      simp [hb]
    · obtain ⟨w, hw'⟩ : ∃ w, s.hw.wait = w + 1 := ⟨s.hw.wait - 1, by omega⟩
      obtain ⟨e1, e2, e3, e4, e5⟩ := lag_rdISR_busy s w hw'
      obtain ⟨s1, h1, a1, a2, a3, a4⟩ := ih (rdReg lagDev Reg.ISR s).2 (by omega) (by rw [e2]; exact hb)
      refine ⟨s1, ?_, by rw [a1, e2], by rw [a2, e3], a3, by rw [a4, e5]⟩
      have hbb : ISR_BUSY &&& ISR_BUSY ≠ 0 := by decide
      rw [spinWhile, e1, if_pos hbb]
      exact h1

/-- A flag wait on the late controller, the flag being raised behind it and no
NACK pending: it is left `ready` once the controller is no longer occupied. -/
theorem lag_waitOrNack (flag : Nat) (hfl : ISR_BUSY &&& flag = 0) :
    ∀ (fuel : Nat) (s : St Lag), s.hw.wait < fuel → s.hw.sim.isr &&& flag ≠ 0 →
    s.hw.sim.nackf = false →
    ∃ s1, waitOrNack lagDev flag fuel s = some (Wait.ready, s1) ∧ s1.hw.sim = s.hw.sim ∧
      s1.hw.lag = s.hw.lag ∧ s1.hw.wait = 0 ∧ s1.buf = s.buf := by
  intro fuel
  induction fuel with
  | zero => intro s h; omega
  | succ f ih =>
    intro s hf hfl2 hnk
    rcases Nat.eq_zero_or_pos s.hw.wait with hw | hw
    · obtain ⟨e1, e2, e3⟩ := lag_rdISR_free s hw
      refine ⟨(rdReg lagDev Reg.ISR s).2, ?_, by rw [e2], by rw [e2], by rw [e2, hw], e3⟩
      rw [waitOrNack, e1]
      simp [hfl2]
    · obtain ⟨w, hw'⟩ : ∃ w, s.hw.wait = w + 1 := ⟨s.hw.wait - 1, by omega⟩
      obtain ⟨e1, e2, e3, e4, e5⟩ := lag_rdISR_busy s w hw'
      have hbn : ISR_BUSY &&& ISR_NACKF = 0 := by decide
      have key : (rdReg lagDev Reg.ISR (rdReg lagDev Reg.ISR s).2).1 &&& ISR_NACKF = 0 ∧
          (rdReg lagDev Reg.ISR (rdReg lagDev Reg.ISR s).2).2.hw.sim = s.hw.sim ∧
          (rdReg lagDev Reg.ISR (rdReg lagDev Reg.ISR s).2).2.hw.lag = s.hw.lag ∧
          (rdReg lagDev Reg.ISR (rdReg lagDev Reg.ISR s).2).2.hw.wait < f ∧
          (rdReg lagDev Reg.ISR (rdReg lagDev Reg.ISR s).2).2.buf = s.buf := by
        rcases Nat.eq_zero_or_pos w with hw0 | hw0
        · obtain ⟨g1, g2, g3⟩ := lag_rdISR_free (rdReg lagDev Reg.ISR s).2 (by rw [e4, hw0])
          refine ⟨?_, by rw [g2, e2], by rw [g2, e3], by rw [g2, e4]; omega, by rw [g3, e5]⟩
          rw [g1, e2]
          simpa using hnk
        · obtain ⟨w2, hw2⟩ : ∃ w2, w = w2 + 1 := ⟨w - 1, by omega⟩
          obtain ⟨g1, g2, g3, g4, g5⟩ := lag_rdISR_busy (rdReg lagDev Reg.ISR s).2 w2
            (by rw [e4, hw2])
          exact ⟨by rw [g1, hbn], by rw [g2, e2], by rw [g3, e3], by rw [g4]; omega,
            by rw [g5, e5]⟩
      obtain ⟨k1, k2, k3, k4, k5⟩ := key
      obtain ⟨s1, h1, a1, a2, a3, a4⟩ := ih _ k4 (by rw [k2]; exact hfl2) (by rw [k2]; exact hnk)
      refine ⟨s1, ?_, by rw [a1, k2], by rw [a2, k3], a3, by rw [a4, k5]⟩
      rw [waitOrNack, e1]
      simp [hfl, k1, h1]

/-- The final STOPF wait on the late controller, the stop having happened behind
it and no NACK pending: it ends once the controller is no longer occupied. -/
theorem lag_waitStopClearNack :
    ∀ (fuel : Nat) (s : St Lag), s.hw.wait < fuel → s.hw.sim.stopf = true →
    s.hw.sim.nackf = false →
    ∃ s1, waitStopClearNack lagDev fuel s = some s1 ∧ s1.hw.sim = s.hw.sim ∧
      s1.hw.lag = s.hw.lag ∧ s1.hw.wait = 0 ∧ s1.buf = s.buf := by
  intro fuel
  induction fuel with
  | zero => intro s h; omega
  | succ f ih =>
    intro s hf hst hnk
    rcases Nat.eq_zero_or_pos s.hw.wait with hw | hw
    · obtain ⟨e1, e2, e3⟩ := lag_rdISR_free s hw
      refine ⟨(rdReg lagDev Reg.ISR s).2, ?_, by rw [e2], by rw [e2], by rw [e2, hw], e3⟩
      rw [waitStopClearNack, e1]
      simp [hst]
    · obtain ⟨w, hw'⟩ : ∃ w, s.hw.wait = w + 1 := ⟨s.hw.wait - 1, by omega⟩
      obtain ⟨e1, e2, e3, e4, e5⟩ := lag_rdISR_busy s w hw'
      have hbn : ISR_BUSY &&& ISR_NACKF = 0 := by decide
      have hbs : ISR_BUSY &&& ISR_STOPF = 0 := by decide
      have key : (rdReg lagDev Reg.ISR (rdReg lagDev Reg.ISR s).2).1 &&& ISR_NACKF = 0 ∧
          (rdReg lagDev Reg.ISR (rdReg lagDev Reg.ISR s).2).2.hw.sim = s.hw.sim ∧
          (rdReg lagDev Reg.ISR (rdReg lagDev Reg.ISR s).2).2.hw.lag = s.hw.lag ∧
          (rdReg lagDev Reg.ISR (rdReg lagDev Reg.ISR s).2).2.hw.wait < f ∧
          (rdReg lagDev Reg.ISR (rdReg lagDev Reg.ISR s).2).2.buf = s.buf := by
        rcases Nat.eq_zero_or_pos w with hw0 | hw0
        · obtain ⟨g1, g2, g3⟩ := lag_rdISR_free (rdReg lagDev Reg.ISR s).2 (by rw [e4, hw0])
          refine ⟨?_, by rw [g2, e2], by rw [g2, e3], by rw [g2, e4]; omega, by rw [g3, e5]⟩
          rw [g1, e2]
          simpa using hnk
        · obtain ⟨w2, hw2⟩ : ∃ w2, w = w2 + 1 := ⟨w - 1, by omega⟩
          obtain ⟨g1, g2, g3, g4, g5⟩ := lag_rdISR_busy (rdReg lagDev Reg.ISR s).2 w2
            (by rw [e4, hw2])
          exact ⟨by rw [g1, hbn], by rw [g2, e2], by rw [g3, e3], by rw [g4]; omega,
            by rw [g5, e5]⟩
      obtain ⟨k1, k2, k3, k4, k5⟩ := key
      obtain ⟨s1, h1, a1, a2, a3, a4⟩ := ih _ k4 (by rw [k2]; exact hst) (by rw [k2]; exact hnk)
      refine ⟨s1, ?_, by rw [a1, k2], by rw [a2, k3], a3, by rw [a4, k5]⟩
      rw [waitStopClearNack, e1]
      simp [hbs, k1, h1]
theorem lag_rd_cr2 (h : Lag) : lagDev.rd Reg.CR2 h = (h.sim.cr2, h) := rfl

theorem lag_wr_cr2_plain (h : Lag) (v : Nat) (h1 : v &&& CR2_START = 0)
    (h2 : v &&& CR2_STOP = 0) :
    lagDev.wr Reg.CR2 v h = { h with sim := { h.sim with cr2 := v } } := by
  simp [lagDev, Lag.acts, h1, h2, Sim.write]

theorem lag_wr_cr2_start (h : Lag) (v : Nat) (hw : h.wait = 0) (h1 : v &&& CR2_START ≠ 0) :
    lagDev.wr Reg.CR2 v h =
      { h with sim := Sim.start { h.sim with cr2 := v &&& not32 (CR2_START ||| CR2_STOP) } v,
               wait := h.lag } := by
  simp [lagDev, Lag.acts, h1, hw, Sim.write]

/-- The phase-1 programming on the late controller, free and with the slave
answering at `sa`: behind it the controller is busy, TXIS is raised and one byte,
the register pointer, is awaited; the START occupies it. -/
theorem lag_startAddrPhase (sa : Nat) (s : St Lag) (hsa : sa < 128) (hw0 : s.hw.wait = 0)
    (hsl : s.hw.sim.slaveAddr = sa) :
    (startAddrPhase lagDev sa s).hw =
      { sim := { s.hw.sim with cr2 := sa <<< 1 ||| 65536, busy := true, tc := false,
                               txis := true, rxne := false, reading := false,
                               autoend := false, remaining := 1, expectPtr := true },
        lag := s.hw.lag, wait := s.hw.lag } := by
  obtain ⟨w1, ⟨w2, w3⟩, w4, w5, ⟨w6, w7⟩, w8, w9, w10, w11, w12, w13, w14, w15⟩ := addr_words sa hsa
  have e0 : (wrReg lagDev Reg.CR2 0 s).hw = { s.hw with sim := { s.hw.sim with cr2 := 0 } } := by
    rw [wrReg_hw, lag_wr_cr2_plain _ _ (by decide) (by decide)]
  have e1 : (setBits lagDev Reg.CR2 ((sa % 256) <<< 1) (wrReg lagDev Reg.CR2 0 s)).hw =
      { s.hw with sim := { s.hw.sim with cr2 := sa <<< 1 } } := by
    rw [setBits_hw, e0]
    simp only [lag_rd_cr2, w1]
    rw [lag_wr_cr2_plain _ _ w2 w3]
  have e2 : (clrBits lagDev Reg.CR2 CR2_RD_WRN
      (setBits lagDev Reg.CR2 ((sa % 256) <<< 1) (wrReg lagDev Reg.CR2 0 s))).hw =
      { s.hw with sim := { s.hw.sim with cr2 := sa <<< 1 } } := by
    rw [clrBits_hw, e1]
    simp only [lag_rd_cr2, w4]
    rw [lag_wr_cr2_plain _ _ w2 w3]
  have e3 : (setBits lagDev Reg.CR2 (1 <<< CR2_NBYTES_POS) (clrBits lagDev Reg.CR2 CR2_RD_WRN
      (setBits lagDev Reg.CR2 ((sa % 256) <<< 1) (wrReg lagDev Reg.CR2 0 s)))).hw =
      { s.hw with sim := { s.hw.sim with cr2 := sa <<< 1 ||| 65536 } } := by
    rw [setBits_hw, e2]
    simp only [lag_rd_cr2, w5]
    rw [lag_wr_cr2_plain _ _ w6 w7]
  have e4 : (clrBits lagDev Reg.CR2 CR2_AUTOEND (setBits lagDev Reg.CR2 (1 <<< CR2_NBYTES_POS)
      (clrBits lagDev Reg.CR2 CR2_RD_WRN
      (setBits lagDev Reg.CR2 ((sa % 256) <<< 1) (wrReg lagDev Reg.CR2 0 s))))).hw =
      { s.hw with sim := { s.hw.sim with cr2 := sa <<< 1 ||| 65536 } } := by
    rw [clrBits_hw, e3]
    simp only [lag_rd_cr2, w8]
    rw [lag_wr_cr2_plain _ _ w6 w7]
  unfold startAddrPhase
  rw [setBits_hw, e4]
  simp only [lag_rd_cr2, w9]
  rw [lag_wr_cr2_start _ _ ?_ w10]
  · simp [Sim.start, w11, w12, w13, w14, w15, hsl]
  · exact hw0

/-- The read-phase programming of `I2C1_BurstRead` on the late controller, free
and with the slave answering at `sa`: behind it a read transfer of `nb` bytes
under AUTOEND is started and the slave sends its first byte; the START occupies
it. -/
theorem lag_startBurstReadPhase (sa nb : Nat) (s : St Lag) (hsa : sa < 128) (hnb : nb < 256)
    (hnb0 : nb ≠ 0) (hw0 : s.hw.wait = 0) (hsl : s.hw.sim.slaveAddr = sa) :
    ∃ c, (startBurstReadPhase lagDev sa nb s).hw =
      { sim := Sim.recvByte { s.hw.sim with cr2 := c, busy := true, tc := false,
                                            txis := false, rxne := false, reading := true,
                                            autoend := true, remaining := nb },
        lag := s.hw.lag, wait := s.hw.lag } := by
  obtain ⟨f1, f2, f3, f4, f5, f6, f7, f8, f9, f10, f11⟩ := cr2_read_facts sa nb hsa hnb
  obtain ⟨s1, s2, -, -, -, -, -⟩ := sadd_part sa hsa
  obtain ⟨u1, u2, u3, u4, u5, -, -⟩ := u32_words sa nb hsa
  have e0 : (wrReg lagDev Reg.CR2 0 s).hw = { s.hw with sim := { s.hw.sim with cr2 := 0 } } := by
    rw [wrReg_hw, lag_wr_cr2_plain _ _ (by decide) (by decide)]
  have e1 : (setBits lagDev Reg.CR2 ((sa % 256) <<< 1) (wrReg lagDev Reg.CR2 0 s)).hw =
      { s.hw with sim := { s.hw.sim with cr2 := (sa % 256) <<< 1 } } := by
    rw [setBits_hw, e0]
    simp only [lag_rd_cr2, u1]
    rw [lag_wr_cr2_plain _ _ s1 s2]
  have e2 : (setBits lagDev Reg.CR2 CR2_RD_WRN
      (setBits lagDev Reg.CR2 ((sa % 256) <<< 1) (wrReg lagDev Reg.CR2 0 s))).hw =
      { s.hw with sim := { s.hw.sim with cr2 := (sa % 256) <<< 1 ||| CR2_RD_WRN } } := by
    rw [setBits_hw, e1]
    simp only [lag_rd_cr2, u2]
    rw [lag_wr_cr2_plain _ _ f10 f11]
  have e3 : (setBits lagDev Reg.CR2 (u32 (nb <<< CR2_NBYTES_POS)) (setBits lagDev Reg.CR2 CR2_RD_WRN
      (setBits lagDev Reg.CR2 ((sa % 256) <<< 1) (wrReg lagDev Reg.CR2 0 s)))).hw =
      { s.hw with sim := { s.hw.sim with
          cr2 := (sa % 256) <<< 1 ||| CR2_RD_WRN ||| u32 (nb <<< CR2_NBYTES_POS) } } := by
    rw [setBits_hw, e2]
    simp only [lag_rd_cr2, u3]
    rw [lag_wr_cr2_plain _ _ f8 f9]
  have e4 : (setBits lagDev Reg.CR2 CR2_AUTOEND
      (setBits lagDev Reg.CR2 (u32 (nb <<< CR2_NBYTES_POS)) (setBits lagDev Reg.CR2 CR2_RD_WRN
      (setBits lagDev Reg.CR2 ((sa % 256) <<< 1) (wrReg lagDev Reg.CR2 0 s))))).hw =
      { s.hw with sim := { s.hw.sim with
          cr2 := (sa % 256) <<< 1 ||| CR2_RD_WRN ||| u32 (nb <<< CR2_NBYTES_POS) |||
            CR2_AUTOEND } } := by
    rw [setBits_hw, e3]
    simp only [lag_rd_cr2, u4]
    rw [lag_wr_cr2_plain _ _ f6 f7]
  refine ⟨((sa % 256) <<< 1 ||| CR2_RD_WRN ||| u32 (nb <<< CR2_NBYTES_POS) ||| CR2_AUTOEND |||
    CR2_START) &&& not32 (CR2_START ||| CR2_STOP), ?_⟩
  unfold startBurstReadPhase
  rw [setBits_hw, e4]
  simp only [lag_rd_cr2, u5]
  rw [lag_wr_cr2_start _ _ ?_ f3]
  · simp only [Sim.start, f1, f2, hsl]
    simp [hnb0, f5, f4]
  · exact hw0
/-- A read of RXDR on the late controller while it is free reaches the controller
behind it and occupies the late controller. -/
theorem lag_rdRXDR (s : St Lag) (h : s.hw.wait = 0) :
    (rdReg lagDev Reg.RXDR s).1 = u32 s.hw.sim.rxdr ∧
      (rdReg lagDev Reg.RXDR s).2.hw =
        { sim := (Sim.read Reg.RXDR s.hw.sim).2, lag := s.hw.lag, wait := s.hw.lag } ∧
      (rdReg lagDev Reg.RXDR s).2.buf = s.buf := by
  simp [rdReg, lagDev, h, Sim.read]

/-- A byte written to TXDR on the late controller while it is free reaches the
controller behind it and occupies the late controller. -/
theorem lag_wrTXDR (s : St Lag) (v : Nat) (h : s.hw.wait = 0) :
    (wrReg lagDev Reg.TXDR v s).hw =
      { sim := Sim.xmit s.hw.sim v, lag := s.hw.lag, wait := s.hw.lag } := by
  simp [wrReg, lagDev, Lag.acts, h, Sim.write]

/-- Clearing STOPF on the late controller. -/
theorem lag_clear_stop (s : St Lag) :
    (setBits lagDev Reg.ICR ICR_STOPCF s).hw =
      { s.hw with sim := { s.hw.sim with stopf := false } } := by
  have h1 : (u32 0 ||| ICR_STOPCF) &&& ICR_NACKCF = 0 := by decide
  have h2 : (u32 0 ||| ICR_STOPCF) &&& ICR_STOPCF ≠ 0 := by decide
  rw [setBits_hw]
  simp only [lagDev, Lag.acts, Sim.read, Sim.write, h1, h2]
  simp

/-- The receive loop on the late controller: with a byte latched behind it, `rem`
more to come and the slave pointer one past register `p`, the loop stores the
registers `p, p+1, ..`; behind the late controller STOPF is raised and the bus
released, the late controller itself being occupied by the last read. -/
theorem lag_readLoop (fuel : Nat) : ∀ (rem i p : Nat) (s : St Lag),
    s.hw.wait < fuel → s.hw.lag < fuel →
    s.hw.sim.rxne = true → s.hw.sim.reading = true → s.hw.sim.autoend = true →
    s.hw.sim.nackf = false → s.hw.sim.txis = false → s.hw.sim.tc = false →
    s.hw.sim.remaining = rem → s.hw.sim.rxdr = s.hw.sim.regs (p % 256) →
    s.hw.sim.ptr = (p + 1) % 256 →
    (rem = 0 → s.hw.sim.busy = false ∧ s.hw.sim.stopf = true) →
    (0 < rem → s.hw.sim.busy = true ∧ s.hw.sim.stopf = false) →
    i + (rem + 1) ≤ s.buf.length →
    ∃ s1, readLoop lagDev fuel (rem + 1) i s = some (Wait.ready, s1) ∧
      s1.hw.sim.regs = s.hw.sim.regs ∧ s1.hw.sim.slaveAddr = s.hw.sim.slaveAddr ∧
      s1.hw.sim.busy = false ∧ s1.hw.sim.stopf = true ∧ s1.hw.sim.rxne = false ∧
      s1.hw.sim.txis = false ∧ s1.hw.sim.tc = false ∧ s1.hw.sim.nackf = false ∧
      s1.hw.lag = s.hw.lag ∧ s1.hw.wait = s.hw.lag ∧
      s1.buf = s.buf.take i ++
        (List.range (rem + 1)).map (fun j => s.hw.sim.regs ((p + j) % 256) % 256) ++
        s.buf.drop (i + (rem + 1)) := by
  intro rem
  induction rem with
  | zero =>
    intro i p s hwt hlg hrx hrd hae hnk htx htc hrem hdr hptr h0 _ hlen
    obtain ⟨hbusy, hstop⟩ := h0 rfl
    obtain ⟨s0, hw1, a1, a2, a3, a4⟩ :=
      lag_waitOrNack ISR_RXNE (by decide) fuel s hwt (by simp [hrx]) hnk
    obtain ⟨r1, r2, r3⟩ := lag_rdRXDR s0 a3
    rw [readLoop, hw1]
    simp only [readLoop]
    refine ⟨_, rfl, ?_⟩
    simp [storeBuf, r1, r2, r3, a1, a2, a4, Sim.read, hrx, hbusy, hstop, htx, htc, hnk, hdr,
      u32_mod_256]
    have := set_take_snoc s.buf i 0 (s.hw.sim.regs (p % 256) % 256) [] (by omega)
    simpa using this
  | succ k ih =>
    intro i p s hwt hlg hrx hrd hae hnk htx htc hrem hdr hptr _ h1 hlen
    obtain ⟨hbusy, hstop⟩ := h1 (by omega)
    obtain ⟨s0, hw1, a1, a2, a3, a4⟩ :=
      lag_waitOrNack ISR_RXNE (by decide) fuel s hwt (by simp [hrx]) hnk
    obtain ⟨r1, r2, r3⟩ := lag_rdRXDR s0 a3
    rw [readLoop, hw1]
    simp only []
    have hS : (storeBuf i (rdReg lagDev Reg.RXDR s0).1 (rdReg lagDev Reg.RXDR s0).2).hw =
        { sim := Sim.recvByte { s.hw.sim with rxne := false }, lag := s.hw.lag,
          wait := s.hw.lag } := by
      simp [storeBuf, r2, a1, a2, Sim.read, hrx, hrd, hbusy, hrem]
    have hB : (storeBuf i (rdReg lagDev Reg.RXDR s0).1 (rdReg lagDev Reg.RXDR s0).2).buf =
        s.buf.set i (s.hw.sim.regs (p % 256) % 256) := by
      simp [storeBuf, r1, r3, a1, a4, hdr, u32_mod_256]
    have hp1 : (p + 1) % 256 % 256 = (p + 1) % 256 := Nat.mod_mod _ _
    have hp2 : ((p + 1) % 256 + 1) % 256 = (p + 1 + 1) % 256 := by omega
    obtain ⟨s1, hrun, e1, e2, e3, e4, e5, e6, e7, e8, e9, e10, e11⟩ := ih (i + 1) (p + 1) _
      (by rw [hS]; exact hlg) (by rw [hS]; exact hlg)
      (by rw [hS]; by_cases hk : k = 0 <;> simp [Sim.recvByte, Sim.finish, hrem, hk, hae])
      (by rw [hS]; by_cases hk : k = 0 <;> simp [Sim.recvByte, Sim.finish, hrem, hk, hae, hrd])
      (by rw [hS]; by_cases hk : k = 0 <;> simp [Sim.recvByte, Sim.finish, hrem, hk, hae])
      (by rw [hS]; by_cases hk : k = 0 <;> simp [Sim.recvByte, Sim.finish, hrem, hk, hae, hnk])
      (by rw [hS]; by_cases hk : k = 0 <;> simp [Sim.recvByte, Sim.finish, hrem, hk, hae, htx])
      (by rw [hS]; by_cases hk : k = 0 <;> simp [Sim.recvByte, Sim.finish, hrem, hk, hae, htc])
      (by rw [hS]; by_cases hk : k = 0 <;> simp [Sim.recvByte, Sim.finish, hrem, hk, hae])
      (by rw [hS]; by_cases hk : k = 0 <;> simp [Sim.recvByte, Sim.finish, hrem, hk, hae, hptr, hp1])
      (by rw [hS]; by_cases hk : k = 0 <;> simp [Sim.recvByte, Sim.finish, hrem, hk, hae, hptr, hp2])
      (by intro hk; rw [hS]; simp [Sim.recvByte, Sim.finish, hrem, hk, hae])
      (by intro hk; rw [hS]; have hk0 : k ≠ 0 := by omega
          simp [Sim.recvByte, Sim.finish, hrem, hk0, hae, hbusy, hstop])
      (by rw [hB]; simp; omega)
    refine ⟨s1, hrun, ?_, ?_, e3, e4, e5, e6, e7, e8, ?_, ?_, ?_⟩
    · rw [e1, hS]; by_cases hk : k = 0 <;> simp [Sim.recvByte, Sim.finish, hrem, hk, hae]
    · rw [e2, hS]; by_cases hk : k = 0 <;> simp [Sim.recvByte, Sim.finish, hrem, hk, hae]
    · rw [e9, hS]
    · rw [e10, hS]
    · rw [e11, hB]
      have hregs : (storeBuf i (rdReg lagDev Reg.RXDR s0).1
          (rdReg lagDev Reg.RXDR s0).2).hw.sim.regs = s.hw.sim.regs := by
        rw [hS]; by_cases hk : k = 0 <;> simp [Sim.recvByte, Sim.finish, hrem, hk, hae]
      rw [hregs, range_succ_map (k + 1)]
      have := set_take_snoc s.buf i (k + 1) (s.hw.sim.regs (p % 256) % 256)
        ((List.range (k + 1)).map (fun j => s.hw.sim.regs ((p + 1 + j) % 256) % 256)) (by omega)
      simp only [Nat.add_zero]
      rw [this]
      simp [Nat.add_assoc, Nat.add_comm 1]
/-- The address phase on the late controller, from programming to
transfer-complete: behind it the slave pointer is set to `maddr` and TC is
raised; the late controller is free again. -/
theorem lag_addrPhase (sa maddr fuel : Nat) (s : St Lag) (hsa : sa < 128)
    (hw0 : s.hw.wait = 0) (hlag : s.hw.lag < fuel) (hnk : s.hw.sim.nackf = false)
    (hsl : s.hw.sim.slaveAddr = sa) :
    ∃ s2 s3, waitOrNack lagDev ISR_TXIS fuel (startAddrPhase lagDev sa s) =
        some (Wait.ready, s2) ∧
      waitOrNack lagDev ISR_TC fuel (wrReg lagDev Reg.TXDR (maddr % 256) s2) =
        some (Wait.ready, s3) ∧
      s3.buf = s.buf ∧ s3.hw.lag = s.hw.lag ∧ s3.hw.wait = 0 ∧
      s3.hw.sim = { s.hw.sim with cr2 := sa <<< 1 ||| 65536, busy := true, tc := true,
                                  txis := false, rxne := false, reading := false,
                                  autoend := false, remaining := 0, expectPtr := false,
                                  ptr := maddr % 256 } := by
  have hA := lag_startAddrPhase sa s hsa hw0 hsl
  obtain ⟨s2, h2, a1, a2, a3, a4⟩ := lag_waitOrNack ISR_TXIS (by decide) fuel
    (startAddrPhase lagDev sa s) (by rw [hA]; exact hlag) (by rw [hA]; simp)
    (by rw [hA]; exact hnk)
  have hT := lag_wrTXDR s2 (maddr % 256) a3
  rw [a1, a2, hA] at hT
  simp only [Sim.xmit, Sim.finish] at hT
  obtain ⟨s3, h3, b1, b2, b3, b4⟩ := lag_waitOrNack ISR_TC (by decide) fuel
    (wrReg lagDev Reg.TXDR (maddr % 256) s2) (by rw [hT]; exact hlag) (by rw [hT]; simp)
    (by rw [hT]; simpa using hnk)
  refine ⟨s2, s3, h2, h3, ?_, ?_, b3, ?_⟩
  · rw [b4]
    simp [a4, startAddrPhase_buf]
  · rw [b2, hT]
  · rw [b1, hT]
    simp

/-- A burst read of `n` bytes on the late controller, whatever its latency and
however long it is still occupied at the start. -/
theorem lag_burstRead (sa maddr n fuel lag w0 : Nat) (h : Sim) (buf : List Nat)
    (hsa : sa < 128) (hn1 : 1 ≤ n) (hn : n ≤ 255) (hq : h.quiet) (hsl : h.slaveAddr = sa)
    (hlen : buf.length = n) (hlag : lag < fuel) (hw0 : w0 < fuel) :
    ∃ r, I2C1_BurstRead lagDev sa maddr (n : Int) fuel (St.init ⟨h, lag, w0⟩ buf) = some r ∧
      r.buf = (List.range n).map (fun i => h.regs ((maddr + i) % 256) % 256) ∧
      r.hw.wait = 0 ∧ r.hw.sim.quiet ∧ r.hw.sim.regs = h.regs ∧
      (rxReads r.log).length = n ∧ (bufStores r.log).map Prod.fst = List.range' 0 n := by
  obtain ⟨q1, q2, q3, q4, q5, q6⟩ := hq
  have hn0 : ¬ (n : Int) ≤ 0 := by omega
  have hnb : ((n : Int) % 4294967296).toNat = n := by omega
  have hn255 : ¬ ((n : Int) > 255) := by omega
  obtain ⟨s1, h1, c1, c2, c3, c4⟩ := lag_spinWhile fuel (St.init ⟨h, lag, w0⟩ buf) hw0 q1
  simp only [St.init_hw, St.init_buf] at c1 c2 c4
  obtain ⟨s2, s3, h2, h3, hb3, hl3, hw3, hs3⟩ := lag_addrPhase sa maddr fuel s1 hsa c3
    (by rw [c2]; exact hlag) (by rw [c1]; exact q5) (by rw [c1]; exact hsl)
  rw [c1] at hs3
  obtain ⟨c, hR⟩ := lag_startBurstReadPhase sa n s3 hsa (by omega) (by omega) hw3
    (by rw [hs3]; exact hsl)
  have hRb : (startBurstReadPhase lagDev sa n s3).buf = buf := by
    simp [startBurstReadPhase_buf, hb3, c4]
  rw [hs3, hl3, c2] at hR
  simp only at hR
  obtain ⟨s4, h4, e1, e2, e3, e4, e5, e6, e7, e8, e9, e10, e11⟩ :=
    lag_readLoop fuel (n - 1) 0 (maddr % 256) (startBurstReadPhase lagDev sa n s3)
      (by rw [hR]; exact hlag) (by rw [hR]; exact hlag)
      (by rw [hR]; by_cases hk : n - 1 = 0 <;> simp [Sim.recvByte, Sim.finish, hk])
      (by rw [hR]; by_cases hk : n - 1 = 0 <;> simp [Sim.recvByte, Sim.finish, hk])
      (by rw [hR]; by_cases hk : n - 1 = 0 <;> simp [Sim.recvByte, Sim.finish, hk])
      (by rw [hR]; by_cases hk : n - 1 = 0 <;> simp [Sim.recvByte, Sim.finish, hk, q5])
      (by rw [hR]; by_cases hk : n - 1 = 0 <;> simp [Sim.recvByte, Sim.finish, hk])
      (by rw [hR]; by_cases hk : n - 1 = 0 <;> simp [Sim.recvByte, Sim.finish, hk])
      (by rw [hR]; by_cases hk : n - 1 = 0 <;> simp [Sim.recvByte, Sim.finish, hk])
      (by rw [hR]; by_cases hk : n - 1 = 0 <;> simp [Sim.recvByte, Sim.finish, hk])
      (by rw [hR]; by_cases hk : n - 1 = 0 <;> simp [Sim.recvByte, Sim.finish, hk])
      (by intro hk; rw [hR]; simp [Sim.recvByte, Sim.finish, hk])
      (by intro hk; rw [hR]; have hk0 : n - 1 ≠ 0 := by omega
          simp [Sim.recvByte, Sim.finish, hk0, q6])
      (by rw [hRb]; omega)
  have hn' : n - 1 + 1 = n := by omega
  rw [hn'] at h4 e11
  obtain ⟨s5, h5, g1, g2, g3, g4⟩ := lag_waitStopClearNack fuel s4
    (by rw [e10, hR]; exact hlag) e4 e8
  have hpre : Quiet ctlK (St.init ⟨h, lag, w0⟩ buf) (startBurstReadPhase lagDev sa n s3) :=
    (quiet_spinWhile lagDev _ _ _ _ h1).andThen
      ((quiet_startAddrPhase lagDev sa s1).andThen
        ((quiet_waitOrNack lagDev _ _ _ _ _ h2).andThen
          ((quiet_wrReg lagDev Reg.TXDR (maddr % 256) s2 (by decide)).andThen
            ((quiet_waitOrNack lagDev _ _ _ _ _ h3).andThen
              (quiet_startBurstReadPhase lagDev sa n s3)))))
  obtain ⟨t1, hl1, hst1, -, hrx1, -⟩ := hpre.obs
  obtain ⟨evs, hl4, -, -, hr4, hs4, -⟩ :=
    readLoop_ready lagDev _ n 0 _ _ h4 (by rw [hRb]; omega)
  have hpost : Quiet ctlK s4 (setBits lagDev Reg.ICR ICR_STOPCF s5) :=
    (quiet_waitStopClearNack lagDev _ _ _ h5).andThen
      (quiet_setBits lagDev Reg.ICR ICR_STOPCF s5 (by decide) (by decide))
  obtain ⟨t5, hl5, hst5, -, hrx5, hb5⟩ := hpost.obs
  refine ⟨setBits lagDev Reg.ICR ICR_STOPCF s5, ?_, ?_, ?_, ?_, ?_, ?_, ?_⟩
  · simp [I2C1_BurstRead, hn0, h1, h2, h3, hn255, hnb, h4, h5]
  · rw [hb5, e11, hRb]
    have hregs : (startBurstReadPhase lagDev sa n s3).hw.sim.regs = h.regs := by
      rw [hR]; by_cases hk : n - 1 = 0 <;> simp [Sim.recvByte, Sim.finish, hk]
    rw [hregs, ← hlen]
    simp
  · rw [lag_clear_stop]
    exact g3
  · rw [lag_clear_stop]
    simp [Sim.quiet, g1, e3, e5, e6, e7, e8]
  · rw [lag_clear_stop]
    simp only [g1, e1]
    rw [hR]; by_cases hk : n - 1 = 0 <;> simp [Sim.recvByte, Sim.finish, hk]
  · rw [hl5, hl4, hl1]
    simp [hrx1, hrx5, hr4]
  · rw [hl5, hl4, hl1]
    simp [hst1, hst5, hs4, List.map_fst_zip, hr4]
/-- C1: for every 7-bit slave address `sa`, every register address `maddr` and
every `n` with `1 <= n <= 255`, `I2C1_BurstRead` is run on the simulated
controller whose slave at `sa` ACKs every phase and holds bytes in the registers
`maddr, maddr+1, ..` (modulo 256).  The controller answers late: every bus action
occupies it for `lag` status reads, and at the call it is still occupied for `w0`
status reads; a data byte, or the release of the bus, is seen only by a driver
that waits for the flag.  Whatever `lag` and `w0` are, with fuel beyond both the
call returns with exactly `n` bytes stored, at the indices `0 .. n-1` in order,
`data[i]` being the register `maddr + i`; RXDR was read `n` times; and the bus is
idle afterward: the controller is no longer occupied, the status register read
next shows BUSY clear, and no flag is left raised. -/
theorem burstRead_yields_registers (sa maddr n fuel lag w0 : Nat) (h : Sim) (buf : List Nat)
    (hsa : sa < 128) (hn1 : 1 ≤ n) (hn : n ≤ 255) (hq : h.quiet) (hsl : h.slaveAddr = sa)
    (hlen : buf.length = n) (hbyte : ∀ i, i < n → h.regs ((maddr + i) % 256) < 256)
    (hlag : lag < fuel) (hw0 : w0 < fuel) :
    ∃ r, I2C1_BurstRead lagDev sa maddr (n : Int) fuel (St.init ⟨h, lag, w0⟩ buf) = some r ∧
      r.buf = (List.range n).map (fun i => h.regs ((maddr + i) % 256)) ∧
      r.buf.length = n ∧
      (bufStores r.log).map Prod.fst = List.range' 0 n ∧ (rxReads r.log).length = n ∧
      (lagDev.rd Reg.ISR r.hw).1 &&& ISR_BUSY = 0 ∧ r.hw.wait = 0 ∧ r.hw.sim.quiet := by
  obtain ⟨r, hr, hb, hwt, hquiet, -, hrx, hst⟩ :=
    lag_burstRead sa maddr n fuel lag w0 h buf hsa hn1 hn hq hsl hlen hlag hw0
  have hb2 : r.buf = (List.range n).map (fun i => h.regs ((maddr + i) % 256)) := by
    rw [hb]
    apply List.map_congr_left
    intro i hi
    exact Nat.mod_eq_of_lt (hbyte i (List.mem_range.mp hi))
  refine ⟨r, hr, hb2, by simp [hb2], hst, hrx, ?_, hwt, hquiet⟩
  simp [lagDev, hwt, hquiet.1]

/-- Witness for C1: three bytes from register 59 of the slave at 104, whose
register `a` holds `a`, on a controller with latency 2 that is still occupied for
one status read at the call. -/
theorem burstRead_yields_registers_witness :
    ∃ r, I2C1_BurstRead lagDev 104 59 ((3 : Nat) : Int) 3
        (St.init ⟨Sim.idle 104 fun a => a % 256, 2, 1⟩ [0, 0, 0]) = some r ∧
      r.buf = (List.range 3).map (fun i => (Sim.idle 104 fun a => a % 256).regs ((59 + i) % 256)) ∧
      r.buf.length = 3 ∧
      (bufStores r.log).map Prod.fst = List.range' 0 3 ∧ (rxReads r.log).length = 3 ∧
      (lagDev.rd Reg.ISR r.hw).1 &&& ISR_BUSY = 0 ∧ r.hw.wait = 0 ∧ r.hw.sim.quiet :=
  burstRead_yields_registers 104 59 3 3 2 1 (Sim.idle 104 fun a => a % 256) [0, 0, 0]
    (by decide) (by decide) (by decide) ⟨rfl, rfl, rfl, rfl, rfl, rfl⟩ rfl rfl
    (fun i _ => Nat.mod_lt _ (by decide)) (by decide) (by decide)

end Claims

end I2C
